import Mathlib

/-!
# cipher_recognition: data generator

A shallow embedding of the text synthesizer (`text_generator.cpp`) and of the
cipher stages of the data generator, with the properties of its specification.

Conventions of the embedding.
* `std::string` and `std::vector<unsigned char>` holding text are lists of
  characters; raw byte vectors are lists of naturals.
* `unsigned int` is a natural number reduced modulo `2 ^ 32` where the source
  increments it.
* `std::unordered_map<std::string, std::vector<std::string>>` is an association
  list with at most one entry per key; only `find`, `operator[]` followed by
  `push_back`, and `empty` are used by the source.
* `std::mt19937` and `std::uniform_int_distribution` belong to the C++ standard
  library, and the mapping of engine outputs to a range is implementation
  defined. They are a parameter (`RandomEngine`) of which only the documented
  range guarantee is known.
* A `while` loop without a syntactic bound (`generateParagraph`,
  `generateTextToBuffer`) takes a fuel argument and returns `none` when the fuel
  runs out; results are stated for every sufficient fuel.
* A loop with a counter and a constant bound (the word loop of
  `generateSentenceMarkov`, the block loop of the cipher stages) is a total
  function by recursion on a fuel that is never used up (`sentenceLoop_fuel`,
  `ecbLoop_fuel`); the retry loop `while (attempts < 10)` is a recursion on
  `10 - attempts`.
* The OpenSSL primitives are a parameter (`OpenSSL`); `memcpy` overwrites bytes
  of a vector in place.
* `lcgEngine` and `toyOpenSSL` are small instances of the two parameters, used
  where a property is stated at a concrete input; `rc4OpenSSL` has RC4 as
  published in place of the toy stream cipher.
* The drivers that write files run against a `FileSystem` that decides which
  paths open and which write calls succeed; an `OFStream` records what reached
  the file. Console output is kept as the list of `Message`s about a file;
  progress lines are left out. The system and zlib calls of the compressing
  driver are the fields of `GzEnv`.
* The call `generator()` of an engine is an argument `next` of the drivers that
  make it, or its value is an argument `seed`.
* A driver records the chunks of its iterations next to its loop variables, so
  that properties of single iterations can be stated.
* `parityOpenSSL` and `growingEnv` are further small instances: the parity
  adjustment of DES keys, and an output file that grows between two `lseek`
  calls.
* Threads are not run: a worker of `main` in `generate_text.cpp` is the call it
  makes, and a console write carries the number of the object whose
  `coutMutex` is held (`ConsoleWrite`).
-/

/-- The text type of the embedding: a `std::string`. -/
abbrev Str := List Char

/-- The standard random facilities used by the source: an engine seeded from an
`unsigned int` (`std::mt19937 g(seed)`) and a draw
`std::uniform_int_distribution<T>(lo, hi)(g)` that advances the engine. -/
structure RandomEngine where
  /-- The engine state. -/
  State : Type
  /-- The constructor `std::mt19937 g(seed)`. -/
  mt19937 : Nat → State
  /-- The draw `std::uniform_int_distribution<T>(lo, hi)(g)`: value and next state. -/
  uniform_int_distribution : Nat → Nat → State → Nat × State
  /-- The draw is at least `lo`. -/
  lo_le : ∀ lo hi g, lo ≤ hi → lo ≤ (uniform_int_distribution lo hi g).1
  /-- The draw is at most `hi`. -/
  le_hi : ∀ lo hi g, lo ≤ hi → (uniform_int_distribution lo hi g).1 ≤ hi

/-- A small linear congruential engine, used to evaluate the embedding on
concrete inputs. It stands in for `std::mt19937`, it is not that engine. -/
def lcgEngine : RandomEngine where
  State := Nat
  mt19937 := fun seed => seed
  uniform_int_distribution := fun lo hi g =>
    (lo + (g / 65536) % (hi - lo + 1), (g * 1103515245 + 12345) % 2 ^ 32)
  lo_le := fun lo hi g _ => Nat.le_add_right lo _
  le_hi := fun lo hi g h => by
    have h1 : (g / 65536) % (hi - lo + 1) < hi - lo + 1 := Nat.mod_lt _ (Nat.succ_pos _)
    show lo + (g / 65536) % (hi - lo + 1) ≤ hi
    omega

/-- The `unsigned int` increment `seed++`. -/
def incrSeed (seed : Nat) : Nat := (seed + 1) % 2 ^ 32

namespace CType

/-- The function `std::isspace` in the "C" locale. -/
def isspace (c : Char) : Bool := c.toNat = 32 || (9 ≤ c.toNat && c.toNat ≤ 13)

/-- The function `std::ispunct` in the "C" locale. -/
def ispunct (c : Char) : Bool :=
  (33 ≤ c.toNat && c.toNat ≤ 47) || (58 ≤ c.toNat && c.toNat ≤ 64) ||
  (91 ≤ c.toNat && c.toNat ≤ 96) || (123 ≤ c.toNat && c.toNat ≤ 126)

/-- The function `std::tolower` in the "C" locale. -/
def tolower (c : Char) : Char :=
  if 65 ≤ c.toNat && c.toNat ≤ 90 then Char.ofNat (c.toNat + 32) else c

/-- The function `std::toupper` in the "C" locale. -/
def toupper (c : Char) : Char :=
  if 97 ≤ c.toNat && c.toNat ≤ 122 then Char.ofNat (c.toNat - 32) else c

end CType

namespace TextGenerator

/-- The map `markovChain` and the vector `sentenceStarters` of a `TextGenerator`. -/
structure Model where
  markovChain : List (Str × List Str)
  sentenceStarters : List Str

/-- The lookup `markovChain.find(key)`: the successor vector, `none` for `end()`. -/
def find : List (Str × List Str) → Str → Option (List Str)
  | [], _ => none
  | (k, v) :: rest, key => if k = key then some v else find rest key

/-- The update `markovChain[key].push_back(next)`. -/
def pushBack : List (Str × List Str) → Str → Str → List (Str × List Str)
  | [], key, next => [(key, [next])]
  | (k, v) :: rest, key, next =>
    if k = key then (k, v ++ [next]) :: rest else (k, v) :: pushBack rest key next

/-- One iteration of the character loop of `tokenize`, on `(tokens, current)`. -/
def tokenizeStep (st : List Str × Str) (c : Char) : List Str × Str :=
  if CType.isspace c || CType.ispunct c then
    let st1 : List Str × Str := if st.2 ≠ [] then (st.1 ++ [st.2], []) else st
    if CType.ispunct c && c ≠ Char.ofNat 39 && c ≠ '-' then (st1.1 ++ [[c]], st1.2) else st1
  else (st.1, st.2 ++ [CType.tolower c])

/-- The function `TextGenerator::tokenize`. -/
def tokenize (text : Str) : List Str :=
  let st := text.foldl tokenizeStep ([], [])
  if st.2 ≠ [] then st.1 ++ [st.2] else st.1

/-- The punctuation tokens that `addToMarkovChain` never uses as keys. -/
def isSkippedKey (current : Str) : Bool :=
  current = ['.'] || current = ['!'] || current = ['?'] ||
  current = [','] || current = [';'] || current = [':']

/-- The bigram loop of `addToMarkovChain` over the remaining tokens `tokens[i..]`. -/
def addBigrams : List Str → List (Str × List Str) → List (Str × List Str)
  | current :: next :: rest, chain =>
    addBigrams (next :: rest) (if isSkippedKey current then chain else pushBack chain current next)
  | _, chain => chain

/-- The function `TextGenerator::addToMarkovChain`. -/
def addToMarkovChain (m : Model) (text : Str) : Model :=
  let tokens := tokenize text
  if tokens.length < 2 then m
  else
    let starters :=
      match tokens with
      | t0 :: _ =>
        if t0 ≠ ['.'] && t0 ≠ ['!'] && t0 ≠ ['?'] then m.sentenceStarters ++ [t0]
        else m.sentenceStarters
      | [] => m.sentenceStarters
    { markovChain := addBigrams tokens m.markovChain, sentenceStarters := starters }

/-- The training corpus of `TextGenerator::initializeMarkovChain`. -/
def corpus : List String := [
    "The quick brown fox jumps over the lazy dog.",
    "In the beginning was the word and the word was with God.",
    "To be or not to be that is the question.",
    "It was the best of times it was the worst of times.",
    "All happy families are alike each unhappy family is unhappy in its own way.",
    "Call me Ishmael some years ago never mind how long precisely.",
    "It is a truth universally acknowledged that a single man in possession of a good fortune must be in want of a wife.",
    "The sun was shining on the sea shining with all his might.",
    "Once upon a time in a galaxy far far away.",
    "The old man and the sea was his favorite book.",
    "She walked down the street with confidence and purpose.",
    "The computer science department offers many interesting courses.",
    "Artificial intelligence is transforming the way we work and live.",
    "The weather today is beautiful with clear blue skies.",
    "They decided to go for a walk in the park.",
    "The meeting was scheduled for three o clock in the afternoon.",
    "She opened the door and stepped into the room.",
    "The book on the table belongs to my friend.",
    "We need to finish this project by the end of the week.",
    "The students were studying hard for their final exams.",
    "He picked up the phone and dialed the number.",
    "The restaurant serves delicious food at reasonable prices.",
    "They traveled across the country to visit their relatives.",
    "The company announced a new product launch next month.",
    "She wrote a letter to her grandmother last week.",
    "The movie was entertaining but the ending was disappointing.",
    "He enjoys reading books about history and science.",
    "The team worked together to solve the complex problem.",
    "They went shopping at the mall on Saturday afternoon.",
    "The teacher explained the lesson clearly to the students.",
    "She loves to play the piano in her spare time.",
    "The garden was full of beautiful flowers and plants.",
    "He decided to take a break from work and relax.",
    "The news about the accident spread quickly through the town.",
    "They built a new house on the hill overlooking the valley.",
    "The conference will be held in the convention center downtown.",
    "She received a scholarship to study at the university.",
    "The dog ran across the yard chasing the ball.",
    "He found the solution to the problem after hours of thinking.",
    "The library has an extensive collection of books and journals.",
    "They celebrated their anniversary with a romantic dinner.",
    "The artist painted a beautiful landscape of the countryside.",
    "She learned to speak French during her stay in Paris.",
    "The doctor recommended rest and plenty of fluids.",
    "He bought a new car with all the latest features.",
    "The children were playing in the park on a sunny day.",
    "They organized a charity event to help the homeless.",
    "The museum displays artifacts from ancient civilizations.",
    "She completed her degree in computer science with honors.",
    "The storm caused significant damage to the coastal areas.",
    "He enjoys cooking and trying new recipes from different countries.",
    "The company invested millions in research and development.",
    "They went on a vacation to the tropical island.",
    "The professor gave an interesting lecture on quantum physics.",
    "She started her own business selling handmade jewelry.",
    "The government announced new policies to improve education.",
    "He spent the weekend working on his home improvement project.",
    "The concert was sold out weeks before the event.",
    "They discussed the proposal during the board meeting.",
    "The novel tells the story of a young woman's journey.",
    "She volunteered at the local animal shelter on weekends.",
    "The technology has revolutionized the way we communicate.",
    "He received recognition for his outstanding contribution to science.",
    "The team won the championship after a thrilling final match.",
    "They explored the ancient ruins of the lost civilization.",
    "The restaurant offers a wide variety of international cuisine.",
    "She published her first novel to critical acclaim.",
    "The university offers scholarships to deserving students.",
    "He enjoys hiking in the mountains during summer months.",
    "The project requires collaboration between multiple departments.",
    "They organized a surprise party for their friend's birthday.",
    "The book provides valuable insights into human psychology.",
    "She learned to play the guitar by watching online tutorials.",
    "The company expanded its operations to new markets.",
    "He wrote a comprehensive report on climate change.",
    "The festival attracts thousands of visitors from around the world.",
    "They renovated their house to make it more energy efficient.",
    "The research team made a groundbreaking discovery in medicine.",
    "She started a blog to share her travel experiences.",
    "The school implemented new programs to support student learning.",
    "He enjoys photography and capturing moments of everyday life.",
    "The organization provides assistance to families in need.",
    "They celebrated the holiday with traditional food and music.",
    "The movie received several awards at the film festival.",
    "She completed a marathon training program and ran her first race.",
    "The company developed innovative solutions to environmental problems.",
    "He enjoys reading science fiction novels in his free time.",
    "The museum offers guided tours in multiple languages.",
    "They planted a garden with vegetables and herbs.",
    "The conference featured presentations by leading experts in the field.",
    "She started learning a new language to expand her horizons.",
    "The technology company announced plans for expansion into Asia.",
    "He enjoys woodworking and creating furniture in his workshop.",
    "The charity organization helps provide education to underprivileged children.",
    "They went on a road trip across the country.",
    "The book became a bestseller within weeks of publication.",
    "She received a promotion at work for her excellent performance.",
    "The university established a new research center for artificial intelligence.",
    "He enjoys playing chess and participating in tournaments.",
    "The restaurant chain opened new locations in several cities.",
    "They organized a community cleanup event in the neighborhood.",
    "The scientist published findings that could change our understanding of the universe.",
    "She started a fitness routine and noticed significant improvements.",
    "The company introduced flexible working hours for employees.",
    "He enjoys bird watching and documenting different species.",
    "The festival featured performances by local and international artists.",
    "They invested in renewable energy solutions for their home.",
    "The book explores themes of love loss and redemption.",
    "She completed an online course to improve her skills.",
    "The organization received funding to expand its programs.",
    "He enjoys gardening and growing his own vegetables.",
    "The conference addressed important issues facing the industry today."
  ]

/-- The function `TextGenerator::initializeMarkovChain`, from the empty model. -/
def initializeMarkovChain : Model :=
  corpus.foldl (fun m sentence => addToMarkovChain m sentence.toList) ⟨[], []⟩

end TextGenerator

namespace TextGenerator

/-- The local variables of the word loop of `generateSentenceMarkov`. -/
structure SentenceState (R : RandomEngine) where
  sentence : Str
  lowerCurrent : Str
  wordCount : Nat
  localGen : R.State

/-- The constant `maxLength` of `generateSentenceMarkov`. -/
def maxLength : Nat := 25

/-- The test `nextWord == "." || nextWord == "!" || nextWord == "?"`. -/
def isTerminal (w : Str) : Bool := w = ['.'] || w = ['!'] || w = ['?']

/-- The loop `while (attempts < 10)` of the comma branch, by recursion on
`10 - attempts`: the accepted `commaNext` (or `none` when `attempts` reached 10)
and the engine after the draws. -/
def commaLoop (R : RandomEngine) (succs : List Str) : Nat → R.State → Option Str × R.State
  | 0, g => (none, g)
  | remaining + 1, g =>
    let d := R.uniform_int_distribution 0 (succs.length - 1) g
    let commaNext := succs.getD d.1 []
    if commaNext ≠ [','] && commaNext ≠ ['.'] && commaNext ≠ ['!'] && commaNext ≠ ['?'] then
      (some commaNext, d.2)
    else commaLoop R succs remaining d.2

/-- The loop `while (wordCount < maxLength)` of `generateSentenceMarkov`. Every
iteration that continues increments `wordCount`, so `maxLength` units of fuel
are never used up (`sentenceLoop_fuel`). -/
def sentenceLoop (R : RandomEngine) (chain : List (Str × List Str)) :
    Nat → SentenceState R → SentenceState R
  | 0, st => st
  | fuel + 1, st =>
    if st.wordCount < maxLength then
      match find chain st.lowerCurrent with
      | none => st
      | some succs =>
        if succs = [] then st
        else
          let d := R.uniform_int_distribution 0 (succs.length - 1) st.localGen
          let nextWord := succs.getD d.1 []
          if isTerminal nextWord then
            { st with sentence := st.sentence ++ nextWord, localGen := d.2 }
          else if nextWord = [','] then
            match commaLoop R succs 10 d.2 with
            | (some commaNext, g) =>
              sentenceLoop R chain fuel
                { sentence := st.sentence ++ nextWord ++ ([' '] ++ commaNext)
                  lowerCurrent := commaNext
                  wordCount := st.wordCount + 1
                  localGen := g }
            | (none, g) => { st with sentence := st.sentence ++ nextWord, localGen := g }
          else
            let wordCount := st.wordCount + 1
            let sentence := st.sentence ++ ([' '] ++ nextWord)
            if 8 ≤ wordCount then
              let e := R.uniform_int_distribution 0 15 d.2
              if e.1 < 2 then
                { sentence := sentence ++ ['.'], lowerCurrent := nextWord
                  wordCount := wordCount, localGen := e.2 }
              else
                sentenceLoop R chain fuel
                  { sentence := sentence, lowerCurrent := nextWord
                    wordCount := wordCount, localGen := e.2 }
            else
              sentenceLoop R chain fuel
                { sentence := sentence, lowerCurrent := nextWord
                  wordCount := wordCount, localGen := d.2 }
    else st

/-- The assignment `currentWord[0] = std::toupper(currentWord[0])`, guarded by
`!currentWord.empty()`. -/
def capitalize : Str → Str
  | [] => []
  | c :: cs => CType.toupper c :: cs

/-- The test `sentence.back() != '.' && sentence.back() != '!' && sentence.back() != '?'`. -/
def lacksTerminal (sentence : Str) : Bool :=
  sentence.getLast? ≠ some '.' && sentence.getLast? ≠ some '!' && sentence.getLast? ≠ some '?'

/-- The fallback sentence returned for an empty model. -/
def fallbackSentence : Str := "The quick brown fox jumps over the lazy dog.".toList

/-- The function `TextGenerator::generateSentenceMarkov(unsigned int& seed)`: the
sentence and the new value of `seed`. -/
def generateSentenceMarkov (R : RandomEngine) (m : Model) (seed : Nat) : Str × Nat :=
  let localGen := R.mt19937 seed
  let seed1 := incrSeed seed
  if m.markovChain.isEmpty || m.sentenceStarters.isEmpty then (fallbackSentence, seed1)
  else
    let d := R.uniform_int_distribution 0 (m.sentenceStarters.length - 1) localGen
    let currentWord := capitalize (m.sentenceStarters.getD d.1 [])
    let st := sentenceLoop R m.markovChain maxLength
      { sentence := currentWord, lowerCurrent := currentWord.map CType.tolower
        wordCount := 1, localGen := d.2 }
    if lacksTerminal st.sentence then
      let p := R.uniform_int_distribution 0 9 st.localGen
      if p.1 < 8 then (st.sentence ++ ['.'], seed1)
      else if p.1 = 8 then (st.sentence ++ ['!'], seed1)
      else (st.sentence ++ ['?'], seed1)
    else (st.sentence, seed1)

/-- The loop `while (currentSize < targetSize)` of `generateParagraph`, on
`(paragraph, currentSize, localSeed)`; `none` when the fuel runs out. -/
def generateParagraphLoop (R : RandomEngine) (m : Model) (targetSize : Nat) :
    Nat → Str → Nat → Nat → Option (Str × Nat)
  | 0, _, _, _ => none
  | fuel + 1, paragraph, currentSize, localSeed =>
    if currentSize < targetSize then
      let r := generateSentenceMarkov R m localSeed
      let paragraph1 := (if 0 < currentSize then paragraph ++ [' '] else paragraph) ++ r.1
      let currentSize1 := paragraph1.length
      if targetSize ≤ currentSize1 then some (paragraph1, r.2)
      else generateParagraphLoop R m targetSize fuel paragraph1 currentSize1 r.2
    else some (paragraph, localSeed)

/-- The function `TextGenerator::generateParagraph(unsigned int& seed, size_t targetSize)`:
the paragraph and the new value of `seed`. -/
def generateParagraph (R : RandomEngine) (m : Model) (fuel : Nat) (seed targetSize : Nat) :
    Option (Str × Nat) :=
  generateParagraphLoop R m targetSize fuel [] 0 seed

/-- The constant `PARAGRAPH_SIZE`. -/
def PARAGRAPH_SIZE : Nat := 1000

/-- The loop `while (bytesGenerated < targetSizeBytes)` of `generateTextToBuffer`, on
`(buffer, bytesGenerated, localSeed)`; `none` when the fuel runs out. -/
def generateTextToBufferLoop (R : RandomEngine) (m : Model) (targetSizeBytes : Nat) :
    Nat → Str → Nat → Nat → Option (Str × Nat)
  | 0, _, _, _ => none
  | fuel + 1, buffer, bytesGenerated, localSeed =>
    if bytesGenerated < targetSizeBytes then
      match generateParagraph R m fuel localSeed PARAGRAPH_SIZE with
      | none => none
      | some (paragraph, localSeed1) =>
        let paragraphSize := paragraph.length
        let remaining := targetSizeBytes - bytesGenerated
        let bytesToAdd := min paragraphSize remaining
        let buffer1 := buffer ++ paragraph.take bytesToAdd
        let bytesGenerated1 := bytesGenerated + bytesToAdd
        if bytesToAdd < paragraphSize then some (buffer1, localSeed1)
        else if bytesGenerated1 + 2 ≤ targetSizeBytes then
          generateTextToBufferLoop R m targetSizeBytes fuel
            (buffer1 ++ ['\n', '\n']) (bytesGenerated1 + 2) localSeed1
        else generateTextToBufferLoop R m targetSizeBytes fuel buffer1 bytesGenerated1 localSeed1
    else some (buffer, localSeed)

/-- The function `TextGenerator::generateTextToBuffer(buffer, targetSizeBytes, seed)`:
the final contents of `buffer` and the new value of `seed`. The incoming contents
of `buffer` are discarded by `buffer.clear()`. -/
def generateTextToBuffer (R : RandomEngine) (m : Model) (fuel : Nat) (_buffer : Str)
    (targetSizeBytes seed : Nat) : Option (Str × Nat) :=
  match generateTextToBufferLoop R m targetSizeBytes fuel [] 0 seed with
  | none => none
  | some (buffer, localSeed) =>
    some (if targetSizeBytes < buffer.length then buffer.take targetSizeBytes else buffer,
      localSeed)

end TextGenerator

/-! ## The cipher stages -/

/-- The library call `memcpy(dst + dstOff, src + srcOff, n)` on byte vectors: the `n` bytes
of `dst` from `dstOff` are overwritten, the size of `dst` is unchanged. -/
def memcpy (dst : List Nat) (dstOff : Nat) (src : List Nat) (srcOff n : Nat) : List Nat :=
  (List.range dst.length).map fun j =>
    if dstOff ≤ j ∧ j < dstOff + n then src.getD (srcOff + (j - dstOff)) 0 else dst.getD j 0

/-- The OpenSSL primitives used by the cipher stages. Keys are given as the bytes handed to
the key setup; a block call returns the 8 bytes it writes to `out`. -/
structure OpenSSL where
  /-- The calls `CAST_set_key(&k, 7, key)` and `CAST_ecb_encrypt(in, out, &k, CAST_ENCRYPT)`. -/
  CAST_ecb_encrypt : List Nat → List Nat → List Nat
  /-- The calls `BF_set_key(&k, 7, key)` and `BF_ecb_encrypt(in, out, &k, BF_ENCRYPT)`. -/
  BF_ecb_encrypt : List Nat → List Nat → List Nat
  /-- The call `DES_set_odd_parity(&key8)`: the adjusted 8 key bytes. -/
  DES_set_odd_parity : List Nat → List Nat
  /-- The calls `DES_set_key_unchecked(&key8, &ks)` and
  `DES_ecb_encrypt(in, out, &ks, DES_ENCRYPT)`. -/
  DES_ecb_encrypt : List Nat → List Nat → List Nat
  /-- The calls `RC4_set_key(&k, 7, key)` and `RC4(&k, len, in, out)`: the bytes written
  to `out`. -/
  RC4 : List Nat → Nat → List Nat → List Nat
  /-- A CAST block call writes 8 bytes. -/
  CAST_length : ∀ key input, (CAST_ecb_encrypt key input).length = 8
  /-- A Blowfish block call writes 8 bytes. -/
  BF_length : ∀ key input, (BF_ecb_encrypt key input).length = 8
  /-- A DES block call writes 8 bytes. -/
  DES_length : ∀ key input, (DES_ecb_encrypt key input).length = 8

/-- A toy instance of the primitives, used to evaluate the embedding on concrete inputs:
every cipher adds the key bytes to the input bytes modulo 256. It stands in for OpenSSL,
it is not that library. -/
def toyOpenSSL : OpenSSL where
  CAST_ecb_encrypt := fun key input =>
    (List.range 8).map fun j => (input.getD j 0 + key.getD (j % 7) 0) % 256
  BF_ecb_encrypt := fun key input =>
    (List.range 8).map fun j => (input.getD j 0 + 2 * key.getD (j % 7) 0) % 256
  DES_set_odd_parity := fun key8 => key8
  DES_ecb_encrypt := fun key8 input =>
    (List.range 8).map fun j => (input.getD j 0 + key8.getD j 0 + 1) % 256
  RC4 := fun key len input =>
    (List.range len).map fun j => (input.getD j 0 + key.getD (j % 7) 0) % 256
  CAST_length := fun _ _ => by simp
  BF_length := fun _ _ => by simp
  DES_length := fun _ _ => by simp

/-- The constants `CAST_BLOCK` and `BF_BLOCK` of the OpenSSL headers, and the literal 8 of
`encryptDES`. -/
def BLOCK : Nat := 8

/-- The block loop shared by `encryptCAST`, `encryptDES` and `encryptBlowfish`:
`for (i = 0; i < data.size(); i += 8)` with the zero-initialised `input`, the block call
and the copy of `blockSize` bytes back. The loop runs less than `data.size() + 1` times,
so that much fuel is never used up (`ecbLoop_fuel`). -/
def ecbLoop (encryptBlock : List Nat → List Nat) (data : List Nat) :
    Nat → Nat → List Nat → List Nat
  | 0, _, encrypted => encrypted
  | fuel + 1, i, encrypted =>
    if i < data.length then
      let blockSize := min BLOCK (data.length - i)
      let input := memcpy (List.replicate BLOCK 0) 0 data i blockSize
      let output := encryptBlock input
      ecbLoop encryptBlock data fuel (i + BLOCK) (memcpy encrypted i output 0 blockSize)
    else encrypted

/-- The key bytes `desKey8` of `encryptDES`: `key56`, a zero byte, then
`DES_set_odd_parity`. -/
def desKey8 (P : OpenSSL) (key56 : List Nat) : List Nat :=
  P.DES_set_odd_parity ((memcpy (List.replicate 8 0) 0 key56 0 7).set 7 0)

namespace CiphertextGenerator

/-- The function `CiphertextGenerator::encryptCAST`. -/
def encryptCAST (P : OpenSSL) (key56 data : List Nat) : List Nat :=
  ecbLoop (P.CAST_ecb_encrypt key56) data data.length 0 (List.replicate data.length 0)

/-- The function `CiphertextGenerator::encryptRC4`. -/
def encryptRC4 (P : OpenSSL) (key56 data : List Nat) : List Nat :=
  memcpy (List.replicate data.length 0) 0 (P.RC4 key56 data.length data) 0 data.length

/-- The function `CiphertextGenerator::encryptDES`. -/
def encryptDES (P : OpenSSL) (key56 data : List Nat) : List Nat :=
  ecbLoop (P.DES_ecb_encrypt (desKey8 P key56)) data data.length 0
    (List.replicate data.length 0)

/-- The function `CiphertextGenerator::encryptBlowfish`. -/
def encryptBlowfish (P : OpenSSL) (key56 data : List Nat) : List Nat :=
  ecbLoop (P.BF_ecb_encrypt key56) data data.length 0 (List.replicate data.length 0)

end CiphertextGenerator

namespace TextEncryptor

/-- The function `TextEncryptor::encryptCAST`. -/
def encryptCAST (P : OpenSSL) (key56 data : List Nat) : List Nat :=
  ecbLoop (P.CAST_ecb_encrypt key56) data data.length 0 (List.replicate data.length 0)

/-- The function `TextEncryptor::encryptRC4`. -/
def encryptRC4 (P : OpenSSL) (key56 data : List Nat) : List Nat :=
  memcpy (List.replicate data.length 0) 0 (P.RC4 key56 data.length data) 0 data.length

/-- The function `TextEncryptor::encryptDES`. -/
def encryptDES (P : OpenSSL) (key56 data : List Nat) : List Nat :=
  ecbLoop (P.DES_ecb_encrypt (desKey8 P key56)) data data.length 0
    (List.replicate data.length 0)

/-- The function `TextEncryptor::encryptBlowfish`. -/
def encryptBlowfish (P : OpenSSL) (key56 data : List Nat) : List Nat :=
  ecbLoop (P.BF_ecb_encrypt key56) data data.length 0 (List.replicate data.length 0)

end TextEncryptor

namespace DataEncryptor

/-- The loop `for (i = 0; i < n; i++) out[i] = dist(generator)` with
`std::uniform_int_distribution<unsigned char> dist(0, 255)`: the bytes and the engine
after the draws. -/
def drawBytes (R : RandomEngine) : Nat → R.State → List Nat × R.State
  | 0, g => ([], g)
  | n + 1, g =>
    let d := R.uniform_int_distribution 0 255 g
    let r := drawBytes R n d.2
    (d.1 :: r.1, r.2)

/-- The members of a `DataEncryptor`. -/
structure State (R : RandomEngine) where
  generator : R.State
  randomData : List Nat
  key56 : List Nat

/-- The constructor `DataEncryptor(seed)`: `generator(seed)`, then `generate56BitKey()`. -/
def new (R : RandomEngine) (seed : Nat) : State R :=
  let r := drawBytes R 7 (R.mt19937 seed)
  { generator := r.2, randomData := [], key56 := r.1 }

/-- The function `DataEncryptor::generateData` (without its console output):
`randomData.resize(size)` and the draw of `size` bytes. -/
def generateData (R : RandomEngine) (s : State R) (size : Nat) : State R :=
  let r := drawBytes R size s.generator
  { s with generator := r.2, randomData := r.1 }

/-- The function `DataEncryptor::encryptCAST`. -/
def encryptCAST (P : OpenSSL) {R : RandomEngine} (s : State R) : List Nat :=
  ecbLoop (P.CAST_ecb_encrypt s.key56) s.randomData s.randomData.length 0
    (List.replicate s.randomData.length 0)

/-- The function `DataEncryptor::encryptRC4`. -/
def encryptRC4 (P : OpenSSL) {R : RandomEngine} (s : State R) : List Nat :=
  memcpy (List.replicate s.randomData.length 0) 0
    (P.RC4 s.key56 s.randomData.length s.randomData) 0 s.randomData.length

/-- The function `DataEncryptor::encryptDES`. -/
def encryptDES (P : OpenSSL) {R : RandomEngine} (s : State R) : List Nat :=
  ecbLoop (P.DES_ecb_encrypt (desKey8 P s.key56)) s.randomData s.randomData.length 0
    (List.replicate s.randomData.length 0)

/-- The function `DataEncryptor::encryptBlowfish`. -/
def encryptBlowfish (P : OpenSSL) {R : RandomEngine} (s : State R) : List Nat :=
  ecbLoop (P.BF_ecb_encrypt s.key56) s.randomData s.randomData.length 0
    (List.replicate s.randomData.length 0)

/-- The function `DataEncryptor::runEncryption` (without its console output): the four
ciphertexts, in the order CAST, RC4, DES, Blowfish. -/
def runEncryption (P : OpenSSL) (R : RandomEngine) (s : State R) (dataSize : Nat) :
    List Nat × List Nat × List Nat × List Nat :=
  let s1 := generateData R s dataSize
  (encryptCAST P s1, encryptRC4 P s1, encryptDES P s1, encryptBlowfish P s1)

end DataEncryptor

/-! ## Reference descriptions used to state the properties -/

/-- The 8-byte block number `q` of `data`, padded with zero bytes past the end of `data`. -/
def paddedBlock (data : List Nat) (q : Nat) : List Nat :=
  (List.range 8).map fun t => data.getD (8 * q + t) 0


namespace TextGenerator

/-- The first `k` sentences of the sequence `sent`, joined by single spaces. -/
def joinSentences (sent : Nat → Str) (k : Nat) : Str :=
  List.intercalate [' '] ((List.range k).map sent)

/-- The sentence generated from the cursor value `seed + i` (as an `unsigned int`). -/
def sentenceAt (R : RandomEngine) (m : Model) (seed i : Nat) : Str :=
  (generateSentenceMarkov R m ((seed + i) % 2 ^ 32)).1

/-- The sentence generated after `i` increments of the cursor `seed`. -/
def sentenceIter (R : RandomEngine) (m : Model) (seed i : Nat) : Str :=
  (generateSentenceMarkov R m (incrSeed^[i] seed)).1

/-- The paragraph and the cursor that `generateParagraph(cursor, PARAGRAPH_SIZE)`
returns; every call with at least `PARAGRAPH_SIZE` units of fuel returns them
(`generateParagraph_eq_paragraphAt`). -/
def paragraphAt (R : RandomEngine) (m : Model) (cursor : Nat) : Str × Nat :=
  (generateParagraph R m PARAGRAPH_SIZE cursor PARAGRAPH_SIZE).getD ([], cursor)

/-- The text `p1 ++ "\n\n" ++ p2 ++ "\n\n" ++ ... ++ pj ++ "\n\n"` of the first `j`
successive paragraphs from `cursor`, each followed by the blank-line separator. -/
def textStream (R : RandomEngine) (m : Model) : Nat → Nat → Str
  | 0, _ => []
  | j + 1, cursor =>
    (paragraphAt R m cursor).1 ++ (['\n', '\n'] ++ textStream R m j (paragraphAt R m cursor).2)

/-- The cursor after the first `j` successive paragraphs from `cursor`. -/
def cursorAfter (R : RandomEngine) (m : Model) : Nat → Nat → Nat
  | 0, cursor => cursor
  | j + 1, cursor => cursorAfter R m j (paragraphAt R m cursor).2

end TextGenerator

/-- The contract of a block cipher stage with zero padding of the final block, for the
block primitive `E`, the input `data` and the output `out`. -/
def ZeroPaddedEcb (E : List Nat → List Nat) (data out : List Nat) : Prop :=
  out.length = data.length ∧
  (∀ i, 8 * i + 8 ≤ data.length → (out.drop (8 * i)).take 8 = E ((data.drop (8 * i)).take 8)) ∧
  (data.length % 8 ≠ 0 →
    out.drop (data.length - data.length % 8) =
      (E (data.drop (data.length - data.length % 8) ++
        List.replicate (8 - data.length % 8) 0)).take (data.length % 8))

/-! ## Reference descriptions of the built-in model -/

namespace TextGenerator

/-- The tokens that immediately follow an occurrence of `key` in a token list, in order. -/
def followers (key : Str) : List Str → List Str
  | a :: b :: rest =>
    if a = key then b :: followers key (b :: rest) else followers key (b :: rest)
  | _ => []

/-- The starter word that `addToMarkovChain` records for a token list, if any. -/
def starterOf (tokens : List Str) : Option Str :=
  if tokens.length < 2 then none
  else
    match tokens with
    | t0 :: _ => if t0 ≠ ['.'] && t0 ≠ ['!'] && t0 ≠ ['?'] then some t0 else none
    | [] => none

/-- The tokenized corpus sentences. -/
def corpusTokens : List (List Str) := corpus.map (fun sentence => tokenize sentence.toList)

/-- A non-empty word of lower-case ASCII letters. -/
def isLowerWord (w : Str) : Bool :=
  w ≠ [] && w.all (fun c => 97 ≤ c.toNat && c.toNat ≤ 122)

/-- Every token after the first is a lower-case word, or is `"."` after a token that is
not one of `hs`. -/
def pairsOK (hs : List Str) : List Str → Bool
  | a :: b :: rest =>
    (isLowerWord b || (b = ['.'] && !(hs.contains a))) && pairsOK hs (b :: rest)
  | _ => true

/-- The shape of a tokenized corpus sentence: at least two tokens, the first a lower-case
word of at least two letters, and `pairsOK`. -/
def sentenceOK (hs : List Str) (tokens : List Str) : Bool :=
  match tokens with
  | t0 :: _ :: _ => isLowerWord t0 && decide (2 ≤ t0.length) && pairsOK hs tokens
  | _ => false

/-- Whether the last token of a token list is `"."`. -/
def lastIsPeriod (tokens : List Str) : Bool := tokens.getLast? = some ['.']

/-- Whether `c` is a character of a word: neither whitespace nor punctuation. -/
def isWordChar (c : Char) : Bool := !(CType.isspace c || CType.ispunct c)

/-- Reference description of the tokens of a text, read from left to right: a maximal run
of word characters gives one token, the run in lower case; a punctuation character other
than the apostrophe and the hyphen gives the token of that one character; every other
character gives nothing. The first argument bounds the number of steps, the length of the
text being enough. -/
def tokensOf : Nat → Str → List Str
  | 0, _ => []
  | _ + 1, [] => []
  | fuel + 1, c :: rest =>
    if isWordChar c then
      ((c :: rest).takeWhile isWordChar).map CType.tolower ::
        tokensOf fuel (rest.dropWhile isWordChar)
    else if CType.ispunct c && c ≠ Char.ofNat 39 && c ≠ '-' then [c] :: tokensOf fuel rest
    else tokensOf fuel rest

/-- The end of `tokenize`: the pending word, if any, is the last token. -/
def tokenizeFinish (st : List Str × Str) : List Str :=
  if st.2 ≠ [] then st.1 ++ [st.2] else st.1

/-- An upper-case ASCII letter. -/
def isUpperChar (c : Char) : Bool := 65 ≤ c.toNat && c.toNat ≤ 90

/-- A lower-case ASCII letter. -/
def isLowerChar (c : Char) : Bool := 97 ≤ c.toNat && c.toNat ≤ 122

end TextGenerator

namespace TextGenerator

/-- One update of the loop state of `generateSentenceMarkov`. -/
inductive SentenceStep {R : RandomEngine} (chain : List (Str × List Str)) :
    SentenceState R → SentenceState R → Prop
  | terminal (st : SentenceState R) (succs : List Str) (w : Str) (g : R.State) :
      find chain st.lowerCurrent = some succs → w ∈ succs → isTerminal w = true →
      SentenceStep chain st { st with sentence := st.sentence ++ w, localGen := g }
  | comma (st : SentenceState R) (succs : List Str) (g : R.State) :
      find chain st.lowerCurrent = some succs → [','] ∈ succs →
      SentenceStep chain st { st with sentence := st.sentence ++ [','], localGen := g }
  | word (st : SentenceState R) (succs : List Str) (w : Str) (g : R.State) :
      st.wordCount < maxLength → find chain st.lowerCurrent = some succs → w ∈ succs →
      isTerminal w = false →  w ≠ [','] →
      SentenceStep chain st
        { sentence := st.sentence ++ ([' '] ++ w), lowerCurrent := w
          wordCount := st.wordCount + 1, localGen := g }
  | earlyEnd (st : SentenceState R) (g : R.State) :
      8 ≤ st.wordCount →
      SentenceStep chain st { st with sentence := st.sentence ++ ['.'], localGen := g }

end TextGenerator

/-! ## The RC4 algorithm -/

/-- The exchange of the entries `i` and `j` of the RC4 permutation. -/
def rc4Swap (S : List Nat) (i j : Nat) : List Nat :=
  (S.set i (S.getD j 0)).set j (S.getD i 0)

/-- The key scheduling loop of RC4, `r` rounds from the index `i`. -/
def rc4KsaLoop (key : List Nat) : Nat → Nat → Nat → List Nat → List Nat
  | 0, _, _, S => S
  | r + 1, i, j, S =>
    let j1 := (j + S.getD i 0 + key.getD (i % key.length) 0) % 256
    rc4KsaLoop key r (i + 1) j1 (rc4Swap S i j1)

/-- The output loop of RC4: the next `n` keystream bytes from the state `(i, j, S)`. -/
def rc4Prga : Nat → Nat → Nat → List Nat → List Nat
  | 0, _, _, _ => []
  | n + 1, i, j, S =>
    let i1 := (i + 1) % 256
    let j1 := (j + S.getD i1 0) % 256
    let S1 := rc4Swap S i1 j1
    S1.getD ((S1.getD i1 0 + S1.getD j1 0) % 256) 0 :: rc4Prga n i1 j1 S1

/-- The first `n` keystream bytes of RC4 under `key`, from a fresh key setup. -/
def rc4Keystream (key : List Nat) (n : Nat) : List Nat :=
  rc4Prga n 0 0 (rc4KsaLoop key 256 0 0 (List.range 256))

/-- Keystream byte number `i` of RC4 under `key`. -/
def rc4Byte (key : List Nat) (i : Nat) : Nat := (rc4Keystream key (i + 1)).getD i 0

/-- The primitives with RC4 as published: `RC4_set_key(&k, 7, key)` runs the key scheduling
on the 7 key bytes, `RC4(&k, len, in, out)` combines `len` input bytes with the first `len`
keystream bytes by exclusive or. The block ciphers are those of `toyOpenSSL`. -/
def rc4OpenSSL : OpenSSL :=
  { toyOpenSSL with
    RC4 := fun key len input =>
      (List.range len).map fun i =>
        input.getD i 0 ^^^ (rc4Keystream (key.take 7) len).getD i 0 }

/-- The call `generator()` on the engine `lcgEngine`: the state is the value drawn. It
stands in for `std::mt19937::operator()`. -/
def lcgNext (g : Nat) : Nat × Nat :=
  (g, (g * 1103515245 + 12345) % 2 ^ 32)

/-- The byte with the upper seven bits of `b` and odd parity: what the table `odd_parity`
of `DES_set_odd_parity` holds for the byte `b`. -/
def oddParityByte (b : Nat) : Nat :=
  let hi := b / 2
  let ones := hi % 2 + hi / 2 % 2 + hi / 4 % 2 + hi / 8 % 2 + hi / 16 % 2 + hi / 32 % 2 +
    hi / 64 % 2
  2 * hi + (ones + 1) % 2

/-- The primitives of `toyOpenSSL` with the parity adjustment of the library:
`DES_set_odd_parity` replaces every key byte by the byte with the same upper seven bits
and odd parity. -/
def parityOpenSSL : OpenSSL :=
  { toyOpenSSL with DES_set_odd_parity := fun key8 => key8.map oddParityByte }

/-! ## Files and console messages -/

/-- The part of the file system that the drivers observe. -/
structure FileSystem where
  /-- Whether `std::ofstream file(path)` leaves the stream open. -/
  canOpen : String → Bool
  /-- Whether the write call number `k` (from 0) on the stream of `path` succeeds. -/
  writeOk : String → Nat → Bool

/-- An output stream `std::ofstream` over elements of type `α`. -/
structure OFStream (α : Type) where
  /-- The path given to the constructor. -/
  path : String
  /-- The value of `is_open()`. -/
  is_open : Bool
  /-- The value of `good()`. -/
  good : Bool
  /-- The data that reached the file through successful writes. -/
  contents : List α
  /-- The number of write calls made on the stream. -/
  calls : Nat

/-- The constructor `std::ofstream file(path)`. -/
def ofstream {α : Type} (fs : FileSystem) (path : String) : OFStream α :=
  { path := path, is_open := fs.canOpen path, good := fs.canOpen path, contents := [],
    calls := 0 }

/-- The calls `file.write(data, size)` and `file << data`: on a good stream whose write
succeeds the data is appended; otherwise the stream is no longer good and, in this model,
nothing of the data reaches the file. -/
def OFStream.write {α : Type} (fs : FileSystem) (file : OFStream α) (data : List α) :
    OFStream α :=
  if file.good && fs.writeOk file.path file.calls then
    { file with contents := file.contents ++ data, calls := file.calls + 1 }
  else { file with good := false, calls := file.calls + 1 }

/-- The call `file.close()`. -/
def OFStream.close {α : Type} (file : OFStream α) : OFStream α :=
  { file with is_open := false }

/-- An input stream `std::ifstream` that was opened: `good()` and the bytes not yet read. -/
structure IFStream where
  /-- The value of `good()`. -/
  good : Bool
  /-- The bytes of the file not yet read. -/
  rest : List Nat

/-- The calls `inputFile.read(buf, n)` and `inputFile.gcount()`: the bytes read and the
stream after the call. Reading fewer than `n` bytes sets `eofbit` and `failbit`. -/
def IFStream.read (f : IFStream) (n : Nat) : List Nat × IFStream :=
  if f.good then (f.rest.take n, { good := decide (n ≤ f.rest.length), rest := f.rest.drop n })
  else ([], f)

/-- The messages of a driver about one output file (progress lines are left out). -/
inductive Message
  /-- The message that a file cannot be opened. -/
  | openError
  /-- The message that a write to the file failed. -/
  | writeError
  /-- The final message that the file was written, with the byte count shown. -/
  | success (bytes : Nat)
  /-- The final message that the file was not written in full. -/
  | failure
  deriving DecidableEq

/-- The selection of the cipher stage by the algorithm identifier, as written in the chunk
loops: an unknown identifier leaves `encrypted` empty. -/
def encryptChunk (CAST RC4 DES Blowfish : List Nat → List Nat) (alg : String)
    (data : List Nat) : List Nat :=
  if alg = "cast" then CAST data
  else if alg = "rc4" then RC4 data
  else if alg = "des" then DES data
  else if alg = "blowfish" then Blowfish data
  else []

/-- The seed offset `alg == "cast" ? 0 : alg == "rc4" ? 10000 : alg == "des" ? 20000 : 30000`. -/
def seedOffset (alg : String) : Nat :=
  if alg = "cast" then 0 else if alg = "rc4" then 10000 else if alg = "des" then 20000
  else 30000

/-- The function `generate56BitKey(seed)` of the generating drivers: 7 draws from
`std::mt19937 keyGen(seed)`. -/
def generate56BitKey (R : RandomEngine) (seed : Nat) : List Nat :=
  (DataEncryptor.drawBytes R 7 (R.mt19937 seed)).1

/-- One chunk of a generating cipher driver: the seed handed to the chunk generator, the
generated data and the encrypted data. -/
structure Chunk where
  seed : Nat
  plain : List Nat
  encrypted : List Nat

/-- The outcome of a driver for one output file. -/
structure FileRun where
  /-- The messages about the file, in order. -/
  messages : List Message
  /-- The output stream at the end. -/
  file : OFStream Nat
  /-- The final value of `bytesWritten`. -/
  bytesWritten : Nat
  /-- The chunks generated, in order, the one of a failed write included. -/
  chunks : List Chunk

/-- The outcome `r` of a chunk loop for a file that was opened at `path`, where `chunk i`
is the chunk number `i`, the target is `fileSize` and full chunks have `chunkSize` bytes
(82 chunks for 8 GiB in chunks of 100 MiB): either all 82 writes succeed, the file is
complete and the messages are `okMessages`, or the write number `k` is the first that
fails, the loop ends there and the messages are `failMessages`. -/
def FileOutcome (fs : FileSystem) (path : String) (chunk : Nat → Chunk)
    (fileSize chunkSize : Nat) (okMessages failMessages : List Message) (r : FileRun) :
    Prop :=
  (r.chunks = (List.range 82).map chunk ∧ r.file.calls = 82 ∧
    (∀ i, i < 82 → fs.writeOk path i = true) ∧ r.bytesWritten = fileSize ∧
    r.messages = okMessages ∧
    r.file.contents = ((List.range 82).map fun i => (chunk i).encrypted).flatten) ∨
  (∃ k, k ≤ 81 ∧ r.chunks = (List.range (k + 1)).map chunk ∧ r.file.calls = k + 1 ∧
    (∀ i, i < k → fs.writeOk path i = true) ∧ fs.writeOk path k = false ∧
    r.bytesWritten = k * chunkSize ∧ r.messages = failMessages ∧
    r.file.contents = ((List.range k).map fun i => (chunk i).encrypted).flatten)

namespace TextGenerator

/-- The constant `CHUNK_SIZE` of `generateTextFile`. -/
def CHUNK_SIZE : Nat := 10 * 1024 * 1024

/-- The inner loop of `generateTextFile`,
`while (chunk.size() < currentChunkSize && bytesWritten + chunk.size() < targetSizeBytes)`,
on `(chunk, seed)`; `none` when the fuel runs out. -/
def generateTextFileChunk (R : RandomEngine) (m : Model)
    (currentChunkSize bytesWritten targetSizeBytes : Nat) : Nat → Str → Nat → Option (Str × Nat)
  | 0, _, _ => none
  | fuel + 1, chunk, seed =>
    if chunk.length < currentChunkSize ∧ bytesWritten + chunk.length < targetSizeBytes then
      match generateParagraph R m fuel seed PARAGRAPH_SIZE with
      | none => none
      | some (paragraph, seed1) =>
        generateTextFileChunk R m currentChunkSize bytesWritten targetSizeBytes fuel
          ((if chunk ≠ [] then chunk ++ ['\n', '\n'] else chunk) ++ paragraph) seed1
    else some (chunk, seed)

/-- The loop `while (bytesWritten < targetSizeBytes)` of `generateTextFile`, on
`(file, bytesWritten, seed)`. The last component lists, for every iteration so far, the
chunk handed to `file << chunk` and the value of `bytesWritten` after the iteration. -/
def generateTextFileLoop (R : RandomEngine) (m : Model) (fs : FileSystem)
    (targetSizeBytes : Nat) :
    Nat → OFStream Char → Nat → Nat → List (Str × Nat) →
      Option (OFStream Char × Nat × Nat × List (Str × Nat))
  | 0, _, _, _, _ => none
  | fuel + 1, file, bytesWritten, seed, iterations =>
    if bytesWritten < targetSizeBytes then
      let remaining := targetSizeBytes - bytesWritten
      let currentChunkSize := min CHUNK_SIZE remaining
      match generateTextFileChunk R m currentChunkSize bytesWritten targetSizeBytes fuel []
          seed with
      | none => none
      | some (chunk, seed1) =>
        let chunk1 := if remaining < chunk.length then chunk.take remaining else chunk
        let bytesWritten1 := bytesWritten + chunk1.length
        generateTextFileLoop R m fs targetSizeBytes fuel (file.write fs chunk1) bytesWritten1
          seed1 (iterations ++ [(chunk1, bytesWritten1)])
    else some (file, bytesWritten, seed, iterations)

/-- The outcome of `generateTextFile`. -/
structure TextFileRun where
  /-- The messages about the file, in order. -/
  messages : List Message
  /-- The output stream at the end. -/
  file : OFStream Char
  /-- The final value of `bytesWritten`. -/
  bytesWritten : Nat
  /-- The chunk handed to the file and the value of `bytesWritten`, per iteration. -/
  iterations : List (Str × Nat)

/-- The function `TextGenerator::generateTextFile(outputPath, targetSizeBytes)`, where
`seed` is the value that `generator()` returns. -/
def generateTextFile (R : RandomEngine) (m : Model) (fs : FileSystem) (fuel : Nat)
    (outputPath : String) (targetSizeBytes seed : Nat) : Option TextFileRun :=
  let file : OFStream Char := ofstream fs outputPath
  if !file.is_open then
    some { messages := [Message.openError], file := file, bytesWritten := 0, iterations := [] }
  else
    match generateTextFileLoop R m fs targetSizeBytes fuel file 0 seed [] with
    | none => none
    | some (file1, bytesWritten, _, iterations) =>
      some { messages :=
               if targetSizeBytes ≤ bytesWritten then [Message.success bytesWritten]
               else [Message.failure]
             file := file1.close, bytesWritten := bytesWritten, iterations := iterations }

/-- The iterations of the loop of `generateTextFile` that follow `bytesWritten = start`:
every chunk is non-empty, `bytesWritten` grows by the length of the chunk and stays within
`target`. -/
def IterationsOK (target : Nat) : Nat → List (Str × Nat) → Prop
  | _, [] => True
  | start, (chunk, b) :: rest =>
    chunk ≠ [] ∧ b = start + chunk.length ∧ b ≤ target ∧ IterationsOK target b rest

/-- The members of a `TextGenerator`. -/
structure Object (R : RandomEngine) where
  generator : R.State
  model : Model

/-- The constructor `TextGenerator(seed)`: `generator(seed)`, then
`initializeMarkovChain()` on the empty members. -/
def Object.new (R : RandomEngine) (seed : Nat) : Object R :=
  { generator := R.mt19937 seed, model := initializeMarkovChain }

/-- The public method `generateTextToBuffer` on an object: what the call returns, and the
object after the call. -/
def Object.generateTextToBuffer {R : RandomEngine} (o : Object R) (fuel : Nat) (buffer : Str)
    (targetSizeBytes seed : Nat) : Option (Str × Nat) × Object R :=
  (TextGenerator.generateTextToBuffer R o.model fuel buffer targetSizeBytes seed, o)

/-- The public method `generateTextFile` on an object, where `next` is the call
`generator()` of the engine: the outcome, and the object after the call. -/
def Object.generateTextFile {R : RandomEngine} (o : Object R) (next : R.State → Nat × R.State)
    (fs : FileSystem) (fuel : Nat) (outputPath : String) (targetSizeBytes : Nat) :
    Option TextFileRun × Object R :=
  if (ofstream fs outputPath : OFStream Char).is_open then
    (TextGenerator.generateTextFile R o.model fs fuel outputPath targetSizeBytes
        ((next o.generator).1 % 2 ^ 32),
      { o with generator := (next o.generator).2 })
  else
    (TextGenerator.generateTextFile R o.model fs fuel outputPath targetSizeBytes 0, o)

/-- The objects that a program can hold: a constructed object, and an object after a call
of a public method. -/
inductive Object.Reachable {R : RandomEngine} : Object R → Prop
  | new (seed : Nat) : Object.Reachable (Object.new R seed)
  | generateTextToBuffer (o : Object R) (fuel : Nat) (buffer : Str)
      (targetSizeBytes seed : Nat) :
      Object.Reachable o →
      Object.Reachable (o.generateTextToBuffer fuel buffer targetSizeBytes seed).2
  | generateTextFile (o : Object R) (next : R.State → Nat × R.State) (fs : FileSystem)
      (fuel : Nat) (outputPath : String) (targetSizeBytes : Nat) :
      Object.Reachable o →
      Object.Reachable (o.generateTextFile next fs fuel outputPath targetSizeBytes).2

end TextGenerator

/-! ## Worker threads and the console -/

/-- A console write of a worker thread, with the mutex held while it is made. The mutex
`coutMutex` is a non-static member, so a mutex is named by the number of the object that
owns it. -/
structure ConsoleWrite where
  /-- The message written. -/
  message : Message
  /-- The object whose `coutMutex` the `std::lock_guard` in scope holds. -/
  mutexOf : Nat
  deriving DecidableEq

/-- The console writes of a method call on the object number `self` in which every write
is in the scope of `std::lock_guard<std::mutex> lock(coutMutex)`, as in
`TextGenerator::generateTextFile`. -/
def lockedWrites (self : Nat) (messages : List Message) : List ConsoleWrite :=
  messages.map (fun m => { message := m, mutexOf := self })

namespace GenerateText

/-- The worker threads of the multi-file branch of `main` in `generate_text.cpp`: the
thread number `i` has `fileSeed = seed + i * 10000`, constructs its own
`TextGenerator generator(fileSeed)`, the object number `i`, and calls `generateTextFile` on
it. The console writes of each thread, in thread order; `none` when the fuel runs out. -/
def workers (R : RandomEngine) (next : R.State → Nat × R.State) (fs : FileSystem) (fuel : Nat)
    (outputDir : String) (fileSizeBytes seed numFiles : Nat) :
    List (Option (List ConsoleWrite)) :=
  (List.range numFiles).map (fun i =>
    let fileSeed := (seed + i * 10000) % 2 ^ 32
    let outputPath := outputDir ++ "/english_text_" ++ toString fileSeed ++ ".txt"
    let generator := TextGenerator.Object.new R fileSeed
    (generator.generateTextFile next fs fuel outputPath fileSizeBytes).1.map
      (fun run => lockedWrites i run.messages))

end GenerateText

namespace TextEncryptor

/-- The constant `FILE_SIZE_BYTES`: 8 GiB. -/
def FILE_SIZE_BYTES : Nat := 8 * 1024 * 1024 * 1024

/-- The constant `CHUNK_SIZE`: 100 MiB. -/
def CHUNK_SIZE : Nat := 100 * 1024 * 1024

/-- The cipher stage that `encryptTextFile` applies to a chunk. -/
def encryptSelected (P : OpenSSL) (key56 : List Nat) (algorithm : String)
    (textChunk : List Nat) : List Nat :=
  encryptChunk (encryptCAST P key56) (encryptRC4 P key56) (encryptDES P key56)
    (encryptBlowfish P key56) algorithm textChunk

/-- The outcome of `encryptTextFile`. -/
structure EncryptRun where
  /-- The messages about the file, in order. -/
  messages : List Message
  /-- The output stream at the end. -/
  outputFile : OFStream Nat
  /-- The final value of `bytesProcessed`. -/
  bytesProcessed : Nat
  /-- The text chunks read and their encryptions, in order, the one of a failed write
  included. -/
  chunks : List (List Nat × List Nat)

/-- The loop `while (inputFile.good() && bytesProcessed < FILE_SIZE_BYTES)` of
`encryptTextFile`, on `(inputFile, outputFile, bytesProcessed)`, with the messages and the
chunks so far; `none` when the fuel runs out. -/
def encryptTextFileLoop (P : OpenSSL) (key56 : List Nat) (fs : FileSystem)
    (algorithm : String) :
    Nat → IFStream → OFStream Nat → Nat → List (List Nat × List Nat) →
      Option EncryptRun
  | 0, _, _, _, _ => none
  | fuel + 1, inputFile, outputFile, bytesProcessed, chunks =>
    if inputFile.good ∧ bytesProcessed < FILE_SIZE_BYTES then
      let remaining := FILE_SIZE_BYTES - bytesProcessed
      let currentChunkSize := min CHUNK_SIZE remaining
      let r := inputFile.read currentChunkSize
      let textChunk := r.1
      let bytesRead := textChunk.length
      if bytesRead = 0 then
        some { messages := [], outputFile := outputFile, bytesProcessed := bytesProcessed,
               chunks := chunks }
      else
        let encrypted := encryptSelected P key56 algorithm textChunk
        let outputFile1 := outputFile.write fs encrypted
        if !outputFile1.good then
          some { messages := [Message.writeError], outputFile := outputFile1,
                 bytesProcessed := bytesProcessed,
                 chunks := chunks ++ [(textChunk, encrypted)] }
        else
          encryptTextFileLoop P key56 fs algorithm fuel r.2 outputFile1
            (bytesProcessed + bytesRead) (chunks ++ [(textChunk, encrypted)])
    else
      some { messages := [], outputFile := outputFile, bytesProcessed := bytesProcessed,
             chunks := chunks }

/-- The function `TextEncryptor::encryptTextFile(inputPath, outputPath, algorithm)`, where
`input` holds the bytes of the input file, `none` if it cannot be opened. -/
def encryptTextFile (P : OpenSSL) (key56 : List Nat) (fs : FileSystem) (fuel : Nat)
    (input : Option (List Nat)) (outputPath algorithm : String) : Option EncryptRun :=
  match input with
  | none =>
    some { messages := [Message.openError], outputFile := ofstream fs outputPath,
           bytesProcessed := 0, chunks := [] }
  | some bytes =>
    let outputFile : OFStream Nat := ofstream fs outputPath
    if !outputFile.is_open then
      some { messages := [Message.openError], outputFile := outputFile, bytesProcessed := 0,
             chunks := [] }
    else
      match encryptTextFileLoop P key56 fs algorithm fuel { good := true, rest := bytes }
          outputFile 0 [] with
      | none => none
      | some run =>
        some { run with
               messages := run.messages ++
                 [if 0 < run.bytesProcessed then Message.success run.bytesProcessed
                  else Message.failure]
               outputFile := run.outputFile.close }

end TextEncryptor

namespace TextCompressor

/-- The constant `FILE_SIZE_BYTES`: 8 GiB. -/
def FILE_SIZE_BYTES : Nat := 8 * 1024 * 1024 * 1024

/-- The constant `CHUNK_INPUT`: 4 MiB. -/
def CHUNK_INPUT : Nat := 4 * 1024 * 1024

/-- The system and zlib calls of `compressStreamTo8GB`, and its argument `readChunk` over
a source state `σ`. Calls are numbered from 0 in the order in which they are made. -/
structure GzEnv (σ : Type) where
  /-- Whether `open(outputPath, ...)` returns a descriptor. -/
  openOk : Bool
  /-- Whether `gzdopen(fd, "wb")` returns a stream. -/
  gzdopenOk : Bool
  /-- The value of the `lseek(fd, 0, SEEK_END)` call number `k`. -/
  lseek : Nat → Int
  /-- The call `readChunk(buf, maxLen)`: the bytes put in `buf` and the new source state. -/
  readChunk : σ → Nat → List Nat × σ
  /-- The value of the `gzwrite` call number `k` on the given bytes. -/
  gzwrite : Nat → List Nat → Int
  /-- Whether the `gzflush` call number `k` returns `Z_OK`. -/
  gzflush : Nat → Bool
  /-- Whether `gzclose` returns `Z_OK`. -/
  gzclose : Bool

/-- The outcome of `compressStreamTo8GB`. -/
structure CompressRun (σ : Type) where
  /-- The value returned. -/
  result : Bool
  /-- The source state at the end. -/
  source : σ
  /-- The chunks pulled from the source, in order. -/
  chunks : List (List Nat)
  /-- The number of `lseek` calls made. -/
  lseeks : Nat

/-- The loop `while (true)` of `compressStreamTo8GB` with what follows it, from the
iteration number `k` on; `none` when the fuel runs out. -/
def compressLoop {σ : Type} (E : GzEnv σ) :
    Nat → Nat → σ → List (List Nat) → Option (CompressRun σ)
  | 0, _, _, _ => none
  | fuel + 1, k, src, chunks =>
    let currentSize := E.lseek (2 * k)
    if currentSize < 0 then
      some { result := false, source := src, chunks := chunks, lseeks := 2 * k + 1 }
    else if FILE_SIZE_BYTES ≤ currentSize.toNat then
      some { result := E.gzclose, source := src, chunks := chunks, lseeks := 2 * k + 1 }
    else
      let r := E.readChunk src CHUNK_INPUT
      let n := r.1.length
      if n = 0 then
        some { result := E.gzclose, source := r.2, chunks := chunks, lseeks := 2 * k + 1 }
      else
        let written := E.gzwrite k r.1
        if written ≤ 0 ∨ written ≠ (n : Int) then
          some { result := false, source := r.2, chunks := chunks ++ [r.1],
                 lseeks := 2 * k + 1 }
        else if !E.gzflush k then
          some { result := false, source := r.2, chunks := chunks ++ [r.1],
                 lseeks := 2 * k + 1 }
        else compressLoop E fuel (k + 1) r.2 (chunks ++ [r.1])

/-- The function `TextCompressor::compressStreamTo8GB(readChunk, outputPath, sourceDesc)`
from the source state `src`. -/
def compressStreamTo8GB {σ : Type} (E : GzEnv σ) (fuel : Nat) (src : σ) :
    Option (CompressRun σ) :=
  if !E.openOk then some { result := false, source := src, chunks := [], lseeks := 0 }
  else if !E.gzdopenOk then some { result := false, source := src, chunks := [], lseeks := 0 }
  else compressLoop E fuel 0 src []

/-- A small environment in which every call succeeds, the output file stays empty and the
source returns zero bytes at once. -/
def emptySourceEnv : GzEnv Unit where
  openOk := true
  gzdopenOk := true
  lseek := fun _ => 0
  readChunk := fun src _ => ([], src)
  gzwrite := fun _ data => data.length
  gzflush := fun _ => true
  gzclose := true

/-- A small environment in which every call succeeds, the source returns one byte at every
call, and the output file is seen to grow by 2 GiB between two consecutive `lseek` calls:
the size observed at the top of the iterations 0, 1, 2 is 0, 4 GiB, 8 GiB. -/
def growingEnv : GzEnv Nat where
  openOk := true
  gzdopenOk := true
  lseek := fun n => ((n * (2 * 1024 * 1024 * 1024) : Nat) : Int)
  readChunk := fun src _ => ([src % 256], src + 1)
  gzwrite := fun _ data => data.length
  gzflush := fun _ => true
  gzclose := true

end TextCompressor

namespace CiphertextGenerator

/-- The constant `FILE_SIZE_BYTES`: 8 GiB. -/
def FILE_SIZE_BYTES : Nat := 8 * 1024 * 1024 * 1024

/-- The constant `CHUNK_SIZE`: 100 MiB. -/
def CHUNK_SIZE : Nat := 100 * 1024 * 1024

/-- The members of a `CiphertextGenerator`. -/
structure State (R : RandomEngine) where
  generator : R.State
  key56 : List Nat

/-- The constructor `CiphertextGenerator(baseSeed)`: `generator(baseSeed)`, then
`generate56BitKey(baseSeed)`. -/
def new (R : RandomEngine) (baseSeed : Nat) : State R :=
  { generator := R.mt19937 baseSeed, key56 := generate56BitKey R baseSeed }

/-- The function `generateRandomData(data, size, seed)`: the new contents of `data`. -/
def generateRandomData (R : RandomEngine) (size seed : Nat) : List Nat :=
  (DataEncryptor.drawBytes R size (R.mt19937 seed)).1

/-- The cipher stage that `generateCiphertexts` applies to a chunk. -/
def encryptSelected (P : OpenSSL) (key56 : List Nat) (alg : String) (data : List Nat) :
    List Nat :=
  encryptChunk (encryptCAST P key56) (encryptRC4 P key56) (encryptDES P key56)
    (encryptBlowfish P key56) alg data

/-- The loop `while (bytesWritten < FILE_SIZE_BYTES)` of `generateCiphertexts` for one
algorithm, on `(file, bytesWritten)` with the chunks so far, and the messages of the loop;
`none` when the fuel runs out. -/
def chunkLoop (P : OpenSSL) (R : RandomEngine) (key56 : List Nat) (fs : FileSystem)
    (alg : String) (chunkSeed : Nat) :
    Nat → OFStream Nat → Nat → List Chunk → Option FileRun
  | 0, _, _, _ => none
  | fuel + 1, file, bytesWritten, chunks =>
    if bytesWritten < FILE_SIZE_BYTES then
      let currentChunkSize := min CHUNK_SIZE (FILE_SIZE_BYTES - bytesWritten)
      let seed := (chunkSeed + bytesWritten) % 2 ^ 32
      let randomData := generateRandomData R currentChunkSize seed
      let encrypted := encryptSelected P key56 alg randomData
      let file1 := file.write fs encrypted
      if !file1.good then
        some { messages := [Message.writeError], file := file1.close,
               bytesWritten := bytesWritten,
               chunks := chunks ++ [{ seed := seed, plain := randomData,
                                      encrypted := encrypted }] }
      else
        chunkLoop P R key56 fs alg chunkSeed fuel file1 (bytesWritten + encrypted.length)
          (chunks ++ [{ seed := seed, plain := randomData, encrypted := encrypted }])
    else some { messages := [], file := file, bytesWritten := bytesWritten, chunks := chunks }

/-- The outcome of `generateCiphertexts`. -/
structure Run (R : RandomEngine) where
  /-- The member `generator` at the end. -/
  generator : R.State
  /-- The final value of `totalWritten`. -/
  totalWritten : Nat
  /-- The outcome for every algorithm, in order. -/
  files : List (String × FileRun)

/-- The loop `for (const auto& alg : algorithms)` of `generateCiphertexts`, where `next` is
the call `generator()` of the engine. -/
def algorithmsLoop (P : OpenSSL) (R : RandomEngine) (next : R.State → Nat × R.State)
    (key56 : List Nat) (fs : FileSystem) (outputDir : String) (fuel : Nat) :
    List String → Run R → Option (Run R)
  | [], run => some run
  | alg :: rest, run =>
    let filepath := outputDir ++ "/" ++ alg ++ "/" ++ alg ++ ".bin"
    let file : OFStream Nat := ofstream fs filepath
    if !file.is_open then
      algorithmsLoop P R next key56 fs outputDir fuel rest
        { run with files := run.files ++
            [(alg, { messages := [Message.openError], file := file, bytesWritten := 0,
                     chunks := [] })] }
    else
      let d := next run.generator
      let baseSeed := d.1 % 2 ^ 32
      let chunkSeed := (baseSeed + seedOffset alg) % 2 ^ 32
      match chunkLoop P R key56 fs alg chunkSeed fuel file 0 [] with
      | none => none
      | some r =>
        if r.bytesWritten = FILE_SIZE_BYTES then
          algorithmsLoop P R next key56 fs outputDir fuel rest
            { generator := d.2, totalWritten := run.totalWritten + r.bytesWritten
              files := run.files ++
                [(alg, { r with messages := r.messages ++ [Message.success r.bytesWritten]
                                file := r.file.close })] }
        else
          algorithmsLoop P R next key56 fs outputDir fuel rest
            { generator := d.2, totalWritten := run.totalWritten
              files := run.files ++
                [(alg, { r with messages := r.messages ++ [Message.failure]
                                file := r.file.close })] }

/-- The function `CiphertextGenerator::generateCiphertexts(outputDir)` on the object `s`. -/
def generateCiphertexts (P : OpenSSL) (R : RandomEngine) (next : R.State → Nat × R.State)
    (fs : FileSystem) (fuel : Nat) (s : State R) (outputDir : String) : Option (Run R) :=
  algorithmsLoop P R next s.key56 fs outputDir fuel ["cast", "rc4", "des", "blowfish"]
    { generator := s.generator, totalWritten := 0, files := [] }

/-- The chunk that the loop of `generateCiphertexts` generates at `bytesWritten = bw`. -/
def chunkAt (P : OpenSSL) (R : RandomEngine) (key56 : List Nat) (alg : String)
    (chunkSeed bw : Nat) : Chunk :=
  { seed := (chunkSeed + bw) % 2 ^ 32
    plain := generateRandomData R (min CHUNK_SIZE (FILE_SIZE_BYTES - bw))
      ((chunkSeed + bw) % 2 ^ 32)
    encrypted := encryptSelected P key56 alg
      (generateRandomData R (min CHUNK_SIZE (FILE_SIZE_BYTES - bw))
        ((chunkSeed + bw) % 2 ^ 32)) }

/-- The path of the file of an algorithm in `generateCiphertexts`. -/
def filepath (outputDir alg : String) : String :=
  outputDir ++ "/" ++ alg ++ "/" ++ alg ++ ".bin"

/-- The outcomes `files` of `generateCiphertexts` for the algorithms `algs`, from the
engine state `g` to the engine state `g1`: a file that cannot be opened gets the open
error and draws nothing from the engine; a file that opens draws the base seed of its
chunks from the engine and has a `FileOutcome`. -/
def FilesOutcome (P : OpenSSL) (R : RandomEngine) (next : R.State → Nat × R.State)
    (key56 : List Nat) (fs : FileSystem) (outputDir : String) :
    List String → R.State → List (String × FileRun) → R.State → Prop
  | [], g, files, g1 => files = [] ∧ g1 = g
  | alg :: rest, g, files, g1 =>
    ∃ e files1, files = (alg, e) :: files1 ∧
      if fs.canOpen (filepath outputDir alg) = true then
        FileOutcome fs (filepath outputDir alg)
          (fun i => chunkAt P R key56 alg (((next g).1 % 2 ^ 32 + seedOffset alg) % 2 ^ 32)
            (i * CHUNK_SIZE))
          FILE_SIZE_BYTES CHUNK_SIZE [Message.success FILE_SIZE_BYTES] [Message.writeError, Message.failure] e ∧
        FilesOutcome P R next key56 fs outputDir rest (next g).2 files1 g1
      else
        (e.messages = [Message.openError] ∧ e.bytesWritten = 0 ∧ e.chunks = [] ∧
          e.file.contents = []) ∧
        FilesOutcome P R next key56 fs outputDir rest g files1 g1

end CiphertextGenerator

namespace FakeTextCiphertextGenerator

/-- The constant `FILE_SIZE_BYTES`: 8 GiB. -/
def FILE_SIZE_BYTES : Nat := 8 * 1024 * 1024 * 1024

/-- The constant `CHUNK_SIZE`: 100 MiB. -/
def CHUNK_SIZE : Nat := 100 * 1024 * 1024

/-- The members of a `FakeTextCiphertextGenerator`. -/
structure State where
  key56 : List Nat

/-- The constructor `FakeTextCiphertextGenerator(baseSeed)`: `generate56BitKey(baseSeed)`. -/
def new (R : RandomEngine) (baseSeed : Nat) : State :=
  { key56 := generate56BitKey R baseSeed }

/-- The cipher stages of the class: the loops are those of `CiphertextGenerator`. -/
def encryptSelected (P : OpenSSL) (key56 : List Nat) (alg : String) (data : List Nat) :
    List Nat :=
  encryptChunk (CiphertextGenerator.encryptCAST P key56) (CiphertextGenerator.encryptRC4 P key56)
    (CiphertextGenerator.encryptDES P key56) (CiphertextGenerator.encryptBlowfish P key56)
    alg data

/-- The function `generateTextChunk(textData, targetSize, seed)`: a `TextGenerator` is
constructed from `seed` and fills the buffer; the bytes of `textData` and the new value of
`seed`. -/
def generateTextChunk (R : RandomEngine) (fuel targetSize seed : Nat) :
    Option (List Nat × Nat) :=
  match ((TextGenerator.Object.new R seed).generateTextToBuffer fuel [] targetSize seed).1 with
  | none => none
  | some (buffer, seed1) => some (buffer.map Char.toNat, seed1)

/-- The loop `while (bytesWritten < FILE_SIZE_BYTES)` of `generateCiphertextForAlgorithm`,
on `(file, bytesWritten, chunkSeed)` with the chunks so far, followed by the final
message; `none` when the fuel runs out. -/
def chunkLoop (P : OpenSSL) (R : RandomEngine) (key56 : List Nat) (fs : FileSystem)
    (alg : String) :
    Nat → OFStream Nat → Nat → Nat → List Chunk → Option FileRun
  | 0, _, _, _, _ => none
  | fuel + 1, file, bytesWritten, chunkSeed, chunks =>
    if bytesWritten < FILE_SIZE_BYTES then
      let currentChunkSize := min CHUNK_SIZE (FILE_SIZE_BYTES - bytesWritten)
      let localSeed := (chunkSeed + bytesWritten / CHUNK_SIZE) % 2 ^ 32
      match generateTextChunk R fuel currentChunkSize localSeed with
      | none => none
      | some (textChunk, localSeed1) =>
        let encrypted := encryptSelected P key56 alg textChunk
        let file1 := file.write fs encrypted
        if !file1.good then
          some { messages := [Message.writeError], file := file1.close,
                 bytesWritten := bytesWritten,
                 chunks := chunks ++ [{ seed := localSeed, plain := textChunk,
                                        encrypted := encrypted }] }
        else
          chunkLoop P R key56 fs alg fuel file1 (bytesWritten + encrypted.length) localSeed1
            (chunks ++ [{ seed := localSeed, plain := textChunk, encrypted := encrypted }])
    else
      some { messages :=
               if bytesWritten = FILE_SIZE_BYTES then [Message.success bytesWritten]
               else [Message.failure]
             file := file.close, bytesWritten := bytesWritten, chunks := chunks }

/-- The file name built by `generateCiphertextForAlgorithm`. -/
def filepath (alg outputDir : String) (baseSeed : Nat) : String :=
  outputDir ++ "/" ++ alg ++ "/" ++ alg ++ "_from_text_" ++ toString baseSeed ++ ".bin"

/-- The function
`FakeTextCiphertextGenerator::generateCiphertextForAlgorithm(alg, outputDir, baseSeed)` on
the object `s`. -/
def generateCiphertextForAlgorithm (P : OpenSSL) (R : RandomEngine) (fs : FileSystem)
    (fuel : Nat) (s : State) (alg outputDir : String) (baseSeed : Nat) : Option FileRun :=
  let file : OFStream Nat := ofstream fs (filepath alg outputDir baseSeed)
  if !file.is_open then
    some { messages := [Message.openError], file := file, bytesWritten := 0, chunks := [] }
  else
    chunkLoop P R s.key56 fs alg fuel file 0 ((baseSeed + seedOffset alg) % 2 ^ 32) []

/-- The function `FakeTextCiphertextGenerator::generateCiphertexts(outputDir, seed)` on the
object `s`: the outcome of the four threads, which share no data but the key, and the
value of `totalWritten`. -/
def generateCiphertexts (P : OpenSSL) (R : RandomEngine) (fs : FileSystem) (fuel : Nat)
    (s : State) (outputDir : String) (seed : Nat) :
    List (String × Option FileRun) × Nat :=
  let algorithms := ["blowfish", "cast", "des", "rc4"]
  (algorithms.map fun alg =>
      (alg, generateCiphertextForAlgorithm P R fs fuel s alg outputDir seed),
    algorithms.length * FILE_SIZE_BYTES)

/-- The text chunk and the new seed that `generateTextChunk(textData, size, seed)` leaves;
every call with enough fuel returns them (`generateTextChunk_eq`). -/
def textChunkAt (R : RandomEngine) (size seed : Nat) : List Nat × Nat :=
  (generateTextChunk R (size + TextGenerator.PARAGRAPH_SIZE + 1) size seed).getD ([], seed)

/-- The value of `chunkSeed` at the start of iteration `i` of the chunk loop. -/
def chunkSeedAt (R : RandomEngine) (chunkSeed : Nat) : Nat → Nat
  | 0 => chunkSeed
  | i + 1 =>
    (textChunkAt R (min CHUNK_SIZE (FILE_SIZE_BYTES - i * CHUNK_SIZE))
      ((chunkSeedAt R chunkSeed i + i) % 2 ^ 32)).2

/-- The chunk of iteration `i` of the chunk loop of `generateCiphertextForAlgorithm`. -/
def chunkAt (P : OpenSSL) (R : RandomEngine) (key56 : List Nat) (alg : String)
    (chunkSeed i : Nat) : Chunk :=
  { seed := (chunkSeedAt R chunkSeed i + i) % 2 ^ 32
    plain := (textChunkAt R (min CHUNK_SIZE (FILE_SIZE_BYTES - i * CHUNK_SIZE))
      ((chunkSeedAt R chunkSeed i + i) % 2 ^ 32)).1
    encrypted := encryptSelected P key56 alg
      (textChunkAt R (min CHUNK_SIZE (FILE_SIZE_BYTES - i * CHUNK_SIZE))
        ((chunkSeedAt R chunkSeed i + i) % 2 ^ 32)).1 }

end FakeTextCiphertextGenerator

/-! ## The sentence generator -/

namespace TextGenerator

theorem getLast?_append_singleton (l : Str) (c : Char) : (l ++ [c]).getLast? = some c := by
  simp

theorem lacksTerminal_false {s : Str} (h : lacksTerminal s = false) :
    s.getLast? = some '.' ∨ s.getLast? = some '!' ∨ s.getLast? = some '?' := by
  unfold lacksTerminal at h
  by_cases h1 : s.getLast? = some '.'
  · exact Or.inl h1
  · by_cases h2 : s.getLast? = some '!'
    · exact Or.inr (Or.inl h2)
    · by_cases h3 : s.getLast? = some '?'
      · exact Or.inr (Or.inr h3)
      · simp [h1, h2, h3] at h

/-- Whatever the model and the draws, the returned sentence ends in a terminal mark. -/
theorem generateSentenceMarkov_getLast? (R : RandomEngine) (m : Model) (seed : Nat) :
    (generateSentenceMarkov R m seed).1.getLast? = some '.' ∨
    (generateSentenceMarkov R m seed).1.getLast? = some '!' ∨
    (generateSentenceMarkov R m seed).1.getLast? = some '?' := by
  unfold generateSentenceMarkov
  simp only []
  split
  · left
    show fallbackSentence.getLast? = some '.'
    decide
  · split
    · split
      · left; exact getLast?_append_singleton _ _
      · split
        · right; left; exact getLast?_append_singleton _ _
        · right; right; exact getLast?_append_singleton _ _
    · rename_i h
      exact lacksTerminal_false (by simpa using h)

theorem generateSentenceMarkov_ne_nil (R : RandomEngine) (m : Model) (seed : Nat) :
    (generateSentenceMarkov R m seed).1 ≠ [] := by
  intro h
  have := generateSentenceMarkov_getLast? R m seed
  rw [h] at this
  simp at this

theorem generateSentenceMarkov_length_pos (R : RandomEngine) (m : Model) (seed : Nat) :
    0 < (generateSentenceMarkov R m seed).1.length :=
  List.length_pos.mpr (generateSentenceMarkov_ne_nil R m seed)

theorem generateSentenceMarkov_seed (R : RandomEngine) (m : Model) (seed : Nat) :
    (generateSentenceMarkov R m seed).2 = incrSeed seed := by
  unfold generateSentenceMarkov
  simp only []
  split
  · rfl
  · split
    · split
      · rfl
      · split <;> rfl
    · rfl

end TextGenerator

/-! ## Paragraphs -/

namespace TextGenerator

theorem intercalate_append_singleton {α : Type} (sep : List α) (xs : List (List α))
    (x : List α) :
    List.intercalate sep (xs ++ [x]) =
      (if xs.isEmpty then [] else List.intercalate sep xs ++ sep) ++ x := by
  induction xs with
  | nil => simp [List.intercalate]
  | cons y ys ih =>
    cases ys with
    | nil => simp [List.intercalate]
    | cons z zs =>
      simp only [List.intercalate] at ih ⊢
      simp at ih ⊢
      simpa using ih

theorem joinSentences_zero (sent : Nat → Str) : joinSentences sent 0 = [] := by
  simp [joinSentences, List.intercalate]

theorem joinSentences_one (sent : Nat → Str) : joinSentences sent 1 = sent 0 := by
  simp [joinSentences, List.intercalate, List.range_succ]

theorem joinSentences_succ (sent : Nat → Str) (k : Nat) :
    joinSentences sent (k + 2) = joinSentences sent (k + 1) ++ [' '] ++ sent (k + 1) := by
  unfold joinSentences
  rw [List.range_succ, List.map_append, List.map_singleton, intercalate_append_singleton]
  simp

theorem joinSentences_length_succ (sent : Nat → Str) (k : Nat) :
    (joinSentences sent k).length + (sent k).length ≤ (joinSentences sent (k + 1)).length := by
  cases k with
  | zero => simp [joinSentences_zero, joinSentences_one]
  | succ k => rw [joinSentences_succ]; simp

theorem joinSentences_length_pos (sent : Nat → Str) (hne : ∀ i, 0 < (sent i).length) (k : Nat) :
    0 < (joinSentences sent (k + 1)).length := by
  have h1 := joinSentences_length_succ sent k
  have h2 := hne k
  omega

/-- Appending one more sentence, in the form the loop body computes it. -/
theorem joinSentences_step (sent : Nat → Str) (hne : ∀ i, 0 < (sent i).length) (k : Nat) :
    joinSentences sent (k + 1) =
      (if 0 < (joinSentences sent k).length then joinSentences sent k ++ [' ']
        else joinSentences sent k) ++ sent k := by
  cases k with
  | zero => simp [joinSentences_zero, joinSentences_one]
  | succ k =>
    rw [joinSentences_succ]
    simp [joinSentences_length_pos sent hne k]

theorem sentenceIter_length_pos (R : RandomEngine) (m : Model) (seed i : Nat) :
    0 < (sentenceIter R m seed i).length :=
  generateSentenceMarkov_length_pos R m _

theorem iterate_incrSeed (seed : Nat) (h : seed < 2 ^ 32) (i : Nat) :
    incrSeed^[i] seed = (seed + i) % 2 ^ 32 := by
  induction i with
  | zero => simp; omega
  | succ i ih =>
    rw [Function.iterate_succ_apply', ih]
    unfold incrSeed
    omega

theorem sentenceIter_eq_sentenceAt (R : RandomEngine) (m : Model) (seed : Nat)
    (h : seed < 2 ^ 32) : sentenceIter R m seed = sentenceAt R m seed := by
  funext i
  simp only [sentenceIter, sentenceAt, iterate_incrSeed seed h i]

/-- The loop of `generateParagraph`, started after `j` sentences below the target, stops
after the least number `k` of sentences whose joined length reaches the target. -/
theorem generateParagraphLoop_joined (R : RandomEngine) (m : Model) (T seed : Nat) :
    ∀ (fuel j : Nat), T ≤ (joinSentences (sentenceIter R m seed) j).length + fuel →
      (∀ i, i ≤ j → (joinSentences (sentenceIter R m seed) i).length < T) →
      ∃ k, j < k ∧
        generateParagraphLoop R m T fuel (joinSentences (sentenceIter R m seed) j)
          (joinSentences (sentenceIter R m seed) j).length (incrSeed^[j] seed) =
          some (joinSentences (sentenceIter R m seed) k, incrSeed^[k] seed) ∧
        T ≤ (joinSentences (sentenceIter R m seed) k).length ∧
        ∀ i, i < k → (joinSentences (sentenceIter R m seed) i).length < T := by
  intro fuel
  induction fuel with
  | zero =>
    intro j h1 h2
    have := h2 j (Nat.le_refl j)
    omega
  | succ fuel ih =>
    intro j h1 h2
    have hlt := h2 j (Nat.le_refl j)
    have hstep := joinSentences_step (sentenceIter R m seed) (sentenceIter_length_pos R m seed) j
    have hlen := joinSentences_length_succ (sentenceIter R m seed) j
    have hpos := sentenceIter_length_pos R m seed j
    have hseed : (generateSentenceMarkov R m (incrSeed^[j] seed)).2 = incrSeed^[j + 1] seed := by
      rw [generateSentenceMarkov_seed, Function.iterate_succ_apply']
    have hpar : (if 0 < (joinSentences (sentenceIter R m seed) j).length then
          joinSentences (sentenceIter R m seed) j ++ [' ']
        else joinSentences (sentenceIter R m seed) j) ++
          (generateSentenceMarkov R m (incrSeed^[j] seed)).1 =
        joinSentences (sentenceIter R m seed) (j + 1) := hstep.symm
    unfold generateParagraphLoop
    simp only [hlt, if_true, hpar, hseed]
    by_cases hT : T ≤ (joinSentences (sentenceIter R m seed) (j + 1)).length
    · refine ⟨j + 1, Nat.lt_succ_self j, ?_, hT, ?_⟩
      · simp [hT]
      · intro i hi
        exact h2 i (Nat.lt_succ_iff.mp hi)
    · have hnext : ∀ i, i ≤ j + 1 → (joinSentences (sentenceIter R m seed) i).length < T := by
        intro i hi
        rcases Nat.lt_or_ge i (j + 1) with h | h
        · exact h2 i (Nat.lt_succ_iff.mp h)
        · have : i = j + 1 := Nat.le_antisymm hi h
          subst this
          omega
      obtain ⟨k, hk, hres, hTk, hmin⟩ := ih (j + 1) (by omega) hnext
      refine ⟨k, by omega, ?_, hTk, hmin⟩
      simp only [hT, if_false]
      exact hres

theorem generateParagraph_zero (R : RandomEngine) (m : Model) (fuel seed : Nat)
    (hfuel : 0 < fuel) : generateParagraph R m fuel seed 0 = some ([], seed) := by
  obtain ⟨f, rfl⟩ : ∃ f, fuel = f + 1 := ⟨fuel - 1, by omega⟩
  simp [generateParagraph, generateParagraphLoop]

/-- For a positive target and enough fuel, `generateParagraph` returns the least number of
sentences, joined by single spaces, whose joined length reaches the target. -/
theorem generateParagraph_joined (R : RandomEngine) (m : Model) (fuel seed T : Nat)
    (hT : 0 < T) (hfuel : T ≤ fuel) :
    ∃ k, 0 < k ∧
      generateParagraph R m fuel seed T =
        some (joinSentences (sentenceIter R m seed) k, incrSeed^[k] seed) ∧
      T ≤ (joinSentences (sentenceIter R m seed) k).length ∧
      ∀ i, i < k → (joinSentences (sentenceIter R m seed) i).length < T := by
  have h0 : joinSentences (sentenceIter R m seed) 0 = [] := joinSentences_zero _
  have h := generateParagraphLoop_joined R m T seed fuel 0 (by rw [h0]; simpa using hfuel)
    (by
      intro i hi
      have : i = 0 := Nat.le_zero.mp hi
      subst this
      rw [h0]
      simpa using hT)
  rw [h0] at h
  simpa [generateParagraph] using h

/-- The result of `generateParagraph` does not depend on the fuel, once it suffices. -/
theorem generateParagraph_fuel (R : RandomEngine) (m : Model) (f1 f2 seed T : Nat)
    (hT : 0 < T) (h1 : T ≤ f1) (h2 : T ≤ f2) :
    generateParagraph R m f1 seed T = generateParagraph R m f2 seed T := by
  obtain ⟨k1, _, e1, t1, m1⟩ := generateParagraph_joined R m f1 seed T hT h1
  obtain ⟨k2, _, e2, t2, m2⟩ := generateParagraph_joined R m f2 seed T hT h2
  have hk : k1 = k2 := by
    rcases Nat.lt_trichotomy k1 k2 with h | h | h
    · have := m2 k1 h
      omega
    · exact h
    · have := m1 k2 h
      omega
  rw [e1, e2, hk]

theorem generateParagraph_eq_paragraphAt (R : RandomEngine) (m : Model) (fuel cursor : Nat)
    (hfuel : PARAGRAPH_SIZE ≤ fuel) :
    generateParagraph R m fuel cursor PARAGRAPH_SIZE = some (paragraphAt R m cursor) := by
  have hpos : 0 < PARAGRAPH_SIZE := by decide
  rw [generateParagraph_fuel R m fuel PARAGRAPH_SIZE cursor PARAGRAPH_SIZE hpos hfuel
    (Nat.le_refl _)]
  obtain ⟨k, _, e, _, _⟩ :=
    generateParagraph_joined R m PARAGRAPH_SIZE cursor PARAGRAPH_SIZE hpos (Nat.le_refl _)
  simp [paragraphAt, e]

/-- The paragraph at a cursor: the least number of sentences reaching `PARAGRAPH_SIZE`. -/
theorem paragraphAt_joined (R : RandomEngine) (m : Model) (cursor : Nat) :
    ∃ k, 0 < k ∧
      paragraphAt R m cursor =
        (joinSentences (sentenceIter R m cursor) k, incrSeed^[k] cursor) ∧
      PARAGRAPH_SIZE ≤ (joinSentences (sentenceIter R m cursor) k).length := by
  have hpos : 0 < PARAGRAPH_SIZE := by decide
  obtain ⟨k, hk, e, hT, _⟩ :=
    generateParagraph_joined R m PARAGRAPH_SIZE cursor PARAGRAPH_SIZE hpos (Nat.le_refl _)
  exact ⟨k, hk, by simp [paragraphAt, e], hT⟩

theorem paragraphAt_length (R : RandomEngine) (m : Model) (cursor : Nat) :
    PARAGRAPH_SIZE ≤ (paragraphAt R m cursor).1.length := by
  obtain ⟨k, _, e, hT⟩ := paragraphAt_joined R m cursor
  rw [e]
  exact hT

theorem joinSentences_prefix (sent : Nat → Str) (k : Nat) :
    ∃ rest, joinSentences sent (k + 1) = sent 0 ++ rest := by
  induction k with
  | zero => exact ⟨[], by simp [joinSentences_one]⟩
  | succ k ih =>
    obtain ⟨rest, h⟩ := ih
    exact ⟨rest ++ [' '] ++ sent (k + 1), by rw [joinSentences_succ, h]; simp⟩

/-- A paragraph begins with the sentence generated at its cursor. -/
theorem paragraphAt_prefix (R : RandomEngine) (m : Model) (cursor : Nat) :
    ∃ rest, (paragraphAt R m cursor).1 = (generateSentenceMarkov R m cursor).1 ++ rest := by
  obtain ⟨k, hk, e, _⟩ := paragraphAt_joined R m cursor
  obtain ⟨j, rfl⟩ : ∃ j, k = j + 1 := ⟨k - 1, by omega⟩
  obtain ⟨rest, h⟩ := joinSentences_prefix (sentenceIter R m cursor) j
  exact ⟨rest, by rw [e, h]; rfl⟩

end TextGenerator

/-! ## The built-in model -/

namespace TextGenerator

set_option maxRecDepth 100000 in
/-- Every tokenized corpus sentence has the shape `sentenceOK`, relative to the first
tokens of all corpus sentences. -/
theorem corpusTokens_ok :
    corpusTokens.all (sentenceOK (corpusTokens.filterMap List.head?)) = true := by
  decide!

/-- Appending `l` to the successor vector `o` of a key, creating the entry when needed. -/
theorem find_pushBack (chain : List (Str × List Str)) (k next key : Str) :
    find (pushBack chain k next) key =
      if k = key then some ((find chain k).getD [] ++ [next]) else find chain key := by
  induction chain with
  | nil =>
    by_cases h : k = key <;> simp [pushBack, find, h]
  | cons e rest ih =>
    obtain ⟨k', v⟩ := e
    by_cases h1 : k' = k
    · subst h1
      by_cases h2 : k' = key <;> simp [pushBack, find, h2]
    · by_cases h2 : k = key
      · subst h2
        simp [pushBack, find, h1, ih]
      · by_cases h3 : k' = key
        · subst h3
          simp [pushBack, find, h1, h2]
        · simp [pushBack, find, h1, h2, h3, ih]

/-- The successor vector of a key after `addBigrams`: the old vector followed by the
followers of the key in the token list. -/
theorem find_addBigrams (key : Str) (hkey : isSkippedKey key = false) :
    ∀ (tokens : List Str) (chain : List (Str × List Str)),
      find (addBigrams tokens chain) key =
        if followers key tokens = [] then find chain key
        else some ((find chain key).getD [] ++ followers key tokens) := by
  intro tokens
  induction tokens with
  | nil => intro chain; simp [addBigrams, followers]
  | cons a rest ih =>
    intro chain
    cases rest with
    | nil => simp [addBigrams, followers]
    | cons b rest =>
      rw [addBigrams, ih]
      by_cases ha : a = key
      · subst ha
        simp only [hkey, Bool.false_eq_true, if_false, find_pushBack, if_true, followers]
        by_cases hf : followers a (b :: rest) = [] <;> simp [hf]
      · have hfind : find (if isSkippedKey a = true then chain else pushBack chain a b) key =
            find chain key := by
          split
          · rfl
          · rw [find_pushBack]; simp [ha]
        rw [hfind]
        simp [followers, ha]

theorem find_addBigrams_skipped (key : Str) (hkey : isSkippedKey key = true) :
    ∀ (tokens : List Str) (chain : List (Str × List Str)),
      find (addBigrams tokens chain) key = find chain key := by
  intro tokens
  induction tokens with
  | nil => intro chain; simp [addBigrams]
  | cons a rest ih =>
    intro chain
    cases rest with
    | nil => simp [addBigrams]
    | cons b rest =>
      rw [addBigrams, ih]
      split
      · rfl
      · rename_i h
        rw [find_pushBack]
        have : a ≠ key := by
          intro e
          subst e
          exact h hkey
        simp [this]

theorem followers_short (key : Str) (tokens : List Str) (h : tokens.length < 2) :
    followers key tokens = [] := by
  match tokens, h with
  | [], _ => rfl
  | [_], _ => rfl

/-- The model after training on a list of sentences, by key. -/
theorem find_foldl_addToMarkovChain (key : Str) (hkey : isSkippedKey key = false) :
    ∀ (texts : List Str) (m : Model),
      find (texts.foldl addToMarkovChain m).markovChain key =
        if (texts.flatMap (fun t => followers key (tokenize t))) = [] then
          find m.markovChain key
        else some ((find m.markovChain key).getD [] ++
          texts.flatMap (fun t => followers key (tokenize t))) := by
  intro texts
  induction texts with
  | nil => intro m; simp
  | cons t rest ih =>
    intro m
    rw [List.foldl_cons, ih]
    have hm : find (addToMarkovChain m t).markovChain key =
        if followers key (tokenize t) = [] then find m.markovChain key
        else some ((find m.markovChain key).getD [] ++ followers key (tokenize t)) := by
      unfold addToMarkovChain
      simp only []
      split
      · rename_i h
        simp [followers_short key _ h]
      · exact find_addBigrams key hkey _ _
    rw [hm]
    simp only [List.flatMap_cons, List.append_eq_nil]
    by_cases h1 : followers key (tokenize t) = [] <;>
      by_cases h2 : (rest.flatMap (fun t => followers key (tokenize t))) = [] <;>
      simp [h1, h2]

theorem find_foldl_addToMarkovChain_skipped (key : Str) (hkey : isSkippedKey key = true) :
    ∀ (texts : List Str) (m : Model),
      find (texts.foldl addToMarkovChain m).markovChain key = find m.markovChain key := by
  intro texts
  induction texts with
  | nil => intro m; rfl
  | cons t rest ih =>
    intro m
    rw [List.foldl_cons, ih]
    unfold addToMarkovChain
    simp only []
    split
    · rfl
    · exact find_addBigrams_skipped key hkey _ _

theorem sentenceStarters_addToMarkovChain (m : Model) (t : Str) :
    (addToMarkovChain m t).sentenceStarters =
      m.sentenceStarters ++ (starterOf (tokenize t)).toList := by
  unfold addToMarkovChain starterOf
  simp only []
  split
  · simp
  · cases h : tokenize t with
    | nil => simp
    | cons t0 rest =>
      simp only []
      split <;> simp

/-- The starter list after training on a list of sentences. -/
theorem sentenceStarters_foldl_addToMarkovChain :
    ∀ (texts : List Str) (m : Model),
      (texts.foldl addToMarkovChain m).sentenceStarters =
        m.sentenceStarters ++ texts.filterMap (fun t => starterOf (tokenize t)) := by
  intro texts
  induction texts with
  | nil => intro m; simp
  | cons t rest ih =>
    intro m
    rw [List.foldl_cons, ih, sentenceStarters_addToMarkovChain]
    cases h : starterOf (tokenize t) <;> simp [List.filterMap_cons, h]

/-- The successor vector of a non-punctuation key after training the empty model on a
list of sentences: the followers of the key in the tokenized sentences, in order. -/
theorem find_trained (key : Str) (hkey : isSkippedKey key = false) (texts : List String) :
    find (texts.foldl (fun m sentence => addToMarkovChain m sentence.toList)
        ⟨[], []⟩).markovChain key =
      if (texts.map (fun sentence => tokenize sentence.toList)).flatMap (followers key) = []
      then none
      else some ((texts.map (fun sentence => tokenize sentence.toList)).flatMap
        (followers key)) := by
  have h := find_foldl_addToMarkovChain key hkey (texts.map String.toList) ⟨[], []⟩
  rw [List.foldl_map] at h
  have e : (texts.map String.toList).flatMap (fun t => followers key (tokenize t)) =
      (texts.map (fun sentence => tokenize sentence.toList)).flatMap (followers key) := by
    simp [List.flatMap, List.map_map, Function.comp_def]
  rw [e] at h
  rw [h]
  simp [find]

theorem find_trained_skipped (key : Str) (hkey : isSkippedKey key = true)
    (texts : List String) :
    find (texts.foldl (fun m sentence => addToMarkovChain m sentence.toList)
        ⟨[], []⟩).markovChain key = none := by
  have h := find_foldl_addToMarkovChain_skipped key hkey (texts.map String.toList) ⟨[], []⟩
  rw [List.foldl_map] at h
  rw [h]
  rfl

/-- The starter list after training the empty model on a list of sentences. -/
theorem sentenceStarters_trained (texts : List String) :
    (texts.foldl (fun m sentence => addToMarkovChain m sentence.toList)
        ⟨[], []⟩).sentenceStarters =
      (texts.map (fun sentence => tokenize sentence.toList)).filterMap starterOf := by
  have h := sentenceStarters_foldl_addToMarkovChain (texts.map String.toList) ⟨[], []⟩
  rw [List.foldl_map] at h
  rw [h]
  simp [List.filterMap_map, Function.comp_def]

/-- The successor vector of a non-punctuation key in the built-in model: the followers of
the key in the tokenized corpus, in corpus order. -/
theorem find_initializeMarkovChain (key : Str) (hkey : isSkippedKey key = false) :
    find initializeMarkovChain.markovChain key =
      if corpusTokens.flatMap (followers key) = [] then none
      else some (corpusTokens.flatMap (followers key)) :=
  find_trained key hkey corpus

theorem find_initializeMarkovChain_skipped (key : Str) (hkey : isSkippedKey key = true) :
    find initializeMarkovChain.markovChain key = none :=
  find_trained_skipped key hkey corpus

/-- The starter list of the built-in model. -/
theorem sentenceStarters_initializeMarkovChain :
    initializeMarkovChain.sentenceStarters = corpusTokens.filterMap starterOf :=
  sentenceStarters_trained corpus


theorem sentenceOK_of_mem {toks : List Str} (h : toks ∈ corpusTokens) :
    sentenceOK (corpusTokens.filterMap List.head?) toks = true :=
  List.all_eq_true.mp corpusTokens_ok toks h

theorem isLowerWord_cons {w : Str} (h : isLowerWord w = true) :
    ∃ c cs, w = c :: cs ∧ isLowerChar c = true := by
  cases w with
  | nil => simp [isLowerWord] at h
  | cons c cs =>
    refine ⟨c, cs, rfl, ?_⟩
    simp [isLowerWord, isLowerChar] at h ⊢
    exact h.1

theorem isLowerWord_all {w : Str} (h : isLowerWord w = true) :
    ∀ c ∈ w, isLowerChar c = true := by
  intro c hc
  simp [isLowerWord] at h
  simpa [isLowerChar] using h.2 c hc

theorem isLowerChar_ne {c d : Char} (h : isLowerChar c = true) (hd : isLowerChar d = false) :
    c ≠ d := by
  intro e
  subst e
  rw [h] at hd
  exact Bool.noConfusion hd

theorem isLowerWord_not_skipped {w : Str} (h : isLowerWord w = true) :
    isSkippedKey w = false := by
  obtain ⟨c, cs, rfl, hc⟩ := isLowerWord_cons h
  have h1 : c ≠ '.' := isLowerChar_ne hc (by decide)
  have h2 : c ≠ '!' := isLowerChar_ne hc (by decide)
  have h3 : c ≠ '?' := isLowerChar_ne hc (by decide)
  have h4 : c ≠ ',' := isLowerChar_ne hc (by decide)
  have h5 : c ≠ ';' := isLowerChar_ne hc (by decide)
  have h6 : c ≠ ':' := isLowerChar_ne hc (by decide)
  simp [isSkippedKey, h1, h2, h3, h4, h5, h6]

theorem isLowerWord_not_terminal {w : Str} (h : isLowerWord w = true) :
    isTerminal w = false := by
  obtain ⟨c, cs, rfl, hc⟩ := isLowerWord_cons h
  have h1 : c ≠ '.' := isLowerChar_ne hc (by decide)
  have h2 : c ≠ '!' := isLowerChar_ne hc (by decide)
  have h3 : c ≠ '?' := isLowerChar_ne hc (by decide)
  simp [isTerminal, h1, h2, h3]

theorem isLowerWord_ne_comma {w : Str} (h : isLowerWord w = true) : w ≠ [','] := by
  obtain ⟨c, cs, rfl, hc⟩ := isLowerWord_cons h
  have h4 : c ≠ ',' := isLowerChar_ne hc (by decide)
  simp [h4]

theorem isLowerWord_no_space {w : Str} (h : isLowerWord w = true) : ' ' ∉ w := by
  intro hmem
  have := isLowerWord_all h ' ' hmem
  exact absurd this (by decide)

theorem followers_pairsOK (hs : List Str) (key x : Str) :
    ∀ toks : List Str, pairsOK hs toks = true → x ∈ followers key toks →
      isLowerWord x = true ∨ (x = ['.'] ∧ hs.contains key = false) := by
  intro toks
  induction toks with
  | nil => intro _ h; simp [followers] at h
  | cons a rest ih =>
    cases rest with
    | nil => intro _ h; simp [followers] at h
    | cons b rest =>
      intro hok hx
      simp only [pairsOK, Bool.and_eq_true] at hok
      obtain ⟨hab, hrest⟩ := hok
      unfold followers at hx
      by_cases ha : a = key
      · subst ha
        simp only [if_true, List.mem_cons] at hx
        rcases hx with rfl | hx
        · simpa using hab
        · exact ih hrest hx
      · simp only [ha, if_false] at hx
        exact ih hrest hx

theorem starterOf_eq_some {toks : List Str} {w : Str} (h : starterOf toks = some w) :
    ∃ t1 rest, toks = w :: t1 :: rest := by
  unfold starterOf at h
  split at h
  · exact absurd h (by simp)
  · rename_i hlen
    match toks, hlen, h with
    | [], hlen, _ => simp at hlen
    | [_], hlen, _ => simp at hlen
    | t0 :: t1 :: rest, _, h =>
      simp only [] at h
      split at h
      · injection h with h
        subst h
        exact ⟨t1, rest, rfl⟩
      · exact absurd h (by simp)

/-- Every starter of the built-in model is the first token of a corpus sentence: a
lower-case word of at least two letters. -/
theorem starters_spec {w : Str} (h : w ∈ initializeMarkovChain.sentenceStarters) :
    ∃ t1 rest, (w :: t1 :: rest) ∈ corpusTokens ∧ isLowerWord w = true ∧ 2 ≤ w.length ∧
      w ∈ corpusTokens.filterMap List.head? := by
  rw [sentenceStarters_initializeMarkovChain, List.mem_filterMap] at h
  obtain ⟨toks, hmem, hst⟩ := h
  obtain ⟨t1, rest, rfl⟩ := starterOf_eq_some hst
  have hok := sentenceOK_of_mem hmem
  simp only [sentenceOK, Bool.and_eq_true, decide_eq_true_eq] at hok
  refine ⟨t1, rest, hmem, hok.1.1, hok.1.2, ?_⟩
  rw [List.mem_filterMap]
  exact ⟨_, hmem, rfl⟩

theorem pairsOK_of_mem {toks : List Str} (h : toks ∈ corpusTokens) :
    pairsOK (corpusTokens.filterMap List.head?) toks = true := by
  have hok := sentenceOK_of_mem h
  unfold sentenceOK at hok
  split at hok
  · simp only [Bool.and_eq_true] at hok
    exact hok.2
  · exact absurd hok (by simp)

/-- In the built-in model every successor word is a lower-case word or `"."`. -/
theorem successors_spec {key : Str} {succs : List Str}
    (h : find initializeMarkovChain.markovChain key = some succs) :
    succs ≠ [] ∧ ∀ x ∈ succs, isLowerWord x = true ∨
      (x = ['.'] ∧ (corpusTokens.filterMap List.head?).contains key = false) := by
  by_cases hkey : isSkippedKey key = true
  · rw [find_initializeMarkovChain_skipped key hkey] at h
    exact absurd h (by simp)
  · have hkey' : isSkippedKey key = false := by simpa using hkey
    rw [find_initializeMarkovChain key hkey'] at h
    split at h
    · exact absurd h (by simp)
    · rename_i hne
      injection h with h
      subst h
      refine ⟨hne, ?_⟩
      intro x hx
      rw [List.mem_flatMap] at hx
      obtain ⟨toks, hmem, hx⟩ := hx
      exact followers_pairsOK _ key x toks (pairsOK_of_mem hmem) hx

/-- In the built-in model every starter has successors, all of them lower-case words. -/
theorem starter_successors {w : Str} (h : w ∈ initializeMarkovChain.sentenceStarters) :
    ∃ succs, find initializeMarkovChain.markovChain w = some succs ∧ succs ≠ [] ∧
      ∀ x ∈ succs, isLowerWord x = true := by
  obtain ⟨t1, rest, hmem, hlow, _, hhead⟩ := starters_spec h
  have hkey := isLowerWord_not_skipped hlow
  have hne : corpusTokens.flatMap (followers w) ≠ [] := by
    intro hnil
    have : t1 ∈ corpusTokens.flatMap (followers w) := by
      rw [List.mem_flatMap]
      exact ⟨_, hmem, by simp [followers]⟩
    rw [hnil] at this
    simp at this
  have hfind : find initializeMarkovChain.markovChain w =
      some (corpusTokens.flatMap (followers w)) := by
    rw [find_initializeMarkovChain w hkey]
    simp [hne]
  refine ⟨_, hfind, hne, ?_⟩
  intro x hx
  rcases (successors_spec hfind).2 x hx with h1 | ⟨_, h2⟩
  · exact h1
  · have : (corpusTokens.filterMap List.head?).contains w = true := by
      simpa using hhead
    rw [this] at h2
    exact Bool.noConfusion h2

theorem corpus_ne_nil : corpus ≠ [] := List.cons_ne_nil _ _

theorem corpusTokens_ne_nil : corpusTokens ≠ [] := by
  intro h
  exact corpus_ne_nil (List.map_eq_nil_iff.mp h)

theorem starterOf_of_sentenceOK {hs : List Str} {toks : List Str}
    (h : sentenceOK hs toks = true) : ∃ w, starterOf toks = some w := by
  unfold sentenceOK at h
  split at h
  · rename_i t0 t1 rest
    simp only [Bool.and_eq_true] at h
    have hterm := isLowerWord_not_terminal h.1.1
    simp only [isTerminal, Bool.or_eq_false_iff, decide_eq_false_iff_not] at hterm
    refine ⟨t0, ?_⟩
    simp [starterOf, hterm.1.1, hterm.1.2, hterm.2]
  · exact absurd h (by simp)

theorem sentenceStarters_ne_nil : initializeMarkovChain.sentenceStarters ≠ [] := by
  obtain ⟨toks, hmem⟩ := List.exists_mem_of_ne_nil _ corpusTokens_ne_nil
  obtain ⟨w, hw⟩ := starterOf_of_sentenceOK (sentenceOK_of_mem hmem)
  have : w ∈ initializeMarkovChain.sentenceStarters := by
    rw [sentenceStarters_initializeMarkovChain, List.mem_filterMap]
    exact ⟨toks, hmem, hw⟩
  exact List.ne_nil_of_mem this

theorem markovChain_ne_nil : initializeMarkovChain.markovChain ≠ [] := by
  obtain ⟨w, hw⟩ := List.exists_mem_of_ne_nil _ sentenceStarters_ne_nil
  obtain ⟨succs, hfind, _, _⟩ := starter_successors hw
  intro h
  rw [h] at hfind
  simp [find] at hfind

end TextGenerator

/-! ## The word loop of the sentence generator -/

namespace CType

theorem toNat_ofNat_of_lt (n : Nat) (h : n < 55296) : (Char.ofNat n).toNat = n := by
  have hv : n.isValidChar := Or.inl h
  unfold Char.ofNat
  rw [dif_pos hv]
  rfl

theorem toupper_of_lower (c : Char) (h1 : 97 ≤ c.toNat) (h2 : c.toNat ≤ 122) :
    (toupper c).toNat = c.toNat - 32 := by
  unfold toupper
  have : (decide (97 ≤ c.toNat) && decide (c.toNat ≤ 122)) = true := by simp [h1, h2]
  rw [if_pos this]
  exact toNat_ofNat_of_lt _ (by omega)

theorem tolower_of_not_upper (c : Char) (h : c.toNat < 65 ∨ 90 < c.toNat) : tolower c = c := by
  unfold tolower
  have : ¬ ((decide (65 ≤ c.toNat) && decide (c.toNat ≤ 90)) = true) := by
    simp only [Bool.and_eq_true, decide_eq_true_eq]
    omega
  rw [if_neg this]

theorem tolower_toupper_of_lower (c : Char) (h1 : 97 ≤ c.toNat) (h2 : c.toNat ≤ 122) :
    tolower (toupper c) = c := by
  have hu := toupper_of_lower c h1 h2
  unfold tolower
  have : (decide (65 ≤ (toupper c).toNat) && decide ((toupper c).toNat ≤ 90)) = true := by
    simp only [Bool.and_eq_true, decide_eq_true_eq]
    omega
  rw [if_pos this, hu]
  have : c.toNat - 32 + 32 = c.toNat := by omega
  rw [this, Char.ofNat_toNat]

end CType

namespace TextGenerator

theorem getD_mem_of_draw (R : RandomEngine) (succs : List Str) (hne : succs ≠ [])
    (g : R.State) :
    succs.getD (R.uniform_int_distribution 0 (succs.length - 1) g).1 [] ∈ succs := by
  have hle := R.le_hi 0 (succs.length - 1) g (Nat.zero_le _)
  have hpos : 0 < succs.length := List.length_pos.mpr hne
  have hlt : (R.uniform_int_distribution 0 (succs.length - 1) g).1 < succs.length := by omega
  rw [List.getD_eq_getElem _ _ hlt]
  exact List.getElem_mem _

theorem commaLoop_some (R : RandomEngine) (succs : List Str) (hne : succs ≠ []) :
    ∀ (n : Nat) (g g' : R.State) (w : Str), commaLoop R succs n g = (some w, g') →
      w ∈ succs ∧ isTerminal w = false ∧ w ≠ [','] := by
  intro n
  induction n with
  | zero => intro g g' w h; simp [commaLoop] at h
  | succ n ih =>
    intro g g' w h
    unfold commaLoop at h
    simp only [] at h
    split at h
    · rename_i hc
      injection h with h1 h2
      injection h1 with h1
      subst h1
      simp only [Bool.and_eq_true, bne_iff_ne, ne_eq, decide_eq_true_eq, decide_not,
        Bool.not_eq_true', decide_eq_false_iff_not] at hc
      refine ⟨getD_mem_of_draw R succs hne g, ?_, ?_⟩
      · rw [isTerminal, decide_eq_false hc.1.1.2, decide_eq_false hc.1.2,
          decide_eq_false hc.2]
        rfl
      · exact hc.1.1.1
    · exact ih _ _ _ h

/-- The state the word loop returns is reached from its initial state by loop updates. -/
theorem sentenceLoop_reaches (R : RandomEngine) (chain : List (Str × List Str)) :
    ∀ (fuel : Nat) (st : SentenceState R),
      Relation.ReflTransGen (SentenceStep chain) st (sentenceLoop R chain fuel st) := by
  intro fuel
  induction fuel with
  | zero => intro st; exact Relation.ReflTransGen.refl
  | succ fuel ih =>
    intro st
    unfold sentenceLoop
    split
    · rename_i hwc
      split
      · exact Relation.ReflTransGen.refl
      · rename_i succs hfind
        split
        · exact Relation.ReflTransGen.refl
        · rename_i hne
          have hmem := getD_mem_of_draw R succs hne st.localGen
          simp only []
          split
          · rename_i hterm
            exact Relation.ReflTransGen.single (SentenceStep.terminal st succs _ _ hfind hmem hterm)
          · rename_i hterm
            have hterm' : isTerminal (succs.getD
                (R.uniform_int_distribution 0 (succs.length - 1) st.localGen).1 []) = false := by
              simpa using hterm
            split
            · rename_i hcomma
              rw [hcomma] at hmem
              split
              · rename_i commaNext g hcl
                obtain ⟨hm, ht, hc⟩ := commaLoop_some R succs hne _ _ _ _ hcl
                refine Relation.ReflTransGen.trans ?_ (ih _)
                refine Relation.ReflTransGen.trans
                  (Relation.ReflTransGen.single
                    (SentenceStep.comma st succs st.localGen hfind hmem)) ?_
                have := @SentenceStep.word R chain
                  { st with sentence := st.sentence ++ [','], localGen := st.localGen }
                  succs commaNext g hwc hfind hm ht hc
                rw [hcomma]
                exact Relation.ReflTransGen.single (by simpa using this)
              · rename_i g hcl
                rw [hcomma]
                exact Relation.ReflTransGen.single (SentenceStep.comma st succs g hfind hmem)
            · rename_i hcomma
              have hword := fun g => @SentenceStep.word R chain st succs _ g
                hwc hfind hmem hterm' hcomma
              split
              · rename_i h8
                split
                · refine Relation.ReflTransGen.trans
                    (Relation.ReflTransGen.single (hword st.localGen)) ?_
                  exact Relation.ReflTransGen.single
                    (SentenceStep.earlyEnd _ _ (by simpa using h8))
                · exact Relation.ReflTransGen.trans
                    (Relation.ReflTransGen.single (hword _)) (ih _)
              · exact Relation.ReflTransGen.trans
                  (Relation.ReflTransGen.single (hword _)) (ih _)
    · exact Relation.ReflTransGen.refl

end TextGenerator

namespace TextGenerator

theorem isLowerChar_iff (c : Char) : isLowerChar c = true ↔ 97 ≤ c.toNat ∧ c.toNat ≤ 122 := by
  simp [isLowerChar]

theorem isUpperChar_iff (c : Char) : isUpperChar c = true ↔ 65 ≤ c.toNat ∧ c.toNat ≤ 90 := by
  simp [isUpperChar]

theorem isUpperChar_toupper {c : Char} (h : isLowerChar c = true) :
    isUpperChar (CType.toupper c) = true := by
  rw [isLowerChar_iff] at h
  rw [isUpperChar_iff, CType.toupper_of_lower c h.1 h.2]
  omega

theorem map_tolower_of_lower : ∀ (w : Str), (∀ c ∈ w, isLowerChar c = true) →
    w.map CType.tolower = w := by
  intro w
  induction w with
  | nil => intro _; rfl
  | cons c cs ih =>
    intro h
    have hc := (isLowerChar_iff c).mp (h c (List.mem_cons_self _ _))
    rw [List.map_cons, ih (fun d hd => h d (List.mem_cons_of_mem _ hd)),
      CType.tolower_of_not_upper c (by omega)]

/-- Lower-casing the capitalized form of a lower-case word gives the word back. -/
theorem map_tolower_capitalize {w : Str} (h : isLowerWord w = true) :
    (capitalize w).map CType.tolower = w := by
  obtain ⟨c, cs, rfl, hc⟩ := isLowerWord_cons h
  have hall := isLowerWord_all h
  have hc' := (isLowerChar_iff c).mp hc
  rw [capitalize, List.map_cons, CType.tolower_toupper_of_lower c hc'.1 hc'.2,
    map_tolower_of_lower cs (fun d hd => hall d (List.mem_cons_of_mem _ hd))]

theorem isUpperChar_ne_space {c : Char} (h : isUpperChar c = true) : c ≠ ' ' := by
  intro e
  subst e
  exact absurd h (by decide)

theorem capitalize_no_space {w : Str} (h : isLowerWord w = true) : ' ' ∉ capitalize w := by
  obtain ⟨c, cs, rfl, hc⟩ := isLowerWord_cons h
  have hall := isLowerWord_all h
  intro hmem
  rw [capitalize, List.mem_cons] at hmem
  rcases hmem with h1 | h1
  · exact isUpperChar_ne_space (isUpperChar_toupper hc) h1.symm
  · exact absurd (hall ' ' (List.mem_cons_of_mem _ h1)) (by decide)

theorem SentenceStep.sentence_prefix {R : RandomEngine} {chain : List (Str × List Str)}
    {st st' : SentenceState R} (h : SentenceStep chain st st') :
    ∃ suffix, st'.sentence = st.sentence ++ suffix := by
  cases h with
  | terminal succs w g _ _ _ => exact ⟨w, rfl⟩
  | comma succs g _ _ => exact ⟨[','], rfl⟩
  | word succs w g _ _ _ _ _ => exact ⟨[' '] ++ w, rfl⟩
  | earlyEnd g _ => exact ⟨['.'], rfl⟩

theorem sentenceLoop_prefix (R : RandomEngine) (chain : List (Str × List Str)) (fuel : Nat)
    (st : SentenceState R) :
    ∃ suffix, (sentenceLoop R chain fuel st).sentence = st.sentence ++ suffix := by
  have h := sentenceLoop_reaches R chain fuel st
  generalize sentenceLoop R chain fuel st = st' at h
  induction h with
  | refl => exact ⟨[], by simp⟩
  | tail _ hstep ih =>
    obtain ⟨s1, h1⟩ := ih
    obtain ⟨s2, h2⟩ := hstep.sentence_prefix
    exact ⟨s1 ++ s2, by rw [h2, h1, List.append_assoc]⟩

/-- When the current word has successors and all of them are plain words, the loop appends
a space and one of them. -/
theorem sentenceLoop_first_word (R : RandomEngine) (chain : List (Str × List Str)) (fuel : Nat)
    (st : SentenceState R) (succs : List Str) (hwc : st.wordCount < maxLength)
    (hfind : find chain st.lowerCurrent = some succs) (hne : succs ≠ [])
    (hplain : ∀ x ∈ succs, isTerminal x = false ∧ x ≠ [',']) :
    ∃ x ∈ succs, ∃ rest,
      (sentenceLoop R chain (fuel + 1) st).sentence = st.sentence ++ ([' '] ++ x) ++ rest := by
  have hmem := getD_mem_of_draw R succs hne st.localGen
  obtain ⟨ht, hc⟩ := hplain _ hmem
  refine ⟨_, hmem, ?_⟩
  unfold sentenceLoop
  simp only [hwc, if_true, hfind, hne, if_false, ht, Bool.false_eq_true, hc]
  split
  · split
    · exact ⟨['.'], rfl⟩
    · obtain ⟨suffix, h⟩ := sentenceLoop_prefix R chain fuel
        { sentence := st.sentence ++ ([' '] ++ succs.getD
            (R.uniform_int_distribution 0 (succs.length - 1) st.localGen).1 [])
          lowerCurrent := succs.getD
            (R.uniform_int_distribution 0 (succs.length - 1) st.localGen).1 []
          wordCount := st.wordCount + 1
          localGen := (R.uniform_int_distribution 0 15
            (R.uniform_int_distribution 0 (succs.length - 1) st.localGen).2).2 }
      exact ⟨suffix, h⟩
  · obtain ⟨suffix, h⟩ := sentenceLoop_prefix R chain fuel
      { sentence := st.sentence ++ ([' '] ++ succs.getD
          (R.uniform_int_distribution 0 (succs.length - 1) st.localGen).1 [])
        lowerCurrent := succs.getD
          (R.uniform_int_distribution 0 (succs.length - 1) st.localGen).1 []
        wordCount := st.wordCount + 1
        localGen := (R.uniform_int_distribution 0 (succs.length - 1) st.localGen).2 }
    exact ⟨suffix, h⟩

/-- The sentence is the final loop sentence, followed by at most one terminal mark. -/
theorem generateSentenceMarkov_unfold (R : RandomEngine) (m : Model) (seed : Nat)
    (h1 : m.markovChain ≠ []) (h2 : m.sentenceStarters ≠ []) :
    ∃ w ∈ m.sentenceStarters, ∃ (g : R.State) (tail : Str),
      (generateSentenceMarkov R m seed).1 =
        (sentenceLoop R m.markovChain maxLength
          { sentence := capitalize w, lowerCurrent := (capitalize w).map CType.tolower
            wordCount := 1, localGen := g }).sentence ++ tail ∧
      (tail = [] ∨ tail = ['.'] ∨ tail = ['!'] ∨ tail = ['?']) := by
  refine ⟨_, getD_mem_of_draw R m.sentenceStarters h2 (R.mt19937 seed),
    (R.uniform_int_distribution 0 (m.sentenceStarters.length - 1) (R.mt19937 seed)).2, ?_⟩
  unfold generateSentenceMarkov
  have he : (m.markovChain.isEmpty || m.sentenceStarters.isEmpty) = false := by
    cases hm : m.markovChain with
    | nil => exact absurd hm h1
    | cons a as =>
      cases hs : m.sentenceStarters with
      | nil => exact absurd hs h2
      | cons b bs => rfl
  simp only [he, Bool.false_eq_true, if_false]
  split
  · split
    · exact ⟨['.'], rfl, Or.inr (Or.inl rfl)⟩
    · split
      · exact ⟨['!'], rfl, Or.inr (Or.inr (Or.inl rfl))⟩
      · exact ⟨['?'], rfl, Or.inr (Or.inr (Or.inr rfl))⟩
  · exact ⟨[], by simp, Or.inl rfl⟩

end TextGenerator

/-! ## Sentences of the built-in model -/

namespace TextGenerator

theorem takeWhile_ne_space_append : ∀ (l rest : Str), ' ' ∉ l →
    (l ++ ' ' :: rest).takeWhile (fun c => c != ' ') = l := by
  intro l
  induction l with
  | nil => intro rest _; simp [List.takeWhile]
  | cons c cs ih =>
    intro rest h
    have hc : c ≠ ' ' := fun e => h (by rw [e]; exact List.mem_cons_self _ _)
    have hcs : ' ' ∉ cs := fun hm => h (List.mem_cons_of_mem _ hm)
    rw [List.cons_append, List.takeWhile_cons, ih rest hcs]
    simp [hc]

theorem splitOnP_go_length {α : Type} (P : α → Bool) :
    ∀ (l acc : List α), (List.splitOnP.go P l acc).length = l.countP P + 1 := by
  intro l
  induction l with
  | nil => intro acc; simp [List.splitOnP.go]
  | cons a t ih =>
    intro acc
    unfold List.splitOnP.go
    by_cases h : P a = true
    · simp [h, ih, List.countP_cons]
    · simp [h, ih, List.countP_cons]

/-- The number of space-separated items of a text is its number of spaces plus one. -/
theorem length_splitOn_space (s : Str) : (s.splitOn ' ').length = s.count ' ' + 1 := by
  unfold List.splitOn List.splitOnP List.count
  rw [splitOnP_go_length]

/-- The shape of a sentence generated on the built-in model: a capitalized starter, a
space, a successor of the starter, and the rest. -/
theorem builtin_sentence_shape (R : RandomEngine) (seed : Nat) :
    ∃ w ∈ initializeMarkovChain.sentenceStarters, ∃ x rest,
      isLowerWord w = true ∧ 2 ≤ w.length ∧
      (generateSentenceMarkov R initializeMarkovChain seed).1 =
        capitalize w ++ ([' '] ++ x) ++ rest := by
  obtain ⟨w, hw, g, tail, hs, _⟩ := generateSentenceMarkov_unfold R initializeMarkovChain seed
    markovChain_ne_nil sentenceStarters_ne_nil
  obtain ⟨_, _, _, hlow, hlen, _⟩ := starters_spec hw
  obtain ⟨succs, hfind, hne, hall⟩ := starter_successors hw
  have hlc : (capitalize w).map CType.tolower = w := map_tolower_capitalize hlow
  obtain ⟨x, _, rest, hx⟩ := sentenceLoop_first_word R initializeMarkovChain.markovChain 24
    { sentence := capitalize w, lowerCurrent := (capitalize w).map CType.tolower
      wordCount := 1, localGen := g } succs (by show 1 < maxLength; decide)
    (by rw [hlc]; exact hfind) hne
    (fun y hy => ⟨isLowerWord_not_terminal (hall y hy), isLowerWord_ne_comma (hall y hy)⟩)
  refine ⟨w, hw, x, rest ++ tail, hlow, hlen, ?_⟩
  rw [hs]
  have : maxLength = 24 + 1 := rfl
  rw [this, hx]
  simp

/-- A sentence generated on the built-in model begins with an upper-case letter followed
by a lower-case letter. -/
theorem builtin_sentence_head (R : RandomEngine) (seed : Nat) :
    ∃ c0 c1 rest, (generateSentenceMarkov R initializeMarkovChain seed).1 = c0 :: c1 :: rest ∧
      isUpperChar c0 = true ∧ isLowerChar c1 = true := by
  obtain ⟨w, _, x, rest, hlow, hlen, hs⟩ := builtin_sentence_shape R seed
  have hall := isLowerWord_all hlow
  obtain ⟨c, cs, rfl, hc⟩ := isLowerWord_cons hlow
  cases cs with
  | nil => simp at hlen
  | cons c' cs =>
    refine ⟨CType.toupper c, c', cs ++ ([' '] ++ x) ++ rest, ?_, ?_, ?_⟩
    · rw [hs]; simp [capitalize]
    · exact isUpperChar_toupper hc
    · exact hall c' (List.mem_cons_of_mem _ (List.mem_cons_self _ _))

theorem SentenceStep.spaces {R : RandomEngine} {chain : List (Str × List Str)}
    (hchain : ∀ key succs, find chain key = some succs → ∀ x ∈ succs, ' ' ∉ x)
    {st st' : SentenceState R} (h : SentenceStep chain st st')
    (hinv : st.sentence.count ' ' + 1 ≤ st.wordCount ∧ st.wordCount ≤ maxLength) :
    st'.sentence.count ' ' + 1 ≤ st'.wordCount ∧ st'.wordCount ≤ maxLength := by
  cases h with
  | terminal succs w g hfind hmem _ =>
    have := List.count_eq_zero_of_not_mem (hchain _ _ hfind w hmem)
    simp only [List.count_append, this]
    exact hinv
  | comma succs g _ _ =>
    have : List.count ' ' [','] = 0 := by decide
    simp only [List.count_append, this]
    exact hinv
  | word succs w g hwc hfind hmem _ _ =>
    have := List.count_eq_zero_of_not_mem (hchain _ _ hfind w hmem)
    have h1 : List.count ' ' [' '] = 1 := by decide
    simp only [List.count_append, this, h1]
    omega
  | earlyEnd g _ =>
    have : List.count ' ' ['.'] = 0 := by decide
    simp only [List.count_append, this]
    exact hinv

theorem sentenceLoop_spaces (R : RandomEngine) (chain : List (Str × List Str))
    (hchain : ∀ key succs, find chain key = some succs → ∀ x ∈ succs, ' ' ∉ x)
    (fuel : Nat) (st : SentenceState R)
    (hinv : st.sentence.count ' ' + 1 ≤ st.wordCount ∧ st.wordCount ≤ maxLength) :
    (sentenceLoop R chain fuel st).sentence.count ' ' + 1 ≤
        (sentenceLoop R chain fuel st).wordCount ∧
      (sentenceLoop R chain fuel st).wordCount ≤ maxLength := by
  have h := sentenceLoop_reaches R chain fuel st
  generalize sentenceLoop R chain fuel st = st' at h
  induction h with
  | refl => exact hinv
  | tail _ hstep ih => exact hstep.spaces hchain ih

theorem builtin_successors_no_space (key : Str) (succs : List Str)
    (h : find initializeMarkovChain.markovChain key = some succs) :
    ∀ x ∈ succs, ' ' ∉ x := by
  intro x hx
  rcases (successors_spec h).2 x hx with h1 | ⟨h1, _⟩
  · exact isLowerWord_no_space h1
  · rw [h1]; decide

/-- A sentence generated on the built-in model has at most 24 spaces. -/
theorem builtin_sentence_spaces (R : RandomEngine) (seed : Nat) :
    (generateSentenceMarkov R initializeMarkovChain seed).1.count ' ' ≤ 24 := by
  obtain ⟨w, hw, g, tail, hs, htail⟩ := generateSentenceMarkov_unfold R initializeMarkovChain
    seed markovChain_ne_nil sentenceStarters_ne_nil
  obtain ⟨_, _, _, hlow, _, _⟩ := starters_spec hw
  have h0 : List.count ' ' (capitalize w) = 0 :=
    List.count_eq_zero_of_not_mem (capitalize_no_space hlow)
  have hinv := sentenceLoop_spaces R initializeMarkovChain.markovChain
    builtin_successors_no_space maxLength
    { sentence := capitalize w, lowerCurrent := (capitalize w).map CType.tolower
      wordCount := 1, localGen := g }
    (by simp only [h0]; decide)
  have ht : List.count ' ' tail = 0 := by
    rcases htail with h | h | h | h <;> rw [h] <;> decide
  rw [hs, List.count_append, ht]
  have : maxLength = 25 := rfl
  omega

end TextGenerator

/-! ## Properties of the sentence and paragraph generators -/

namespace TextGenerator

/-- C4. For every engine and every seed, the sentence that `generateSentenceMarkov`
returns on the built-in model is non-empty and its last character is `.`, `!` or `?`. -/
theorem generateSentenceMarkov_ends_with_terminal (R : RandomEngine) (seed : Nat) :
    (generateSentenceMarkov R initializeMarkovChain seed).1 ≠ [] ∧
    ((generateSentenceMarkov R initializeMarkovChain seed).1.getLast? = some '.' ∨
     (generateSentenceMarkov R initializeMarkovChain seed).1.getLast? = some '!' ∨
     (generateSentenceMarkov R initializeMarkovChain seed).1.getLast? = some '?') :=
  ⟨generateSentenceMarkov_ne_nil R initializeMarkovChain seed,
    generateSentenceMarkov_getLast? R initializeMarkovChain seed⟩

/-- C5. For every engine and every seed, the sentence generated on the built-in model
begins with a starter word whose first character has been upper-cased: its first
space-separated word is `capitalize w` for a starter `w`, that word lower-cased is a member
of the starter list, and the first character of the sentence is an upper-case letter. -/
theorem generateSentenceMarkov_starts_with_starter (R : RandomEngine) (seed : Nat) :
    ((generateSentenceMarkov R initializeMarkovChain seed).1.takeWhile
        (fun c => c != ' ')).map CType.tolower ∈ initializeMarkovChain.sentenceStarters ∧
    (∃ w ∈ initializeMarkovChain.sentenceStarters,
      (generateSentenceMarkov R initializeMarkovChain seed).1.takeWhile (fun c => c != ' ') =
        capitalize w) ∧
    (∃ c, (generateSentenceMarkov R initializeMarkovChain seed).1.head? = some c ∧
      isUpperChar c = true) := by
  obtain ⟨w, hw, x, rest, hlow, _, hs⟩ := builtin_sentence_shape R seed
  have htake : (generateSentenceMarkov R initializeMarkovChain seed).1.takeWhile
      (fun c => c != ' ') = capitalize w := by
    rw [hs, List.append_assoc, List.singleton_append, List.cons_append]
    exact takeWhile_ne_space_append _ _ (capitalize_no_space hlow)
  refine ⟨?_, ⟨w, hw, htake⟩, ?_⟩
  · rw [htake, map_tolower_capitalize hlow]
    exact hw
  · obtain ⟨c, cs, rfl, hc⟩ := isLowerWord_cons hlow
    exact ⟨CType.toupper c, by rw [hs]; rfl, isUpperChar_toupper hc⟩

/-- C6. For every engine and every seed, the sentence generated on the built-in model has
at most 25 space-separated words, that is at most 24 spaces. -/
theorem generateSentenceMarkov_at_most_25_words (R : RandomEngine) (seed : Nat) :
    ((generateSentenceMarkov R initializeMarkovChain seed).1.splitOn ' ').length ≤ 25 ∧
    (generateSentenceMarkov R initializeMarkovChain seed).1.count ' ' ≤ 24 := by
  have h := builtin_sentence_spaces R seed
  rw [length_splitOn_space]
  omega

/-- C7. For a cursor `seed` (an `unsigned int`) and enough fuel: with `targetSize = 0`,
`generateParagraph` returns the empty string and leaves the cursor unchanged; with
`targetSize > 0` it returns the first `k` sentences, generated from the cursors `seed`,
`seed + 1`, ..., `seed + k - 1` and joined by single spaces, where `k` is the least number
for which the joined length reaches `targetSize`, and sets the cursor to `seed + k`
modulo `2 ^ 32`. -/
theorem generateParagraph_least_sentences (R : RandomEngine) (m : Model)
    (fuel seed targetSize : Nat) (hseed : seed < 2 ^ 32) (hfuel : targetSize < fuel) :
    (targetSize = 0 → generateParagraph R m fuel seed targetSize = some ([], seed)) ∧
    (0 < targetSize → ∃ k, 0 < k ∧
      generateParagraph R m fuel seed targetSize =
        some (joinSentences (sentenceAt R m seed) k, (seed + k) % 2 ^ 32) ∧
      targetSize ≤ (joinSentences (sentenceAt R m seed) k).length ∧
      (joinSentences (sentenceAt R m seed) (k - 1)).length < targetSize ∧
      ∀ i, i < k → (joinSentences (sentenceAt R m seed) i).length < targetSize) := by
  constructor
  · intro h0
    subst h0
    exact generateParagraph_zero R m fuel seed hfuel
  · intro hT
    obtain ⟨k, hk, e, hge, hmin⟩ :=
      generateParagraph_joined R m fuel seed targetSize hT (Nat.le_of_lt hfuel)
    rw [sentenceIter_eq_sentenceAt R m seed hseed, iterate_incrSeed seed hseed] at e
    rw [sentenceIter_eq_sentenceAt R m seed hseed] at hge hmin
    exact ⟨k, hk, e, hge, hmin (k - 1) (by omega), hmin⟩

/-- C7, at a concrete input: the built-in model, cursor 12345 and target 1000. -/
theorem generateParagraph_least_sentences_witness :
    (1000 = 0 → generateParagraph lcgEngine initializeMarkovChain 1001 12345 1000 =
      some ([], 12345)) ∧
    (0 < 1000 → ∃ k, 0 < k ∧
      generateParagraph lcgEngine initializeMarkovChain 1001 12345 1000 =
        some (joinSentences (sentenceAt lcgEngine initializeMarkovChain 12345) k,
          (12345 + k) % 2 ^ 32) ∧
      1000 ≤ (joinSentences (sentenceAt lcgEngine initializeMarkovChain 12345) k).length ∧
      (joinSentences (sentenceAt lcgEngine initializeMarkovChain 12345) (k - 1)).length < 1000 ∧
      ∀ i, i < k →
        (joinSentences (sentenceAt lcgEngine initializeMarkovChain 12345) i).length < 1000) :=
  generateParagraph_least_sentences lcgEngine initializeMarkovChain 1001 12345 1000
    (by decide) (by decide)

end TextGenerator

/-! ## The buffer generator -/

namespace TextGenerator

theorem generateTextToBufferLoop_done (R : RandomEngine) (m : Model) (n fuel : Nat)
    (buffer : Str) (bg c : Nat) (h : n ≤ bg) :
    generateTextToBufferLoop R m n (fuel + 1) buffer bg c = some (buffer, c) := by
  rw [generateTextToBufferLoop]
  simp [Nat.not_lt.mpr h]

/-- The last paragraph does not fit: it is cut to the remaining size and the loop ends. -/
theorem generateTextToBufferLoop_cut (R : RandomEngine) (m : Model) (n fuel : Nat)
    (buffer : Str) (bg c : Nat) (hf : PARAGRAPH_SIZE ≤ fuel) (h1 : bg < n)
    (h2 : n - bg < (paragraphAt R m c).1.length) :
    generateTextToBufferLoop R m n (fuel + 1) buffer bg c =
      some (buffer ++ (paragraphAt R m c).1.take (n - bg), (paragraphAt R m c).2) := by
  rw [generateTextToBufferLoop, generateParagraph_eq_paragraphAt R m fuel c hf]
  have hmin : min (paragraphAt R m c).1.length (n - bg) = n - bg := by omega
  simp only [h1, if_true, hmin, h2]

/-- The paragraph and its separator fit. -/
theorem generateTextToBufferLoop_sep (R : RandomEngine) (m : Model) (n fuel : Nat)
    (buffer : Str) (bg c : Nat) (hf : PARAGRAPH_SIZE ≤ fuel)
    (h : bg + (paragraphAt R m c).1.length + 2 ≤ n) :
    generateTextToBufferLoop R m n (fuel + 1) buffer bg c =
      generateTextToBufferLoop R m n fuel
        (buffer ++ (paragraphAt R m c).1 ++ ['\n', '\n'])
        (bg + (paragraphAt R m c).1.length + 2) (paragraphAt R m c).2 := by
  rw [generateTextToBufferLoop, generateParagraph_eq_paragraphAt R m fuel c hf]
  have h1 : bg < n := by omega
  have hmin : min (paragraphAt R m c).1.length (n - bg) = (paragraphAt R m c).1.length := by
    omega
  simp only [h1, if_true, hmin, Nat.lt_irrefl, if_false, h, List.take_length]

/-- The paragraph fits and its separator does not: no separator is added. -/
theorem generateTextToBufferLoop_nosep (R : RandomEngine) (m : Model) (n fuel : Nat)
    (buffer : Str) (bg c : Nat) (hf : PARAGRAPH_SIZE ≤ fuel) (h0 : bg < n)
    (h1 : bg + (paragraphAt R m c).1.length ≤ n)
    (h2 : n < bg + (paragraphAt R m c).1.length + 2) :
    generateTextToBufferLoop R m n (fuel + 1) buffer bg c =
      generateTextToBufferLoop R m n fuel (buffer ++ (paragraphAt R m c).1)
        (bg + (paragraphAt R m c).1.length) (paragraphAt R m c).2 := by
  rw [generateTextToBufferLoop, generateParagraph_eq_paragraphAt R m fuel c hf]
  have hmin : min (paragraphAt R m c).1.length (n - bg) = (paragraphAt R m c).1.length := by
    omega
  have h3 : ¬ (bg + (paragraphAt R m c).1.length + 2 ≤ n) := by omega
  simp only [h0, if_true, hmin, Nat.lt_irrefl, if_false, h3, List.take_length]

/-- With enough fuel the loop of `generateTextToBuffer` returns, and the buffer then holds
exactly `n` bytes. -/
theorem generateTextToBufferLoop_length (R : RandomEngine) (m : Model) (n : Nat) :
    ∀ (fuel : Nat) (buffer : Str) (c : Nat), buffer.length ≤ n →
      n - buffer.length + PARAGRAPH_SIZE + 1 ≤ fuel →
      ∃ out c', generateTextToBufferLoop R m n fuel buffer buffer.length c = some (out, c') ∧
        out.length = n := by
  intro fuel
  induction fuel with
  | zero => intro buffer c _ h; omega
  | succ fuel ih =>
    intro buffer c hle hfuel
    have hp := paragraphAt_length R m c
    have hP : PARAGRAPH_SIZE = 1000 := rfl
    by_cases h0 : buffer.length < n
    · have hf : PARAGRAPH_SIZE ≤ fuel := by omega
      by_cases h1 : n - buffer.length < (paragraphAt R m c).1.length
      · refine ⟨_, _, generateTextToBufferLoop_cut R m n fuel buffer _ c hf h0 h1, ?_⟩
        rw [List.length_append, List.length_take]
        omega
      · by_cases h2 : buffer.length + (paragraphAt R m c).1.length + 2 ≤ n
        · rw [generateTextToBufferLoop_sep R m n fuel buffer _ c hf h2]
          have hlen : (buffer ++ (paragraphAt R m c).1 ++ ['\n', '\n']).length =
              buffer.length + (paragraphAt R m c).1.length + 2 := by
            rw [List.length_append, List.length_append]
            rfl
          rw [← hlen]
          exact ih _ _ (by omega) (by omega)
        · rw [generateTextToBufferLoop_nosep R m n fuel buffer _ c hf h0 (by omega) (by omega)]
          have hlen : (buffer ++ (paragraphAt R m c).1).length =
              buffer.length + (paragraphAt R m c).1.length := by
            simp [List.length_append]
          rw [← hlen]
          exact ih _ _ (by omega) (by omega)
    · have : buffer.length = n := by omega
      exact ⟨buffer, c, generateTextToBufferLoop_done R m n fuel buffer _ c (by omega), this⟩

/-- With enough fuel `generateTextToBuffer` is its loop: the final `resize` changes nothing. -/
theorem generateTextToBuffer_eq_loop (R : RandomEngine) (m : Model) (fuel : Nat) (buf : Str)
    (n seed : Nat) (hfuel : n + PARAGRAPH_SIZE + 1 ≤ fuel) :
    generateTextToBuffer R m fuel buf n seed = generateTextToBufferLoop R m n fuel [] 0 seed := by
  obtain ⟨out, c', h, hlen⟩ := generateTextToBufferLoop_length R m n fuel [] seed
    (Nat.zero_le _) (by simpa using hfuel)
  have h' : generateTextToBufferLoop R m n fuel [] 0 seed = some (out, c') := h
  unfold generateTextToBuffer
  rw [h']
  simp [hlen]

end TextGenerator

namespace TextGenerator

/-- The result of the loop of `generateTextToBuffer` does not depend on the fuel, once it
suffices. -/
theorem generateTextToBufferLoop_fuel (R : RandomEngine) (m : Model) (n : Nat) :
    ∀ (f1 f2 : Nat) (buffer : Str) (c : Nat), buffer.length ≤ n →
      n - buffer.length + PARAGRAPH_SIZE + 1 ≤ f1 →
      n - buffer.length + PARAGRAPH_SIZE + 1 ≤ f2 →
      generateTextToBufferLoop R m n f1 buffer buffer.length c =
        generateTextToBufferLoop R m n f2 buffer buffer.length c := by
  intro f1
  induction f1 with
  | zero => intro f2 buffer c _ h; omega
  | succ f1 ih =>
    intro f2 buffer c hle h1 h2
    obtain ⟨f2, rfl⟩ : ∃ f, f2 = f + 1 := ⟨f2 - 1, by omega⟩
    have hp := paragraphAt_length R m c
    have hP : PARAGRAPH_SIZE = 1000 := rfl
    by_cases h0 : buffer.length < n
    · have hf1 : PARAGRAPH_SIZE ≤ f1 := by omega
      have hf2 : PARAGRAPH_SIZE ≤ f2 := by omega
      by_cases hc : n - buffer.length < (paragraphAt R m c).1.length
      · rw [generateTextToBufferLoop_cut R m n f1 buffer _ c hf1 h0 hc,
          generateTextToBufferLoop_cut R m n f2 buffer _ c hf2 h0 hc]
      · by_cases hs : buffer.length + (paragraphAt R m c).1.length + 2 ≤ n
        · rw [generateTextToBufferLoop_sep R m n f1 buffer _ c hf1 hs,
            generateTextToBufferLoop_sep R m n f2 buffer _ c hf2 hs]
          have hlen : (buffer ++ (paragraphAt R m c).1 ++ ['\n', '\n']).length =
              buffer.length + (paragraphAt R m c).1.length + 2 := by
            rw [List.length_append, List.length_append]
            rfl
          rw [← hlen]
          exact ih f2 _ _ (by omega) (by omega) (by omega)
        · rw [generateTextToBufferLoop_nosep R m n f1 buffer _ c hf1 h0 (by omega) (by omega),
            generateTextToBufferLoop_nosep R m n f2 buffer _ c hf2 h0 (by omega) (by omega)]
          have hlen : (buffer ++ (paragraphAt R m c).1).length =
              buffer.length + (paragraphAt R m c).1.length := by
            rw [List.length_append]
          rw [← hlen]
          exact ih f2 _ _ (by omega) (by omega) (by omega)
    · rw [generateTextToBufferLoop_done R m n f1 buffer _ c (by omega),
        generateTextToBufferLoop_done R m n f2 buffer _ c (by omega)]

theorem textStream_length_succ (R : RandomEngine) (m : Model) (j c : Nat) :
    (textStream R m (j + 1) c).length =
      (paragraphAt R m c).1.length + 2 + (textStream R m j (paragraphAt R m c).2).length := by
  rw [textStream, List.length_append, List.length_append]
  simp only [List.length_cons, List.length_nil]
  omega

theorem textStream_length_ge (R : RandomEngine) (m : Model) :
    ∀ (j c : Nat), j ≤ (textStream R m j c).length := by
  intro j
  induction j with
  | zero => intro c; exact Nat.zero_le _
  | succ j ih =>
    intro c
    rw [textStream_length_succ]
    have := ih (paragraphAt R m c).2
    omega

/-- Running the loop over `j` paragraphs that fit together with their separators. -/
theorem generateTextToBufferLoop_run (R : RandomEngine) (m : Model) (n : Nat) :
    ∀ (j fuel : Nat) (buffer : Str) (c : Nat), PARAGRAPH_SIZE ≤ fuel →
      buffer.length + (textStream R m j c).length ≤ n →
      generateTextToBufferLoop R m n (fuel + j) buffer buffer.length c =
        generateTextToBufferLoop R m n fuel (buffer ++ textStream R m j c)
          (buffer ++ textStream R m j c).length (cursorAfter R m j c) := by
  intro j
  induction j with
  | zero => intro fuel buffer c _ _; simp [textStream, cursorAfter]
  | succ j ih =>
    intro fuel buffer c hf hle
    rw [textStream_length_succ] at hle
    have hstep := generateTextToBufferLoop_sep R m n (fuel + j) buffer buffer.length c
      (by omega) (by omega)
    have hlen : (buffer ++ (paragraphAt R m c).1 ++ ['\n', '\n']).length =
        buffer.length + (paragraphAt R m c).1.length + 2 := by
      rw [List.length_append, List.length_append]
      rfl
    rw [← hlen] at hstep
    have hadd : fuel + (j + 1) = fuel + j + 1 := rfl
    rw [hadd, hstep, ih fuel _ _ hf (by rw [hlen]; omega)]
    simp [textStream, cursorAfter, List.append_assoc]

/-- The loop only looks at the bytes still to generate: a larger target with as many bytes
already generated gives the same continuation. -/
theorem generateTextToBufferLoop_shift (R : RandomEngine) (m : Model) (n b : Nat) (pre : Str) :
    ∀ (fuel : Nat) (buffer : Str) (bg c : Nat),
      generateTextToBufferLoop R m (b + n) fuel (pre ++ buffer) (b + bg) c =
        (generateTextToBufferLoop R m n fuel buffer bg c).map (fun r => (pre ++ r.1, r.2)) := by
  intro fuel
  induction fuel with
  | zero => intro buffer bg c; rfl
  | succ fuel ih =>
    intro buffer bg c
    rw [generateTextToBufferLoop, generateTextToBufferLoop]
    by_cases h0 : bg < n
    · have h0' : b + bg < b + n := by omega
      have hsub : b + n - (b + bg) = n - bg := by omega
      simp only [h0, h0', if_true, hsub]
      cases generateParagraph R m fuel c PARAGRAPH_SIZE with
      | none => rfl
      | some r =>
        obtain ⟨paragraph, c1⟩ := r
        simp only []
        by_cases h1 : min paragraph.length (n - bg) < paragraph.length
        · simp [h1, List.append_assoc]
        · simp only [h1, if_false]
          by_cases h2 : bg + min paragraph.length (n - bg) + 2 ≤ n
          · have h2' : b + bg + min paragraph.length (n - bg) + 2 ≤ b + n := by omega
            simp only [h2, h2', if_true]
            have e1 : b + bg + min paragraph.length (n - bg) + 2 =
                b + (bg + min paragraph.length (n - bg) + 2) := by omega
            rw [e1, ← ih]
            simp [List.append_assoc]
          · have h2' : ¬ (b + bg + min paragraph.length (n - bg) + 2 ≤ b + n) := by omega
            simp only [h2, h2', if_false]
            have e1 : b + bg + min paragraph.length (n - bg) =
                b + (bg + min paragraph.length (n - bg)) := by omega
            rw [e1, ← ih]
            simp [List.append_assoc]
    · have h0' : ¬ (b + bg < b + n) := by omega
      simp [h0, h0']

/-- Away from the one-byte gap after a paragraph, the loop of `generateTextToBuffer` fills
the buffer with the next bytes of the paragraph stream. -/
theorem generateTextToBufferLoop_stream (R : RandomEngine) (m : Model) (n : Nat) :
    ∀ (fuel : Nat) (buffer : Str) (c k : Nat), buffer.length ≤ n →
      n - buffer.length + PARAGRAPH_SIZE + 1 ≤ fuel → n - buffer.length ≤ k →
      (∀ j, buffer.length + (textStream R m j c).length ≠ n + 1) →
      ∃ c', generateTextToBufferLoop R m n fuel buffer buffer.length c =
        some (buffer ++ (textStream R m k c).take (n - buffer.length), c') := by
  intro fuel
  induction fuel with
  | zero => intro buffer c k _ h; omega
  | succ fuel ih =>
    intro buffer c k hle hfuel hk hedge
    have hp := paragraphAt_length R m c
    have hP : PARAGRAPH_SIZE = 1000 := rfl
    by_cases h0 : buffer.length < n
    · have hf : PARAGRAPH_SIZE ≤ fuel := by omega
      obtain ⟨k, rfl⟩ : ∃ k', k = k' + 1 := ⟨k - 1, by omega⟩
      by_cases hc : n - buffer.length < (paragraphAt R m c).1.length
      · refine ⟨(paragraphAt R m c).2, ?_⟩
        rw [generateTextToBufferLoop_cut R m n fuel buffer _ c hf h0 hc, textStream,
          List.take_append_of_le_length (Nat.le_of_lt hc)]
      · by_cases hs : buffer.length + (paragraphAt R m c).1.length + 2 ≤ n
        · have hlen : (buffer ++ (paragraphAt R m c).1 ++ ['\n', '\n']).length =
              buffer.length + (paragraphAt R m c).1.length + 2 := by
            rw [List.length_append, List.length_append]
            rfl
          obtain ⟨c', hc'⟩ := ih (buffer ++ (paragraphAt R m c).1 ++ ['\n', '\n'])
            (paragraphAt R m c).2 k (by omega) (by omega) (by omega)
            (by
              intro j
              have := hedge (j + 1)
              rw [textStream_length_succ] at this
              omega)
          refine ⟨c', ?_⟩
          rw [generateTextToBufferLoop_sep R m n fuel buffer _ c hf hs, ← hlen, hc', hlen,
            textStream]
          have e : n - buffer.length =
              (paragraphAt R m c).1.length +
                (2 + (n - (buffer.length + (paragraphAt R m c).1.length + 2))) := by omega
          have e2 : ∀ (x : Nat) (ts : Str), List.take (2 + x) (['\n', '\n'] ++ ts) =
              ['\n', '\n'] ++ List.take x ts := by
            intro x ts
            rw [Nat.add_comm]
            rfl
          rw [e, List.take_append, e2]
          simp only [List.append_assoc]
        · have hn : buffer.length + (paragraphAt R m c).1.length = n := by
            have := hedge 1
            rw [textStream_length_succ] at this
            simp only [textStream, List.length_nil] at this
            omega
          obtain ⟨f, rfl⟩ : ∃ f, fuel = f + 1 := ⟨fuel - 1, by omega⟩
          refine ⟨(paragraphAt R m c).2, ?_⟩
          rw [generateTextToBufferLoop_nosep R m n (f + 1) buffer _ c hf h0 (by omega)
            (by omega), generateTextToBufferLoop_done R m n f _ _ _ (by omega), textStream]
          have e : n - buffer.length = (paragraphAt R m c).1.length := by omega
          rw [e, List.take_append_of_le_length (Nat.le_refl _), List.take_length]
    · refine ⟨c, ?_⟩
      rw [generateTextToBufferLoop_done R m n fuel buffer _ c (by omega)]
      have e : n - buffer.length = 0 := by omega
      rw [e]
      simp

/-- One byte after the first paragraph: the separator is left out and the last byte is the
first byte of the second paragraph. -/
theorem generateTextToBuffer_one_past_paragraph (R : RandomEngine) (m : Model) (fuel : Nat)
    (buf : Str) (seed : Nat)
    (hfuel : (paragraphAt R m seed).1.length + 1 + PARAGRAPH_SIZE + 1 ≤ fuel) :
    generateTextToBuffer R m fuel buf ((paragraphAt R m seed).1.length + 1) seed =
      some ((paragraphAt R m seed).1 ++ (paragraphAt R m (paragraphAt R m seed).2).1.take 1,
        (paragraphAt R m (paragraphAt R m seed).2).2) := by
  have hP : PARAGRAPH_SIZE = 1000 := rfl
  have hp2 := paragraphAt_length R m (paragraphAt R m seed).2
  rw [generateTextToBuffer_eq_loop R m fuel buf _ seed hfuel]
  obtain ⟨f, rfl⟩ : ∃ f, fuel = f + 2 := ⟨fuel - 2, by omega⟩
  rw [generateTextToBufferLoop_nosep R m _ (f + 1) [] 0 seed (by omega) (by omega) (by omega)
    (by omega)]
  rw [generateTextToBufferLoop_cut R m _ f _ _ _ (by omega) (by omega) (by omega)]
  have e : (paragraphAt R m seed).1.length + 1 - (0 + (paragraphAt R m seed).1.length) = 1 := by
    omega
  rw [e]
  simp

end TextGenerator

/-! ## Properties of the buffer generator -/

namespace TextGenerator

/-- A target below the first paragraph's length: the buffer is the cut first paragraph. -/
theorem generateTextToBuffer_cut (R : RandomEngine) (m : Model) (fuel : Nat) (buf : Str)
    (n seed : Nat) (hfuel : n + PARAGRAPH_SIZE + 1 ≤ fuel) (h0 : 0 < n)
    (hn : n < (paragraphAt R m seed).1.length) :
    generateTextToBuffer R m fuel buf n seed =
      some ((paragraphAt R m seed).1.take n, (paragraphAt R m seed).2) := by
  have hP : PARAGRAPH_SIZE = 1000 := rfl
  rw [generateTextToBuffer_eq_loop R m fuel buf n seed hfuel]
  obtain ⟨f, rfl⟩ : ∃ f, fuel = f + 1 := ⟨fuel - 1, by omega⟩
  rw [generateTextToBufferLoop_cut R m n f [] 0 seed (by omega) h0 (by omega)]
  simp

/-- A paragraph of the built-in model begins with an upper-case letter followed by a
lower-case letter. -/
theorem builtin_paragraph_head (R : RandomEngine) (cursor : Nat) :
    ∃ c0 c1 rest, (paragraphAt R initializeMarkovChain cursor).1 = c0 :: c1 :: rest ∧
      isUpperChar c0 = true ∧ isLowerChar c1 = true := by
  obtain ⟨c0, c1, rest, hs, h0, h1⟩ := builtin_sentence_head R cursor
  obtain ⟨rest', hp⟩ := paragraphAt_prefix R initializeMarkovChain cursor
  exact ⟨c0, c1, rest ++ rest', by rw [hp, hs]; rfl, h0, h1⟩

/-- C1. For every engine, model, seed and target size `n` (0 included), with enough fuel
`generateTextToBuffer` returns and leaves exactly `n` bytes in the buffer, whatever the
buffer `buf` held before the call. -/
theorem generateTextToBuffer_exact_size (R : RandomEngine) (m : Model) (fuel : Nat)
    (buf : Str) (n seed : Nat) (hfuel : n + PARAGRAPH_SIZE + 1 ≤ fuel) :
    ∃ out seed', generateTextToBuffer R m fuel buf n seed = some (out, seed') ∧
      out.length = n := by
  rw [generateTextToBuffer_eq_loop R m fuel buf n seed hfuel]
  exact generateTextToBufferLoop_length R m n fuel [] seed (Nat.zero_le _)
    (by simpa using hfuel)

/-- C1, at concrete inputs: the built-in model, a buffer holding `"old"`, targets 0 and
1000, seed 12345. -/
theorem generateTextToBuffer_exact_size_witness :
    (∃ out seed', generateTextToBuffer lcgEngine initializeMarkovChain 1001 "old".toList 0
        12345 = some (out, seed') ∧ out.length = 0) ∧
    (∃ out seed', generateTextToBuffer lcgEngine initializeMarkovChain 2001 "old".toList 1000
        12345 = some (out, seed') ∧ out.length = 1000) :=
  ⟨generateTextToBuffer_exact_size lcgEngine initializeMarkovChain 1001 "old".toList 0 12345
      (by decide),
    generateTextToBuffer_exact_size lcgEngine initializeMarkovChain 2001 "old".toList 1000 12345
      (by decide)⟩

/-- One byte after the end of the first paragraph the buffer does not hold a prefix of
the paragraph stream, as soon as no paragraph begins with a newline. -/
theorem not_stream_prefix_of_head (R : RandomEngine) (m : Model) (seed : Nat)
    (hhead : ∀ c, ∃ c0 rest, (paragraphAt R m c).1 = c0 :: rest ∧ c0 ≠ '\n') :
    ¬ ∀ (n fuel : Nat), n + PARAGRAPH_SIZE + 1 ≤ fuel →
      ∃ seed', generateTextToBuffer R m fuel [] n seed =
        some ((textStream R m (n + 1) seed).take n, seed') := by
  intro h
  obtain ⟨seed', hs⟩ := h ((paragraphAt R m seed).1.length + 1)
    ((paragraphAt R m seed).1.length + 1 + PARAGRAPH_SIZE + 1) (Nat.le_refl _)
  rw [generateTextToBuffer_one_past_paragraph R m _ [] seed (Nat.le_refl _), textStream] at hs
  obtain ⟨c0, rest, hp, hne⟩ := hhead (paragraphAt R m seed).2
  generalize paragraphAt R m (paragraphAt R m seed).2 = p2 at hs hp
  generalize textStream R m ((paragraphAt R m seed).1.length + 1) (paragraphAt R m seed).2 =
    ts at hs
  generalize (paragraphAt R m seed).1 = p1 at hs
  rw [hp, List.take_append] at hs
  simp only [Option.some.injEq, Prod.mk.injEq, List.append_cancel_left_eq] at hs
  have h0 : c0 = '\n' := by
    have := hs.1
    simp at this
    exact this
  exact hne h0

/-- C2 as stated fails: on the built-in model with seed 12345 it is not true that for
every target `n` the buffer holds the first `n` bytes of the paragraph stream. One byte
after the end of the first paragraph the buffer ends with the first letter of the second
paragraph, where the stream has a newline. -/
theorem generateTextToBuffer_not_stream_prefix :
    ¬ ∀ (n fuel : Nat), n + PARAGRAPH_SIZE + 1 ≤ fuel →
      ∃ seed', generateTextToBuffer lcgEngine initializeMarkovChain fuel [] n 12345 =
        some ((textStream lcgEngine initializeMarkovChain (n + 1) 12345).take n, seed') :=
  not_stream_prefix_of_head lcgEngine initializeMarkovChain 12345 (fun c => by
    obtain ⟨c0, c1, rest, hp, hup, _⟩ := builtin_paragraph_head lcgEngine c
    refine ⟨c0, c1 :: rest, hp, ?_⟩
    intro e
    rw [e] at hup
    exact absurd hup (by decide))

/-- No prefix of the paragraph stream has a length between 1 and 1001. -/
theorem textStream_length_ne (R : RandomEngine) (m : Model) (n seed : Nat)
    (h1 : n + 1 < PARAGRAPH_SIZE + 2) : ∀ j, (textStream R m j seed).length ≠ n + 1 := by
  intro j
  cases j with
  | zero => simp [textStream]
  | succ j =>
    rw [textStream_length_succ]
    have := paragraphAt_length R m seed
    omega

/-- C2, amended. For every engine, model, seed and target `n` that is not exactly one byte
past the end of a paragraph of the stream (no `j` paragraphs with their separators have
length `n + 1`), with enough fuel the buffer holds the first `n` bytes of
`p1 ++ "\n\n" ++ p2 ++ "\n\n" ++ ...`, the successive paragraphs
`generateParagraph(cursor, 1000)` threaded from `seed` (any `k ≥ n` paragraphs of the
stream are enough to read them off). -/
theorem generateTextToBuffer_stream_prefix (R : RandomEngine) (m : Model) (fuel : Nat)
    (buf : Str) (n seed k : Nat) (hfuel : n + PARAGRAPH_SIZE + 1 ≤ fuel) (hk : n ≤ k)
    (hedge : ∀ j, (textStream R m j seed).length ≠ n + 1) :
    ∃ seed', generateTextToBuffer R m fuel buf n seed =
      some ((textStream R m k seed).take n, seed') := by
  rw [generateTextToBuffer_eq_loop R m fuel buf n seed hfuel]
  obtain ⟨c', h⟩ := generateTextToBufferLoop_stream R m n fuel [] seed k (Nat.zero_le _)
    (by simpa using hfuel) (by simpa using hk) (by simpa using hedge)
  exact ⟨c', by simpa using h⟩

/-- C2 amended, at a concrete input: the built-in model, seed 12345 and target 1000 (a
paragraph has at least 1000 bytes, so 1001 is the length of no prefix of the stream). -/
theorem generateTextToBuffer_stream_prefix_witness :
    ∃ seed', generateTextToBuffer lcgEngine initializeMarkovChain 2001 [] 1000 12345 =
      some ((textStream lcgEngine initializeMarkovChain 1000 12345).take 1000, seed') :=
  generateTextToBuffer_stream_prefix lcgEngine initializeMarkovChain 2001 [] 1000 12345 1000
    (by decide) (Nat.le_refl _) (textStream_length_ne lcgEngine initializeMarkovChain 1000 12345
      (by decide))

/-- One byte and then one more byte from the returned cursor are not the two bytes of a
single call, as soon as every paragraph begins with an upper-case letter followed by a
lower-case letter. -/
theorem chunked_differs_of_head (R : RandomEngine) (m : Model) (seed : Nat)
    (hhead : ∀ c, ∃ c0 c1 rest, (paragraphAt R m c).1 = c0 :: c1 :: rest ∧
      isUpperChar c0 = true ∧ isLowerChar c1 = true) :
    ¬ ∃ b1 c1 b2 c2 c3,
      generateTextToBuffer R m 1003 [] 1 seed = some (b1, c1) ∧
      generateTextToBuffer R m 1003 [] 1 c1 = some (b2, c2) ∧
      generateTextToBuffer R m 1003 [] (1 + 1) seed = some (b1 ++ b2, c3) := by
  rintro ⟨b1, c1, b2, c2, c3, h1, h2, h3⟩
  have hP : PARAGRAPH_SIZE = 1000 := rfl
  have hlen : ∀ c, 1000 ≤ (paragraphAt R m c).1.length := fun c => paragraphAt_length R m c
  rw [generateTextToBuffer_cut R m 1003 [] 1 seed (by decide) (by decide)
    (by have := hlen seed; omega)] at h1
  rw [generateTextToBuffer_cut R m 1003 [] (1 + 1) seed (by decide) (by decide)
    (by have := hlen seed; omega)] at h3
  rw [generateTextToBuffer_cut R m 1003 [] 1 c1 (by decide) (by decide)
    (by have := hlen c1; omega)] at h2
  obtain ⟨a0, a1, resta, hpa, _, hlow⟩ := hhead seed
  obtain ⟨d0, d1, restd, hpd, hup, _⟩ := hhead c1
  generalize paragraphAt R m seed = pa at h1 h3 hpa
  generalize paragraphAt R m c1 = pd at h2 hpd
  rw [hpa] at h1 h3
  rw [hpd] at h2
  simp only [Option.some.injEq, Prod.mk.injEq] at h1 h2 h3
  rw [← h1.1, ← h2.1] at h3
  have e : a1 = d0 := by
    have := h3.1
    simp at this
    exact this
  rw [e] at hlow
  rw [isUpperChar_iff] at hup
  rw [isLowerChar_iff] at hlow
  omega

/-- C3 as stated fails: on the built-in model with seed 12345, one byte generated from the
cursor and one more byte generated from the returned cursor are not the two bytes of a
single call. The second chunk starts a new paragraph (an upper-case letter), the single
call continues the first word (a lower-case letter). -/
theorem chunked_generation_differs :
    ¬ ∃ b1 c1 b2 c2 c3,
      generateTextToBuffer lcgEngine initializeMarkovChain 1003 [] 1 12345 = some (b1, c1) ∧
      generateTextToBuffer lcgEngine initializeMarkovChain 1003 [] 1 c1 = some (b2, c2) ∧
      generateTextToBuffer lcgEngine initializeMarkovChain 1003 [] (1 + 1) 12345 =
        some (b1 ++ b2, c3) :=
  chunked_differs_of_head lcgEngine initializeMarkovChain 12345
    (fun c => builtin_paragraph_head lcgEngine c)

/-- C3, amended. Chunk boundaries do not alter the generated text when the first chunk
ends exactly after a paragraph separator: with `n1` the length of the first `j`
paragraphs from `seed`, each followed by its blank line, generating `n1` bytes from `seed`
and then `n2` bytes from the returned cursor yields, concatenated, the bytes of the single
call for `n1 + n2` bytes, and the same final cursor. -/
theorem chunked_generation_at_separator (R : RandomEngine) (m : Model) (fuel : Nat)
    (buf1 buf2 buf3 : Str) (seed j n2 : Nat)
    (hfuel : (textStream R m j seed).length + n2 + PARAGRAPH_SIZE + 1 ≤ fuel) :
    ∃ b1 c1 b2 c2,
      generateTextToBuffer R m fuel buf1 (textStream R m j seed).length seed = some (b1, c1) ∧
      generateTextToBuffer R m fuel buf2 n2 c1 = some (b2, c2) ∧
      generateTextToBuffer R m fuel buf3 ((textStream R m j seed).length + n2) seed =
        some (b1 ++ b2, c2) ∧
      b1 = textStream R m j seed := by
  have hP : PARAGRAPH_SIZE = 1000 := rfl
  obtain ⟨b2, c2, h2, _⟩ := generateTextToBufferLoop_length R m n2 fuel []
    (cursorAfter R m j seed) (Nat.zero_le _) (by simp only [List.length_nil]; omega)
  have h2' : generateTextToBufferLoop R m n2 fuel [] 0 (cursorAfter R m j seed) =
      some (b2, c2) := h2
  refine ⟨textStream R m j seed, cursorAfter R m j seed, b2, c2, ?_, ?_, ?_, rfl⟩
  · rw [generateTextToBuffer_eq_loop R m fuel buf1 _ seed (by omega)]
    have hfi := generateTextToBufferLoop_fuel R m (textStream R m j seed).length fuel
      (fuel + j) [] seed (Nat.zero_le _) (by simp only [List.length_nil]; omega)
      (by simp only [List.length_nil]; omega)
    have hrun := generateTextToBufferLoop_run R m (textStream R m j seed).length j fuel []
      seed (by omega) (by simp)
    simp only [List.length_nil, List.nil_append] at hfi hrun
    rw [hfi, hrun]
    obtain ⟨f, rfl⟩ : ∃ f, fuel = f + 1 := ⟨fuel - 1, by omega⟩
    exact generateTextToBufferLoop_done R m _ f _ _ _ (Nat.le_refl _)
  · rw [generateTextToBuffer_eq_loop R m fuel buf2 n2 _ (by omega)]
    exact h2'
  · rw [generateTextToBuffer_eq_loop R m fuel buf3 _ seed (by omega)]
    have hfi := generateTextToBufferLoop_fuel R m ((textStream R m j seed).length + n2) fuel
      (fuel + j) [] seed (Nat.zero_le _) (by simp only [List.length_nil]; omega)
      (by simp only [List.length_nil]; omega)
    have hrun := generateTextToBufferLoop_run R m ((textStream R m j seed).length + n2) j fuel
      [] seed (by omega) (by simp)
    simp only [List.length_nil, List.nil_append] at hfi hrun
    rw [hfi, hrun]
    have hshift := generateTextToBufferLoop_shift R m n2 (textStream R m j seed).length
      (textStream R m j seed) fuel [] 0 (cursorAfter R m j seed)
    simp only [List.append_nil, Nat.add_zero] at hshift
    rw [hshift, h2']
    rfl

/-- C3 amended, at a concrete input: the built-in model, seed 12345, the first chunk ending
after the first paragraph and its separator, the second chunk of 500 bytes. -/
theorem chunked_generation_at_separator_witness :
    ∃ b1 c1 b2 c2,
      generateTextToBuffer lcgEngine initializeMarkovChain
        ((textStream lcgEngine initializeMarkovChain 1 12345).length + 500 + PARAGRAPH_SIZE + 1)
        [] (textStream lcgEngine initializeMarkovChain 1 12345).length 12345 = some (b1, c1) ∧
      generateTextToBuffer lcgEngine initializeMarkovChain
        ((textStream lcgEngine initializeMarkovChain 1 12345).length + 500 + PARAGRAPH_SIZE + 1)
        [] 500 c1 = some (b2, c2) ∧
      generateTextToBuffer lcgEngine initializeMarkovChain
        ((textStream lcgEngine initializeMarkovChain 1 12345).length + 500 + PARAGRAPH_SIZE + 1)
        [] ((textStream lcgEngine initializeMarkovChain 1 12345).length + 500) 12345 =
        some (b1 ++ b2, c2) ∧
      b1 = textStream lcgEngine initializeMarkovChain 1 12345 :=
  chunked_generation_at_separator lcgEngine initializeMarkovChain _ [] [] [] 12345 1 500
    (Nat.le_refl _)

end TextGenerator

/-! ## Fuel of the word loop -/

namespace TextGenerator

/-- The fuel of the word loop is never used up: once `maxLength ≤ wordCount + fuel`, one
more unit changes nothing. -/
theorem sentenceLoop_fuel (R : RandomEngine) (chain : List (Str × List Str)) :
    ∀ (fuel : Nat) (st : SentenceState R), maxLength ≤ st.wordCount + fuel →
      sentenceLoop R chain (fuel + 1) st = sentenceLoop R chain fuel st := by
  intro fuel
  induction fuel with
  | zero =>
    intro st h
    rw [sentenceLoop, sentenceLoop, if_neg (by omega)]
  | succ fuel ih =>
    intro st h
    rw [sentenceLoop]
    conv_rhs => rw [sentenceLoop]
    by_cases hwc : st.wordCount < maxLength
    · simp only [hwc, if_true]
      cases find chain st.lowerCurrent with
      | none => rfl
      | some succs =>
        simp only []
        by_cases hs : succs = []
        · simp only [hs, if_true]
        · simp only [hs, if_false]
          split
          · rfl
          · split
            · cases commaLoop R succs 10
                  (R.uniform_int_distribution 0 (succs.length - 1) st.localGen).2 with
              | mk o g =>
                cases o with
                | none => rfl
                | some commaNext =>
                  simp only []
                  exact ih _ (by simp only []; omega)
            · split
              · split
                · rfl
                · exact ih _ (by simp only []; omega)
              · exact ih _ (by simp only []; omega)
    · simp only [hwc, if_false]

end TextGenerator

/-! ## Properties of the cipher stages -/

theorem ext_getD {l1 l2 : List Nat} (hl : l1.length = l2.length)
    (h : ∀ j, j < l1.length → l1.getD j 0 = l2.getD j 0) : l1 = l2 := by
  apply List.ext_getElem hl
  intro n h1 h2
  have := h n h1
  rwa [List.getD_eq_getElem _ _ h1, List.getD_eq_getElem _ _ h2] at this

theorem getD_replicate_zero (n j : Nat) : (List.replicate n 0).getD j 0 = 0 := by
  simp only [List.getD_eq_getElem?_getD, List.getElem?_replicate]
  split <;> rfl

theorem getD_drop (l : List Nat) (n j : Nat) : (l.drop n).getD j 0 = l.getD (n + j) 0 := by
  simp only [List.getD_eq_getElem?_getD, List.getElem?_drop]

theorem getD_take (l : List Nat) (n j : Nat) (h : j < n) :
    (l.take n).getD j 0 = l.getD j 0 := by
  simp only [List.getD_eq_getElem?_getD, List.getElem?_take, h, if_true]

theorem memcpy_length (dst : List Nat) (dstOff : Nat) (src : List Nat) (srcOff n : Nat) :
    (memcpy dst dstOff src srcOff n).length = dst.length := by
  simp [memcpy]

theorem memcpy_getD (dst : List Nat) (dstOff : Nat) (src : List Nat) (srcOff n j : Nat)
    (hj : j < dst.length) :
    (memcpy dst dstOff src srcOff n).getD j 0 =
      if dstOff ≤ j ∧ j < dstOff + n then src.getD (srcOff + (j - dstOff)) 0
      else dst.getD j 0 := by
  have hlen : j < (memcpy dst dstOff src srcOff n).length := by
    rw [memcpy_length]; exact hj
  rw [List.getD_eq_getElem _ _ hlen]
  simp [memcpy]

theorem paddedBlock_length (data : List Nat) (q : Nat) : (paddedBlock data q).length = 8 := by
  simp [paddedBlock]

theorem paddedBlock_getD (data : List Nat) (q t : Nat) (ht : t < 8) :
    (paddedBlock data q).getD t 0 = data.getD (8 * q + t) 0 := by
  have hlen : t < (paddedBlock data q).length := by rw [paddedBlock_length]; exact ht
  rw [List.getD_eq_getElem _ _ hlen]
  simp [paddedBlock]

/-- The `input` array of the block loop at offset `8 * q` is the zero-padded block `q`. -/
theorem input_eq_paddedBlock (data : List Nat) (q : Nat) :
    memcpy (List.replicate BLOCK 0) 0 data (8 * q) (min BLOCK (data.length - 8 * q)) =
      paddedBlock data q := by
  apply ext_getD
  · rw [memcpy_length, paddedBlock_length]; rfl
  · intro j hj
    rw [memcpy_length] at hj
    have hj8 : j < 8 := by simpa [BLOCK] using hj
    rw [memcpy_getD _ _ _ _ _ _ hj, paddedBlock_getD _ _ _ hj8]
    have hB : BLOCK = 8 := rfl
    by_cases h : 0 ≤ j ∧ j < 0 + min BLOCK (data.length - 8 * q)
    · rw [if_pos h]
      simp
    · rw [if_neg h]
      have hge : data.length ≤ 8 * q + j := by omega
      rw [List.getD_eq_default _ _ hge, getD_replicate_zero]

/-- The byte `j` that the block loop computes. -/
theorem ecbLoop_spec (E : List Nat → List Nat) (data : List Nat) :
    ∀ (fuel k : Nat) (encrypted : List Nat), encrypted.length = data.length →
      data.length ≤ 8 * k + 8 * fuel →
      (∀ j, j < 8 * k → j < data.length →
        encrypted.getD j 0 = (E (paddedBlock data (j / 8))).getD (j % 8) 0) →
      (ecbLoop E data fuel (8 * k) encrypted).length = data.length ∧
      ∀ j, j < data.length →
        (ecbLoop E data fuel (8 * k) encrypted).getD j 0 =
          (E (paddedBlock data (j / 8))).getD (j % 8) 0 := by
  intro fuel
  induction fuel with
  | zero =>
    intro k encrypted hlen hfuel hinv
    exact ⟨hlen, fun j hj => hinv j (by omega) hj⟩
  | succ fuel ih =>
    intro k encrypted hlen hfuel hinv
    rw [ecbLoop]
    by_cases hi : 8 * k < data.length
    · rw [if_pos hi]
      simp only []
      rw [input_eq_paddedBlock]
      have hB : BLOCK = 8 := rfl
      have e : 8 * k + BLOCK = 8 * (k + 1) := by omega
      rw [e]
      apply ih
      · rw [memcpy_length, hlen]
      · omega
      · intro j hj1 hj2
        rw [memcpy_getD _ _ _ _ _ _ (by omega)]
        by_cases h : 8 * k ≤ j ∧ j < 8 * k + min BLOCK (data.length - 8 * k)
        · rw [if_pos h]
          have h1 : j / 8 = k := by omega
          have h2 : j - 8 * k = j % 8 := by omega
          rw [h1, Nat.zero_add, h2]
        · rw [if_neg h]
          exact hinv j (by omega) hj2
    · rw [if_neg hi]
      exact ⟨hlen, fun j hj => hinv j (by omega) hj⟩

theorem ecbLoop_length (E : List Nat → List Nat) (data : List Nat) :
    (ecbLoop E data data.length 0 (List.replicate data.length 0)).length = data.length :=
  (ecbLoop_spec E data data.length 0 _ (by simp) (by omega) (fun j hj _ => by omega)).1

theorem ecbLoop_getD (E : List Nat → List Nat) (data : List Nat) (j : Nat)
    (hj : j < data.length) :
    (ecbLoop E data data.length 0 (List.replicate data.length 0)).getD j 0 =
      (E (paddedBlock data (j / 8))).getD (j % 8) 0 :=
  (ecbLoop_spec E data data.length 0 _ (by simp) (by omega) (fun j hj _ => by omega)).2 j hj

/-- A full block of the input is its own padded block. -/
theorem paddedBlock_full (data : List Nat) (q : Nat) (h : 8 * q + 8 ≤ data.length) :
    paddedBlock data q = (data.drop (8 * q)).take 8 := by
  apply ext_getD
  · rw [paddedBlock_length, List.length_take, List.length_drop]; omega
  · intro j hj
    rw [paddedBlock_length] at hj
    rw [paddedBlock_getD _ _ _ hj]
    rw [getD_take _ _ _ hj, getD_drop]

/-- The last, partial block of the input, padded. -/
theorem paddedBlock_partial (data : List Nat) :
    paddedBlock data (data.length / 8) =
      data.drop (data.length - data.length % 8) ++
        List.replicate (8 - data.length % 8) 0 := by
  have hq : 8 * (data.length / 8) = data.length - data.length % 8 := by omega
  apply ext_getD
  · rw [paddedBlock_length, List.length_append, List.length_drop, List.length_replicate]
    omega
  · intro j hj
    rw [paddedBlock_length] at hj
    rw [paddedBlock_getD _ _ _ hj, hq]
    by_cases hjr : j < data.length % 8
    · simp only [List.getD_eq_getElem?_getD]
      rw [List.getElem?_append_left (by rw [List.length_drop]; omega), List.getElem?_drop]
    · have hge : data.length ≤ data.length - data.length % 8 + j := by omega
      rw [List.getD_eq_default _ _ hge]
      simp only [List.getD_eq_getElem?_getD]
      rw [List.getElem?_append_right (by rw [List.length_drop]; omega)]
      simp only [List.getElem?_replicate]
      split <;> rfl

/-- The block loop, block by block: full blocks are encrypted as they are, the final
partial block is zero-padded and the result cut to the original length. -/
theorem ecbLoop_blocks (E : List Nat → List Nat) (hE : ∀ b, (E b).length = 8)
    (data : List Nat) :
    (ecbLoop E data data.length 0 (List.replicate data.length 0)).length = data.length ∧
    (∀ i, 8 * i + 8 ≤ data.length →
      ((ecbLoop E data data.length 0 (List.replicate data.length 0)).drop (8 * i)).take 8 =
        E ((data.drop (8 * i)).take 8)) ∧
    (data.length % 8 ≠ 0 →
      (ecbLoop E data data.length 0 (List.replicate data.length 0)).drop
          (data.length - data.length % 8) =
        (E (data.drop (data.length - data.length % 8) ++
          List.replicate (8 - data.length % 8) 0)).take (data.length % 8)) := by
  have hlen := ecbLoop_length E data
  refine ⟨hlen, ?_, ?_⟩
  · intro i hi
    apply ext_getD
    · rw [List.length_take, List.length_drop, hlen, hE]; omega
    · intro j hj
      rw [List.length_take, List.length_drop, hlen] at hj
      have hj8 : j < 8 := by omega
      have h1 := ecbLoop_getD E data (8 * i + j) (by omega)
      have h2 : (8 * i + j) / 8 = i := by omega
      have h3 : (8 * i + j) % 8 = j := by omega
      rw [h2, h3, paddedBlock_full data i hi] at h1
      rw [getD_take _ _ _ hj8, getD_drop, h1]
  · intro hr
    have hq : 8 * (data.length / 8) = data.length - data.length % 8 := by omega
    apply ext_getD
    · rw [List.length_take, List.length_drop, hlen, hE]; omega
    · intro j hj
      rw [List.length_drop, hlen] at hj
      have hjr : j < data.length % 8 := by omega
      have h1 := ecbLoop_getD E data (data.length - data.length % 8 + j) (by omega)
      have h2 : (data.length - data.length % 8 + j) / 8 = data.length / 8 := by omega
      have h3 : (data.length - data.length % 8 + j) % 8 = j := by omega
      rw [h2, h3, paddedBlock_partial data] at h1
      rw [getD_take _ _ _ hjr, getD_drop, h1]

/-- The block loop has no chaining: after a whole number of blocks the rest of the input
is encrypted as an input of its own. -/
theorem ecbLoop_append (E : List Nat → List Nat) (a b : List Nat) (ha : a.length % 8 = 0) :
    ecbLoop E (a ++ b) (a ++ b).length 0 (List.replicate (a ++ b).length 0) =
      ecbLoop E a a.length 0 (List.replicate a.length 0) ++
        ecbLoop E b b.length 0 (List.replicate b.length 0) := by
  apply ext_getD
  · rw [ecbLoop_length E (a ++ b), List.length_append, List.length_append, ecbLoop_length,
      ecbLoop_length]
  · intro j hj
    rw [ecbLoop_length, List.length_append] at hj
    rw [ecbLoop_getD E (a ++ b) j (by rw [List.length_append]; exact hj)]
    by_cases hja : j < a.length
    · have hblock : paddedBlock (a ++ b) (j / 8) = paddedBlock a (j / 8) := by
        apply ext_getD
        · rw [paddedBlock_length, paddedBlock_length]
        · intro t ht
          rw [paddedBlock_length] at ht
          rw [paddedBlock_getD _ _ _ ht, paddedBlock_getD _ _ _ ht]
          simp only [List.getD_eq_getElem?_getD]
          rw [List.getElem?_append_left (by omega)]
      rw [hblock]
      simp only [List.getD_eq_getElem?_getD]
      rw [List.getElem?_append_left (by rw [ecbLoop_length]; exact hja)]
      have := ecbLoop_getD E a j hja
      simp only [List.getD_eq_getElem?_getD] at this
      rw [this]
    · have hblock : paddedBlock (a ++ b) (j / 8) = paddedBlock b ((j - a.length) / 8) := by
        apply ext_getD
        · rw [paddedBlock_length, paddedBlock_length]
        · intro t ht
          rw [paddedBlock_length] at ht
          rw [paddedBlock_getD _ _ _ ht, paddedBlock_getD _ _ _ ht]
          simp only [List.getD_eq_getElem?_getD]
          rw [List.getElem?_append_right (by omega)]
          have : 8 * (j / 8) + t - a.length = 8 * ((j - a.length) / 8) + t := by omega
          rw [this]
      have hmod : j % 8 = (j - a.length) % 8 := by omega
      rw [hblock, hmod]
      simp only [List.getD_eq_getElem?_getD]
      rw [List.getElem?_append_right (by rw [ecbLoop_length]; omega), ecbLoop_length]
      have := ecbLoop_getD E b (j - a.length) (by omega)
      simp only [List.getD_eq_getElem?_getD] at this
      rw [this]

/-- The fuel of the block loop is never used up: one more unit changes nothing. -/
theorem ecbLoop_fuel (E : List Nat → List Nat) (data : List Nat) :
    ∀ (fuel i : Nat) (encrypted : List Nat), data.length ≤ i + 8 * fuel →
      ecbLoop E data (fuel + 1) i encrypted = ecbLoop E data fuel i encrypted := by
  intro fuel
  induction fuel with
  | zero =>
    intro i encrypted h
    rw [ecbLoop, ecbLoop, if_neg (by omega)]
  | succ fuel ih =>
    intro i encrypted h
    rw [ecbLoop]
    conv_rhs => rw [ecbLoop]
    have hB : BLOCK = 8 := rfl
    by_cases hi : i < data.length
    · rw [if_pos hi, if_pos hi]
      exact ih _ _ (by omega)
    · rw [if_neg hi, if_neg hi]

/-- A chunked input: when every chunk but the last is a whole number of blocks, a stage
without chaining gives the concatenation of the encrypted chunks. -/
theorem flatten_chunks_of_append (enc : List Nat → List Nat)
    (happ : ∀ a b : List Nat, a.length % 8 = 0 → enc (a ++ b) = enc a ++ enc b) :
    ∀ (chunks : List (List Nat)) (last : List Nat), (∀ c ∈ chunks, c.length % 8 = 0) →
      enc (chunks ++ [last]).flatten = (chunks.map enc).flatten ++ enc last := by
  intro chunks
  induction chunks with
  | nil => intro last _; simp
  | cons c cs ih =>
    intro last h
    rw [List.cons_append, List.flatten_cons, happ c _ (h c (List.mem_cons_self _ _)),
      ih last (fun d hd => h d (List.mem_cons_of_mem _ hd)), List.map_cons, List.flatten_cons,
      List.append_assoc]

namespace DataEncryptor

theorem drawBytes_length (R : RandomEngine) :
    ∀ (n : Nat) (g : R.State), (drawBytes R n g).1.length = n := by
  intro n
  induction n with
  | zero => intro g; rfl
  | succ n ih => intro g; simp [drawBytes, ih]

theorem memcpy_rc4_length (P : OpenSSL) (key data : List Nat) :
    (memcpy (List.replicate data.length 0) 0 (P.RC4 key data.length data) 0
      data.length).length = data.length := by
  rw [memcpy_length, List.length_replicate]

/-- C9. Every cipher stage of `DataEncryptor` is length-preserving: for every state, the
ciphertexts of `encryptCAST`, `encryptRC4`, `encryptDES` and `encryptBlowfish` have exactly
as many bytes as `randomData` (0 and 64 included); and for every seed and `dataSize` the
four ciphertexts of `runEncryption` have exactly `dataSize` bytes. -/
theorem cipher_stages_preserve_length (P : OpenSSL) (R : RandomEngine) :
    (∀ s : State R,
      (encryptCAST P s).length = s.randomData.length ∧
      (encryptRC4 P s).length = s.randomData.length ∧
      (encryptDES P s).length = s.randomData.length ∧
      (encryptBlowfish P s).length = s.randomData.length) ∧
    (∀ seed dataSize : Nat,
      (runEncryption P R (new R seed) dataSize).1.length = dataSize ∧
      (runEncryption P R (new R seed) dataSize).2.1.length = dataSize ∧
      (runEncryption P R (new R seed) dataSize).2.2.1.length = dataSize ∧
      (runEncryption P R (new R seed) dataSize).2.2.2.length = dataSize) := by
  have hall : ∀ s : State R,
      (encryptCAST P s).length = s.randomData.length ∧
      (encryptRC4 P s).length = s.randomData.length ∧
      (encryptDES P s).length = s.randomData.length ∧
      (encryptBlowfish P s).length = s.randomData.length :=
    fun s => ⟨ecbLoop_length _ _, memcpy_rc4_length P _ _, ecbLoop_length _ _,
      ecbLoop_length _ _⟩
  refine ⟨hall, ?_⟩
  intro seed dataSize
  have hdata : (generateData R (new R seed) dataSize).randomData.length = dataSize :=
    drawBytes_length R dataSize _
  obtain ⟨h1, h2, h3, h4⟩ := hall (generateData R (new R seed) dataSize)
  rw [hdata] at h1 h2 h3 h4
  exact ⟨h1, h2, h3, h4⟩

end DataEncryptor

namespace CiphertextGenerator

/-- C8. For each block cipher stage of `CiphertextGenerator` (`encryptDES`, `encryptCAST`,
`encryptBlowfish`), every key and every input `data`: the output has the length of
`data`; every full 8-byte block `i` of the output is the block primitive applied to block
`i` of the input; and when the length is not a multiple of 8, the last `r = length % 8`
output bytes are the first `r` bytes of the primitive applied to the last `r` input bytes
followed by `8 - r` zero bytes. -/
theorem block_stages_pad_final_block (P : OpenSSL) (key56 data : List Nat) :
    ZeroPaddedEcb (P.DES_ecb_encrypt (desKey8 P key56)) data (encryptDES P key56 data) ∧
    ZeroPaddedEcb (P.CAST_ecb_encrypt key56) data (encryptCAST P key56 data) ∧
    ZeroPaddedEcb (P.BF_ecb_encrypt key56) data (encryptBlowfish P key56 data) :=
  ⟨ecbLoop_blocks _ (P.DES_length _) data, ecbLoop_blocks _ (P.CAST_length _) data,
    ecbLoop_blocks _ (P.BF_length _) data⟩

/-- C8, at a concrete input: a key of 7 bytes and an input of one full block and two more
bytes, for the DES stage. The output has 10 bytes, its first block is the primitive applied
to the first input block, and its last two bytes are the first two bytes of the primitive
applied to the last two input bytes followed by six zero bytes. -/
theorem block_stages_pad_final_block_witness :
    (encryptDES toyOpenSSL [1, 2, 3, 4, 5, 6, 7]
      [10, 20, 30, 40, 50, 60, 70, 80, 90, 100]).length = 10 ∧
    ((encryptDES toyOpenSSL [1, 2, 3, 4, 5, 6, 7]
        [10, 20, 30, 40, 50, 60, 70, 80, 90, 100]).drop (8 * 0)).take 8 =
      toyOpenSSL.DES_ecb_encrypt (desKey8 toyOpenSSL [1, 2, 3, 4, 5, 6, 7])
        ((([10, 20, 30, 40, 50, 60, 70, 80, 90, 100] : List Nat).drop (8 * 0)).take 8) ∧
    (encryptDES toyOpenSSL [1, 2, 3, 4, 5, 6, 7]
        [10, 20, 30, 40, 50, 60, 70, 80, 90, 100]).drop (10 - 10 % 8) =
      (toyOpenSSL.DES_ecb_encrypt (desKey8 toyOpenSSL [1, 2, 3, 4, 5, 6, 7])
        (([10, 20, 30, 40, 50, 60, 70, 80, 90, 100] : List Nat).drop (10 - 10 % 8) ++
          List.replicate (8 - 10 % 8) 0)).take (10 % 8) :=
  have h := (block_stages_pad_final_block toyOpenSSL [1, 2, 3, 4, 5, 6, 7]
    [10, 20, 30, 40, 50, 60, 70, 80, 90, 100]).1
  ⟨h.1, h.2.1 0 (by decide), h.2.2 (by decide)⟩

/-- The toy CAST stage on one full block and two more bytes, evaluated. -/
theorem encryptCAST_toy_value :
    encryptCAST toyOpenSSL [1, 2, 3, 4, 5, 6, 7] [10, 20, 30, 40, 50, 60, 70, 80, 90, 100] =
      [11, 22, 33, 44, 55, 66, 77, 81, 91, 102] := by
  decide

end CiphertextGenerator

namespace TextEncryptor

/-- C10. The block cipher stages of `TextEncryptor` have no inter-block chaining: for
every key and all byte strings `a`, `b` with the length of `a` a multiple of 8,
`encrypt (a ++ b) = encrypt a ++ encrypt b` for `encryptDES`, `encryptCAST` and
`encryptBlowfish`. -/
theorem block_stages_no_chaining (P : OpenSSL) (key56 a b : List Nat)
    (ha : a.length % 8 = 0) :
    encryptDES P key56 (a ++ b) = encryptDES P key56 a ++ encryptDES P key56 b ∧
    encryptCAST P key56 (a ++ b) = encryptCAST P key56 a ++ encryptCAST P key56 b ∧
    encryptBlowfish P key56 (a ++ b) =
      encryptBlowfish P key56 a ++ encryptBlowfish P key56 b :=
  ⟨ecbLoop_append _ a b ha, ecbLoop_append _ a b ha, ecbLoop_append _ a b ha⟩

/-- C10, at a concrete input: a key of 7 bytes, one full block and three more bytes. -/
theorem block_stages_no_chaining_witness :
    encryptDES toyOpenSSL [1, 2, 3, 4, 5, 6, 7] ([10, 20, 30, 40, 50, 60, 70, 80] ++ [1, 2, 3]) =
      encryptDES toyOpenSSL [1, 2, 3, 4, 5, 6, 7] [10, 20, 30, 40, 50, 60, 70, 80] ++
        encryptDES toyOpenSSL [1, 2, 3, 4, 5, 6, 7] [1, 2, 3] ∧
    encryptCAST toyOpenSSL [1, 2, 3, 4, 5, 6, 7] ([10, 20, 30, 40, 50, 60, 70, 80] ++ [1, 2, 3]) =
      encryptCAST toyOpenSSL [1, 2, 3, 4, 5, 6, 7] [10, 20, 30, 40, 50, 60, 70, 80] ++
        encryptCAST toyOpenSSL [1, 2, 3, 4, 5, 6, 7] [1, 2, 3] ∧
    encryptBlowfish toyOpenSSL [1, 2, 3, 4, 5, 6, 7]
        ([10, 20, 30, 40, 50, 60, 70, 80] ++ [1, 2, 3]) =
      encryptBlowfish toyOpenSSL [1, 2, 3, 4, 5, 6, 7] [10, 20, 30, 40, 50, 60, 70, 80] ++
        encryptBlowfish toyOpenSSL [1, 2, 3, 4, 5, 6, 7] [1, 2, 3] :=
  block_stages_no_chaining toyOpenSSL [1, 2, 3, 4, 5, 6, 7] [10, 20, 30, 40, 50, 60, 70, 80]
    [1, 2, 3] (by decide)

/-- Two equal plaintext blocks at block-aligned positions give equal ciphertext blocks. -/
theorem equal_blocks_encrypt_equal (P : OpenSSL) (key56 data : List Nat) (i j : Nat)
    (hi : 8 * i + 8 ≤ data.length) (hj : 8 * j + 8 ≤ data.length)
    (h : (data.drop (8 * i)).take 8 = (data.drop (8 * j)).take 8) :
    ((encryptDES P key56 data).drop (8 * i)).take 8 =
      ((encryptDES P key56 data).drop (8 * j)).take 8 ∧
    ((encryptCAST P key56 data).drop (8 * i)).take 8 =
      ((encryptCAST P key56 data).drop (8 * j)).take 8 ∧
    ((encryptBlowfish P key56 data).drop (8 * i)).take 8 =
      ((encryptBlowfish P key56 data).drop (8 * j)).take 8 := by
  have hD := (ecbLoop_blocks _ (P.DES_length (desKey8 P key56)) data).2.1
  have hC := (ecbLoop_blocks _ (P.CAST_length key56) data).2.1
  have hB := (ecbLoop_blocks _ (P.BF_length key56) data).2.1
  refine ⟨?_, ?_, ?_⟩
  · show ((ecbLoop _ data data.length 0 _).drop (8 * i)).take 8 = _
    rw [hD i hi, h, ← hD j hj]
    rfl
  · show ((ecbLoop _ data data.length 0 _).drop (8 * i)).take 8 = _
    rw [hC i hi, h, ← hC j hj]
    rfl
  · show ((ecbLoop _ data data.length 0 _).drop (8 * i)).take 8 = _
    rw [hB i hi, h, ← hB j hj]
    rfl

/-- Encrypting a file chunk by chunk, every chunk but the last a whole number of blocks
(100 MiB is one), gives the encryption of the whole file. -/
theorem chunked_encryption_eq (P : OpenSSL) (key56 : List Nat) (chunks : List (List Nat))
    (last : List Nat) (h : ∀ c ∈ chunks, c.length % 8 = 0) :
    encryptDES P key56 (chunks ++ [last]).flatten =
      (chunks.map (encryptDES P key56)).flatten ++ encryptDES P key56 last ∧
    encryptCAST P key56 (chunks ++ [last]).flatten =
      (chunks.map (encryptCAST P key56)).flatten ++ encryptCAST P key56 last ∧
    encryptBlowfish P key56 (chunks ++ [last]).flatten =
      (chunks.map (encryptBlowfish P key56)).flatten ++ encryptBlowfish P key56 last :=
  ⟨flatten_chunks_of_append _ (fun a b ha => ecbLoop_append _ a b ha) chunks last h,
    flatten_chunks_of_append _ (fun a b ha => ecbLoop_append _ a b ha) chunks last h,
    flatten_chunks_of_append _ (fun a b ha => ecbLoop_append _ a b ha) chunks last h⟩

end TextEncryptor

/-! ## The model of a constructed object -/

namespace TextGenerator

theorem find_eq_none_iff (chain : List (Str × List Str)) (key : Str) :
    find chain key = none ↔ key ∉ chain.map Prod.fst := by
  induction chain with
  | nil => simp [find]
  | cons e rest ih =>
    obtain ⟨k, v⟩ := e
    by_cases h : k = key
    · simp [find, h]
    · have h' : ¬ key = k := fun e => h e.symm
      simp [find, h, h', ih]

theorem filterMap_starterOf (l : List (List Str))
    (h : ∀ toks ∈ l, ∃ w, starterOf toks = some w) :
    (l.filterMap starterOf).map some = l.map List.head? := by
  induction l with
  | nil => rfl
  | cons toks rest ih =>
    obtain ⟨w, hw⟩ := h toks (List.mem_cons_self _ _)
    obtain ⟨t1, tl, rfl⟩ := starterOf_eq_some hw
    rw [List.filterMap_cons_some hw, List.map_cons, List.map_cons,
      ih (fun t ht => h t (List.mem_cons_of_mem _ ht))]
    rfl

theorem Object.model_new (R : RandomEngine) (seed : Nat) :
    (Object.new R seed).model = initializeMarkovChain := by
  simp only [Object.new]

theorem Object.Reachable.model_eq {R : RandomEngine} {o : Object R} (h : o.Reachable) :
    o.model = initializeMarkovChain := by
  induction h with
  | new seed => exact Object.model_new R seed
  | generateTextToBuffer o fuel buffer targetSizeBytes seed _ ih => exact ih
  | generateTextFile o next fs fuel outputPath targetSizeBytes _ ih =>
    unfold Object.generateTextFile
    split <;> exact ih

/-- C20. When the transition map or the starter list of the model is empty,
`generateSentenceMarkov` returns the sentence "The quick brown fox jumps over the lazy
dog." and the incremented seed, for every seed and every engine: the result does not
depend on any draw. -/
theorem generateSentenceMarkov_fallback (R : RandomEngine) (m : Model) (seed : Nat)
    (h : m.markovChain = [] ∨ m.sentenceStarters = []) :
    generateSentenceMarkov R m seed =
      ("The quick brown fox jumps over the lazy dog.".toList, incrSeed seed) := by
  unfold generateSentenceMarkov
  rcases h with h | h <;> simp [h, fallbackSentence]

/-- C20, at concrete inputs: the empty model, and a model with a transition but no
starter, seed 12345. -/
theorem generateSentenceMarkov_fallback_witness :
    generateSentenceMarkov lcgEngine ⟨[], []⟩ 12345 =
      ("The quick brown fox jumps over the lazy dog.".toList, incrSeed 12345) ∧
    generateSentenceMarkov lcgEngine ⟨[("the".toList, ["dog".toList])], []⟩ 12345 =
      ("The quick brown fox jumps over the lazy dog.".toList, incrSeed 12345) :=
  ⟨generateSentenceMarkov_fallback lcgEngine ⟨[], []⟩ 12345 (Or.inl rfl),
    generateSentenceMarkov_fallback lcgEngine ⟨[("the".toList, ["dog".toList])], []⟩ 12345
      (Or.inr rfl)⟩

/-- C18. In a constructed `TextGenerator`, whatever the constructor seed: for every token
`key` other than `. ! ? , ; :` the successor vector `markovChain[key]` is the list of the
tokens that follow the occurrences of `key` in the tokenized corpus sentences, in corpus
order with repetitions, and `key` is absent from the map exactly when that list is empty;
none of `. ! ? , ; :` is a key; and `sentenceStarters` lists the first token of every
corpus sentence, one per sentence, in corpus order. -/
theorem Object.new_model (R : RandomEngine) (seed : Nat) :
    (∀ key, isSkippedKey key = false →
      (find (Object.new R seed).model.markovChain key).getD [] =
        corpusTokens.flatMap (followers key) ∧
      (key ∉ (Object.new R seed).model.markovChain.map Prod.fst ↔
        corpusTokens.flatMap (followers key) = [])) ∧
    (∀ key, isSkippedKey key = true →
      key ∉ (Object.new R seed).model.markovChain.map Prod.fst) ∧
    (Object.new R seed).model.sentenceStarters.map some = corpusTokens.map List.head? ∧
    (Object.new R seed).model.sentenceStarters.length = corpus.length := by
  have hst : initializeMarkovChain.sentenceStarters.map some = corpusTokens.map List.head? := by
    rw [sentenceStarters_initializeMarkovChain]
    exact filterMap_starterOf corpusTokens
      (fun toks ht => starterOf_of_sentenceOK (sentenceOK_of_mem ht))
  rw [Object.model_new]
  refine ⟨fun key hkey => ?_, fun key hkey => ?_, hst, ?_⟩
  · rw [← find_eq_none_iff, find_initializeMarkovChain key hkey]
    by_cases h : corpusTokens.flatMap (followers key) = []
    · simp [h]
    · simp [h]
  · rw [← find_eq_none_iff]
    exact find_initializeMarkovChain_skipped key hkey
  · have := congrArg List.length hst
    simpa [corpusTokens] using this

/-- C19. The result of `generateTextToBuffer(N, S)`, bytes and returned cursor, is the same
on any two objects that a program can hold, whatever their constructor seeds, the calls
made on them before and the buffers passed in; with enough fuel the call returns; and the
model of a constructed object does not depend on the constructor seed. -/
theorem Object.generateTextToBuffer_deterministic (R : RandomEngine) (o1 o2 : Object R)
    (h1 : o1.Reachable) (h2 : o2.Reachable) (f1 f2 : Nat) (b1 b2 : Str) (N S : Nat)
    (hf1 : N + PARAGRAPH_SIZE + 1 ≤ f1) (hf2 : N + PARAGRAPH_SIZE + 1 ≤ f2) :
    (∃ out cursor, (o1.generateTextToBuffer f1 b1 N S).1 = some (out, cursor) ∧
      (o2.generateTextToBuffer f2 b2 N S).1 = some (out, cursor)) ∧
    ∀ seed1 seed2, (Object.new R seed1).model = (Object.new R seed2).model := by
  refine ⟨?_, fun s1 s2 => by rw [Object.model_new, Object.model_new]⟩
  simp only [Object.generateTextToBuffer]
  rw [h1.model_eq, h2.model_eq]
  rw [generateTextToBuffer_eq_loop R _ f1 b1 N S hf1, generateTextToBuffer_eq_loop R _ f2 b2 N S hf2]
  obtain ⟨out, c, h, -⟩ := generateTextToBufferLoop_length R initializeMarkovChain N f1 [] S
    (Nat.zero_le _) (by simpa using hf1)
  refine ⟨out, c, h, ?_⟩
  rw [← h]
  exact generateTextToBufferLoop_fuel R initializeMarkovChain N f2 f1 [] S (Nat.zero_le _)
    (by simpa using hf2) (by simpa using hf1)

/-- C19, at concrete inputs: an object constructed with seed 1, and an object constructed
with seed 2 on which `generateTextFile` was called before; target 100 and cursor 12345. -/
theorem Object.generateTextToBuffer_deterministic_witness :
    (∃ out cursor,
      ((Object.new lcgEngine 1).generateTextToBuffer 1101 "old".toList 100 12345).1 =
        some (out, cursor) ∧
      ((((Object.new lcgEngine 2).generateTextFile lcgNext ⟨fun _ => true, fun _ _ => true⟩
          3000 "out.txt" 1000).2).generateTextToBuffer 2000 [] 100 12345).1 =
        some (out, cursor)) ∧
    ∀ seed1 seed2, (Object.new lcgEngine seed1).model = (Object.new lcgEngine seed2).model :=
  Object.generateTextToBuffer_deterministic lcgEngine (Object.new lcgEngine 1)
    (((Object.new lcgEngine 2).generateTextFile lcgNext ⟨fun _ => true, fun _ _ => true⟩
          3000 "out.txt" 1000).2)
    (Object.Reachable.new 1)
    (Object.Reachable.generateTextFile (Object.new lcgEngine 2) lcgNext
      ⟨fun _ => true, fun _ _ => true⟩ 3000 "out.txt" 1000 (Object.Reachable.new 2))
    1101 2000 "old".toList [] 100 12345 (by show 100 + PARAGRAPH_SIZE + 1 ≤ 1101; decide)
    (by show 100 + PARAGRAPH_SIZE + 1 ≤ 2000; decide)

end TextGenerator

/-! ## The RC4 stage -/

theorem rc4Prga_take_one (n i j : Nat) (S : List Nat) :
    (rc4Prga (n + 1) i j S).take 1 = rc4Prga 1 i j S := by
  simp [rc4Prga]

theorem rc4Keystream_take_one (key : List Nat) (n : Nat) :
    (rc4Keystream key (n + 1)).take 1 = rc4Keystream key 1 :=
  rc4Prga_take_one n 0 0 _

set_option maxRecDepth 1000000 in
/-- The first two keystream bytes of RC4 under the key `01 02 03 04 05 06 07`. -/
theorem rc4Keystream_example : rc4Keystream [1, 2, 3, 4, 5, 6, 7] 2 = [41, 63] := by
  decide!

namespace TextEncryptor

/-- The RC4 stage returns the bytes that the library call writes. -/
theorem encryptRC4_eq (P : OpenSSL) (key56 data : List Nat) :
    encryptRC4 P key56 data =
      (List.range data.length).map fun j => (P.RC4 key56 data.length data).getD j 0 := by
  unfold encryptRC4 memcpy
  rw [List.length_replicate]
  apply List.map_congr_left
  intro j hj
  have hj' : j < data.length := List.mem_range.mp hj
  simp [hj']

/-- The RC4 stage of a cipher whose output is the input combined with a keystream `ks key`
by exclusive or: every call starts at keystream position 0. -/
theorem encryptRC4_keystream (P : OpenSSL) (ks : List Nat → Nat → Nat)
    (hP : ∀ key len input, P.RC4 key len input =
      (List.range len).map fun i => input.getD i 0 ^^^ ks key i)
    (key56 data : List Nat) :
    encryptRC4 P key56 data =
      (List.range data.length).map fun i => data.getD i 0 ^^^ ks key56 i := by
  rw [encryptRC4_eq, hP]
  apply List.map_congr_left
  intro j hj
  have hj' : j < data.length := List.mem_range.mp hj
  rw [List.getD_eq_getElem?_getD, List.getElem?_map, List.getElem?_range hj']
  rfl

end TextEncryptor

theorem rc4Prga_getD : ∀ (n n' i a b : Nat) (S : List Nat), i < n → i < n' →
    (rc4Prga n a b S).getD i 0 = (rc4Prga n' a b S).getD i 0 := by
  intro n
  induction n with
  | zero => intro n' i a b S h; omega
  | succ n ih =>
    intro n' i a b S h h'
    cases n' with
    | zero => omega
    | succ n' =>
      cases i with
      | zero => simp [rc4Prga]
      | succ i =>
        simp only [rc4Prga, List.getD_cons_succ]
        exact ih n' i _ _ _ (by omega) (by omega)

theorem rc4Keystream_getD (key : List Nat) (n i : Nat) (h : i < n) :
    (rc4Keystream key n).getD i 0 = rc4Byte key i :=
  rc4Prga_getD n (i + 1) i 0 0 _ h (Nat.lt_succ_self i)

theorem rc4OpenSSL_RC4 (key : List Nat) (len : Nat) (input : List Nat) :
    rc4OpenSSL.RC4 key len input =
      (List.range len).map fun i =>
        input.getD i 0 ^^^ (rc4Keystream (key.take 7) len).getD i 0 := rfl

/-- The instance `rc4OpenSSL` combines the input with the RC4 keystream of the first 7
key bytes. -/
theorem rc4OpenSSL_keystream (key : List Nat) (len : Nat) (input : List Nat) :
    rc4OpenSSL.RC4 key len input =
      (List.range len).map fun i => input.getD i 0 ^^^ rc4Byte (key.take 7) i := by
  rw [rc4OpenSSL_RC4]
  apply List.map_congr_left
  intro i hi
  rw [rc4Keystream_getD _ _ _ (List.mem_range.mp hi)]

namespace TextEncryptor

theorem encryptRC4_chunks (P : OpenSSL) (ks : List Nat → Nat → Nat)
    (hP : ∀ key len input, P.RC4 key len input =
      (List.range len).map fun i => input.getD i 0 ^^^ ks key i)
    (key56 a b : List Nat) :
    encryptRC4 P key56 a ++ encryptRC4 P key56 b =
      (List.range (a.length + b.length)).map fun i =>
        (a ++ b).getD i 0 ^^^ ks key56 (if i < a.length then i else i - a.length) := by
  rw [encryptRC4_keystream P ks hP, encryptRC4_keystream P ks hP, List.range_add,
    List.map_append, List.map_map]
  congr 1
  · apply List.map_congr_left
    intro i hi
    have hi' : i < a.length := List.mem_range.mp hi
    simp [hi', List.getD_eq_getElem?_getD, List.getElem?_append_left hi']
  · apply List.map_congr_left
    intro i _
    simp [List.getD_eq_getElem?_getD, List.getElem?_append_right]

/-- C11, amended. For a stream cipher that combines the input with a keystream `ks key` by
exclusive or, the rc4 pipeline's output for the chunk sequence `[a, b]` is `a` combined
with the keystream from position 0 followed by `b` combined with the keystream from
position 0 again: the key is set up anew by every call of `encryptRC4`. The encryption of
`a ++ b` as one stream uses the positions `0 .. |a| + |b| - 1`; the two agree on the first
`|a|` bytes. -/
theorem rc4_keystream_restarts (P : OpenSSL) (ks : List Nat → Nat → Nat)
    (hP : ∀ key len input, P.RC4 key len input =
      (List.range len).map fun i => input.getD i 0 ^^^ ks key i)
    (key56 a b : List Nat) :
    encryptRC4 P key56 a ++ encryptRC4 P key56 b =
      (List.range (a.length + b.length)).map (fun i =>
        (a ++ b).getD i 0 ^^^ ks key56 (if i < a.length then i else i - a.length)) ∧
    encryptRC4 P key56 (a ++ b) =
      (List.range (a.length + b.length)).map (fun i => (a ++ b).getD i 0 ^^^ ks key56 i) ∧
    (encryptRC4 P key56 a ++ encryptRC4 P key56 b).take a.length =
      (encryptRC4 P key56 (a ++ b)).take a.length := by
  have h1 := encryptRC4_chunks P ks hP key56 a b
  have h2 : encryptRC4 P key56 (a ++ b) =
      (List.range (a.length + b.length)).map (fun i => (a ++ b).getD i 0 ^^^ ks key56 i) := by
    rw [encryptRC4_keystream P ks hP, List.length_append]
  refine ⟨h1, h2, ?_⟩
  rw [h1, h2, List.range_add, List.map_append, List.map_append,
    List.take_left' (by simp), List.take_left' (by simp)]
  apply List.map_congr_left
  intro i hi
  simp [List.mem_range.mp hi]

/-- C11 amended, at a concrete input: RC4 as published, two chunks of three bytes. -/
theorem rc4_keystream_restarts_witness :
    encryptRC4 rc4OpenSSL [1, 2, 3, 4, 5, 6, 7] [10, 20, 30] ++
        encryptRC4 rc4OpenSSL [1, 2, 3, 4, 5, 6, 7] [40, 50, 60] =
      (List.range ([10, 20, 30].length + [40, 50, 60].length)).map (fun i =>
        ([10, 20, 30] ++ [40, 50, 60]).getD i 0 ^^^
          rc4Byte ([1, 2, 3, 4, 5, 6, 7].take 7)
            (if i < [10, 20, 30].length then i else i - [10, 20, 30].length)) ∧
    encryptRC4 rc4OpenSSL [1, 2, 3, 4, 5, 6, 7] ([10, 20, 30] ++ [40, 50, 60]) =
      (List.range ([10, 20, 30].length + [40, 50, 60].length)).map (fun i =>
        ([10, 20, 30] ++ [40, 50, 60]).getD i 0 ^^^ rc4Byte ([1, 2, 3, 4, 5, 6, 7].take 7) i) ∧
    (encryptRC4 rc4OpenSSL [1, 2, 3, 4, 5, 6, 7] [10, 20, 30] ++
        encryptRC4 rc4OpenSSL [1, 2, 3, 4, 5, 6, 7] [40, 50, 60]).take [10, 20, 30].length =
      (encryptRC4 rc4OpenSSL [1, 2, 3, 4, 5, 6, 7]
        ([10, 20, 30] ++ [40, 50, 60])).take [10, 20, 30].length :=
  rc4_keystream_restarts rc4OpenSSL (fun key i => rc4Byte (key.take 7) i) rc4OpenSSL_keystream
    [1, 2, 3, 4, 5, 6, 7] [10, 20, 30] [40, 50, 60]

/-- C11 as stated fails: under RC4 as published with the key `01 02 03 04 05 06 07`,
the output for the two one-byte chunks `[0]`, `[0]` is not the encryption of `[0, 0]` as
one stream. -/
theorem rc4_chunks_not_one_stream :
    encryptRC4 rc4OpenSSL [1, 2, 3, 4, 5, 6, 7] [0] ++
        encryptRC4 rc4OpenSSL [1, 2, 3, 4, 5, 6, 7] [0] ≠
      encryptRC4 rc4OpenSSL [1, 2, 3, 4, 5, 6, 7] ([0] ++ [0]) := by
  have h2 := rc4Keystream_example
  have h1 : rc4Keystream [1, 2, 3, 4, 5, 6, 7] 1 = [41] := by
    rw [← rc4Keystream_take_one _ 1, h2]
    rfl
  have e1 : encryptRC4 rc4OpenSSL [1, 2, 3, 4, 5, 6, 7] [0] = [41] := by
    rw [encryptRC4_eq, rc4OpenSSL_RC4,
      show List.take 7 [1, 2, 3, 4, 5, 6, 7] = [1, 2, 3, 4, 5, 6, 7] from rfl,
      show [0].length = 1 from rfl, h1]
    decide
  have e2 : encryptRC4 rc4OpenSSL [1, 2, 3, 4, 5, 6, 7] ([0] ++ [0]) = [41, 63] := by
    rw [encryptRC4_eq, rc4OpenSSL_RC4,
      show List.take 7 [1, 2, 3, 4, 5, 6, 7] = [1, 2, 3, 4, 5, 6, 7] from rfl,
      show ([0] ++ [0] : List Nat).length = 2 from rfl, h2]
    decide
  rw [e1, e2]
  decide

end TextEncryptor

/-! ## The text file driver -/

theorem OFStream.write_path {α : Type} (fs : FileSystem) (file : OFStream α) (data : List α) :
    (file.write fs data).path = file.path := by
  unfold OFStream.write
  split <;> rfl

theorem OFStream.write_calls {α : Type} (fs : FileSystem) (file : OFStream α) (data : List α) :
    (file.write fs data).calls = file.calls + 1 := by
  unfold OFStream.write
  split <;> rfl

theorem OFStream.write_contents_of_fail {α : Type} (fs : FileSystem) (file : OFStream α)
    (data : List α) (h : (file.good && fs.writeOk file.path file.calls) = false) :
    (file.write fs data).contents = file.contents ∧ (file.write fs data).good = false := by
  unfold OFStream.write
  rw [h]
  exact ⟨rfl, rfl⟩

theorem OFStream.write_of_ok {α : Type} (fs : FileSystem) (file : OFStream α)
    (data : List α) (h : (file.good && fs.writeOk file.path file.calls) = true) :
    (file.write fs data).contents = file.contents ++ data ∧
      (file.write fs data).good = true := by
  unfold OFStream.write
  rw [h]
  simp only [if_true]
  simp only [Bool.and_eq_true] at h
  exact ⟨trivial, h.1⟩

namespace TextGenerator

theorem generateTextFileChunk_returns (R : RandomEngine) (m : Model) (cs bw T : Nat) :
    ∀ (fuel : Nat) (chunk : Str) (seed : Nat),
      cs - chunk.length + PARAGRAPH_SIZE + 1 ≤ fuel →
      ∃ chunk1 seed1, generateTextFileChunk R m cs bw T fuel chunk seed = some (chunk1, seed1) ∧
        (cs ≤ chunk1.length ∨ T ≤ bw + chunk1.length) := by
  have hPS : PARAGRAPH_SIZE = 1000 := rfl
  intro fuel
  induction fuel with
  | zero => intro chunk seed h; omega
  | succ fuel ih =>
    intro chunk seed h
    rw [generateTextFileChunk]
    by_cases hc : chunk.length < cs ∧ bw + chunk.length < T
    · rw [if_pos hc, generateParagraph_eq_paragraphAt R m fuel seed (by omega)]
      have hlen := paragraphAt_length R m seed
      rcases hpar : paragraphAt R m seed with ⟨paragraph, seed1⟩
      rw [hpar] at hlen
      simp only at hlen
      simp only
      apply ih
      have : chunk.length + 1 ≤
          ((if chunk ≠ [] then chunk ++ ['\n', '\n'] else chunk) ++ paragraph).length := by
        rw [List.length_append]
        split
        · simp only [List.length_append]
          omega
        · omega
      omega
    · rw [if_neg hc]
      exact ⟨chunk, seed, rfl, by omega⟩

theorem generateTextFileLoop_returns (R : RandomEngine) (m : Model) (fs : FileSystem)
    (T : Nat) :
    ∀ (fuel : Nat) (file : OFStream Char) (bw seed : Nat) (its : List (Str × Nat)),
      bw ≤ T → T - bw + PARAGRAPH_SIZE + 2 ≤ fuel →
      ∃ file1 seed1 new,
        generateTextFileLoop R m fs T fuel file bw seed its = some (file1, T, seed1, its ++ new) ∧
        IterationsOK T bw new ∧ bw + (new.map Prod.fst).flatten.length = T ∧
        file1.path = file.path ∧
        ((∀ k, fs.writeOk file.path k = false) → file1.contents = file.contents) ∧
        ((∀ k, fs.writeOk file.path k = true) → file.good = true →
          file1.contents = file.contents ++ (new.map Prod.fst).flatten ∧ file1.good = true) := by
  have hPS : PARAGRAPH_SIZE = 1000 := rfl
  have hCS : 0 < CHUNK_SIZE := by decide
  intro fuel
  induction fuel with
  | zero => intro file bw seed its _ h; omega
  | succ fuel ih =>
    intro file bw seed its hle h
    rw [generateTextFileLoop]
    by_cases hc : bw < T
    · rw [if_pos hc]
      simp only
      obtain ⟨chunk, seed1, hch, hex⟩ :=
        generateTextFileChunk_returns R m (min CHUNK_SIZE (T - bw)) bw T fuel [] seed
          (by simp only [List.length_nil]; have := Nat.min_le_right CHUNK_SIZE (T - bw); omega)
      rw [hch]
      simp only
      have hmin : min CHUNK_SIZE (T - bw) ≤ T - bw := Nat.min_le_right _ _
      have hmin1 : 1 ≤ min CHUNK_SIZE (T - bw) := by
        rw [Nat.le_min]; exact ⟨hCS, by omega⟩
      generalize hc1 : (if T - bw < chunk.length then chunk.take (T - bw) else chunk) = chunk1
      have hlen1 : chunk1.length = min chunk.length (T - bw) := by
        rw [← hc1]
        split
        · rw [List.length_take]; omega
        · omega
      have hpos : 1 ≤ chunk1.length := by omega
      have hle1 : bw + chunk1.length ≤ T := by omega
      obtain ⟨file1, seed2, new, hrun, hok, hsum, hpath, hfail, hgood⟩ :=
        ih (file.write fs chunk1) (bw + chunk1.length) seed1
          (its ++ [(chunk1, bw + chunk1.length)]) hle1 (by omega)
      refine ⟨file1, seed2, (chunk1, bw + chunk1.length) :: new, ?_, ?_, ?_, ?_, ?_, ?_⟩
      · rw [hrun, List.append_assoc]
        rfl
      · exact ⟨fun e => by rw [e] at hpos; simp at hpos, rfl, hle1, hok⟩
      · simp only [List.map_cons, List.flatten_cons, List.length_append]
        omega
      · rw [hpath, OFStream.write_path]
      · intro hall
        rw [hfail (by rw [OFStream.write_path]; exact hall)]
        exact (OFStream.write_contents_of_fail fs file chunk1 (by simp [hall])).1
      · intro hall hg
        have hw := OFStream.write_of_ok fs file chunk1 (by simp [hall, hg])
        obtain ⟨h1, h2⟩ := hgood (by rw [OFStream.write_path]; exact hall) hw.2
        refine ⟨?_, h2⟩
        rw [h1, hw.1]
        simp
    · rw [if_neg hc]
      have : bw = T := by omega
      subst this
      exact ⟨file, seed, [], by simp, trivial, by simp, rfl, fun _ => rfl,
        fun _ hg => ⟨by simp, hg⟩⟩

end TextGenerator

namespace TextGenerator

theorem IterationsOK.chain (T : Nat) :
    ∀ (its : List (Str × Nat)) (start : Nat), IterationsOK T start its →
      List.Chain (fun a b => a < b) start (its.map Prod.snd) ∧ ∀ e ∈ its, e.2 ≤ T := by
  intro its
  induction its with
  | nil => intro start _; exact ⟨List.Chain.nil, fun e he => by simp at he⟩
  | cons e rest ih =>
    intro start h
    obtain ⟨chunk, b⟩ := e
    obtain ⟨hne, hb, hle, hrest⟩ := h
    obtain ⟨hch, hall⟩ := ih b hrest
    have hpos : 0 < chunk.length := List.length_pos.mpr hne
    refine ⟨List.Chain.cons (by show start < b; omega) hch, ?_⟩
    intro e he
    rcases List.mem_cons.mp he with rfl | he
    · exact hle
    · exact hall e he

theorem generateTextFile_run (R : RandomEngine) (m : Model) (fs : FileSystem) (fuel : Nat)
    (outputPath : String) (T seed : Nat) (hopen : fs.canOpen outputPath = true)
    (hfuel : T + PARAGRAPH_SIZE + 2 ≤ fuel) :
    ∃ run, generateTextFile R m fs fuel outputPath T seed = some run ∧
      run.messages = [Message.success T] ∧ run.bytesWritten = T ∧
      IterationsOK T 0 run.iterations ∧
      (run.iterations.map Prod.fst).flatten.length = T ∧
      ((∀ k, fs.writeOk outputPath k = false) → run.file.contents = []) ∧
      ((∀ k, fs.writeOk outputPath k = true) →
        run.file.contents = (run.iterations.map Prod.fst).flatten) := by
  obtain ⟨file1, seed1, new, hrun, hok, hsum, _, hfail, hgood⟩ :=
    generateTextFileLoop_returns R m fs T fuel (ofstream fs outputPath) 0 seed []
      (Nat.zero_le _) (by omega)
  unfold generateTextFile
  have ho : (ofstream fs outputPath : OFStream Char).is_open = true := hopen
  simp only [ho, Bool.not_true, Bool.false_eq_true, if_false, hrun, List.nil_append]
  refine ⟨_, rfl, by simp, rfl, hok, by simpa using hsum, ?_, ?_⟩
  · intro hall
    exact hfail hall
  · intro hall
    have := (hgood hall hopen).1
    simpa [ofstream] using this

/-- C12. In `generateTextFile`, for every `targetSizeBytes` and every outcome of the
writes: with enough fuel the loop terminates; `bytesWritten` strictly increases on every
iteration, each time by the length of the chunk handed to the file, and never exceeds
`targetSizeBytes`; at loop exit `bytesWritten = targetSizeBytes`, and the chunks handed to
the file have `targetSizeBytes` bytes in total. -/
theorem generateTextFile_exact_size (R : RandomEngine) (m : Model) (fs : FileSystem)
    (fuel : Nat) (outputPath : String) (targetSizeBytes seed : Nat)
    (hopen : fs.canOpen outputPath = true)
    (hfuel : targetSizeBytes + PARAGRAPH_SIZE + 2 ≤ fuel) :
    ∃ run, generateTextFile R m fs fuel outputPath targetSizeBytes seed = some run ∧
      run.bytesWritten = targetSizeBytes ∧
      List.Chain (fun a b => a < b) 0 (run.iterations.map Prod.snd) ∧
      (∀ e ∈ run.iterations, e.2 ≤ targetSizeBytes) ∧
      IterationsOK targetSizeBytes 0 run.iterations ∧
      (run.iterations.map Prod.fst).flatten.length = targetSizeBytes := by
  obtain ⟨run, h, _, hbw, hok, hsum, _, _⟩ :=
    generateTextFile_run R m fs fuel outputPath targetSizeBytes seed hopen hfuel
  obtain ⟨hch, hall⟩ := IterationsOK.chain targetSizeBytes run.iterations 0 hok
  exact ⟨run, h, hbw, hch, hall, hok, hsum⟩

/-- C12, at a concrete input: the built-in model, a file system without failures, target
2500 and seed 12345. -/
theorem generateTextFile_exact_size_witness :
    ∃ run, generateTextFile lcgEngine initializeMarkovChain ⟨fun _ => true, fun _ _ => true⟩
        4000 "out.txt" 2500 12345 = some run ∧
      run.bytesWritten = 2500 ∧
      List.Chain (fun a b => a < b) 0 (run.iterations.map Prod.snd) ∧
      (∀ e ∈ run.iterations, e.2 ≤ 2500) ∧
      IterationsOK 2500 0 run.iterations ∧
      (run.iterations.map Prod.fst).flatten.length = 2500 :=
  generateTextFile_exact_size lcgEngine initializeMarkovChain ⟨fun _ => true, fun _ _ => true⟩
    4000 "out.txt" 2500 12345 rfl (by decide)

end TextGenerator

/-! ## The drivers that read a source -/

namespace TextEncryptor

theorem CHUNK_SIZE_eq : CHUNK_SIZE = 104857600 := by decide

theorem FILE_SIZE_BYTES_eq : FILE_SIZE_BYTES = 8589934592 := by decide

/-- A read of `n` bytes from a good stream that holds at least `n` bytes. -/
theorem IFStream_read_full (rest : List Nat) (n : Nat) (h : n ≤ rest.length) :
    IFStream.read ⟨true, rest⟩ n = (rest.take n, ⟨true, rest.drop n⟩) := by
  simp [IFStream.read, h]

/-- One iteration of the loop of `encryptTextFile` that reads a full chunk and writes it. -/
theorem encryptTextFileLoop_step (P : OpenSSL) (key56 : List Nat) (fs : FileSystem)
    (alg : String) (fuel : Nat) (rest : List Nat) (outputFile : OFStream Nat) (bp : Nat)
    (chunks : List (List Nat × List Nat)) (hrest : CHUNK_SIZE ≤ rest.length)
    (hbp : bp + CHUNK_SIZE ≤ FILE_SIZE_BYTES)
    (hw : (outputFile.good && fs.writeOk outputFile.path outputFile.calls) = true) :
    encryptTextFileLoop P key56 fs alg (fuel + 1) ⟨true, rest⟩ outputFile bp chunks =
      encryptTextFileLoop P key56 fs alg fuel ⟨true, rest.drop CHUNK_SIZE⟩
        (outputFile.write fs (encryptSelected P key56 alg (rest.take CHUNK_SIZE)))
        (bp + CHUNK_SIZE)
        (chunks ++ [(rest.take CHUNK_SIZE,
          encryptSelected P key56 alg (rest.take CHUNK_SIZE))]) := by
  have hCS := CHUNK_SIZE_eq
  have hmin : min CHUNK_SIZE (FILE_SIZE_BYTES - bp) = CHUNK_SIZE := by omega
  have hlen : (rest.take CHUNK_SIZE).length = CHUNK_SIZE := by
    rw [List.length_take]; omega
  rw [encryptTextFileLoop]
  simp only [hmin, IFStream_read_full rest CHUNK_SIZE hrest, hlen]
  rw [if_pos ⟨trivial, by omega⟩, if_neg (by omega),
    (OFStream.write_of_ok fs outputFile _ hw).2]
  rfl

/-- The iterations of the loop of `encryptTextFile` while full chunks are read and the
writes succeed. -/
theorem encryptTextFileLoop_full (P : OpenSSL) (key56 : List Nat) (fs : FileSystem)
    (alg : String) :
    ∀ (n fuel : Nat) (rest : List Nat) (outputFile : OFStream Nat) (bp : Nat)
      (chunks : List (List Nat × List Nat)),
      outputFile.good = true → n * CHUNK_SIZE ≤ rest.length →
      bp + n * CHUNK_SIZE ≤ FILE_SIZE_BYTES →
      (∀ i, i < n → fs.writeOk outputFile.path (outputFile.calls + i) = true) →
      ∃ out1 new,
        encryptTextFileLoop P key56 fs alg (fuel + n) ⟨true, rest⟩ outputFile bp chunks =
          encryptTextFileLoop P key56 fs alg fuel ⟨true, rest.drop (n * CHUNK_SIZE)⟩ out1
            (bp + n * CHUNK_SIZE) (chunks ++ new) ∧
        out1.good = true ∧ out1.path = outputFile.path ∧
        out1.calls = outputFile.calls + n ∧ new.length = n ∧
        out1.contents = outputFile.contents ++ (new.map Prod.snd).flatten ∧
        ∀ c ∈ new, c.2 = encryptSelected P key56 alg c.1 := by
  intro n
  induction n with
  | zero =>
    intro fuel rest outputFile bp chunks hg _ _ _
    exact ⟨outputFile, [], by simp, hg, rfl, rfl, rfl, by simp, by simp⟩
  | succ n ih =>
    intro fuel rest outputFile bp chunks hg hrest hbp hw
    have hCS := CHUNK_SIZE_eq
    have hmul : (n + 1) * CHUNK_SIZE = n * CHUNK_SIZE + CHUNK_SIZE := Nat.succ_mul _ _
    have hw0 : (outputFile.good && fs.writeOk outputFile.path outputFile.calls) = true := by
      have := hw 0 (Nat.succ_pos n)
      rw [Nat.add_zero] at this
      simp [hg, this]
    have hwr := OFStream.write_of_ok fs outputFile
      (encryptSelected P key56 alg (rest.take CHUNK_SIZE)) hw0
    obtain ⟨out1, new, hrun, hg1, hp1, hc1, hl1, hcont, hall⟩ :=
      ih fuel (rest.drop CHUNK_SIZE)
        (outputFile.write fs (encryptSelected P key56 alg (rest.take CHUNK_SIZE)))
        (bp + CHUNK_SIZE)
        (chunks ++ [(rest.take CHUNK_SIZE, encryptSelected P key56 alg (rest.take CHUNK_SIZE))])
        hwr.2 (by rw [List.length_drop]; omega) (by omega)
        (fun i hi => by
          rw [OFStream.write_path, OFStream.write_calls]
          have := hw (i + 1) (by omega)
          rw [← this]; congr 1; omega)
    refine ⟨out1, (rest.take CHUNK_SIZE, encryptSelected P key56 alg (rest.take CHUNK_SIZE))
      :: new, ?_, hg1, ?_, ?_, ?_, ?_, ?_⟩
    · rw [show fuel + (n + 1) = (fuel + n) + 1 from rfl,
        encryptTextFileLoop_step P key56 fs alg (fuel + n) rest outputFile bp chunks
          (by omega) (by omega) hw0, hrun, List.drop_drop, List.append_assoc]
      have e1 : CHUNK_SIZE + n * CHUNK_SIZE = (n + 1) * CHUNK_SIZE := by omega
      have e2 : bp + CHUNK_SIZE + n * CHUNK_SIZE = bp + (n + 1) * CHUNK_SIZE := by omega
      rw [e1, e2]
      rfl
    · rw [hp1, OFStream.write_path]
    · rw [hc1, OFStream.write_calls]; omega
    · simp [hl1]
    · rw [hcont, hwr.1]; simp
    · intro c hc
      rcases List.mem_cons.mp hc with rfl | hc
      · rfl
      · exact hall c hc

/-- The iteration of the loop of `encryptTextFile` in which the read returns zero bytes. -/
theorem encryptTextFileLoop_zero_read (P : OpenSSL) (key56 : List Nat) (fs : FileSystem)
    (alg : String) (fuel : Nat) (outputFile : OFStream Nat) (bp : Nat)
    (chunks : List (List Nat × List Nat)) (hbp : bp < FILE_SIZE_BYTES) :
    encryptTextFileLoop P key56 fs alg (fuel + 1) ⟨true, []⟩ outputFile bp chunks =
      some { messages := [], outputFile := outputFile, bytesProcessed := bp,
             chunks := chunks } := by
  rw [encryptTextFileLoop]
  simp [IFStream.read, hbp]

/-- The iteration of the loop of `encryptTextFile` in which the write fails. -/
theorem encryptTextFileLoop_write_fails (P : OpenSSL) (key56 : List Nat) (fs : FileSystem)
    (alg : String) (fuel : Nat) (rest : List Nat) (outputFile : OFStream Nat) (bp : Nat)
    (chunks : List (List Nat × List Nat)) (hbp : bp < FILE_SIZE_BYTES) (hrest : rest ≠ [])
    (hw : (outputFile.good && fs.writeOk outputFile.path outputFile.calls) = false) :
    ∃ textChunk out1,
      encryptTextFileLoop P key56 fs alg (fuel + 1) ⟨true, rest⟩ outputFile bp chunks =
        some { messages := [Message.writeError], outputFile := out1, bytesProcessed := bp,
               chunks := chunks ++ [(textChunk, encryptSelected P key56 alg textChunk)] } ∧
      out1.contents = outputFile.contents ∧ out1.calls = outputFile.calls + 1 := by
  have hCS := CHUNK_SIZE_eq
  have hpos : 0 < rest.length := List.length_pos.mpr hrest
  rw [encryptTextFileLoop]
  simp only [IFStream.read, if_true]
  have hlen : (rest.take (min CHUNK_SIZE (FILE_SIZE_BYTES - bp))).length ≠ 0 := by
    rw [List.length_take]; omega
  rw [if_pos ⟨trivial, hbp⟩, if_neg hlen,
    (OFStream.write_contents_of_fail fs outputFile _ hw).2]
  exact ⟨_, _, rfl, (OFStream.write_contents_of_fail fs outputFile _ hw).1,
    OFStream.write_calls _ _ _⟩

end TextEncryptor

namespace TextEncryptor

/-- The function `encryptTextFile` after its loop has returned `run0`. -/
theorem encryptTextFile_of_loop (P : OpenSSL) (key56 : List Nat) (fs : FileSystem)
    (fuel : Nat) (input : List Nat) (outputPath alg : String) (run0 : EncryptRun)
    (hopen : fs.canOpen outputPath = true)
    (hloop : encryptTextFileLoop P key56 fs alg fuel ⟨true, input⟩ (ofstream fs outputPath)
      0 [] = some run0) :
    encryptTextFile P key56 fs fuel (some input) outputPath alg =
      some { run0 with
             messages := run0.messages ++
               [if 0 < run0.bytesProcessed then Message.success run0.bytesProcessed
                else Message.failure]
             outputFile := run0.outputFile.close } := by
  have ho : (ofstream fs outputPath : OFStream Nat).is_open = true := hopen
  simp only [encryptTextFile, ho, Bool.not_true, Bool.false_eq_true, if_false, hloop]

/-- A run of `encryptTextFile` on an input of `n` full chunks, less than the target: the
read number `n` returns zero bytes. -/
theorem encryptTextFile_exhausted (P : OpenSSL) (key56 : List Nat) (fs : FileSystem)
    (fuel : Nat) (input : List Nat) (outputPath alg : String) (n : Nat) (hn : n ≤ 81)
    (hlen : input.length = n * CHUNK_SIZE) (hopen : fs.canOpen outputPath = true)
    (hw : ∀ i, i < n → fs.writeOk outputPath i = true) (hfuel : n + 1 ≤ fuel) :
    ∃ run, encryptTextFile P key56 fs fuel (some input) outputPath alg = some run ∧
      run.bytesProcessed = n * CHUNK_SIZE ∧ run.chunks.length = n ∧
      run.messages =
        [if n = 0 then Message.failure else Message.success (n * CHUNK_SIZE)] ∧
      run.outputFile.contents = (run.chunks.map Prod.snd).flatten := by
  have hCS := CHUNK_SIZE_eq
  have hFS := FILE_SIZE_BYTES_eq
  have hnC : n * CHUNK_SIZE = n * 104857600 := by rw [hCS]
  obtain ⟨out1, new, hrun, _, _, _, hl, hcont, _⟩ :=
    encryptTextFileLoop_full P key56 fs alg n (fuel - n) input (ofstream fs outputPath) 0 []
      hopen (by omega) (by omega)
      (fun i hi => by
        show fs.writeOk outputPath (0 + i) = true
        rw [Nat.zero_add]; exact hw i hi)
  have hdrop : input.drop (n * CHUNK_SIZE) = [] :=
    List.drop_eq_nil_of_le (by omega)
  rw [show fuel - n + n = fuel by omega, hdrop,
    show fuel - n = (fuel - n - 1) + 1 by omega,
    encryptTextFileLoop_zero_read P key56 fs alg _ out1 _ _ (by omega)] at hrun
  refine ⟨_, encryptTextFile_of_loop P key56 fs fuel input outputPath alg _ hopen hrun,
    by simp, by simpa using hl, ?_, ?_⟩
  · by_cases h0 : n = 0
    · simp [h0]
    · have : 0 < n * CHUNK_SIZE := by
        have : 0 < n := Nat.pos_of_ne_zero h0
        have := Nat.mul_le_mul_right CHUNK_SIZE this
        omega
      simp [h0, this]
  · show out1.contents = _
    rw [hcont]
    simp [ofstream]

/-- A run of `encryptTextFile` in which `n` chunks are written and the write number `n`
fails. -/
theorem encryptTextFile_write_failure (P : OpenSSL) (key56 : List Nat) (fs : FileSystem)
    (fuel : Nat) (input : List Nat) (outputPath alg : String) (n : Nat) (hn : n ≤ 81)
    (hlen : n * CHUNK_SIZE < input.length) (hopen : fs.canOpen outputPath = true)
    (hw : ∀ i, i < n → fs.writeOk outputPath i = true)
    (hfail : fs.writeOk outputPath n = false) (hfuel : n + 1 ≤ fuel) :
    ∃ run, encryptTextFile P key56 fs fuel (some input) outputPath alg = some run ∧
      run.bytesProcessed = n * CHUNK_SIZE ∧ run.chunks.length = n + 1 ∧
      run.outputFile.calls = n + 1 ∧
      run.messages =
        [Message.writeError,
          if n = 0 then Message.failure else Message.success (n * CHUNK_SIZE)] := by
  have hCS := CHUNK_SIZE_eq
  have hFS := FILE_SIZE_BYTES_eq
  have hnC : n * CHUNK_SIZE = n * 104857600 := by rw [hCS]
  obtain ⟨out1, new, hrun, _, hp, hc, hl, _, _⟩ :=
    encryptTextFileLoop_full P key56 fs alg n (fuel - n) input (ofstream fs outputPath) 0 []
      hopen (by omega) (by omega)
      (fun i hi => by
        show fs.writeOk outputPath (0 + i) = true
        rw [Nat.zero_add]; exact hw i hi)
  have hne : input.drop (n * CHUNK_SIZE) ≠ [] := by
    intro h
    have := congrArg List.length h
    rw [List.length_drop] at this
    simp only [List.length_nil] at this
    omega
  obtain ⟨t, out2, hstep, _, hc2⟩ :=
    encryptTextFileLoop_write_fails P key56 fs alg (fuel - n - 1)
      (input.drop (n * CHUNK_SIZE)) out1 (0 + n * CHUNK_SIZE) ([] ++ new) (by omega) hne
      (by
        have h1 : out1.path = outputPath := hp
        have h2 : out1.calls = n := by rw [hc]; exact Nat.zero_add n
        rw [h1, h2, hfail, Bool.and_false])
  rw [show fuel - n + n = fuel by omega,
    show fuel - n = (fuel - n - 1) + 1 by omega, hstep] at hrun
  refine ⟨_, encryptTextFile_of_loop P key56 fs fuel input outputPath alg _ hopen hrun,
    by simp, by simp [hl], ?_, ?_⟩
  · show out2.calls = n + 1
    rw [hc2, hc]
    show 0 + n + 1 = n + 1
    omega
  · by_cases h0 : n = 0
    · simp [h0]
    · have : 0 < n * CHUNK_SIZE := by
        have : 0 < n := Nat.pos_of_ne_zero h0
        have := Nat.mul_le_mul_right CHUNK_SIZE this
        omega
      simp [h0, this]

end TextEncryptor

namespace TextCompressor

/-- The iteration of the loop of `compressStreamTo8GB` in which the source returns zero
bytes: the loop ends and the function returns what `gzclose` allows. -/
theorem compressLoop_zero_read {σ : Type} (E : GzEnv σ) (fuel k : Nat) (src : σ)
    (chunks : List (List Nat)) (hsize : 0 ≤ E.lseek (2 * k))
    (hlt : (E.lseek (2 * k)).toNat < FILE_SIZE_BYTES)
    (hzero : (E.readChunk src CHUNK_INPUT).1 = []) :
    compressLoop E (fuel + 1) k src chunks =
      some { result := E.gzclose, source := (E.readChunk src CHUNK_INPUT).2,
             chunks := chunks, lseeks := 2 * k + 1 } := by
  rw [compressLoop]
  simp [not_lt.mpr hsize, not_le.mpr hlt, hzero]

end TextCompressor

/-- C13 as stated fails: with a source that returns zero bytes at the first call, while
the output file is empty and every call succeeds, `compressStreamTo8GB` pulls no chunk and
returns `true`. -/
theorem compressStreamTo8GB_zero_read_true :
    (TextCompressor.compressStreamTo8GB TextCompressor.emptySourceEnv 1 ()).map
        (fun run => (run.result, run.chunks)) = some (true, []) := by
  decide

/-- C13, amended. When the source returns zero bytes before the target is reached, the
loop stops. In `compressStreamTo8GB`, at any iteration `k`, the function then returns the
outcome of `gzclose`, `true` when the close succeeds. In `encryptTextFile`, on an input of
`n` full chunks (`n` at most 81, so less than the target) with `n` successful writes, the
read number `n` returns zero bytes and the run ends with `n` chunks processed; it takes
the failure report only when `n = 0`, and the success report with the bytes processed
otherwise. -/
theorem zero_read_outcome {σ : Type} (E : TextCompressor.GzEnv σ) (fuel k : Nat) (src : σ)
    (chunks : List (List Nat)) (hsize : 0 ≤ E.lseek (2 * k))
    (hlt : (E.lseek (2 * k)).toNat < TextCompressor.FILE_SIZE_BYTES)
    (hzero : (E.readChunk src TextCompressor.CHUNK_INPUT).1 = [])
    (P : OpenSSL) (key56 : List Nat) (fs : FileSystem) (fuel2 : Nat) (input : List Nat)
    (outputPath alg : String) (n : Nat) (hn : n ≤ 81)
    (hlen : input.length = n * TextEncryptor.CHUNK_SIZE)
    (hopen : fs.canOpen outputPath = true)
    (hw : ∀ i, i < n → fs.writeOk outputPath i = true) (hfuel : n + 1 ≤ fuel2) :
    TextCompressor.compressLoop E (fuel + 1) k src chunks =
      some { result := E.gzclose, source := (E.readChunk src TextCompressor.CHUNK_INPUT).2,
             chunks := chunks, lseeks := 2 * k + 1 } ∧
    ∃ run, TextEncryptor.encryptTextFile P key56 fs fuel2 (some input) outputPath alg =
        some run ∧
      run.bytesProcessed = n * TextEncryptor.CHUNK_SIZE ∧ run.chunks.length = n ∧
      run.messages =
        [if n = 0 then Message.failure
         else Message.success (n * TextEncryptor.CHUNK_SIZE)] := by
  refine ⟨TextCompressor.compressLoop_zero_read E fuel k src chunks hsize hlt hzero, ?_⟩
  obtain ⟨run, h, hbp, hch, hmsg, _⟩ :=
    TextEncryptor.encryptTextFile_exhausted P key56 fs fuel2 input outputPath alg n hn hlen
      hopen hw hfuel
  exact ⟨run, h, hbp, hch, hmsg⟩

/-- C13 amended, at a concrete input: the environment with the empty source at iteration
0, and an input file of exactly one chunk of 100 MiB for the rc4 pipeline. -/
theorem zero_read_outcome_witness :
    TextCompressor.compressLoop TextCompressor.emptySourceEnv (0 + 1) 0 () [] =
      some { result := TextCompressor.emptySourceEnv.gzclose,
             source := (TextCompressor.emptySourceEnv.readChunk ()
               TextCompressor.CHUNK_INPUT).2,
             chunks := [], lseeks := 2 * 0 + 1 } ∧
    ∃ run, TextEncryptor.encryptTextFile toyOpenSSL [1, 2, 3, 4, 5, 6, 7]
        ⟨fun _ => true, fun _ _ => true⟩ 5
        (some (List.replicate TextEncryptor.CHUNK_SIZE 65)) "out.bin" "rc4" = some run ∧
      run.bytesProcessed = 1 * TextEncryptor.CHUNK_SIZE ∧ run.chunks.length = 1 ∧
      run.messages =
        [if 1 = 0 then Message.failure
         else Message.success (1 * TextEncryptor.CHUNK_SIZE)] :=
  zero_read_outcome TextCompressor.emptySourceEnv 0 0 () [] (by decide) (by decide) rfl
    toyOpenSSL [1, 2, 3, 4, 5, 6, 7] ⟨fun _ => true, fun _ _ => true⟩ 5
    (List.replicate TextEncryptor.CHUNK_SIZE 65) "out.bin" "rc4" 1 (by decide)
    (by rw [List.length_replicate, Nat.one_mul]) rfl (fun _ _ => rfl) (by decide)

/-- C15 fails in the code. On the built-in model with a file that opens and on which every
write fails, `generateTextFile` with target 1000 counts all 1000 bytes as written and ends
with the success message, while nothing reached the file. In `encryptTextFile` for an
input of one chunk and one byte, when the first write succeeds and the second fails, the
write error is followed by the success message. -/
theorem write_failure_reported_as_success :
    (∃ run, TextGenerator.generateTextFile lcgEngine TextGenerator.initializeMarkovChain
        ⟨fun _ => true, fun _ _ => false⟩ 3000 "out.txt" 1000 12345 = some run ∧
      run.messages = [Message.success 1000] ∧ run.bytesWritten = 1000 ∧
      run.file.contents = []) ∧
    (∃ run, TextEncryptor.encryptTextFile toyOpenSSL [1, 2, 3, 4, 5, 6, 7]
        ⟨fun _ => true, fun _ k => decide (k = 0)⟩ 5
        (some (List.replicate (TextEncryptor.CHUNK_SIZE + 1) 65)) "out.bin" "rc4" = some run ∧
      run.messages = [Message.writeError, Message.success TextEncryptor.CHUNK_SIZE] ∧
      run.bytesProcessed = TextEncryptor.CHUNK_SIZE) := by
  constructor
  · obtain ⟨run, h, hmsg, hbw, _, _, hfail, _⟩ :=
      TextGenerator.generateTextFile_run lcgEngine TextGenerator.initializeMarkovChain
        ⟨fun _ => true, fun _ _ => false⟩ 3000 "out.txt" 1000 12345 rfl
        (by show 1000 + TextGenerator.PARAGRAPH_SIZE + 2 ≤ 3000; decide)
    exact ⟨run, h, hmsg, hbw, hfail (fun _ => rfl)⟩
  · obtain ⟨run, h, hbp, _, _, hmsg⟩ :=
      TextEncryptor.encryptTextFile_write_failure toyOpenSSL [1, 2, 3, 4, 5, 6, 7]
        ⟨fun _ => true, fun _ k => decide (k = 0)⟩ 5
        (List.replicate (TextEncryptor.CHUNK_SIZE + 1) 65) "out.bin" "rc4" 1 (by decide)
        (by rw [List.length_replicate, Nat.one_mul]; exact Nat.lt_succ_self _) rfl
        (fun i hi => by
          have : i = 0 := by omega
          subst this; rfl)
        rfl (by decide)
    refine ⟨run, h, ?_, ?_⟩
    · rw [hmsg, Nat.one_mul]; rfl
    · rw [hbp, Nat.one_mul]

/-! ## The generating cipher drivers -/

namespace CiphertextGenerator

theorem chunkSize_eq : CHUNK_SIZE = 104857600 := by decide

theorem fileSize_eq : FILE_SIZE_BYTES = 8589934592 := by decide

theorem generateRandomData_length (R : RandomEngine) (size seed : Nat) :
    (generateRandomData R size seed).length = size :=
  DataEncryptor.drawBytes_length R size _

theorem encryptSelected_length (P : OpenSSL) (key56 : List Nat) (alg : String)
    (data : List Nat) (h : alg ∈ ["cast", "rc4", "des", "blowfish"]) :
    (encryptSelected P key56 alg data).length = data.length := by
  simp only [List.mem_cons, List.mem_singleton, List.not_mem_nil, or_false] at h
  unfold encryptSelected encryptChunk
  rcases h with rfl | rfl | rfl | rfl
  · rw [if_pos rfl]
    exact ecbLoop_length _ _
  · rw [if_neg (by decide), if_pos rfl]
    exact DataEncryptor.memcpy_rc4_length P key56 data
  · rw [if_neg (by decide), if_neg (by decide), if_pos rfl]
    exact ecbLoop_length _ _
  · rw [if_neg (by decide), if_neg (by decide), if_neg (by decide), if_pos rfl]
    exact ecbLoop_length _ _

theorem chunkAt_length (P : OpenSSL) (R : RandomEngine) (key56 : List Nat) (alg : String)
    (chunkSeed bw : Nat) (h : alg ∈ ["cast", "rc4", "des", "blowfish"]) :
    (chunkAt P R key56 alg chunkSeed bw).encrypted.length =
      min CHUNK_SIZE (FILE_SIZE_BYTES - bw) := by
  unfold chunkAt
  rw [encryptSelected_length P key56 alg _ h, generateRandomData_length]

/-- One iteration of the chunk loop whose write succeeds. -/
theorem chunkLoop_step (P : OpenSSL) (R : RandomEngine) (key56 : List Nat) (fs : FileSystem)
    (alg : String) (chunkSeed fuel : Nat) (file : OFStream Nat) (bw : Nat)
    (chunks : List Chunk) (halg : alg ∈ ["cast", "rc4", "des", "blowfish"])
    (hbw : bw < FILE_SIZE_BYTES)
    (hw : (file.good && fs.writeOk file.path file.calls) = true) :
    chunkLoop P R key56 fs alg chunkSeed (fuel + 1) file bw chunks =
      chunkLoop P R key56 fs alg chunkSeed fuel
        (file.write fs (chunkAt P R key56 alg chunkSeed bw).encrypted)
        (min (bw + CHUNK_SIZE) FILE_SIZE_BYTES)
        (chunks ++ [chunkAt P R key56 alg chunkSeed bw]) := by
  have hlen := chunkAt_length P R key56 alg chunkSeed bw halg
  have hg := (OFStream.write_of_ok fs file (chunkAt P R key56 alg chunkSeed bw).encrypted hw).2
  rw [chunkLoop, if_pos hbw]
  simp only
  have e : bw + (encryptSelected P key56 alg (generateRandomData R
      (min CHUNK_SIZE (FILE_SIZE_BYTES - bw)) ((chunkSeed + bw) % 2 ^ 32))).length =
      min (bw + CHUNK_SIZE) FILE_SIZE_BYTES := by
    have : (encryptSelected P key56 alg (generateRandomData R
      (min CHUNK_SIZE (FILE_SIZE_BYTES - bw)) ((chunkSeed + bw) % 2 ^ 32))).length =
        min CHUNK_SIZE (FILE_SIZE_BYTES - bw) := hlen
    omega
  have hg' : (file.write fs (encryptSelected P key56 alg (generateRandomData R
      (min CHUNK_SIZE (FILE_SIZE_BYTES - bw)) ((chunkSeed + bw) % 2 ^ 32)))).good = true := hg
  rw [hg', e]
  rfl

/-- The iteration of the chunk loop whose write fails. -/
theorem chunkLoop_fail (P : OpenSSL) (R : RandomEngine) (key56 : List Nat) (fs : FileSystem)
    (alg : String) (chunkSeed fuel : Nat) (file : OFStream Nat) (bw : Nat)
    (chunks : List Chunk) (hbw : bw < FILE_SIZE_BYTES)
    (hw : (file.good && fs.writeOk file.path file.calls) = false) :
    chunkLoop P R key56 fs alg chunkSeed (fuel + 1) file bw chunks =
      some { messages := [Message.writeError]
             file := (file.write fs (chunkAt P R key56 alg chunkSeed bw).encrypted).close
             bytesWritten := bw
             chunks := chunks ++ [chunkAt P R key56 alg chunkSeed bw] } := by
  have hg := (OFStream.write_contents_of_fail fs file
    (chunkAt P R key56 alg chunkSeed bw).encrypted hw).2
  rw [chunkLoop, if_pos hbw]
  simp only
  have hg' : (file.write fs (encryptSelected P key56 alg (generateRandomData R
      (min CHUNK_SIZE (FILE_SIZE_BYTES - bw)) ((chunkSeed + bw) % 2 ^ 32)))).good = false := hg
  rw [hg']
  rfl

/-- The first `n` iterations of the chunk loop when their writes succeed. -/
theorem chunkLoop_steps (P : OpenSSL) (R : RandomEngine) (key56 : List Nat) (fs : FileSystem)
    (alg : String) (chunkSeed : Nat) (file : OFStream Nat) (chunks : List Chunk)
    (halg : alg ∈ ["cast", "rc4", "des", "blowfish"]) (hg : file.good = true) :
    ∀ (n fuel : Nat), (∀ i, i < n → i * CHUNK_SIZE < FILE_SIZE_BYTES) →
      (∀ i, i < n → fs.writeOk file.path (file.calls + i) = true) →
      ∃ file1,
        chunkLoop P R key56 fs alg chunkSeed (fuel + n) file 0 chunks =
          chunkLoop P R key56 fs alg chunkSeed fuel file1
            (min (n * CHUNK_SIZE) FILE_SIZE_BYTES)
            (chunks ++ (List.range n).map fun i =>
              chunkAt P R key56 alg chunkSeed (i * CHUNK_SIZE)) ∧
        file1.good = true ∧ file1.path = file.path ∧ file1.calls = file.calls + n ∧
        file1.contents = file.contents ++ ((List.range n).map fun i =>
          (chunkAt P R key56 alg chunkSeed (i * CHUNK_SIZE)).encrypted).flatten := by
  have hCS := chunkSize_eq
  have hFS := fileSize_eq
  intro n
  induction n with
  | zero =>
    intro fuel _ _
    exact ⟨file, by simp, hg, rfl, rfl, by simp⟩
  | succ n ih =>
    intro fuel hpos hw
    obtain ⟨file1, hrun, hg1, hp1, hc1, hcont⟩ :=
      ih (fuel + 1) (fun i hi => hpos i (by omega)) (fun i hi => hw i (by omega))
    have hn := hpos n (Nat.lt_succ_self n)
    have hnC : n * CHUNK_SIZE = n * 104857600 := by rw [hCS]
    have hmin : min (n * CHUNK_SIZE) FILE_SIZE_BYTES = n * CHUNK_SIZE := by omega
    have hw1 : (file1.good && fs.writeOk file1.path file1.calls) = true := by
      rw [hg1, hp1, hc1, hw n (Nat.lt_succ_self n)]
      rfl
    have hwr := OFStream.write_of_ok fs file1
      (chunkAt P R key56 alg chunkSeed (n * CHUNK_SIZE)).encrypted hw1
    refine ⟨file1.write fs (chunkAt P R key56 alg chunkSeed (n * CHUNK_SIZE)).encrypted,
      ?_, hwr.2, ?_, ?_, ?_⟩
    · rw [show fuel + (n + 1) = (fuel + 1) + n by omega, hrun, hmin,
        chunkLoop_step P R key56 fs alg chunkSeed fuel file1 _ _ halg hn hw1,
        List.range_succ, List.map_append, List.append_assoc]
      have : min (n * CHUNK_SIZE + CHUNK_SIZE) FILE_SIZE_BYTES =
          min ((n + 1) * CHUNK_SIZE) FILE_SIZE_BYTES := by
        rw [Nat.succ_mul]
      rw [this]
      rfl
    · rw [OFStream.write_path, hp1]
    · rw [OFStream.write_calls, hc1]; omega
    · rw [hwr.1, hcont, List.range_succ, List.map_append, List.flatten_append,
        List.append_assoc]
      simp

end CiphertextGenerator


theorem ofstream_contents {α : Type} (fs : FileSystem) (path : String) :
    (ofstream fs path : OFStream α).contents = [] := rfl

theorem ofstream_calls {α : Type} (fs : FileSystem) (path : String) :
    (ofstream fs path : OFStream α).calls = 0 := rfl

theorem ofstream_path {α : Type} (fs : FileSystem) (path : String) :
    (ofstream fs path : OFStream α).path = path := rfl

namespace CiphertextGenerator

theorem chunkLoop_complete (P : OpenSSL) (R : RandomEngine) (key56 : List Nat)
    (fs : FileSystem) (alg : String) (chunkSeed fuel : Nat) (path : String)
    (halg : alg ∈ ["cast", "rc4", "des", "blowfish"]) (hopen : fs.canOpen path = true)
    (hfuel : 83 ≤ fuel) (hall : ∀ i, i < 82 → fs.writeOk path i = true) :
    ∃ r, chunkLoop P R key56 fs alg chunkSeed fuel (ofstream fs path) 0 [] = some r ∧
      FileOutcome fs path (fun i => chunkAt P R key56 alg chunkSeed (i * CHUNK_SIZE))
        FILE_SIZE_BYTES CHUNK_SIZE [] [Message.writeError] r := by
  have hCS := chunkSize_eq
  have hFS := fileSize_eq
  have hg : (ofstream fs path : OFStream Nat).good = true := hopen
  obtain ⟨file1, hrun, _, _, hc1, hcont⟩ :=
    chunkLoop_steps P R key56 fs alg chunkSeed (ofstream fs path) [] halg hg 82
      (fuel - 82) (fun i hi => by rw [hCS, hFS]; omega)
      (fun i hi => by
        rw [ofstream_path, ofstream_calls, Nat.zero_add]; exact hall i hi)
  have hmin : min (82 * CHUNK_SIZE) FILE_SIZE_BYTES = FILE_SIZE_BYTES := by
    rw [hCS, hFS]; decide
  have hf1 : fuel - 82 + 82 = fuel := by omega
  have hf2 : fuel - 82 = (fuel - 83) + 1 := by omega
  rw [hf1, hmin, hf2, chunkLoop, if_neg (Nat.lt_irrefl _), List.nil_append] at hrun
  rw [ofstream_calls, Nat.zero_add] at hc1
  rw [ofstream_contents, List.nil_append] at hcont
  exact ⟨_, hrun, Or.inl ⟨rfl, hc1, hall, rfl, rfl, hcont⟩⟩

theorem chunkLoop_first_failure (P : OpenSSL) (R : RandomEngine) (key56 : List Nat)
    (fs : FileSystem) (alg : String) (chunkSeed fuel : Nat) (path : String) (k : Nat)
    (halg : alg ∈ ["cast", "rc4", "des", "blowfish"]) (hopen : fs.canOpen path = true)
    (hk : k ≤ 81) (hfuel : k + 1 ≤ fuel) (hok : ∀ i, i < k → fs.writeOk path i = true)
    (hfail : fs.writeOk path k = false) :
    ∃ r, chunkLoop P R key56 fs alg chunkSeed fuel (ofstream fs path) 0 [] = some r ∧
      FileOutcome fs path (fun i => chunkAt P R key56 alg chunkSeed (i * CHUNK_SIZE))
        FILE_SIZE_BYTES CHUNK_SIZE [] [Message.writeError] r := by
  have hCS := chunkSize_eq
  have hFS := fileSize_eq
  have hg : (ofstream fs path : OFStream Nat).good = true := hopen
  obtain ⟨file1, hrun, _, hp1, hc1, hcont⟩ :=
    chunkLoop_steps P R key56 fs alg chunkSeed (ofstream fs path) [] halg hg k
      (fuel - k) (fun i hi => by rw [hCS, hFS]; omega)
      (fun i hi => by
        rw [ofstream_path, ofstream_calls, Nat.zero_add]; exact hok i hi)
  rw [ofstream_path] at hp1
  rw [ofstream_calls, Nat.zero_add] at hc1
  rw [ofstream_contents, List.nil_append] at hcont
  have hlt : k * CHUNK_SIZE < FILE_SIZE_BYTES := by rw [hCS, hFS]; omega
  have hmin2 : min (k * CHUNK_SIZE) FILE_SIZE_BYTES = k * CHUNK_SIZE :=
    Nat.min_eq_left (Nat.le_of_lt hlt)
  have hw : (file1.good && fs.writeOk file1.path file1.calls) = false := by
    rw [hp1, hc1, hfail, Bool.and_false]
  have hf1 : fuel - k + k = fuel := by omega
  have hf2 : fuel - k = (fuel - k - 1) + 1 := by omega
  rw [hf1, hmin2, hf2,
    chunkLoop_fail P R key56 fs alg chunkSeed _ file1 _ _ hlt hw, List.nil_append] at hrun
  refine ⟨_, hrun, Or.inr ⟨k, hk, ?_, ?_, hok, hfail, rfl, rfl, ?_⟩⟩
  · rw [List.range_succ, List.map_append]
    rfl
  · show (file1.write fs _).calls = k + 1
    rw [OFStream.write_calls, hc1]
  · show (file1.write fs _).contents = _
    rw [(OFStream.write_contents_of_fail fs file1 _ hw).1, hcont]

/-- The chunk loop on a file that was opened returns, with one of the two outcomes. -/
theorem chunkLoop_outcome (P : OpenSSL) (R : RandomEngine) (key56 : List Nat)
    (fs : FileSystem) (alg : String) (chunkSeed fuel : Nat) (path : String)
    (halg : alg ∈ ["cast", "rc4", "des", "blowfish"]) (hopen : fs.canOpen path = true)
    (hfuel : 83 ≤ fuel) :
    ∃ r, chunkLoop P R key56 fs alg chunkSeed fuel (ofstream fs path) 0 [] = some r ∧
      FileOutcome fs path (fun i => chunkAt P R key56 alg chunkSeed (i * CHUNK_SIZE))
        FILE_SIZE_BYTES CHUNK_SIZE [] [Message.writeError] r := by
  by_cases hall : ∀ i, i < 82 → fs.writeOk path i = true
  · exact chunkLoop_complete P R key56 fs alg chunkSeed fuel path halg hopen hfuel hall
  · have hex : ∃ k, k < 82 ∧ fs.writeOk path k = false := by
      by_contra hne
      apply hall
      intro i hi
      by_contra hi2
      exact hne ⟨i, hi, by simpa using hi2⟩
    classical
    have hk := Nat.find_spec hex
    have hmin := fun i (hi : i < Nat.find hex) => Nat.find_min hex hi
    generalize Nat.find hex = k at hk hmin
    have hok : ∀ i, i < k → fs.writeOk path i = true := by
      intro i hi
      have := hmin i hi
      by_contra h2
      exact this ⟨by omega, by simpa using h2⟩
    exact chunkLoop_first_failure P R key56 fs alg chunkSeed fuel path k halg hopen
      (by omega) (by omega) hok hk.2

end CiphertextGenerator

namespace CiphertextGenerator

/-- A file whose write number `k` failed, with `k` at most 81, is not complete. -/
theorem partial_ne_fileSize (k : Nat) : k * CHUNK_SIZE ≠ FILE_SIZE_BYTES := by
  rw [chunkSize_eq, fileSize_eq]; omega

/-- The loop over the algorithms returns, with the outcomes `FilesOutcome`, and adds to
`totalWritten` the size of every complete file. -/
theorem algorithmsLoop_outcome (P : OpenSSL) (R : RandomEngine)
    (next : R.State → Nat × R.State) (key56 : List Nat) (fs : FileSystem)
    (outputDir : String) (fuel : Nat) (hfuel : 83 ≤ fuel) :
    ∀ (algs : List String) (run : Run R),
      (∀ alg, alg ∈ algs → alg ∈ ["cast", "rc4", "des", "blowfish"]) →
      ∃ run1 new,
        algorithmsLoop P R next key56 fs outputDir fuel algs run = some run1 ∧
        run1.files = run.files ++ new ∧
        FilesOutcome P R next key56 fs outputDir algs run.generator new run1.generator ∧
        run1.totalWritten = run.totalWritten +
          (new.map fun e =>
            if e.2.bytesWritten = FILE_SIZE_BYTES then FILE_SIZE_BYTES else 0).sum := by
  intro algs
  induction algs with
  | nil =>
    intro run _
    exact ⟨run, [], rfl, by simp, ⟨rfl, rfl⟩, by simp⟩
  | cons alg rest ih =>
    intro run hknown
    have halg := hknown alg (List.mem_cons_self _ _)
    have hrest : ∀ a, a ∈ rest → a ∈ ["cast", "rc4", "des", "blowfish"] :=
      fun a ha => hknown a (List.mem_cons_of_mem _ ha)
    rw [algorithmsLoop]
    simp only
    by_cases hopen : fs.canOpen (filepath outputDir alg) = true
    · have ho : (ofstream fs (filepath outputDir alg) : OFStream Nat).is_open = true := hopen
      have ho' : (ofstream fs (outputDir ++ "/" ++ alg ++ "/" ++ alg ++ ".bin") :
          OFStream Nat).is_open = true := ho
      rw [ho']
      simp only [Bool.not_true, Bool.false_eq_true, if_false]
      obtain ⟨r, hr, hout⟩ := chunkLoop_outcome P R key56 fs alg
        (((next run.generator).1 % 2 ^ 32 + seedOffset alg) % 2 ^ 32) fuel
        (filepath outputDir alg) halg hopen hfuel
      have hr' : chunkLoop P R key56 fs alg
          (((next run.generator).1 % 2 ^ 32 + seedOffset alg) % 2 ^ 32) fuel
          (ofstream fs (outputDir ++ "/" ++ alg ++ "/" ++ alg ++ ".bin")) 0 [] = some r := hr
      rw [hr']
      simp only
      rcases hout with ⟨h1, h2, h3, h4, h5, h6⟩ | ⟨k, hk, h1, h2, h3, h3', h4, h5, h6⟩
      · rw [if_pos h4]
        obtain ⟨run1, new, hrun, hfiles, hfo, htot⟩ := ih _ hrest
        refine ⟨run1, (alg, FileRun.mk (r.messages ++ [Message.success r.bytesWritten])
          r.file.close r.bytesWritten r.chunks) :: new,
          hrun, ?_, ?_, ?_⟩
        · rw [hfiles]; simp
        · refine ⟨_, new, rfl, ?_⟩
          rw [if_pos hopen]
          refine ⟨Or.inl ⟨h1, h2, h3, h4, ?_, h6⟩, hfo⟩
          show r.messages ++ [Message.success r.bytesWritten] = _
          rw [h5, h4]; rfl
        · rw [htot]
          simp only [List.map_cons, List.sum_cons]
          rw [if_pos h4, h4]
          show run.totalWritten + FILE_SIZE_BYTES + _ = _
          omega
      · have hne : r.bytesWritten ≠ FILE_SIZE_BYTES := by
          rw [h4]; exact partial_ne_fileSize k
        rw [if_neg hne]
        obtain ⟨run1, new, hrun, hfiles, hfo, htot⟩ := ih _ hrest
        refine ⟨run1, (alg, FileRun.mk (r.messages ++ [Message.failure])
          r.file.close r.bytesWritten r.chunks) :: new,
          hrun, ?_, ?_, ?_⟩
        · rw [hfiles]; simp
        · refine ⟨_, new, rfl, ?_⟩
          rw [if_pos hopen]
          refine ⟨Or.inr ⟨k, hk, h1, h2, h3, h3', h4, ?_, h6⟩, hfo⟩
          show r.messages ++ [Message.failure] = _
          rw [h5]; rfl
        · rw [htot]
          simp only [List.map_cons, List.sum_cons]
          rw [if_neg hne]
          show run.totalWritten + _ = _
          omega
    · have ho : (ofstream fs (outputDir ++ "/" ++ alg ++ "/" ++ alg ++ ".bin") :
          OFStream Nat).is_open = false := by
        simpa [filepath, ofstream] using hopen
      rw [ho]
      simp only [Bool.not_false, if_true]
      obtain ⟨run1, new, hrun, hfiles, hfo, htot⟩ := ih _ hrest
      refine ⟨run1, (alg, FileRun.mk [Message.openError]
        (ofstream fs (outputDir ++ "/" ++ alg ++ "/" ++ alg ++ ".bin")) 0 []) :: new, hrun, ?_, ?_, ?_⟩
      · rw [hfiles]; simp
      · refine ⟨_, new, rfl, ?_⟩
        rw [if_neg hopen]
        exact ⟨⟨rfl, rfl, rfl, rfl⟩, hfo⟩
      · rw [htot]
        simp only [List.map_cons, List.sum_cons]
        have : (0 : Nat) ≠ FILE_SIZE_BYTES := by rw [fileSize_eq]; omega
        rw [if_neg this]
        show run.totalWritten + _ = _
        omega

/-- The function `generateCiphertexts` returns, with the outcomes `FilesOutcome` for the
four algorithms, and reports as total the size of the complete files. -/
theorem generateCiphertexts_outcome (P : OpenSSL) (R : RandomEngine)
    (next : R.State → Nat × R.State) (fs : FileSystem) (fuel : Nat) (s : State R)
    (outputDir : String) (hfuel : 83 ≤ fuel) :
    ∃ run, generateCiphertexts P R next fs fuel s outputDir = some run ∧
      FilesOutcome P R next s.key56 fs outputDir ["cast", "rc4", "des", "blowfish"]
        s.generator run.files run.generator ∧
      run.totalWritten = (run.files.map fun e =>
        if e.2.bytesWritten = FILE_SIZE_BYTES then FILE_SIZE_BYTES else 0).sum := by
  obtain ⟨run1, new, hrun, hfiles, hfo, htot⟩ :=
    algorithmsLoop_outcome P R next s.key56 fs outputDir fuel hfuel
      ["cast", "rc4", "des", "blowfish"]
      { generator := s.generator, totalWritten := 0, files := [] } (fun _ h => h)
  have hf : run1.files = new := by rw [hfiles]; rfl
  refine ⟨run1, hrun, by rw [hf]; exact hfo, ?_⟩
  rw [htot, hf]
  show 0 + _ = _
  omega

end CiphertextGenerator

namespace FakeTextCiphertextGenerator

theorem ft_chunkSize_eq : CHUNK_SIZE = 104857600 := by decide

theorem ft_fileSize_eq : FILE_SIZE_BYTES = 8589934592 := by decide

theorem generateTextChunk_eq (R : RandomEngine) (fuel size seed : Nat)
    (hfuel : size + TextGenerator.PARAGRAPH_SIZE + 1 ≤ fuel) :
    generateTextChunk R fuel size seed = some (textChunkAt R size seed) ∧
      (textChunkAt R size seed).1.length = size := by
  have key : ∀ f, size + TextGenerator.PARAGRAPH_SIZE + 1 ≤ f →
      ∃ out c, generateTextChunk R f size seed = some (out.map Char.toNat, c) ∧
        out.length = size ∧
        TextGenerator.generateTextToBufferLoop R TextGenerator.initializeMarkovChain size f
          [] 0 seed = some (out, c) := by
    intro f hf
    obtain ⟨out, c, h, hlen⟩ := TextGenerator.generateTextToBufferLoop_length R
      TextGenerator.initializeMarkovChain size f [] seed (Nat.zero_le _) (by simpa using hf)
    refine ⟨out, c, ?_, hlen, h⟩
    simp only [generateTextChunk, TextGenerator.Object.generateTextToBuffer]
    rw [TextGenerator.Object.model_new,
      TextGenerator.generateTextToBuffer_eq_loop R _ f [] size seed hf]
    have h' : TextGenerator.generateTextToBufferLoop R TextGenerator.initializeMarkovChain
        size f [] 0 seed = some (out, c) := h
    rw [h']
  obtain ⟨out, c, h1, hlen, hl1⟩ := key fuel hfuel
  obtain ⟨out0, c0, h0, _, hl0⟩ := key _ (Nat.le_refl _)
  have hsame := TextGenerator.generateTextToBufferLoop_fuel R
    TextGenerator.initializeMarkovChain size fuel (size + TextGenerator.PARAGRAPH_SIZE + 1)
    [] seed (Nat.zero_le _) (by simpa using hfuel) (by simp)
  have hsame' : TextGenerator.generateTextToBufferLoop R TextGenerator.initializeMarkovChain
      size fuel [] 0 seed =
      TextGenerator.generateTextToBufferLoop R TextGenerator.initializeMarkovChain
      size (size + TextGenerator.PARAGRAPH_SIZE + 1) [] 0 seed := hsame
  rw [hl1, hl0] at hsame'
  have e : (out, c) = (out0, c0) := Option.some.inj hsame'
  have e1 : out = out0 := congrArg Prod.fst e
  have e2 : c = c0 := congrArg Prod.snd e
  subst e1 e2
  have ht : textChunkAt R size seed = (out.map Char.toNat, c) := by
    unfold textChunkAt
    rw [h0]; rfl
  rw [ht, h1]
  exact ⟨rfl, by simp [hlen]⟩

theorem ft_encryptSelected_length (P : OpenSSL) (key56 : List Nat) (alg : String)
    (data : List Nat) (h : alg ∈ ["cast", "rc4", "des", "blowfish"]) :
    (encryptSelected P key56 alg data).length = data.length :=
  CiphertextGenerator.encryptSelected_length P key56 alg data h

theorem ft_chunkAt_length (P : OpenSSL) (R : RandomEngine) (key56 : List Nat) (alg : String)
    (chunkSeed i : Nat) (h : alg ∈ ["cast", "rc4", "des", "blowfish"]) :
    (chunkAt P R key56 alg chunkSeed i).encrypted.length =
      min CHUNK_SIZE (FILE_SIZE_BYTES - i * CHUNK_SIZE) := by
  unfold chunkAt
  rw [ft_encryptSelected_length P key56 alg _ h]
  exact (generateTextChunk_eq R _ _ _ (Nat.le_refl _)).2

/-- The iteration `i` of the chunk loop, up to the write. -/
theorem ft_chunkLoop_unfold (P : OpenSSL) (R : RandomEngine) (key56 : List Nat)
    (fs : FileSystem) (alg : String) (chunkSeed fuel i : Nat) (file : OFStream Nat)
    (chunks : List Chunk) (hbw : i * CHUNK_SIZE < FILE_SIZE_BYTES)
    (hfuel : CHUNK_SIZE + TextGenerator.PARAGRAPH_SIZE + 1 ≤ fuel) :
    chunkLoop P R key56 fs alg (fuel + 1) file (i * CHUNK_SIZE) (chunkSeedAt R chunkSeed i)
        chunks =
      if !(file.write fs (chunkAt P R key56 alg chunkSeed i).encrypted).good then
        some { messages := [Message.writeError]
               file := (file.write fs (chunkAt P R key56 alg chunkSeed i).encrypted).close
               bytesWritten := i * CHUNK_SIZE
               chunks := chunks ++ [chunkAt P R key56 alg chunkSeed i] }
      else
        chunkLoop P R key56 fs alg fuel
          (file.write fs (chunkAt P R key56 alg chunkSeed i).encrypted)
          (i * CHUNK_SIZE + (chunkAt P R key56 alg chunkSeed i).encrypted.length)
          (chunkSeedAt R chunkSeed (i + 1))
          (chunks ++ [chunkAt P R key56 alg chunkSeed i]) := by
  have hCS := ft_chunkSize_eq
  have hdiv : i * CHUNK_SIZE / CHUNK_SIZE = i :=
    Nat.mul_div_cancel i (by rw [hCS]; decide)
  have hsize : min CHUNK_SIZE (FILE_SIZE_BYTES - i * CHUNK_SIZE) +
      TextGenerator.PARAGRAPH_SIZE + 1 ≤ fuel := by
    have := Nat.min_le_left CHUNK_SIZE (FILE_SIZE_BYTES - i * CHUNK_SIZE)
    omega
  rw [chunkLoop, if_pos hbw]
  simp only [hdiv]
  rw [(generateTextChunk_eq R fuel _ _ hsize).1]
  rfl

end FakeTextCiphertextGenerator

namespace FakeTextCiphertextGenerator

theorem add_min_sub (a c f : Nat) (h : a < f) : a + min c (f - a) = min (a + c) f := by
  omega

theorem chunkSeedAt_zero (R : RandomEngine) (chunkSeed : Nat) :
    chunkSeedAt R chunkSeed 0 = chunkSeed := rfl

/-- The first `n` iterations of the chunk loop when their writes succeed. -/
theorem ft_chunkLoop_steps (P : OpenSSL) (R : RandomEngine) (key56 : List Nat)
    (fs : FileSystem) (alg : String) (chunkSeed : Nat) (file : OFStream Nat)
    (chunks : List Chunk) (halg : alg ∈ ["cast", "rc4", "des", "blowfish"])
    (hg : file.good = true) :
    ∀ (n fuel : Nat), CHUNK_SIZE + TextGenerator.PARAGRAPH_SIZE + 1 ≤ fuel → n ≤ 82 →
      (∀ i, i < n → fs.writeOk file.path (file.calls + i) = true) →
      ∃ file1,
        chunkLoop P R key56 fs alg (fuel + n) file 0 chunkSeed chunks =
          chunkLoop P R key56 fs alg fuel file1 (min (n * CHUNK_SIZE) FILE_SIZE_BYTES)
            (chunkSeedAt R chunkSeed n)
            (chunks ++ (List.range n).map fun i => chunkAt P R key56 alg chunkSeed i) ∧
        file1.good = true ∧ file1.path = file.path ∧ file1.calls = file.calls + n ∧
        file1.contents = file.contents ++ ((List.range n).map fun i =>
          (chunkAt P R key56 alg chunkSeed i).encrypted).flatten := by
  have hCS := ft_chunkSize_eq
  have hFS := ft_fileSize_eq
  intro n
  induction n with
  | zero =>
    intro fuel _ _ _
    refine ⟨file, ?_, hg, rfl, rfl, by simp⟩
    rw [Nat.zero_mul, Nat.zero_min, List.range_zero, List.map_nil, List.append_nil,
      Nat.add_zero, chunkSeedAt_zero]
  | succ n ih =>
    intro fuel hfuel hn hw
    obtain ⟨file1, hrun, hg1, hp1, hc1, hcont⟩ :=
      ih (fuel + 1) (by omega) (by omega) (fun i hi => hw i (by omega))
    have hnC : n * CHUNK_SIZE = n * 104857600 := by rw [hCS]
    have hlt : n * CHUNK_SIZE < FILE_SIZE_BYTES := by omega
    have hmin : min (n * CHUNK_SIZE) FILE_SIZE_BYTES = n * CHUNK_SIZE := by omega
    have hw1 : (file1.good && fs.writeOk file1.path file1.calls) = true := by
      rw [hg1, hp1, hc1, hw n (Nat.lt_succ_self n)]
      rfl
    have hwr := OFStream.write_of_ok fs file1 (chunkAt P R key56 alg chunkSeed n).encrypted hw1
    have hlen := ft_chunkAt_length P R key56 alg chunkSeed n halg
    have hpos : n * CHUNK_SIZE + (chunkAt P R key56 alg chunkSeed n).encrypted.length =
        min ((n + 1) * CHUNK_SIZE) FILE_SIZE_BYTES := by
      rw [hlen, Nat.succ_mul]; exact add_min_sub _ _ _ hlt
    refine ⟨file1.write fs (chunkAt P R key56 alg chunkSeed n).encrypted,
      ?_, hwr.2, ?_, ?_, ?_⟩
    · rw [show fuel + (n + 1) = (fuel + 1) + n by omega, hrun, hmin,
        ft_chunkLoop_unfold P R key56 fs alg chunkSeed fuel n file1 _ hlt hfuel, hwr.2,
        hpos, List.range_succ, List.map_append, List.append_assoc]
      rfl
    · rw [OFStream.write_path, hp1]
    · rw [OFStream.write_calls, hc1]; omega
    · rw [hwr.1, hcont, List.range_succ, List.map_append, List.flatten_append,
        List.append_assoc]
      simp

theorem ft_chunkLoop_complete (P : OpenSSL) (R : RandomEngine) (key56 : List Nat)
    (fs : FileSystem) (alg : String) (chunkSeed fuel : Nat) (path : String)
    (halg : alg ∈ ["cast", "rc4", "des", "blowfish"]) (hopen : fs.canOpen path = true)
    (hfuel : CHUNK_SIZE + TextGenerator.PARAGRAPH_SIZE + 85 ≤ fuel)
    (hall : ∀ i, i < 82 → fs.writeOk path i = true) :
    ∃ r, chunkLoop P R key56 fs alg fuel (ofstream fs path) 0 chunkSeed [] = some r ∧
      FileOutcome fs path (chunkAt P R key56 alg chunkSeed) FILE_SIZE_BYTES CHUNK_SIZE
        [Message.success FILE_SIZE_BYTES] [Message.writeError] r := by
  have hCS := ft_chunkSize_eq
  have hFS := ft_fileSize_eq
  have hg : (ofstream fs path : OFStream Nat).good = true := hopen
  obtain ⟨file1, hrun, _, _, hc1, hcont⟩ :=
    ft_chunkLoop_steps P R key56 fs alg chunkSeed (ofstream fs path) [] halg hg 82
      (fuel - 82) (by omega) (Nat.le_refl _)
      (fun i hi => by
        rw [ofstream_path, ofstream_calls, Nat.zero_add]; exact hall i hi)
  have hmin : min (82 * CHUNK_SIZE) FILE_SIZE_BYTES = FILE_SIZE_BYTES := by
    rw [hCS, hFS]; decide
  have hf1 : fuel - 82 + 82 = fuel := by omega
  have hf2 : fuel - 82 = (fuel - 83) + 1 := by omega
  rw [hf1, hmin, hf2, chunkLoop, if_neg (Nat.lt_irrefl _), List.nil_append] at hrun
  rw [ofstream_calls, Nat.zero_add] at hc1
  rw [ofstream_contents, List.nil_append] at hcont
  exact ⟨_, hrun, Or.inl ⟨rfl, hc1, hall, rfl, by simp, hcont⟩⟩

theorem ft_chunkLoop_first_failure (P : OpenSSL) (R : RandomEngine) (key56 : List Nat)
    (fs : FileSystem) (alg : String) (chunkSeed fuel : Nat) (path : String) (k : Nat)
    (halg : alg ∈ ["cast", "rc4", "des", "blowfish"]) (hopen : fs.canOpen path = true)
    (hk : k ≤ 81) (hfuel : CHUNK_SIZE + TextGenerator.PARAGRAPH_SIZE + 85 ≤ fuel)
    (hok : ∀ i, i < k → fs.writeOk path i = true) (hfail : fs.writeOk path k = false) :
    ∃ r, chunkLoop P R key56 fs alg fuel (ofstream fs path) 0 chunkSeed [] = some r ∧
      FileOutcome fs path (chunkAt P R key56 alg chunkSeed) FILE_SIZE_BYTES CHUNK_SIZE
        [Message.success FILE_SIZE_BYTES] [Message.writeError] r := by
  have hCS := ft_chunkSize_eq
  have hFS := ft_fileSize_eq
  have hg : (ofstream fs path : OFStream Nat).good = true := hopen
  obtain ⟨file1, hrun, _, hp1, hc1, hcont⟩ :=
    ft_chunkLoop_steps P R key56 fs alg chunkSeed (ofstream fs path) [] halg hg k
      (fuel - k) (by omega) (by omega)
      (fun i hi => by
        rw [ofstream_path, ofstream_calls, Nat.zero_add]; exact hok i hi)
  rw [ofstream_path] at hp1
  rw [ofstream_calls, Nat.zero_add] at hc1
  rw [ofstream_contents, List.nil_append] at hcont
  have hlt : k * CHUNK_SIZE < FILE_SIZE_BYTES := by rw [hCS, hFS]; omega
  have hmin2 : min (k * CHUNK_SIZE) FILE_SIZE_BYTES = k * CHUNK_SIZE :=
    Nat.min_eq_left (Nat.le_of_lt hlt)
  have hw : (file1.good && fs.writeOk file1.path file1.calls) = false := by
    rw [hp1, hc1, hfail, Bool.and_false]
  have hwf := OFStream.write_contents_of_fail fs file1
    (chunkAt P R key56 alg chunkSeed k).encrypted hw
  have hf1 : fuel - k + k = fuel := by omega
  have hf2 : fuel - k = (fuel - k - 1) + 1 := by omega
  rw [hf1, hmin2, hf2,
    ft_chunkLoop_unfold P R key56 fs alg chunkSeed _ k file1 _ hlt (by omega), hwf.2,
    List.nil_append] at hrun
  simp only [Bool.not_false, if_true] at hrun
  refine ⟨_, hrun, Or.inr ⟨k, hk, ?_, ?_, hok, hfail, rfl, rfl, ?_⟩⟩
  · rw [List.range_succ, List.map_append]
    rfl
  · show (file1.write fs _).calls = k + 1
    rw [OFStream.write_calls, hc1]
  · show (file1.write fs _).contents = _
    rw [hwf.1, hcont]

/-- The function `generateCiphertextForAlgorithm` on a file that opens returns, with one
of the two outcomes. -/
theorem generateCiphertextForAlgorithm_outcome (P : OpenSSL) (R : RandomEngine)
    (fs : FileSystem) (fuel : Nat) (s : State) (alg outputDir : String) (baseSeed : Nat)
    (halg : alg ∈ ["cast", "rc4", "des", "blowfish"])
    (hopen : fs.canOpen (filepath alg outputDir baseSeed) = true)
    (hfuel : CHUNK_SIZE + TextGenerator.PARAGRAPH_SIZE + 85 ≤ fuel) :
    ∃ r, generateCiphertextForAlgorithm P R fs fuel s alg outputDir baseSeed = some r ∧
      FileOutcome fs (filepath alg outputDir baseSeed)
        (chunkAt P R s.key56 alg ((baseSeed + seedOffset alg) % 2 ^ 32))
        FILE_SIZE_BYTES CHUNK_SIZE [Message.success FILE_SIZE_BYTES] [Message.writeError]
        r := by
  have ho : (ofstream fs (filepath alg outputDir baseSeed) : OFStream Nat).is_open = true :=
    hopen
  unfold generateCiphertextForAlgorithm
  simp only [ho, Bool.not_true, Bool.false_eq_true, if_false]
  by_cases hall : ∀ i, i < 82 → fs.writeOk (filepath alg outputDir baseSeed) i = true
  · exact ft_chunkLoop_complete P R s.key56 fs alg _ fuel _ halg hopen hfuel hall
  · have hex : ∃ k, k < 82 ∧ fs.writeOk (filepath alg outputDir baseSeed) k = false := by
      by_contra hne
      apply hall
      intro i hi
      by_contra hi2
      exact hne ⟨i, hi, by simpa using hi2⟩
    classical
    have hk := Nat.find_spec hex
    have hmin := fun i (hi : i < Nat.find hex) => Nat.find_min hex hi
    generalize Nat.find hex = k at hk hmin
    have hok : ∀ i, i < k → fs.writeOk (filepath alg outputDir baseSeed) i = true := by
      intro i hi
      have := hmin i hi
      by_contra h2
      exact this ⟨by omega, by simpa using h2⟩
    exact ft_chunkLoop_first_failure P R s.key56 fs alg _ fuel _ k halg hopen
      (by omega) hfuel hok hk.2

end FakeTextCiphertextGenerator

/-! ## Properties of the generating cipher drivers -/

theorem FileOutcome_first_failure {fs : FileSystem} {path : String} {chunk : Nat → Chunk}
    {F C : Nat} {ok fail : List Message} {r : FileRun}
    (h : FileOutcome fs path chunk F C ok fail r) (k : Nat) (hk : k ≤ 81)
    (hok : ∀ i, i < k → fs.writeOk path i = true) (hfail : fs.writeOk path k = false) :
    r.chunks = (List.range (k + 1)).map chunk ∧ r.file.calls = k + 1 ∧
      r.bytesWritten = k * C ∧ r.messages = fail ∧
      r.file.contents = ((List.range k).map fun i => (chunk i).encrypted).flatten := by
  rcases h with ⟨_, _, hall, _, _, _⟩ | ⟨k', hk', h1, h2, h3, h3', h4, h5, h6⟩
  · have := hall k (by omega)
    rw [hfail] at this
    cases this
  · have hkk : k' = k := by
      rcases Nat.lt_trichotomy k' k with h | h | h
      · have := hok k' h
        rw [h3'] at this
        cases this
      · exact h
      · have := h3 k h
        rw [hfail] at this
        cases this
    subst hkk
    exact ⟨h1, h2, h4, h5, h6⟩

theorem FileOutcome_all_ok {fs : FileSystem} {path : String} {chunk : Nat → Chunk}
    {F C : Nat} {ok fail : List Message} {r : FileRun}
    (h : FileOutcome fs path chunk F C ok fail r)
    (hall : ∀ i, i < 82 → fs.writeOk path i = true) :
    r.chunks = (List.range 82).map chunk ∧ r.file.calls = 82 ∧ r.bytesWritten = F ∧
      r.messages = ok ∧
      r.file.contents = ((List.range 82).map fun i => (chunk i).encrypted).flatten := by
  rcases h with ⟨h1, h2, _, h4, h5, h6⟩ | ⟨k, hk, _, _, _, h3', _, _, _⟩
  · exact ⟨h1, h2, h4, h5, h6⟩
  · have := hall k (by omega)
    rw [h3'] at this
    cases this

theorem FileOutcome_mem {fs : FileSystem} {path : String} {chunk : Nat → Chunk}
    {F C : Nat} {ok fail : List Message} {r : FileRun}
    (h : FileOutcome fs path chunk F C ok fail r) {c : Chunk} (hc : c ∈ r.chunks) :
    ∃ i, i < 82 ∧ c = chunk i := by
  rcases h with ⟨h1, _, _, _, _, _⟩ | ⟨k, hk, h1, _, _, _, _, _, _⟩
  · rw [h1, List.mem_map] at hc
    obtain ⟨i, hi, rfl⟩ := hc
    exact ⟨i, List.mem_range.mp hi, rfl⟩
  · rw [h1, List.mem_map] at hc
    obtain ⟨i, hi, rfl⟩ := hc
    exact ⟨i, by have := List.mem_range.mp hi; omega, rfl⟩

theorem FileOutcome_head {fs : FileSystem} {path : String} {chunk : Nat → Chunk}
    {F C : Nat} {ok fail : List Message} {r : FileRun}
    (h : FileOutcome fs path chunk F C ok fail r) :
    r.chunks.head? = some (chunk 0) ∧ r.file.calls = r.chunks.length := by
  rcases h with ⟨h1, h2, _, _, _, _⟩ | ⟨k, hk, h1, h2, _, _, _, _, _⟩
  · rw [h1, h2]
    exact ⟨by rw [List.range_succ_eq_map]; rfl, by simp⟩
  · rw [h1, h2]
    exact ⟨by rw [List.range_succ_eq_map]; rfl, by simp⟩

theorem length_flatten_range (f : Nat → List Nat) (c : Nat) :
    ∀ n, (∀ i, i < n → (f i).length = c) → ((List.range n).map f).flatten.length = n * c := by
  intro n
  induction n with
  | zero => intro _; simp
  | succ n ih =>
    intro h
    rw [List.range_succ, List.map_append, List.flatten_append, List.length_append,
      ih (fun i hi => h i (by omega))]
    simp only [List.map_cons, List.map_nil, List.flatten_cons, List.flatten_nil,
      List.append_nil]
    rw [h n (Nat.lt_succ_self n), Nat.succ_mul]

namespace CiphertextGenerator

theorem chunkAt_full (P : OpenSSL) (R : RandomEngine) (key56 : List Nat) (alg : String)
    (chunkSeed i : Nat) (h : alg ∈ ["cast", "rc4", "des", "blowfish"]) (hi : i < 81) :
    (chunkAt P R key56 alg chunkSeed (i * CHUNK_SIZE)).encrypted.length = CHUNK_SIZE := by
  rw [chunkAt_length P R key56 alg chunkSeed _ h]
  apply Nat.min_eq_left
  rw [chunkSize_eq, fileSize_eq]
  omega

theorem chunkAt_last (P : OpenSSL) (R : RandomEngine) (key56 : List Nat) (alg : String)
    (chunkSeed : Nat) (h : alg ∈ ["cast", "rc4", "des", "blowfish"]) :
    (chunkAt P R key56 alg chunkSeed (81 * CHUNK_SIZE)).encrypted.length =
      FILE_SIZE_BYTES - 81 * CHUNK_SIZE := by
  rw [chunkAt_length P R key56 alg chunkSeed _ h]
  apply Nat.min_eq_right
  rw [chunkSize_eq, fileSize_eq]
  decide

/-- In either outcome the bytes in the file are as many as `bytesWritten` counts. -/
theorem contents_length (P : OpenSSL) (R : RandomEngine) (key56 : List Nat) (alg : String)
    (chunkSeed : Nat) (h : alg ∈ ["cast", "rc4", "des", "blowfish"]) {fs : FileSystem}
    {path : String} {ok fail : List Message} {r : FileRun}
    (ho : FileOutcome fs path (fun i => chunkAt P R key56 alg chunkSeed (i * CHUNK_SIZE))
      FILE_SIZE_BYTES CHUNK_SIZE ok fail r) :
    r.file.contents.length = r.bytesWritten := by
  rcases ho with ⟨_, _, _, h4, _, h6⟩ | ⟨k, hk, _, _, _, _, h4, _, h6⟩
  · rw [h6, h4, List.range_succ, List.map_append, List.flatten_append, List.length_append,
      length_flatten_range _ CHUNK_SIZE 81
        (fun i hi => chunkAt_full P R key56 alg chunkSeed i h hi)]
    simp only [List.map_cons, List.map_nil, List.flatten_cons, List.flatten_nil,
      List.append_nil]
    rw [chunkAt_last P R key56 alg chunkSeed h, chunkSize_eq, fileSize_eq]
  · rw [h6, h4]
    exact length_flatten_range _ CHUNK_SIZE k
      (fun i hi => chunkAt_full P R key56 alg chunkSeed i h (by omega))

/-- The entries of `FilesOutcome`, one by one. -/
theorem FilesOutcome_entries (P : OpenSSL) (R : RandomEngine)
    (next : R.State → Nat × R.State) (key56 : List Nat) (fs : FileSystem)
    (outputDir : String) :
    ∀ (algs : List String) (g : R.State) (files : List (String × FileRun)) (g1 : R.State),
      FilesOutcome P R next key56 fs outputDir algs g files g1 →
      files.map Prod.fst = algs ∧
      ∀ e, e ∈ files →
        (fs.canOpen (filepath outputDir e.1) = true →
          ∃ chunkSeed, FileOutcome fs (filepath outputDir e.1)
            (fun i => chunkAt P R key56 e.1 chunkSeed (i * CHUNK_SIZE))
            FILE_SIZE_BYTES CHUNK_SIZE [Message.success FILE_SIZE_BYTES]
            [Message.writeError, Message.failure] e.2) ∧
        (fs.canOpen (filepath outputDir e.1) = false →
          e.2.messages = [Message.openError] ∧ e.2.bytesWritten = 0 ∧ e.2.chunks = [] ∧
            e.2.file.contents = []) := by
  intro algs
  induction algs with
  | nil =>
    intro g files g1 h
    obtain ⟨rfl, _⟩ := h
    exact ⟨rfl, fun e he => by simp at he⟩
  | cons alg rest ih =>
    intro g files g1 h
    obtain ⟨e0, files1, rfl, h⟩ := h
    by_cases hopen : fs.canOpen (filepath outputDir alg) = true
    · rw [if_pos hopen] at h
      obtain ⟨ho, hrest⟩ := h
      obtain ⟨hm, hall⟩ := ih _ _ _ hrest
      refine ⟨by rw [List.map_cons, hm], ?_⟩
      intro e he
      rcases List.mem_cons.mp he with rfl | he
      · exact ⟨fun _ => ⟨_, ho⟩, fun hf => by rw [hopen] at hf; cases hf⟩
      · exact hall e he
    · rw [if_neg hopen] at h
      obtain ⟨ho, hrest⟩ := h
      obtain ⟨hm, hall⟩ := ih _ _ _ hrest
      refine ⟨by rw [List.map_cons, hm], ?_⟩
      intro e he
      rcases List.mem_cons.mp he with rfl | he
      · exact ⟨fun ht => absurd ht hopen, fun _ => ho⟩
      · exact hall e he

end CiphertextGenerator

namespace FakeTextCiphertextGenerator

theorem ft_chunkAt_full (P : OpenSSL) (R : RandomEngine) (key56 : List Nat) (alg : String)
    (chunkSeed i : Nat) (h : alg ∈ ["cast", "rc4", "des", "blowfish"]) (hi : i < 81) :
    (chunkAt P R key56 alg chunkSeed i).encrypted.length = CHUNK_SIZE := by
  rw [ft_chunkAt_length P R key56 alg chunkSeed _ h]
  apply Nat.min_eq_left
  rw [ft_chunkSize_eq, ft_fileSize_eq]
  omega

theorem ft_chunkAt_key (P : OpenSSL) (R : RandomEngine) (key56 : List Nat) (alg : String)
    (chunkSeed i : Nat) :
    (chunkAt P R key56 alg chunkSeed i).encrypted =
      encryptSelected P key56 alg (chunkAt P R key56 alg chunkSeed i).plain := rfl

end FakeTextCiphertextGenerator

namespace CiphertextGenerator

theorem chunkAt_key (P : OpenSSL) (R : RandomEngine) (key56 : List Nat) (alg : String)
    (chunkSeed bw : Nat) :
    (chunkAt P R key56 alg chunkSeed bw).encrypted =
      encryptSelected P key56 alg (chunkAt P R key56 alg chunkSeed bw).plain := rfl

theorem mem_algorithms {files : List (String × FileRun)} {algs : List String}
    (h : files.map Prod.fst = algs) {e : String × FileRun} (he : e ∈ files) : e.1 ∈ algs := by
  rw [← h]
  exact List.mem_map_of_mem _ he

end CiphertextGenerator

/-- C14. In the generating cipher drivers, when the write of a chunk fails, no further
chunk is generated or written for that algorithm, `bytesWritten` stays at the bytes of the
chunks written before, and no success message is given. In `generateCiphertexts` every one
of the four algorithms is processed whatever happens to the others: for every file that
opens, if the write number `j` is the first to fail the run has `j + 1` chunks, `j + 1`
write calls, `bytesWritten = j` chunks and the messages write error and failure, and if no
write fails it ends with the success message. In `generateCiphertextForAlgorithm`, if the
write number `k` is the first to fail the function returns after `k + 1` chunks with
`bytesWritten = k` chunks and the write error as its only message. -/
theorem write_failure_ends_pipeline (P : OpenSSL) (R : RandomEngine)
    (next : R.State → Nat × R.State) (fs : FileSystem) (fuel : Nat)
    (s : CiphertextGenerator.State R) (outputDir : String) (hfuel : 83 ≤ fuel)
    (fuel2 : Nat) (s2 : FakeTextCiphertextGenerator.State) (alg outputDir2 : String)
    (baseSeed k : Nat) (halg : alg ∈ ["cast", "rc4", "des", "blowfish"]) (hk : k ≤ 81)
    (hopen2 : fs.canOpen (FakeTextCiphertextGenerator.filepath alg outputDir2 baseSeed) = true)
    (hok2 : ∀ i, i < k →
      fs.writeOk (FakeTextCiphertextGenerator.filepath alg outputDir2 baseSeed) i = true)
    (hfail2 : fs.writeOk (FakeTextCiphertextGenerator.filepath alg outputDir2 baseSeed) k =
      false)
    (hfuel2 : FakeTextCiphertextGenerator.CHUNK_SIZE + TextGenerator.PARAGRAPH_SIZE + 85 ≤
      fuel2) :
    (∃ run, CiphertextGenerator.generateCiphertexts P R next fs fuel s outputDir = some run ∧
      run.files.map Prod.fst = ["cast", "rc4", "des", "blowfish"] ∧
      ∀ e, e ∈ run.files → fs.canOpen (CiphertextGenerator.filepath outputDir e.1) = true →
        (∀ j, j ≤ 81 →
          (∀ i, i < j → fs.writeOk (CiphertextGenerator.filepath outputDir e.1) i = true) →
          fs.writeOk (CiphertextGenerator.filepath outputDir e.1) j = false →
          e.2.chunks.length = j + 1 ∧ e.2.file.calls = j + 1 ∧
          e.2.bytesWritten = j * CiphertextGenerator.CHUNK_SIZE ∧
          e.2.file.contents.length = j * CiphertextGenerator.CHUNK_SIZE ∧
          e.2.messages = [Message.writeError, Message.failure]) ∧
        ((∀ i, i < 82 → fs.writeOk (CiphertextGenerator.filepath outputDir e.1) i = true) →
          e.2.bytesWritten = CiphertextGenerator.FILE_SIZE_BYTES ∧
          e.2.messages = [Message.success CiphertextGenerator.FILE_SIZE_BYTES])) ∧
    (∃ r, FakeTextCiphertextGenerator.generateCiphertextForAlgorithm P R fs fuel2 s2 alg
        outputDir2 baseSeed = some r ∧
      r.chunks.length = k + 1 ∧ r.file.calls = k + 1 ∧
      r.bytesWritten = k * FakeTextCiphertextGenerator.CHUNK_SIZE ∧
      r.file.contents.length = k * FakeTextCiphertextGenerator.CHUNK_SIZE ∧
      r.messages = [Message.writeError]) := by
  constructor
  · obtain ⟨run, hrun, hfo, _⟩ :=
      CiphertextGenerator.generateCiphertexts_outcome P R next fs fuel s outputDir hfuel
    obtain ⟨hm, hall⟩ := CiphertextGenerator.FilesOutcome_entries P R next s.key56 fs
      outputDir _ _ _ _ hfo
    refine ⟨run, hrun, hm, ?_⟩
    intro e he hopen
    obtain ⟨chunkSeed, ho⟩ := (hall e he).1 hopen
    have hlen := CiphertextGenerator.contents_length P R s.key56 e.1 chunkSeed
      (CiphertextGenerator.mem_algorithms hm he) ho
    constructor
    · intro j hj hok hfail
      obtain ⟨h1, h2, h3, h4, _⟩ := FileOutcome_first_failure ho j hj hok hfail
      refine ⟨by rw [h1]; simp, h2, h3, by rw [hlen, h3], h4⟩
    · intro hok
      obtain ⟨_, _, h3, h4, _⟩ := FileOutcome_all_ok ho hok
      exact ⟨h3, h4⟩
  · obtain ⟨r, hr, ho⟩ :=
      FakeTextCiphertextGenerator.generateCiphertextForAlgorithm_outcome P R fs fuel2 s2 alg
        outputDir2 baseSeed halg hopen2 hfuel2
    obtain ⟨h1, h2, h3, h4, h5⟩ := FileOutcome_first_failure ho k hk hok2 hfail2
    refine ⟨r, hr, by rw [h1]; simp, h2, h3, ?_, h4⟩
    rw [h5]
    exact length_flatten_range _ _ k
      (fun i hi => FakeTextCiphertextGenerator.ft_chunkAt_full P R s2.key56 alg _ i halg
        (by omega))

/-- C14, at a concrete input: a file system in which every file opens and the write
number 1 fails on every file; seed 12345, the rc4 pipeline of the text driver, `k = 1`. -/
theorem write_failure_ends_pipeline_witness :
    (∃ run, CiphertextGenerator.generateCiphertexts toyOpenSSL lcgEngine lcgNext
        ⟨fun _ => true, fun _ i => decide (i ≠ 1)⟩ 100
        (CiphertextGenerator.new lcgEngine 12345) "ciphertexts" = some run ∧
      run.files.map Prod.fst = ["cast", "rc4", "des", "blowfish"] ∧
      ∀ e, e ∈ run.files →
        (⟨fun _ => true, fun _ i => decide (i ≠ 1)⟩ : FileSystem).canOpen
          (CiphertextGenerator.filepath "ciphertexts" e.1) = true →
        (∀ j, j ≤ 81 →
          (∀ i, i < j → (⟨fun _ => true, fun _ i => decide (i ≠ 1)⟩ : FileSystem).writeOk
            (CiphertextGenerator.filepath "ciphertexts" e.1) i = true) →
          (⟨fun _ => true, fun _ i => decide (i ≠ 1)⟩ : FileSystem).writeOk
            (CiphertextGenerator.filepath "ciphertexts" e.1) j = false →
          e.2.chunks.length = j + 1 ∧ e.2.file.calls = j + 1 ∧
          e.2.bytesWritten = j * CiphertextGenerator.CHUNK_SIZE ∧
          e.2.file.contents.length = j * CiphertextGenerator.CHUNK_SIZE ∧
          e.2.messages = [Message.writeError, Message.failure]) ∧
        ((∀ i, i < 82 → (⟨fun _ => true, fun _ i => decide (i ≠ 1)⟩ : FileSystem).writeOk
            (CiphertextGenerator.filepath "ciphertexts" e.1) i = true) →
          e.2.bytesWritten = CiphertextGenerator.FILE_SIZE_BYTES ∧
          e.2.messages = [Message.success CiphertextGenerator.FILE_SIZE_BYTES])) ∧
    (∃ r, FakeTextCiphertextGenerator.generateCiphertextForAlgorithm toyOpenSSL lcgEngine
        ⟨fun _ => true, fun _ i => decide (i ≠ 1)⟩
        (FakeTextCiphertextGenerator.CHUNK_SIZE + 2000)
        (FakeTextCiphertextGenerator.new lcgEngine 12345) "rc4" "fake_text_ciphertexts"
        12345 = some r ∧
      r.chunks.length = 1 + 1 ∧ r.file.calls = 1 + 1 ∧
      r.bytesWritten = 1 * FakeTextCiphertextGenerator.CHUNK_SIZE ∧
      r.file.contents.length = 1 * FakeTextCiphertextGenerator.CHUNK_SIZE ∧
      r.messages = [Message.writeError]) :=
  write_failure_ends_pipeline toyOpenSSL lcgEngine lcgNext
    ⟨fun _ => true, fun _ i => decide (i ≠ 1)⟩ 100 (CiphertextGenerator.new lcgEngine 12345)
    "ciphertexts" (by decide) (FakeTextCiphertextGenerator.CHUNK_SIZE + 2000)
    (FakeTextCiphertextGenerator.new lcgEngine 12345) "rc4" "fake_text_ciphertexts" 12345 1
    (by decide) (by decide) rfl
    (fun i hi => by
      have : i = 0 := by omega
      subst this; rfl)
    rfl (by decide)

/-- C17, amended. In `CiphertextGenerator::generateCiphertexts`, for every pattern of open
and write failures: the bytes that reached a file are as many as its `bytesWritten`, and
the total reported at the end is the sum of the bytes written over the algorithms whose
file is complete (`bytesWritten` equal to 8 GiB); a file whose open or whose write failed
adds nothing to the total, whatever was written to it before the failure. -/
theorem totalWritten_counts_complete_files (P : OpenSSL) (R : RandomEngine)
    (next : R.State → Nat × R.State) (fs : FileSystem) (fuel : Nat)
    (s : CiphertextGenerator.State R) (outputDir : String) (hfuel : 83 ≤ fuel) :
    ∃ run, CiphertextGenerator.generateCiphertexts P R next fs fuel s outputDir = some run ∧
      (∀ e, e ∈ run.files → e.2.file.contents.length = e.2.bytesWritten) ∧
      run.totalWritten = (run.files.map fun e =>
        if e.2.bytesWritten = CiphertextGenerator.FILE_SIZE_BYTES
        then e.2.file.contents.length else 0).sum := by
  obtain ⟨run, hrun, hfo, htot⟩ :=
    CiphertextGenerator.generateCiphertexts_outcome P R next fs fuel s outputDir hfuel
  obtain ⟨hm, hall⟩ := CiphertextGenerator.FilesOutcome_entries P R next s.key56 fs
    outputDir _ _ _ _ hfo
  have hlen : ∀ e, e ∈ run.files → e.2.file.contents.length = e.2.bytesWritten := by
    intro e he
    by_cases hopen : fs.canOpen (CiphertextGenerator.filepath outputDir e.1) = true
    · obtain ⟨chunkSeed, ho⟩ := (hall e he).1 hopen
      exact CiphertextGenerator.contents_length P R s.key56 e.1 chunkSeed
        (CiphertextGenerator.mem_algorithms hm he) ho
    · obtain ⟨_, h2, _, h4⟩ := (hall e he).2 (by simpa using hopen)
      rw [h2, h4]; rfl
  refine ⟨run, hrun, hlen, ?_⟩
  rw [htot]
  congr 1
  apply List.map_congr_left
  intro e he
  by_cases h : e.2.bytesWritten = CiphertextGenerator.FILE_SIZE_BYTES
  · rw [if_pos h, if_pos h, hlen e he, h]
  · rw [if_neg h, if_neg h]

/-- C17 amended, at a concrete input: the engine `lcgEngine` with seed 12345 and a file
system without failures. -/
theorem totalWritten_counts_complete_files_witness :
    ∃ run, CiphertextGenerator.generateCiphertexts toyOpenSSL lcgEngine lcgNext
        ⟨fun _ => true, fun _ _ => true⟩ 100 (CiphertextGenerator.new lcgEngine 12345)
        "ciphertexts" = some run ∧
      (∀ e, e ∈ run.files → e.2.file.contents.length = e.2.bytesWritten) ∧
      run.totalWritten = (run.files.map fun e =>
        if e.2.bytesWritten = CiphertextGenerator.FILE_SIZE_BYTES
        then e.2.file.contents.length else 0).sum :=
  totalWritten_counts_complete_files toyOpenSSL lcgEngine lcgNext
    ⟨fun _ => true, fun _ _ => true⟩ 100 (CiphertextGenerator.new lcgEngine 12345)
    "ciphertexts" (by decide)

/-- The report of `generateCiphertexts` when, on every file, the first write succeeds and
the second fails. -/
theorem totalWritten_of_second_write_failing (P : OpenSSL) (R : RandomEngine)
    (next : R.State → Nat × R.State) (fs : FileSystem) (fuel : Nat)
    (s : CiphertextGenerator.State R) (outputDir : String) (hfuel : 83 ≤ fuel)
    (hopen : ∀ path, fs.canOpen path = true) (h0 : ∀ path, fs.writeOk path 0 = true)
    (h1 : ∀ path, fs.writeOk path 1 = false) :
    ∃ run, CiphertextGenerator.generateCiphertexts P R next fs fuel s outputDir = some run ∧
      run.totalWritten = 0 ∧
      (run.files.map fun e => e.2.file.contents.length).sum =
        4 * CiphertextGenerator.CHUNK_SIZE := by
  obtain ⟨run, hrun, hfo, htot⟩ :=
    CiphertextGenerator.generateCiphertexts_outcome P R next fs fuel s outputDir hfuel
  obtain ⟨hm, hall⟩ := CiphertextGenerator.FilesOutcome_entries P R next s.key56 fs
    outputDir _ _ _ _ hfo
  have hbw : ∀ e, e ∈ run.files → e.2.bytesWritten = CiphertextGenerator.CHUNK_SIZE ∧
      e.2.file.contents.length = CiphertextGenerator.CHUNK_SIZE := by
    intro e he
    obtain ⟨chunkSeed, ho⟩ := (hall e he).1 (hopen _)
    have hlen := CiphertextGenerator.contents_length P R s.key56 e.1 chunkSeed
      (CiphertextGenerator.mem_algorithms hm he) ho
    obtain ⟨_, _, h3, _, _⟩ := FileOutcome_first_failure ho 1 (by decide)
      (fun i hi => by
        have : i = 0 := by omega
        subst this; exact h0 _) (h1 _)
    rw [Nat.one_mul] at h3
    exact ⟨h3, by rw [hlen, h3]⟩
  have hlen4 : run.files.length = 4 := by
    have := congrArg List.length hm
    simpa using this
  refine ⟨run, hrun, ?_, ?_⟩
  · rw [htot]
    have : (run.files.map fun e =>
        if e.2.bytesWritten = CiphertextGenerator.FILE_SIZE_BYTES
        then CiphertextGenerator.FILE_SIZE_BYTES else 0) = run.files.map fun _ => 0 := by
      apply List.map_congr_left
      intro e he
      have hne : e.2.bytesWritten ≠ CiphertextGenerator.FILE_SIZE_BYTES := by
        rw [(hbw e he).1]
        have := CiphertextGenerator.partial_ne_fileSize 1
        rwa [Nat.one_mul] at this
      rw [if_neg hne]
    rw [this]
    simp
  · have : (run.files.map fun e => e.2.file.contents.length) =
        run.files.map fun _ => CiphertextGenerator.CHUNK_SIZE := by
      apply List.map_congr_left
      intro e he
      exact (hbw e he).2
    rw [this, List.map_const', List.sum_replicate, hlen4]
    rfl

/-- C17 as stated fails: with seed 12345, when on every file the first write succeeds and
the second fails, `generateCiphertexts` reports a total of 0 bytes although one chunk of
100 MiB was written to each of the four files. -/
theorem totalWritten_omits_partial_files :
    ∃ run, CiphertextGenerator.generateCiphertexts toyOpenSSL lcgEngine lcgNext
        ⟨fun _ => true, fun _ i => decide (i = 0)⟩ 100
        (CiphertextGenerator.new lcgEngine 12345) "ciphertexts" = some run ∧
      run.totalWritten = 0 ∧
      (run.files.map fun e => e.2.file.contents.length).sum =
        4 * CiphertextGenerator.CHUNK_SIZE :=
  totalWritten_of_second_write_failing toyOpenSSL lcgEngine lcgNext
    ⟨fun _ => true, fun _ i => decide (i = 0)⟩ 100 (CiphertextGenerator.new lcgEngine 12345)
    "ciphertexts" (by decide) (fun _ => rfl) (fun _ => rfl) (fun _ => rfl)

/-- C16, amended. Given the same base seed, the pipelines of all algorithm identifiers
encrypt with the same 7-byte key: the key is derived once, by the constructor, from the
base seed alone, and every chunk of every algorithm is encrypted under
`generate56BitKey(baseSeed)`. The offset of the algorithm (cast 0, rc4 10000, des 20000,
blowfish 30000) is added to the seed of the chunk data: in the text driver the first chunk
is generated from `seed + offset`, in `CiphertextGenerator` the chunk seeds are those of
`FilesOutcome`, the value drawn from the engine plus the offset plus `bytesWritten`. -/
theorem key_independent_of_algorithm (P : OpenSSL) (R : RandomEngine)
    (next : R.State → Nat × R.State) (fs : FileSystem) (fuel baseSeed : Nat)
    (outputDir : String) (hfuel : 83 ≤ fuel) (fuel2 : Nat) (alg outputDir2 : String)
    (seed : Nat) (halg : alg ∈ ["cast", "rc4", "des", "blowfish"])
    (hopen2 : fs.canOpen (FakeTextCiphertextGenerator.filepath alg outputDir2 seed) = true)
    (hfuel2 : FakeTextCiphertextGenerator.CHUNK_SIZE + TextGenerator.PARAGRAPH_SIZE + 85 ≤
      fuel2) :
    (∃ run, CiphertextGenerator.generateCiphertexts P R next fs fuel
        (CiphertextGenerator.new R baseSeed) outputDir = some run ∧
      CiphertextGenerator.FilesOutcome P R next (generate56BitKey R baseSeed) fs outputDir
        ["cast", "rc4", "des", "blowfish"] (R.mt19937 baseSeed) run.files run.generator ∧
      ∀ e, e ∈ run.files → ∀ c, c ∈ e.2.chunks →
        c.encrypted =
          CiphertextGenerator.encryptSelected P (generate56BitKey R baseSeed) e.1 c.plain) ∧
    (∃ r, FakeTextCiphertextGenerator.generateCiphertextForAlgorithm P R fs fuel2
        (FakeTextCiphertextGenerator.new R baseSeed) alg outputDir2 seed = some r ∧
      (∀ c, c ∈ r.chunks →
        c.encrypted =
          FakeTextCiphertextGenerator.encryptSelected P (generate56BitKey R baseSeed) alg
            c.plain) ∧
      r.chunks.head?.map Chunk.seed = some ((seed + seedOffset alg) % 2 ^ 32)) := by
  constructor
  · obtain ⟨run, hrun, hfo, _⟩ :=
      CiphertextGenerator.generateCiphertexts_outcome P R next fs fuel
        (CiphertextGenerator.new R baseSeed) outputDir hfuel
    have hfo' : CiphertextGenerator.FilesOutcome P R next (generate56BitKey R baseSeed) fs
        outputDir ["cast", "rc4", "des", "blowfish"] (R.mt19937 baseSeed) run.files
        run.generator := hfo
    obtain ⟨_, hall⟩ := CiphertextGenerator.FilesOutcome_entries P R next _ fs
      outputDir _ _ _ _ hfo'
    refine ⟨run, hrun, hfo', ?_⟩
    intro e he c hc
    by_cases hopen : fs.canOpen (CiphertextGenerator.filepath outputDir e.1) = true
    · obtain ⟨chunkSeed, ho⟩ := (hall e he).1 hopen
      obtain ⟨i, _, rfl⟩ := FileOutcome_mem ho hc
      exact CiphertextGenerator.chunkAt_key P R _ e.1 chunkSeed _
    · obtain ⟨_, _, h3, _⟩ := (hall e he).2 (by simpa using hopen)
      rw [h3] at hc
      cases hc
  · obtain ⟨r, hr, ho⟩ :=
      FakeTextCiphertextGenerator.generateCiphertextForAlgorithm_outcome P R fs fuel2
        (FakeTextCiphertextGenerator.new R baseSeed) alg outputDir2 seed halg hopen2 hfuel2
    have ho' : FileOutcome fs (FakeTextCiphertextGenerator.filepath alg outputDir2 seed)
        (FakeTextCiphertextGenerator.chunkAt P R (generate56BitKey R baseSeed) alg
          ((seed + seedOffset alg) % 2 ^ 32))
        FakeTextCiphertextGenerator.FILE_SIZE_BYTES FakeTextCiphertextGenerator.CHUNK_SIZE
        [Message.success FakeTextCiphertextGenerator.FILE_SIZE_BYTES] [Message.writeError]
        r := ho
    refine ⟨r, hr, ?_, ?_⟩
    · intro c hc
      obtain ⟨i, _, rfl⟩ := FileOutcome_mem ho' hc
      exact FakeTextCiphertextGenerator.ft_chunkAt_key P R _ alg _ i
    · rw [(FileOutcome_head ho').1]
      show some ((FakeTextCiphertextGenerator.chunkSeedAt R ((seed + seedOffset alg) % 2 ^ 32)
        0 + 0) % 2 ^ 32) = _
      rw [FakeTextCiphertextGenerator.chunkSeedAt_zero, Nat.add_zero, Nat.mod_mod]

/-- C16 amended, at a concrete input: base seed 12345 for both drivers, a file system
without failures, the rc4 pipeline of the text driver. -/
theorem key_independent_of_algorithm_witness :
    (∃ run, CiphertextGenerator.generateCiphertexts toyOpenSSL lcgEngine lcgNext
        ⟨fun _ => true, fun _ _ => true⟩ 100
        (CiphertextGenerator.new lcgEngine 12345) "ciphertexts" = some run ∧
      CiphertextGenerator.FilesOutcome toyOpenSSL lcgEngine lcgNext
        (generate56BitKey lcgEngine 12345) ⟨fun _ => true, fun _ _ => true⟩ "ciphertexts"
        ["cast", "rc4", "des", "blowfish"] (lcgEngine.mt19937 12345) run.files
        run.generator ∧
      ∀ e, e ∈ run.files → ∀ c, c ∈ e.2.chunks →
        c.encrypted =
          CiphertextGenerator.encryptSelected toyOpenSSL (generate56BitKey lcgEngine 12345)
            e.1 c.plain) ∧
    (∃ r, FakeTextCiphertextGenerator.generateCiphertextForAlgorithm toyOpenSSL lcgEngine
        ⟨fun _ => true, fun _ _ => true⟩ (FakeTextCiphertextGenerator.CHUNK_SIZE + 2000)
        (FakeTextCiphertextGenerator.new lcgEngine 12345) "rc4" "fake_text_ciphertexts"
        12345 = some r ∧
      (∀ c, c ∈ r.chunks →
        c.encrypted =
          FakeTextCiphertextGenerator.encryptSelected toyOpenSSL
            (generate56BitKey lcgEngine 12345) "rc4" c.plain) ∧
      r.chunks.head?.map Chunk.seed = some ((12345 + seedOffset "rc4") % 2 ^ 32)) :=
  key_independent_of_algorithm toyOpenSSL lcgEngine lcgNext ⟨fun _ => true, fun _ _ => true⟩
    100 12345 "ciphertexts" (by decide) (FakeTextCiphertextGenerator.CHUNK_SIZE + 2000) "rc4"
    "fake_text_ciphertexts" 12345 (by decide) rfl (by decide)

/-- C16 as stated fails: for base seed 12345 every chunk of the rc4 pipeline of the text
driver is encrypted under `generate56BitKey(12345)`, which is not the key derived from
`12345 + 10000`; the two keys encrypt seven zero bytes differently. -/
theorem key_not_offset_by_algorithm :
    (∃ r, FakeTextCiphertextGenerator.generateCiphertextForAlgorithm toyOpenSSL lcgEngine
        ⟨fun _ => true, fun _ _ => true⟩ (FakeTextCiphertextGenerator.CHUNK_SIZE + 2000)
        (FakeTextCiphertextGenerator.new lcgEngine 12345) "rc4" "fake_text_ciphertexts"
        12345 = some r ∧
      r.chunks ≠ [] ∧
      ∀ c, c ∈ r.chunks →
        c.encrypted =
          FakeTextCiphertextGenerator.encryptSelected toyOpenSSL
            (generate56BitKey lcgEngine 12345) "rc4" c.plain) ∧
    generate56BitKey lcgEngine 12345 ≠ generate56BitKey lcgEngine (12345 + seedOffset "rc4") ∧
    FakeTextCiphertextGenerator.encryptSelected toyOpenSSL (generate56BitKey lcgEngine 12345)
        "rc4" [0, 0, 0, 0, 0, 0, 0] ≠
      FakeTextCiphertextGenerator.encryptSelected toyOpenSSL
        (generate56BitKey lcgEngine (12345 + seedOffset "rc4")) "rc4"
        [0, 0, 0, 0, 0, 0, 0] := by
  refine ⟨?_, by decide, by decide⟩
  obtain ⟨r, hr, ho⟩ :=
    FakeTextCiphertextGenerator.generateCiphertextForAlgorithm_outcome toyOpenSSL lcgEngine
      ⟨fun _ => true, fun _ _ => true⟩ (FakeTextCiphertextGenerator.CHUNK_SIZE + 2000)
      (FakeTextCiphertextGenerator.new lcgEngine 12345) "rc4" "fake_text_ciphertexts" 12345
      (by decide) rfl (by decide)
  refine ⟨r, hr, ?_, ?_⟩
  · intro h
    have := (FileOutcome_head ho).1
    rw [h] at this
    cases this
  · intro c hc
    obtain ⟨i, _, rfl⟩ := FileOutcome_mem ho hc
    rfl

/-! ## Chunks, seeds and cursors of the cipher drivers -/

theorem map_range_const {α : Type} (f : Nat → α) (c : α) :
    ∀ n, (∀ i, i < n → f i = c) → (List.range n).map f = List.replicate n c := by
  intro n
  induction n with
  | zero => intro _; rfl
  | succ n ih =>
    intro h
    rw [List.range_succ, List.map_append, ih (fun i hi => h i (by omega)),
      List.replicate_succ']
    simp [h n (Nat.lt_succ_self n)]

theorem seed_injective (c i j : Nat) (hi : i < 82) (hj : j < 82)
    (h : (c + i * 104857600) % 4294967296 = (c + j * 104857600) % 4294967296) : i = j := by
  omega

namespace CiphertextGenerator

theorem chunkAt_plain_length (P : OpenSSL) (R : RandomEngine) (key56 : List Nat)
    (alg : String) (chunkSeed bw : Nat) :
    (chunkAt P R key56 alg chunkSeed bw).plain.length =
      min CHUNK_SIZE (FILE_SIZE_BYTES - bw) :=
  generateRandomData_length R _ _

theorem chunkAt_plain_full (P : OpenSSL) (R : RandomEngine) (key56 : List Nat)
    (alg : String) (chunkSeed i : Nat) (hi : i < 81) :
    (chunkAt P R key56 alg chunkSeed (i * CHUNK_SIZE)).plain.length = 100 * 1024 * 1024 := by
  rw [chunkAt_plain_length]
  have : min CHUNK_SIZE (FILE_SIZE_BYTES - i * CHUNK_SIZE) = CHUNK_SIZE := by
    apply Nat.min_eq_left
    rw [chunkSize_eq, fileSize_eq]
    omega
  rw [this, chunkSize_eq]

theorem chunkAt_plain_last (P : OpenSSL) (R : RandomEngine) (key56 : List Nat)
    (alg : String) (chunkSeed : Nat) :
    (chunkAt P R key56 alg chunkSeed (81 * CHUNK_SIZE)).plain.length = 92 * 1024 * 1024 := by
  rw [chunkAt_plain_length, chunkSize_eq, fileSize_eq]
  decide

theorem chunkAt_seed (P : OpenSSL) (R : RandomEngine) (key56 : List Nat)
    (alg : String) (chunkSeed bw : Nat) :
    (chunkAt P R key56 alg chunkSeed bw).seed = (chunkSeed + bw) % 2 ^ 32 ∧
    (chunkAt P R key56 alg chunkSeed bw).plain =
      generateRandomData R (chunkAt P R key56 alg chunkSeed bw).plain.length
        (chunkAt P R key56 alg chunkSeed bw).seed := by
  refine ⟨rfl, ?_⟩
  rw [chunkAt_plain_length]
  rfl

end CiphertextGenerator

namespace FakeTextCiphertextGenerator

theorem ft_chunkAt_plain_length (P : OpenSSL) (R : RandomEngine) (key56 : List Nat)
    (alg : String) (chunkSeed i : Nat) :
    (chunkAt P R key56 alg chunkSeed i).plain.length =
      min CHUNK_SIZE (FILE_SIZE_BYTES - i * CHUNK_SIZE) :=
  (generateTextChunk_eq R _ _ _ (Nat.le_refl _)).2

theorem ft_chunkAt_plain_full (P : OpenSSL) (R : RandomEngine) (key56 : List Nat)
    (alg : String) (chunkSeed i : Nat) (hi : i < 81) :
    (chunkAt P R key56 alg chunkSeed i).plain.length = 100 * 1024 * 1024 := by
  rw [ft_chunkAt_plain_length]
  have : min CHUNK_SIZE (FILE_SIZE_BYTES - i * CHUNK_SIZE) = CHUNK_SIZE := by
    apply Nat.min_eq_left
    rw [ft_chunkSize_eq, ft_fileSize_eq]
    omega
  rw [this, ft_chunkSize_eq]

theorem ft_chunkAt_plain_last (P : OpenSSL) (R : RandomEngine) (key56 : List Nat)
    (alg : String) (chunkSeed : Nat) :
    (chunkAt P R key56 alg chunkSeed 81).plain.length = 92 * 1024 * 1024 := by
  rw [ft_chunkAt_plain_length, ft_chunkSize_eq, ft_fileSize_eq]
  decide

end FakeTextCiphertextGenerator

/-- On an input whose length is a multiple of 8, the block size that the block loop
computes at every offset is `BLOCK`: no block is padded. -/
theorem full_blocks (n : Nat) (h : n % 8 = 0) (i : Nat) (hi : i < n) (hi8 : i % 8 = 0) :
    min BLOCK (n - i) = BLOCK := by
  have hB : BLOCK = 8 := rfl
  rw [hB]
  omega

/-- The chunk lengths of a complete file: 81 chunks of 100 MiB and one of 92 MiB, all
multiples of 8. -/
theorem complete_file_chunks {fs : FileSystem} {path : String} {chunk : Nat → Chunk}
    {F C : Nat} {ok fail : List Message} {r : FileRun}
    (h : FileOutcome fs path chunk F C ok fail r)
    (hall : ∀ i, i < 82 → fs.writeOk path i = true)
    (hfull : ∀ i, i < 81 → (chunk i).plain.length = 100 * 1024 * 1024)
    (hlast : (chunk 81).plain.length = 92 * 1024 * 1024) :
    r.chunks.length = 82 ∧ r.bytesWritten = F ∧
    r.chunks.map (fun c => c.plain.length) =
      List.replicate 81 (100 * 1024 * 1024) ++ [92 * 1024 * 1024] ∧
    ∀ c, c ∈ r.chunks → c.plain.length % 8 = 0 ∧
      ∀ i, i < c.plain.length → i % 8 = 0 → min BLOCK (c.plain.length - i) = BLOCK := by
  obtain ⟨h1, _, h3, _, _⟩ := FileOutcome_all_ok h hall
  have hmap : r.chunks.map (fun c => c.plain.length) =
      List.replicate 81 (100 * 1024 * 1024) ++ [92 * 1024 * 1024] := by
    rw [h1, List.map_map, List.range_succ, List.map_append,
      map_range_const ((fun c => c.plain.length) ∘ chunk) (100 * 1024 * 1024) 81
        (fun i hi => hfull i hi)]
    simp only [List.map_cons, List.map_nil, Function.comp]
    rw [hlast]
  refine ⟨by rw [h1]; simp, h3, hmap, ?_⟩
  intro c hc
  have hm : c.plain.length ∈ r.chunks.map (fun c => c.plain.length) :=
    List.mem_map_of_mem _ hc
  rw [hmap] at hm
  have hmod : c.plain.length % 8 = 0 := by
    rcases List.mem_append.mp hm with hm | hm
    · rw [(List.mem_replicate.mp hm).2]
    · rw [List.mem_singleton.mp hm]
  exact ⟨hmod, full_blocks c.plain.length hmod⟩

/-- C27. For each of the four algorithm identifiers, when the file opens and every write
succeeds, the chunk loop of `CiphertextGenerator::generateCiphertexts` and of
`FakeTextCiphertextGenerator::generateCiphertextForAlgorithm` runs exactly 82 iterations,
81 chunks of 100 MiB and a last chunk of 92 MiB, and ends with `bytesWritten` equal to
8 GiB; the length of every chunk is a multiple of 8, so at every offset of the block loop
on a chunk the block size `min BLOCK (size - i)` is `BLOCK`: no block of a block cipher
stage is padded. -/
theorem complete_run_has_82_chunks (P : OpenSSL) (R : RandomEngine)
    (next : R.State → Nat × R.State) (fs : FileSystem) (fuel : Nat)
    (s : CiphertextGenerator.State R) (outputDir : String) (hfuel : 83 ≤ fuel)
    (hopen : ∀ alg, alg ∈ ["cast", "rc4", "des", "blowfish"] →
      fs.canOpen (CiphertextGenerator.filepath outputDir alg) = true)
    (hw : ∀ alg, alg ∈ ["cast", "rc4", "des", "blowfish"] → ∀ i, i < 82 →
      fs.writeOk (CiphertextGenerator.filepath outputDir alg) i = true)
    (fuel2 : Nat) (s2 : FakeTextCiphertextGenerator.State) (alg outputDir2 : String)
    (baseSeed : Nat) (halg : alg ∈ ["cast", "rc4", "des", "blowfish"])
    (hopen2 : fs.canOpen (FakeTextCiphertextGenerator.filepath alg outputDir2 baseSeed) = true)
    (hw2 : ∀ i, i < 82 →
      fs.writeOk (FakeTextCiphertextGenerator.filepath alg outputDir2 baseSeed) i = true)
    (hfuel2 : FakeTextCiphertextGenerator.CHUNK_SIZE + TextGenerator.PARAGRAPH_SIZE + 85 ≤
      fuel2) :
    (∃ run, CiphertextGenerator.generateCiphertexts P R next fs fuel s outputDir = some run ∧
      run.files.map Prod.fst = ["cast", "rc4", "des", "blowfish"] ∧
      ∀ e, e ∈ run.files →
        e.2.chunks.length = 82 ∧ e.2.bytesWritten = 8 * 1024 * 1024 * 1024 ∧
        e.2.chunks.map (fun c => c.plain.length) =
          List.replicate 81 (100 * 1024 * 1024) ++ [92 * 1024 * 1024] ∧
        ∀ c, c ∈ e.2.chunks → c.plain.length % 8 = 0 ∧
          ∀ i, i < c.plain.length → i % 8 = 0 → min BLOCK (c.plain.length - i) = BLOCK) ∧
    (∃ r, FakeTextCiphertextGenerator.generateCiphertextForAlgorithm P R fs fuel2 s2 alg
        outputDir2 baseSeed = some r ∧
      r.chunks.length = 82 ∧ r.bytesWritten = 8 * 1024 * 1024 * 1024 ∧
      r.chunks.map (fun c => c.plain.length) =
        List.replicate 81 (100 * 1024 * 1024) ++ [92 * 1024 * 1024] ∧
      ∀ c, c ∈ r.chunks → c.plain.length % 8 = 0 ∧
        ∀ i, i < c.plain.length → i % 8 = 0 → min BLOCK (c.plain.length - i) = BLOCK) := by
  constructor
  · obtain ⟨run, hrun, hfo, _⟩ :=
      CiphertextGenerator.generateCiphertexts_outcome P R next fs fuel s outputDir hfuel
    obtain ⟨hm, hall⟩ := CiphertextGenerator.FilesOutcome_entries P R next s.key56 fs
      outputDir _ _ _ _ hfo
    refine ⟨run, hrun, hm, ?_⟩
    intro e he
    have hmem := CiphertextGenerator.mem_algorithms hm he
    obtain ⟨chunkSeed, ho⟩ := (hall e he).1 (hopen e.1 hmem)
    exact complete_file_chunks ho (hw e.1 hmem)
      (fun i hi => CiphertextGenerator.chunkAt_plain_full P R s.key56 e.1 chunkSeed i hi)
      (CiphertextGenerator.chunkAt_plain_last P R s.key56 e.1 chunkSeed)
  · obtain ⟨r, hr, ho⟩ :=
      FakeTextCiphertextGenerator.generateCiphertextForAlgorithm_outcome P R fs fuel2 s2 alg
        outputDir2 baseSeed halg hopen2 hfuel2
    exact ⟨r, hr, complete_file_chunks ho hw2
      (fun i hi => FakeTextCiphertextGenerator.ft_chunkAt_plain_full P R s2.key56 alg _ i hi)
      (FakeTextCiphertextGenerator.ft_chunkAt_plain_last P R s2.key56 alg _)⟩

/-- C27, at a concrete input: a file system without failures, seed 12345, the des pipeline
of the text driver. -/
theorem complete_run_has_82_chunks_witness :
    (∃ run, CiphertextGenerator.generateCiphertexts toyOpenSSL lcgEngine lcgNext
        ⟨fun _ => true, fun _ _ => true⟩ 100 (CiphertextGenerator.new lcgEngine 12345)
        "ciphertexts" = some run ∧
      run.files.map Prod.fst = ["cast", "rc4", "des", "blowfish"] ∧
      ∀ e, e ∈ run.files →
        e.2.chunks.length = 82 ∧ e.2.bytesWritten = 8 * 1024 * 1024 * 1024 ∧
        e.2.chunks.map (fun c => c.plain.length) =
          List.replicate 81 (100 * 1024 * 1024) ++ [92 * 1024 * 1024] ∧
        ∀ c, c ∈ e.2.chunks → c.plain.length % 8 = 0 ∧
          ∀ i, i < c.plain.length → i % 8 = 0 → min BLOCK (c.plain.length - i) = BLOCK) ∧
    (∃ r, FakeTextCiphertextGenerator.generateCiphertextForAlgorithm toyOpenSSL lcgEngine
        ⟨fun _ => true, fun _ _ => true⟩ (FakeTextCiphertextGenerator.CHUNK_SIZE + 2000)
        (FakeTextCiphertextGenerator.new lcgEngine 12345) "des" "fake_text_ciphertexts"
        12345 = some r ∧
      r.chunks.length = 82 ∧ r.bytesWritten = 8 * 1024 * 1024 * 1024 ∧
      r.chunks.map (fun c => c.plain.length) =
        List.replicate 81 (100 * 1024 * 1024) ++ [92 * 1024 * 1024] ∧
      ∀ c, c ∈ r.chunks → c.plain.length % 8 = 0 ∧
        ∀ i, i < c.plain.length → i % 8 = 0 → min BLOCK (c.plain.length - i) = BLOCK) :=
  complete_run_has_82_chunks toyOpenSSL lcgEngine lcgNext ⟨fun _ => true, fun _ _ => true⟩
    100 (CiphertextGenerator.new lcgEngine 12345) "ciphertexts" (by decide)
    (fun _ _ => rfl) (fun _ _ _ _ => rfl) (FakeTextCiphertextGenerator.CHUNK_SIZE + 2000)
    (FakeTextCiphertextGenerator.new lcgEngine 12345) "des" "fake_text_ciphertexts" 12345
    (by decide) rfl (fun _ _ => rfl) (by decide)

/-- The chunk seeds of a file in either outcome. -/
theorem FileOutcome_seeds {fs : FileSystem} {path : String} {chunk : Nat → Chunk}
    {F C : Nat} {ok fail : List Message} {r : FileRun}
    (h : FileOutcome fs path chunk F C ok fail r) :
    r.chunks = (List.range r.chunks.length).map chunk ∧ r.chunks.length ≤ 82 := by
  rcases h with ⟨h1, _, _, _, _, _⟩ | ⟨k, hk, h1, _, _, _, _, _, _⟩
  · have hl : r.chunks.length = 82 := by rw [h1]; simp
    rw [hl]
    exact ⟨h1, Nat.le_refl _⟩
  · have hl : r.chunks.length = k + 1 := by rw [h1]; simp
    rw [hl]
    exact ⟨h1, by omega⟩

/-- C28. In `CiphertextGenerator::generateCiphertexts` the chunk number `i` of a file,
generated at `bytesWritten = i * CHUNK_SIZE`, is drawn from the seed
`(chunkSeed + bytesWritten) mod 2^32`, and for every run and every value of `chunkSeed`
the seeds of the chunks of one file, at most 82 and exactly 82 when the file opens and no
write fails, are pairwise distinct, although `bytesWritten` passes `2^32` at chunk 41. -/
theorem chunk_seeds_distinct (P : OpenSSL) (R : RandomEngine)
    (next : R.State → Nat × R.State) (fs : FileSystem) (fuel : Nat)
    (s : CiphertextGenerator.State R) (outputDir : String) (hfuel : 83 ≤ fuel) :
    ∃ run, CiphertextGenerator.generateCiphertexts P R next fs fuel s outputDir = some run ∧
      2 ^ 32 < 41 * CiphertextGenerator.CHUNK_SIZE ∧
      ∀ e, e ∈ run.files → ∃ chunkSeed,
        e.2.chunks.map Chunk.seed =
          (List.range e.2.chunks.length).map
            (fun i => (chunkSeed + i * CiphertextGenerator.CHUNK_SIZE) % 2 ^ 32) ∧
        (∀ c, c ∈ e.2.chunks →
          c.plain = CiphertextGenerator.generateRandomData R c.plain.length c.seed) ∧
        (e.2.chunks.map Chunk.seed).Nodup ∧ e.2.chunks.length ≤ 82 ∧
        (fs.canOpen (CiphertextGenerator.filepath outputDir e.1) = true →
          (∀ i, i < 82 →
            fs.writeOk (CiphertextGenerator.filepath outputDir e.1) i = true) →
          e.2.chunks.length = 82) := by
  obtain ⟨run, hrun, hfo, _⟩ :=
    CiphertextGenerator.generateCiphertexts_outcome P R next fs fuel s outputDir hfuel
  obtain ⟨_, hall⟩ := CiphertextGenerator.FilesOutcome_entries P R next s.key56 fs
    outputDir _ _ _ _ hfo
  refine ⟨run, hrun, by rw [CiphertextGenerator.chunkSize_eq]; decide, ?_⟩
  intro e he
  by_cases hopen : fs.canOpen (CiphertextGenerator.filepath outputDir e.1) = true
  · obtain ⟨chunkSeed, ho⟩ := (hall e he).1 hopen
    obtain ⟨hch, hle⟩ := FileOutcome_seeds ho
    have hseeds : e.2.chunks.map Chunk.seed =
        (List.range e.2.chunks.length).map
          (fun i => (chunkSeed + i * CiphertextGenerator.CHUNK_SIZE) % 2 ^ 32) := by
      conv_lhs => rw [hch]
      rw [List.map_map]
      rfl
    refine ⟨chunkSeed, hseeds, ?_, ?_, hle, ?_⟩
    · intro c hc
      obtain ⟨i, _, rfl⟩ := FileOutcome_mem ho hc
      exact (CiphertextGenerator.chunkAt_seed P R s.key56 e.1 chunkSeed _).2
    · rw [hseeds]
      apply List.Nodup.map_on _ (List.nodup_range _)
      intro i hi j hj hij
      rw [CiphertextGenerator.chunkSize_eq] at hij
      exact seed_injective chunkSeed i j (by have := List.mem_range.mp hi; omega)
        (by have := List.mem_range.mp hj; omega) hij
    · intro _ hw
      exact (complete_file_chunks ho hw
        (fun i hi => CiphertextGenerator.chunkAt_plain_full P R s.key56 e.1 chunkSeed i hi)
        (CiphertextGenerator.chunkAt_plain_last P R s.key56 e.1 chunkSeed)).1
  · obtain ⟨_, _, h3, _⟩ := (hall e he).2 (by simpa using hopen)
    rw [h3]
    exact ⟨0, rfl, fun c hc => absurd hc (List.not_mem_nil c), List.nodup_nil,
      Nat.zero_le _, fun h => absurd h hopen⟩

/-- C28, at a concrete input: a file system without failures and seed 12345. -/
theorem chunk_seeds_distinct_witness :
    ∃ run, CiphertextGenerator.generateCiphertexts toyOpenSSL lcgEngine lcgNext
        ⟨fun _ => true, fun _ _ => true⟩ 100 (CiphertextGenerator.new lcgEngine 12345)
        "ciphertexts" = some run ∧
      2 ^ 32 < 41 * CiphertextGenerator.CHUNK_SIZE ∧
      ∀ e, e ∈ run.files → ∃ chunkSeed,
        e.2.chunks.map Chunk.seed =
          (List.range e.2.chunks.length).map
            (fun i => (chunkSeed + i * CiphertextGenerator.CHUNK_SIZE) % 2 ^ 32) ∧
        (∀ c, c ∈ e.2.chunks →
          c.plain = CiphertextGenerator.generateRandomData lcgEngine c.plain.length c.seed) ∧
        (e.2.chunks.map Chunk.seed).Nodup ∧ e.2.chunks.length ≤ 82 ∧
        ((⟨fun _ => true, fun _ _ => true⟩ : FileSystem).canOpen
            (CiphertextGenerator.filepath "ciphertexts" e.1) = true →
          (∀ i, i < 82 →
            (⟨fun _ => true, fun _ _ => true⟩ : FileSystem).writeOk
              (CiphertextGenerator.filepath "ciphertexts" e.1) i = true) →
          e.2.chunks.length = 82) :=
  chunk_seeds_distinct toyOpenSSL lcgEngine lcgNext ⟨fun _ => true, fun _ _ => true⟩ 100
    (CiphertextGenerator.new lcgEngine 12345) "ciphertexts" (by decide)

namespace FakeTextCiphertextGenerator

theorem seedOffset_unknown (alg : String) (h : alg ∉ ["cast", "rc4", "des", "blowfish"]) :
    seedOffset alg = 30000 := by
  simp only [List.mem_cons, List.mem_singleton, List.not_mem_nil, or_false, not_or] at h
  unfold seedOffset
  rw [if_neg h.1, if_neg h.2.1, if_neg h.2.2.1]

theorem encryptSelected_unknown (P : OpenSSL) (key56 : List Nat) (alg : String)
    (data : List Nat) (h : alg ∉ ["cast", "rc4", "des", "blowfish"]) :
    encryptSelected P key56 alg data = [] := by
  simp only [List.mem_cons, List.mem_singleton, List.not_mem_nil, or_false, not_or] at h
  unfold encryptSelected encryptChunk
  rw [if_neg h.1, if_neg h.2.1, if_neg h.2.2.1, if_neg h.2.2.2]

theorem write_nil_contents (fs : FileSystem) (file : OFStream Nat) :
    (file.write fs []).contents = file.contents := by
  unfold OFStream.write
  split
  · simp
  · rfl

/-- One iteration of the chunk loop for an unknown algorithm identifier, when the write
succeeds: a text chunk is generated, nothing is written and `bytesWritten` stays 0. -/
theorem ft_chunkLoop_unknown_step (P : OpenSSL) (R : RandomEngine) (key56 : List Nat)
    (fs : FileSystem) (alg : String) (fuel chunkSeed : Nat) (file : OFStream Nat)
    (chunks : List Chunk) (halg : alg ∉ ["cast", "rc4", "des", "blowfish"])
    (hw : (file.good && fs.writeOk file.path file.calls) = true) :
    chunkLoop P R key56 fs alg (fuel + 1) file 0 chunkSeed chunks =
      match generateTextChunk R fuel CHUNK_SIZE (chunkSeed % 2 ^ 32) with
      | none => none
      | some (textChunk, localSeed1) =>
        chunkLoop P R key56 fs alg fuel (file.write fs []) 0 localSeed1
          (chunks ++ [{ seed := chunkSeed % 2 ^ 32, plain := textChunk, encrypted := [] }]) := by
  have hCS := ft_chunkSize_eq
  have hFS := ft_fileSize_eq
  have hmin : min CHUNK_SIZE (FILE_SIZE_BYTES - 0) = CHUNK_SIZE := by
    apply Nat.min_eq_left
    rw [hCS, hFS]
    decide
  have hdiv : 0 / CHUNK_SIZE = 0 := Nat.zero_div _
  rw [chunkLoop, if_pos (by rw [hFS]; decide)]
  simp only [hmin, hdiv, Nat.add_zero]
  cases hgen : generateTextChunk R fuel CHUNK_SIZE (chunkSeed % 2 ^ 32) with
  | none => rfl
  | some p =>
    obtain ⟨textChunk, localSeed1⟩ := p
    simp only [encryptSelected_unknown P key56 alg _ halg,
      (OFStream.write_of_ok fs file [] hw).2, Bool.not_true, Bool.false_eq_true, if_false,
      List.length_nil, Nat.add_zero]

/-- The chunk loop for an unknown algorithm identifier runs out of every amount of fuel
when no write fails. -/
theorem ft_chunkLoop_unknown_none (P : OpenSSL) (R : RandomEngine) (key56 : List Nat)
    (fs : FileSystem) (alg : String) (halg : alg ∉ ["cast", "rc4", "des", "blowfish"]) :
    ∀ (fuel chunkSeed : Nat) (file : OFStream Nat) (chunks : List Chunk),
      file.good = true → (∀ i, fs.writeOk file.path i = true) →
      chunkLoop P R key56 fs alg fuel file 0 chunkSeed chunks = none := by
  intro fuel
  induction fuel with
  | zero => intro _ _ _ _ _; rfl
  | succ fuel ih =>
    intro chunkSeed file chunks hg hw
    have hw0 : (file.good && fs.writeOk file.path file.calls) = true := by
      rw [hg, hw]; rfl
    rw [ft_chunkLoop_unknown_step P R key56 fs alg fuel chunkSeed file chunks halg hw0]
    cases hgen : generateTextChunk R fuel CHUNK_SIZE (chunkSeed % 2 ^ 32) with
    | none => rfl
    | some p =>
      obtain ⟨textChunk, localSeed1⟩ := p
      exact ih localSeed1 (file.write fs []) _ (OFStream.write_of_ok fs file [] hw0).2
        (fun i => by rw [OFStream.write_path]; exact hw i)

/-- After any number `n` of iterations for an unknown algorithm identifier the loop is
still at `bytesWritten = 0`, with `n` chunks generated and nothing written. -/
theorem ft_chunkLoop_unknown_steps (P : OpenSSL) (R : RandomEngine) (key56 : List Nat)
    (fs : FileSystem) (alg : String) (halg : alg ∉ ["cast", "rc4", "des", "blowfish"]) :
    ∀ (n fuel chunkSeed : Nat) (file : OFStream Nat) (chunks : List Chunk),
      CHUNK_SIZE + TextGenerator.PARAGRAPH_SIZE + 1 ≤ fuel →
      file.good = true → (∀ i, fs.writeOk file.path i = true) →
      ∃ file1 chunkSeed1 new,
        chunkLoop P R key56 fs alg (fuel + n) file 0 chunkSeed chunks =
          chunkLoop P R key56 fs alg fuel file1 0 chunkSeed1 (chunks ++ new) ∧
        new.length = n ∧ (∀ c, c ∈ new → c.encrypted = [] ∧ c.plain.length = CHUNK_SIZE) ∧
        file1.contents = file.contents ∧ file1.calls = file.calls + n ∧
        file1.good = true ∧ file1.path = file.path := by
  intro n
  induction n with
  | zero =>
    intro fuel chunkSeed file chunks _ hg _
    exact ⟨file, chunkSeed, [], by simp, rfl, fun c hc => absurd hc (List.not_mem_nil c),
      rfl, rfl, hg, rfl⟩
  | succ n ih =>
    intro fuel chunkSeed file chunks hfuel hg hw
    have hw0 : (file.good && fs.writeOk file.path file.calls) = true := by
      rw [hg, hw]; rfl
    obtain ⟨hgen, hlen⟩ := generateTextChunk_eq R (fuel + n) CHUNK_SIZE (chunkSeed % 2 ^ 32)
      (by omega)
    obtain ⟨file1, chunkSeed1, new, hrun, hl, hall, hc, hcalls, hg1, hp1⟩ :=
      ih fuel (textChunkAt R CHUNK_SIZE (chunkSeed % 2 ^ 32)).2 (file.write fs [])
        (chunks ++ [{ seed := chunkSeed % 2 ^ 32
                      plain := (textChunkAt R CHUNK_SIZE (chunkSeed % 2 ^ 32)).1
                      encrypted := [] }])
        hfuel (OFStream.write_of_ok fs file [] hw0).2
        (fun i => by rw [OFStream.write_path]; exact hw i)
    refine ⟨file1, chunkSeed1,
      { seed := chunkSeed % 2 ^ 32, plain := (textChunkAt R CHUNK_SIZE (chunkSeed % 2 ^ 32)).1,
        encrypted := [] } :: new, ?_, by simp [hl], ?_, ?_, ?_, hg1, ?_⟩
    · rw [show fuel + (n + 1) = (fuel + n) + 1 by omega,
        ft_chunkLoop_unknown_step P R key56 fs alg (fuel + n) chunkSeed file chunks halg hw0,
        hgen]
      simp only
      rw [hrun, List.append_assoc]
      rfl
    · intro c hc'
      rcases List.mem_cons.mp hc' with rfl | hc'
      · refine ⟨rfl, ?_⟩
        simp only
        exact hlen
      · exact hall c hc'
    · rw [hc, write_nil_contents]
    · rw [hcalls, OFStream.write_calls]; omega
    · rw [hp1, OFStream.write_path]

end FakeTextCiphertextGenerator

namespace FakeTextCiphertextGenerator

/-- The chunk loop for an unknown algorithm identifier returns only through the write
error: whenever it returns, `bytesWritten` is still 0 and every encrypted chunk is empty. -/
theorem ft_chunkLoop_unknown_returns (P : OpenSSL) (R : RandomEngine) (key56 : List Nat)
    (fs : FileSystem) (alg : String) (halg : alg ∉ ["cast", "rc4", "des", "blowfish"]) :
    ∀ (fuel chunkSeed : Nat) (file : OFStream Nat) (chunks : List Chunk) (run : FileRun),
      (∀ c, c ∈ chunks → c.encrypted = []) →
      chunkLoop P R key56 fs alg fuel file 0 chunkSeed chunks = some run →
      run.bytesWritten = 0 ∧ run.messages = [Message.writeError] ∧
        ∀ c, c ∈ run.chunks → c.encrypted = [] := by
  have hCS := ft_chunkSize_eq
  have hFS := ft_fileSize_eq
  have hmin : min CHUNK_SIZE (FILE_SIZE_BYTES - 0) = CHUNK_SIZE := by
    apply Nat.min_eq_left
    rw [hCS, hFS]
    decide
  have hdiv : 0 / CHUNK_SIZE = 0 := Nat.zero_div _
  intro fuel
  induction fuel with
  | zero =>
    intro chunkSeed file chunks run _ h
    rw [chunkLoop] at h
    exact absurd h (by simp)
  | succ fuel ih =>
    intro chunkSeed file chunks run hch h
    rw [chunkLoop, if_pos (by rw [hFS]; decide)] at h
    simp only [hmin, hdiv, Nat.add_zero] at h
    cases hgen : generateTextChunk R fuel CHUNK_SIZE (chunkSeed % 2 ^ 32) with
    | none =>
      rw [hgen] at h
      exact absurd h (by simp)
    | some p =>
      obtain ⟨textChunk, localSeed1⟩ := p
      rw [hgen] at h
      simp only [encryptSelected_unknown P key56 alg _ halg, List.length_nil,
        Nat.add_zero] at h
      have hch1 : ∀ c, c ∈ chunks ++ [Chunk.mk (chunkSeed % 2 ^ 32) textChunk []] →
          c.encrypted = [] := by
        intro c hc
        rcases List.mem_append.mp hc with hc | hc
        · exact hch c hc
        · rw [List.mem_singleton.mp hc]
      split at h
      · injection h with h
        subst h
        exact ⟨rfl, rfl, hch1⟩
      · exact ih _ _ _ run hch1 h

end FakeTextCiphertextGenerator


/-- C29. When `generateCiphertextForAlgorithm` is called with an identifier other than
"cast", "rc4", "des" and "blowfish": the seed offset is 30000 and the encrypted chunk is
empty for every text chunk, so `bytesWritten` never leaves 0 and the loop condition
`bytesWritten < FILE_SIZE_BYTES` holds after every iteration. The function never returns
through the end of the loop: a call that returns has taken the branch of the file that does
not open or of the write that fails, with `bytesWritten` 0. On a file that opens and whose
writes do not fail, after any number `n` of iterations `n` chunks of 100 MiB of text have
been generated, nothing has been written, and the function does not return, whatever the
fuel. -/
theorem unknown_algorithm_never_returns (P : OpenSSL) (R : RandomEngine) (fs : FileSystem)
    (s : FakeTextCiphertextGenerator.State) (alg outputDir : String) (baseSeed : Nat)
    (halg : alg ∉ ["cast", "rc4", "des", "blowfish"]) :
    seedOffset alg = 30000 ∧
    (∀ data, FakeTextCiphertextGenerator.encryptSelected P s.key56 alg data = []) ∧
    (0 < FakeTextCiphertextGenerator.FILE_SIZE_BYTES ∧
      ∀ fuel run, FakeTextCiphertextGenerator.generateCiphertextForAlgorithm P R fs fuel s alg
          outputDir baseSeed = some run →
        run.bytesWritten = 0 ∧
        (run.messages = [Message.openError] ∨ run.messages = [Message.writeError]) ∧
        ∀ c, c ∈ run.chunks → c.encrypted = []) ∧
    (fs.canOpen (FakeTextCiphertextGenerator.filepath alg outputDir baseSeed) = true →
      (∀ i,
        fs.writeOk (FakeTextCiphertextGenerator.filepath alg outputDir baseSeed) i = true) →
      (∀ n fuel, FakeTextCiphertextGenerator.CHUNK_SIZE + TextGenerator.PARAGRAPH_SIZE + 1 ≤
          fuel →
        ∃ file1 chunkSeed1 chunks,
          FakeTextCiphertextGenerator.generateCiphertextForAlgorithm P R fs (fuel + n) s alg
              outputDir baseSeed =
            FakeTextCiphertextGenerator.chunkLoop P R s.key56 fs alg fuel file1 0 chunkSeed1
              chunks ∧
          chunks.length = n ∧
          (∀ c, c ∈ chunks →
            c.encrypted = [] ∧ c.plain.length = FakeTextCiphertextGenerator.CHUNK_SIZE) ∧
          file1.contents = [] ∧ file1.calls = n) ∧
      (∀ fuel, FakeTextCiphertextGenerator.generateCiphertextForAlgorithm P R fs fuel s alg
        outputDir baseSeed = none)) := by
  refine ⟨FakeTextCiphertextGenerator.seedOffset_unknown alg halg,
    fun data => FakeTextCiphertextGenerator.encryptSelected_unknown P s.key56 alg data halg,
    ⟨by rw [FakeTextCiphertextGenerator.ft_fileSize_eq]; decide, ?_⟩, ?_⟩
  · intro fuel run h
    unfold FakeTextCiphertextGenerator.generateCiphertextForAlgorithm at h
    simp only at h
    split at h
    · injection h with h
      subst h
      exact ⟨rfl, Or.inl rfl, fun c hc => absurd hc (List.not_mem_nil c)⟩
    · obtain ⟨h1, h2, h3⟩ :=
        FakeTextCiphertextGenerator.ft_chunkLoop_unknown_returns P R s.key56 fs alg halg fuel
          _ _ [] run (fun c hc => absurd hc (List.not_mem_nil c)) h
      exact ⟨h1, Or.inr h2, h3⟩
  · intro hopen hw
    have ho : (ofstream fs (FakeTextCiphertextGenerator.filepath alg outputDir baseSeed) :
        OFStream Nat).is_open = true := hopen
    have hstart : ∀ fuel,
        FakeTextCiphertextGenerator.generateCiphertextForAlgorithm P R fs fuel s alg outputDir
          baseSeed =
        FakeTextCiphertextGenerator.chunkLoop P R s.key56 fs alg fuel
          (ofstream fs (FakeTextCiphertextGenerator.filepath alg outputDir baseSeed)) 0
          ((baseSeed + seedOffset alg) % 2 ^ 32) [] := by
      intro fuel
      unfold FakeTextCiphertextGenerator.generateCiphertextForAlgorithm
      simp only [ho, Bool.not_true, Bool.false_eq_true, if_false]
    constructor
    · intro n fuel hfuel
      obtain ⟨file1, chunkSeed1, new, hrun, hl, hall, hc, hcalls, _, _⟩ :=
        FakeTextCiphertextGenerator.ft_chunkLoop_unknown_steps P R s.key56 fs alg halg n fuel
          ((baseSeed + seedOffset alg) % 2 ^ 32)
          (ofstream fs (FakeTextCiphertextGenerator.filepath alg outputDir baseSeed)) []
          hfuel hopen (fun i => by rw [ofstream_path]; exact hw i)
      refine ⟨file1, chunkSeed1, new, ?_, hl, hall, ?_, ?_⟩
      · rw [hstart, hrun, List.nil_append]
      · rw [hc, ofstream_contents]
      · rw [hcalls, ofstream_calls, Nat.zero_add]
    · intro fuel
      rw [hstart]
      exact FakeTextCiphertextGenerator.ft_chunkLoop_unknown_none P R s.key56 fs alg halg fuel
        _ _ _ hopen (fun i => by rw [ofstream_path]; exact hw i)

/-- C29, at a concrete input: the identifier "aes", a file system without failures and
seed 12345. -/
theorem unknown_algorithm_never_returns_witness :
    (∀ n fuel, FakeTextCiphertextGenerator.CHUNK_SIZE + TextGenerator.PARAGRAPH_SIZE + 1 ≤
        fuel →
      ∃ file1 chunkSeed1 chunks,
        FakeTextCiphertextGenerator.generateCiphertextForAlgorithm toyOpenSSL lcgEngine
            ⟨fun _ => true, fun _ _ => true⟩ (fuel + n)
            (FakeTextCiphertextGenerator.new lcgEngine 12345) "aes" "out" 12345 =
          FakeTextCiphertextGenerator.chunkLoop toyOpenSSL lcgEngine
            (FakeTextCiphertextGenerator.new lcgEngine 12345).key56
            ⟨fun _ => true, fun _ _ => true⟩ "aes" fuel file1 0 chunkSeed1 chunks ∧
        chunks.length = n ∧
        (∀ c, c ∈ chunks →
          c.encrypted = [] ∧ c.plain.length = FakeTextCiphertextGenerator.CHUNK_SIZE) ∧
        file1.contents = [] ∧ file1.calls = n) ∧
    (∀ fuel, FakeTextCiphertextGenerator.generateCiphertextForAlgorithm toyOpenSSL lcgEngine
      ⟨fun _ => true, fun _ _ => true⟩ fuel (FakeTextCiphertextGenerator.new lcgEngine 12345)
      "aes" "out" 12345 = none) :=
  (unknown_algorithm_never_returns toyOpenSSL lcgEngine ⟨fun _ => true, fun _ _ => true⟩
    (FakeTextCiphertextGenerator.new lcgEngine 12345) "aes" "out" 12345 (by decide)).2.2.2
    rfl (fun _ => rfl)

namespace TextGenerator

theorem iterate_incrSeed_mod (s i : Nat) : incrSeed^[i] (s % 2 ^ 32) = (s + i) % 2 ^ 32 := by
  rw [iterate_incrSeed (s % 2 ^ 32) (Nat.mod_lt _ (by decide)) i, Nat.mod_add_mod]

/-- The sentence number `j` from the cursor `s + k` is the sentence number `j + k` from
the cursor `s`. -/
theorem sentenceIter_shift (R : RandomEngine) (m : Model) (s k j : Nat) :
    sentenceIter R m ((s + k) % 2 ^ 32) j = sentenceIter R m (s % 2 ^ 32) (j + k) := by
  unfold sentenceIter
  rw [iterate_incrSeed_mod, iterate_incrSeed_mod]
  congr 2
  omega

end TextGenerator

namespace FakeTextCiphertextGenerator

theorem ft_chunkAt_plain (P : OpenSSL) (R : RandomEngine) (key56 : List Nat) (alg : String)
    (chunkSeed i : Nat) :
    (chunkAt P R key56 alg chunkSeed i).plain =
      (textChunkAt R (min CHUNK_SIZE (FILE_SIZE_BYTES - i * CHUNK_SIZE))
        (chunkAt P R key56 alg chunkSeed i).seed).1 := rfl

theorem ft_chunkAt_seed (P : OpenSSL) (R : RandomEngine) (key56 : List Nat) (alg : String)
    (chunkSeed i : Nat) :
    (chunkAt P R key56 alg chunkSeed i).seed = (chunkSeedAt R chunkSeed i + i) % 2 ^ 32 := rfl

/-- The first chunk of a pipeline: its seed is the base seed plus the offset of the
algorithm, and its text is what `generateTextChunk` returns for that seed. -/
theorem first_chunk (P : OpenSSL) (R : RandomEngine) (fs : FileSystem) (fuel : Nat)
    (s : State) (alg outputDir : String) (baseSeed : Nat)
    (halg : alg ∈ ["cast", "rc4", "des", "blowfish"])
    (hopen : fs.canOpen (filepath alg outputDir baseSeed) = true)
    (hfuel : CHUNK_SIZE + TextGenerator.PARAGRAPH_SIZE + 85 ≤ fuel) :
    ∃ r c, generateCiphertextForAlgorithm P R fs fuel s alg outputDir baseSeed = some r ∧
      r.chunks.head? = some c ∧ c.seed = (baseSeed + seedOffset alg) % 2 ^ 32 ∧
      (generateTextChunk R (CHUNK_SIZE + TextGenerator.PARAGRAPH_SIZE + 1) CHUNK_SIZE
        c.seed).map Prod.fst = some c.plain := by
  obtain ⟨r, hr, ho⟩ := generateCiphertextForAlgorithm_outcome P R fs fuel s alg outputDir
    baseSeed halg hopen hfuel
  have hmin : min CHUNK_SIZE (FILE_SIZE_BYTES - 0 * CHUNK_SIZE) = CHUNK_SIZE := by
    apply Nat.min_eq_left
    rw [ft_chunkSize_eq, ft_fileSize_eq]
    decide
  have hseed : (chunkAt P R s.key56 alg ((baseSeed + seedOffset alg) % 2 ^ 32) 0).seed =
      (baseSeed + seedOffset alg) % 2 ^ 32 := by
    rw [ft_chunkAt_seed, chunkSeedAt_zero, Nat.add_zero, Nat.mod_mod]
  have hplain : (chunkAt P R s.key56 alg ((baseSeed + seedOffset alg) % 2 ^ 32) 0).plain =
      (textChunkAt R CHUNK_SIZE
        (chunkAt P R s.key56 alg ((baseSeed + seedOffset alg) % 2 ^ 32) 0).seed).1 := by
    rw [ft_chunkAt_plain, hmin]
  refine ⟨r, _, hr, (FileOutcome_head ho).1, hseed, ?_⟩
  rw [(generateTextChunk_eq R _ CHUNK_SIZE _ (Nat.le_refl _)).1, hplain, Option.map_some']

end FakeTextCiphertextGenerator

/-- C25. The seed cursors of different pipelines run over one sentence sequence.
`generateSentenceMarkov(s)` is a function of the cursor `s` (for the engine and the model)
and leaves the cursor at `s + 1` modulo `2^32`; a paragraph from a cursor is made of the
sentences of the successive cursors; so for every `s`, `k` and `j` the sentence number `j`
from the cursor `s + k` is the sentence number `j + k` from the cursor `s`. The first
chunk of the cast pipeline is generated from the cursor `s` and that of the rc4 pipeline
from the cursor `s + 10000`, so the sentence number `j` of the rc4 pipeline is the
sentence number `j + 10000` of the cast pipeline. -/
theorem cursors_share_sentence_sequence (R : RandomEngine) (m : TextGenerator.Model)
    (s k j : Nat) (P : OpenSSL) (fs : FileSystem) (fuel : Nat)
    (obj : FakeTextCiphertextGenerator.State) (outputDir : String)
    (hcast : fs.canOpen (FakeTextCiphertextGenerator.filepath "cast" outputDir s) = true)
    (hrc4 : fs.canOpen (FakeTextCiphertextGenerator.filepath "rc4" outputDir s) = true)
    (hfuel : FakeTextCiphertextGenerator.CHUNK_SIZE + TextGenerator.PARAGRAPH_SIZE + 85 ≤
      fuel) :
    (TextGenerator.generateSentenceMarkov R m s).2 = (s + 1) % 2 ^ 32 ∧
    (∀ cursor, ∃ n, TextGenerator.paragraphAt R m cursor =
      (TextGenerator.joinSentences (TextGenerator.sentenceIter R m cursor) n,
        incrSeed^[n] cursor)) ∧
    TextGenerator.sentenceIter R m ((s + k) % 2 ^ 32) j =
      TextGenerator.sentenceIter R m (s % 2 ^ 32) (j + k) ∧
    ∃ rc cc rr cr,
      FakeTextCiphertextGenerator.generateCiphertextForAlgorithm P R fs fuel obj "cast"
        outputDir s = some rc ∧ rc.chunks.head? = some cc ∧
      FakeTextCiphertextGenerator.generateCiphertextForAlgorithm P R fs fuel obj "rc4"
        outputDir s = some rr ∧ rr.chunks.head? = some cr ∧
      cc.seed = s % 2 ^ 32 ∧ cr.seed = (s + 10000) % 2 ^ 32 ∧
      (FakeTextCiphertextGenerator.generateTextChunk R
        (FakeTextCiphertextGenerator.CHUNK_SIZE + TextGenerator.PARAGRAPH_SIZE + 1)
        FakeTextCiphertextGenerator.CHUNK_SIZE cc.seed).map Prod.fst = some cc.plain ∧
      (FakeTextCiphertextGenerator.generateTextChunk R
        (FakeTextCiphertextGenerator.CHUNK_SIZE + TextGenerator.PARAGRAPH_SIZE + 1)
        FakeTextCiphertextGenerator.CHUNK_SIZE cr.seed).map Prod.fst = some cr.plain ∧
      ∀ i, TextGenerator.sentenceIter R TextGenerator.initializeMarkovChain cr.seed i =
        TextGenerator.sentenceIter R TextGenerator.initializeMarkovChain cc.seed
          (i + 10000) := by
  refine ⟨TextGenerator.generateSentenceMarkov_seed R m s, ?_,
    TextGenerator.sentenceIter_shift R m s k j, ?_⟩
  · intro cursor
    obtain ⟨n, _, e, _⟩ := TextGenerator.paragraphAt_joined R m cursor
    exact ⟨n, e⟩
  · obtain ⟨rc, cc, h1, h2, h3, h4⟩ :=
      FakeTextCiphertextGenerator.first_chunk P R fs fuel obj "cast" outputDir s (by decide)
        hcast hfuel
    obtain ⟨rr, cr, h5, h6, h7, h8⟩ :=
      FakeTextCiphertextGenerator.first_chunk P R fs fuel obj "rc4" outputDir s (by decide)
        hrc4 hfuel
    have e1 : seedOffset "cast" = 0 := by decide
    have e2 : seedOffset "rc4" = 10000 := by decide
    rw [e1, Nat.add_zero] at h3
    rw [e2] at h7
    refine ⟨rc, cc, rr, cr, h1, h2, h5, h6, h3, h7, h4, h8, ?_⟩
    intro i
    rw [h3, h7]
    exact TextGenerator.sentenceIter_shift R _ s 10000 i

/-- C25, at a concrete input: the built-in model, cursor 12345, `k = 7`, `j = 3`, and a
file system without failures. -/
theorem cursors_share_sentence_sequence_witness :
    (TextGenerator.generateSentenceMarkov lcgEngine TextGenerator.initializeMarkovChain
      12345).2 = (12345 + 1) % 2 ^ 32 ∧
    (∀ cursor, ∃ n,
      TextGenerator.paragraphAt lcgEngine TextGenerator.initializeMarkovChain cursor =
      (TextGenerator.joinSentences
        (TextGenerator.sentenceIter lcgEngine TextGenerator.initializeMarkovChain cursor) n,
        incrSeed^[n] cursor)) ∧
    TextGenerator.sentenceIter lcgEngine TextGenerator.initializeMarkovChain
        ((12345 + 7) % 2 ^ 32) 3 =
      TextGenerator.sentenceIter lcgEngine TextGenerator.initializeMarkovChain
        (12345 % 2 ^ 32) (3 + 7) ∧
    ∃ rc cc rr cr,
      FakeTextCiphertextGenerator.generateCiphertextForAlgorithm toyOpenSSL lcgEngine
        ⟨fun _ => true, fun _ _ => true⟩ (FakeTextCiphertextGenerator.CHUNK_SIZE + 2000)
        (FakeTextCiphertextGenerator.new lcgEngine 12345) "cast" "out" 12345 = some rc ∧
      rc.chunks.head? = some cc ∧
      FakeTextCiphertextGenerator.generateCiphertextForAlgorithm toyOpenSSL lcgEngine
        ⟨fun _ => true, fun _ _ => true⟩ (FakeTextCiphertextGenerator.CHUNK_SIZE + 2000)
        (FakeTextCiphertextGenerator.new lcgEngine 12345) "rc4" "out" 12345 = some rr ∧
      rr.chunks.head? = some cr ∧
      cc.seed = 12345 % 2 ^ 32 ∧ cr.seed = (12345 + 10000) % 2 ^ 32 ∧
      (FakeTextCiphertextGenerator.generateTextChunk lcgEngine
        (FakeTextCiphertextGenerator.CHUNK_SIZE + TextGenerator.PARAGRAPH_SIZE + 1)
        FakeTextCiphertextGenerator.CHUNK_SIZE cc.seed).map Prod.fst = some cc.plain ∧
      (FakeTextCiphertextGenerator.generateTextChunk lcgEngine
        (FakeTextCiphertextGenerator.CHUNK_SIZE + TextGenerator.PARAGRAPH_SIZE + 1)
        FakeTextCiphertextGenerator.CHUNK_SIZE cr.seed).map Prod.fst = some cr.plain ∧
      ∀ i, TextGenerator.sentenceIter lcgEngine TextGenerator.initializeMarkovChain cr.seed i =
        TextGenerator.sentenceIter lcgEngine TextGenerator.initializeMarkovChain cc.seed
          (i + 10000) :=
  cursors_share_sentence_sequence lcgEngine TextGenerator.initializeMarkovChain 12345 7 3
    toyOpenSSL ⟨fun _ => true, fun _ _ => true⟩
    (FakeTextCiphertextGenerator.CHUNK_SIZE + 2000)
    (FakeTextCiphertextGenerator.new lcgEngine 12345) "out" rfl rfl (by decide)

/-! ## The DES key -/

theorem oddParityByte_of_half (b b1 : Nat) (h : b / 2 = b1 / 2) :
    oddParityByte b = oddParityByte b1 := by
  unfold oddParityByte
  rw [h]

theorem parityOpenSSL_ignores_low_bits (k k1 : List Nat)
    (h : k.map (fun b => b / 2) = k1.map (fun b => b / 2)) :
    parityOpenSSL.DES_set_odd_parity k = parityOpenSSL.DES_set_odd_parity k1 := by
  show k.map oddParityByte = k1.map oddParityByte
  have e : ∀ l : List Nat, l.map oddParityByte =
      (l.map (fun b => b / 2)).map (fun hi => oddParityByte (2 * hi)) := by
    intro l
    rw [List.map_map]
    apply List.map_congr_left
    intro b _
    exact oddParityByte_of_half b (2 * (b / 2)) (by simp)
  rw [e k, e k1, h]

/-- The eight key bytes before the parity adjustment: the seven bytes of `key56` and a
zero byte. -/
theorem desKey8_bytes (key56 : List Nat) :
    (memcpy (List.replicate 8 0) 0 key56 0 7).set 7 0 =
      [key56.getD 0 0, key56.getD 1 0, key56.getD 2 0, key56.getD 3 0, key56.getD 4 0,
        key56.getD 5 0, key56.getD 6 0, 0] := by
  simp [memcpy, List.range_succ]

theorem desKey8_of_agree (P : OpenSSL)
    (hpar : ∀ k k1 : List Nat, k.map (fun b => b / 2) = k1.map (fun b => b / 2) →
      P.DES_set_odd_parity k = P.DES_set_odd_parity k1)
    (key56 key56a : List Nat)
    (hagree : ∀ i, i < 7 → key56.getD i 0 / 2 = key56a.getD i 0 / 2) :
    desKey8 P key56 = desKey8 P key56a := by
  unfold desKey8
  apply hpar
  rw [desKey8_bytes, desKey8_bytes]
  simp only [List.map_cons, List.map_nil]
  rw [hagree 0 (by decide), hagree 1 (by decide), hagree 2 (by decide), hagree 3 (by decide),
    hagree 4 (by decide), hagree 5 (by decide), hagree 6 (by decide)]

/-- C26. The DES stage ignores part of the 56-bit key. The DES key is `key56` followed by
a zero byte, adjusted by `DES_set_odd_parity`; for a library whose parity adjustment
overwrites the least significant bit of every byte, two keys that agree on the upper
seven bits of each of their seven bytes give the same DES key, and `encryptDES` of
`CiphertextGenerator` and of `DataEncryptor` gives the same output for every plaintext:
7 times 7, that is 49, key bits are effective. -/
theorem des_ignores_low_key_bits (P : OpenSSL)
    (hpar : ∀ k k1 : List Nat, k.map (fun b => b / 2) = k1.map (fun b => b / 2) →
      P.DES_set_odd_parity k = P.DES_set_odd_parity k1)
    (key56 key56a : List Nat)
    (hagree : ∀ i, i < 7 → key56.getD i 0 / 2 = key56a.getD i 0 / 2) :
    desKey8 P key56 = desKey8 P key56a ∧
    (∀ data, CiphertextGenerator.encryptDES P key56 data =
      CiphertextGenerator.encryptDES P key56a data) ∧
    (∀ (R : RandomEngine) (g : R.State) (data : List Nat),
      DataEncryptor.encryptDES P
          ({ generator := g, randomData := data, key56 := key56 } : DataEncryptor.State R) =
        DataEncryptor.encryptDES P
          ({ generator := g, randomData := data, key56 := key56a } :
            DataEncryptor.State R)) := by
  have h := desKey8_of_agree P hpar key56 key56a hagree
  refine ⟨h, ?_, ?_⟩
  · intro data
    unfold CiphertextGenerator.encryptDES
    rw [h]
  · intro R g data
    unfold DataEncryptor.encryptDES
    simp only
    rw [h]

/-- C26, at a concrete input: the parity adjustment of the library, and two keys that
differ in the least significant bit of every byte. -/
theorem des_ignores_low_key_bits_witness :
    desKey8 parityOpenSSL [2, 4, 6, 8, 10, 12, 14] =
      desKey8 parityOpenSSL [3, 5, 7, 9, 11, 13, 15] ∧
    (∀ data, CiphertextGenerator.encryptDES parityOpenSSL [2, 4, 6, 8, 10, 12, 14] data =
      CiphertextGenerator.encryptDES parityOpenSSL [3, 5, 7, 9, 11, 13, 15] data) ∧
    (∀ (R : RandomEngine) (g : R.State) (data : List Nat),
      DataEncryptor.encryptDES parityOpenSSL
          ({ generator := g, randomData := data, key56 := [2, 4, 6, 8, 10, 12, 14] } :
            DataEncryptor.State R) =
        DataEncryptor.encryptDES parityOpenSSL
          ({ generator := g, randomData := data, key56 := [3, 5, 7, 9, 11, 13, 15] } :
            DataEncryptor.State R)) :=
  des_ignores_low_key_bits parityOpenSSL parityOpenSSL_ignores_low_bits
    [2, 4, 6, 8, 10, 12, 14] [3, 5, 7, 9, 11, 13, 15]
    (by decide)

/-! ## The compressing loop -/

namespace TextCompressor

/-- An iteration of the loop of `compressStreamTo8GB` in which the observed size is below
the target, the source returns bytes, and the write and the flush succeed: the chunk is
pulled and the loop goes on. -/
theorem compressLoop_step {σ : Type} (E : GzEnv σ) (fuel k : Nat) (src : σ)
    (chunks : List (List Nat)) (hsize : 0 ≤ E.lseek (2 * k))
    (hlt : (E.lseek (2 * k)).toNat < FILE_SIZE_BYTES)
    (hread : (E.readChunk src CHUNK_INPUT).1 ≠ [])
    (hwrite : E.gzwrite k (E.readChunk src CHUNK_INPUT).1 =
      ((E.readChunk src CHUNK_INPUT).1.length : Int))
    (hflush : E.gzflush k = true) :
    compressLoop E (fuel + 1) k src chunks =
      compressLoop E fuel (k + 1) (E.readChunk src CHUNK_INPUT).2
        (chunks ++ [(E.readChunk src CHUNK_INPUT).1]) := by
  rw [compressLoop]
  have hpos : 0 < (E.readChunk src CHUNK_INPUT).1.length := List.length_pos.mpr hread
  have hne : (E.readChunk src CHUNK_INPUT).1.length ≠ 0 := Nat.pos_iff_ne_zero.mp hpos
  have hw : ¬ ((E.readChunk src CHUNK_INPUT).1.length : Int) ≤ 0 := by omega
  simp [not_lt.mpr hsize, not_le.mpr hlt, hwrite, hflush, hread, hw]

/-- The iteration of the loop of `compressStreamTo8GB` in which the observed size has
reached the target: the loop ends without a read. -/
theorem compressLoop_target {σ : Type} (E : GzEnv σ) (fuel k : Nat) (src : σ)
    (chunks : List (List Nat)) (hsize : 0 ≤ E.lseek (2 * k))
    (hge : FILE_SIZE_BYTES ≤ (E.lseek (2 * k)).toNat) :
    compressLoop E (fuel + 1) k src chunks =
      some { result := E.gzclose, source := src, chunks := chunks, lseeks := 2 * k + 1 } := by
  rw [compressLoop]
  simp [not_lt.mpr hsize, hge]

/-- With no error and a source that never returns zero bytes, the loop started at the
iteration `j` runs to the first iteration `k` at which the observed size reaches the
target. -/
theorem compressLoop_runs {σ : Type} (E : GzEnv σ) (k : Nat)
    (hbelow : ∀ i, i < k → 0 ≤ E.lseek (2 * i) ∧ (E.lseek (2 * i)).toNat < FILE_SIZE_BYTES)
    (hat : 0 ≤ E.lseek (2 * k) ∧ FILE_SIZE_BYTES ≤ (E.lseek (2 * k)).toNat)
    (hread : ∀ s, (E.readChunk s CHUNK_INPUT).1 ≠ [])
    (hwrite : ∀ i data, E.gzwrite i data = (data.length : Int))
    (hflush : ∀ i, E.gzflush i = true) :
    ∀ (d j fuel : Nat) (src : σ) (chunks : List (List Nat)), j + d = k → d + 1 ≤ fuel →
      chunks.length = j → (∀ c ∈ chunks, c ≠ []) →
      ∃ run, compressLoop E fuel j src chunks = some run ∧ run.result = E.gzclose ∧
        run.chunks.length = k ∧ run.lseeks = 2 * k + 1 ∧ (∀ c ∈ run.chunks, c ≠ []) := by
  intro d
  induction d with
  | zero =>
    intro j fuel src chunks hj hfuel hlen hne
    have hjk : j = k := by omega
    subst hjk
    obtain ⟨f, rfl⟩ : ∃ f, fuel = f + 1 := ⟨fuel - 1, by omega⟩
    rw [compressLoop_target E f j src chunks hat.1 hat.2]
    exact ⟨_, rfl, rfl, hlen, rfl, hne⟩
  | succ d ih =>
    intro j fuel src chunks hj hfuel hlen hne
    obtain ⟨f, rfl⟩ : ∃ f, fuel = f + 1 := ⟨fuel - 1, by omega⟩
    have hb := hbelow j (by omega)
    rw [compressLoop_step E f j src chunks hb.1 hb.2 (hread src) (hwrite _ _) (hflush j)]
    apply ih (j + 1) f _ _ (by omega) (by omega)
    · rw [List.length_append, hlen]; rfl
    · intro c hc
      rcases List.mem_append.mp hc with h | h
      · exact hne c h
      · rw [List.mem_singleton.mp h]; exact hread src

/-- Whatever the environment, a run of the loop that returns has pulled a chunk in the
iteration `i` only after observing a size below the target at the top of it. -/
theorem compressLoop_pulls {σ : Type} (E : GzEnv σ) :
    ∀ (fuel k : Nat) (src : σ) (chunks : List (List Nat)) (run : CompressRun σ),
      compressLoop E fuel k src chunks = some run → chunks.length = k →
      ∀ i, k ≤ i → i < run.chunks.length →
        0 ≤ E.lseek (2 * i) ∧ (E.lseek (2 * i)).toNat < FILE_SIZE_BYTES := by
  intro fuel
  induction fuel with
  | zero => intro k src chunks run h; simp [compressLoop] at h
  | succ f ih =>
    intro k src chunks run h hlen i hki hi
    rw [compressLoop] at h
    simp only at h
    split_ifs at h with h1 h2 h3 h4 h5
    · cases h; simp at hi; omega
    · cases h; simp at hi; omega
    · cases h; simp at hi; omega
    · cases h
      simp at hi
      have : i = k := by omega
      subst this
      exact ⟨not_lt.mp h1, not_le.mp h2⟩
    · cases h
      simp at hi
      have : i = k := by omega
      subst this
      exact ⟨not_lt.mp h1, not_le.mp h2⟩
    · rcases Nat.eq_or_lt_of_le hki with he | hl
      · subst he
        exact ⟨not_lt.mp h1, not_le.mp h2⟩
      · exact ih (k + 1) _ _ run h (by rw [List.length_append, hlen]; rfl) i hl hi

end TextCompressor

/-- C21. The loop of `compressStreamTo8GB` is driven by the observed output size. In every
run that returns, whatever the environment does, the chunk number `i` was pulled from the
source only after the size observed at the top of the iteration `i` (the call `2 * i` of
`lseek`) was not negative and strictly below 8 GiB. When the file opens, no call fails and
the source never returns zero bytes, whatever the sizes of the chunks it returns, and `k`
is the first iteration at which the observed size is at least 8 GiB, the function returns
what `gzclose` allows after pulling exactly `k` chunks and `2 * k + 1` calls of `lseek`:
one before the first read and two after every write and flush, the second of these being
the test of the next iteration. -/
theorem output_size_drives_loop {σ : Type} (E : TextCompressor.GzEnv σ) :
    (∀ (fuel : Nat) (src : σ) (run : TextCompressor.CompressRun σ),
      TextCompressor.compressStreamTo8GB E fuel src = some run →
      ∀ i, i < run.chunks.length →
        0 ≤ E.lseek (2 * i) ∧ (E.lseek (2 * i)).toNat < TextCompressor.FILE_SIZE_BYTES) ∧
    (∀ (k fuel : Nat) (src : σ), E.openOk = true → E.gzdopenOk = true →
      (∀ i, i < k →
        0 ≤ E.lseek (2 * i) ∧ (E.lseek (2 * i)).toNat < TextCompressor.FILE_SIZE_BYTES) →
      (0 ≤ E.lseek (2 * k) ∧ TextCompressor.FILE_SIZE_BYTES ≤ (E.lseek (2 * k)).toNat) →
      (∀ s, (E.readChunk s TextCompressor.CHUNK_INPUT).1 ≠ []) →
      (∀ i data, E.gzwrite i data = (data.length : Int)) →
      (∀ i, E.gzflush i = true) → k + 1 ≤ fuel →
      ∃ run, TextCompressor.compressStreamTo8GB E fuel src = some run ∧
        run.result = E.gzclose ∧ run.chunks.length = k ∧ run.lseeks = 2 * k + 1 ∧
        (∀ c ∈ run.chunks, c ≠ [])) := by
  constructor
  · intro fuel src run h i hi
    unfold TextCompressor.compressStreamTo8GB at h
    split_ifs at h with h1 h2
    · cases h; simp at hi
    · cases h; simp at hi
    · exact TextCompressor.compressLoop_pulls E fuel 0 src [] run h rfl i (Nat.zero_le i) hi
  · intro k fuel src hopen hgz hbelow hat hread hwrite hflush hfuel
    unfold TextCompressor.compressStreamTo8GB
    simp only [hopen, hgz, Bool.not_true, Bool.false_eq_true, if_false]
    exact TextCompressor.compressLoop_runs E k hbelow hat hread hwrite hflush k 0 fuel src []
      (by omega) hfuel rfl (fun c hc => absurd hc (List.not_mem_nil c))

/-- C21, at a concrete input: in the environment `growingEnv` the size observed at the top
of the iterations 0, 1, 2 is 0, 4 GiB, 8 GiB, and the run pulls two chunks of one byte. -/
theorem output_size_drives_loop_witness :
    ∃ run, TextCompressor.compressStreamTo8GB TextCompressor.growingEnv 3 0 = some run ∧
      run.result = TextCompressor.growingEnv.gzclose ∧ run.chunks.length = 2 ∧
      run.lseeks = 2 * 2 + 1 ∧ (∀ c ∈ run.chunks, c ≠ []) :=
  (output_size_drives_loop TextCompressor.growingEnv).2 2 3 0 rfl rfl
    (by decide) (by decide) (fun s => List.cons_ne_nil _ _) (fun _ _ => rfl) (fun _ => rfl)
    (by decide)

/-! ## The tokenizer -/

namespace TextGenerator

theorem tokensOf_nil (fuel : Nat) : tokensOf fuel [] = [] := by
  cases fuel <;> rfl

theorem length_dropWhile_le {α : Type} (p : α → Bool) (l : List α) :
    (l.dropWhile p).length ≤ l.length := by
  induction l with
  | nil => simp
  | cons a l ih =>
    rw [List.dropWhile_cons]
    split
    · exact Nat.le_succ_of_le ih
    · exact Nat.le_refl _

/-- Any bound that is at least the length of the text gives the same tokens. -/
theorem tokensOf_fuel : ∀ (n : Nat) (text : Str) (f1 f2 : Nat), text.length ≤ n →
    text.length ≤ f1 → text.length ≤ f2 → tokensOf f1 text = tokensOf f2 text := by
  intro n
  induction n with
  | zero =>
    intro text f1 f2 hn _ _
    have : text = [] := List.length_eq_zero.mp (Nat.le_zero.mp hn)
    subst this
    rw [tokensOf_nil, tokensOf_nil]
  | succ n ih =>
    intro text f1 f2 hn h1 h2
    cases text with
    | nil => rw [tokensOf_nil, tokensOf_nil]
    | cons c rest =>
      simp only [List.length_cons] at hn h1 h2
      obtain ⟨g1, rfl⟩ : ∃ g, f1 = g + 1 := ⟨f1 - 1, by omega⟩
      obtain ⟨g2, rfl⟩ : ∃ g, f2 = g + 1 := ⟨f2 - 1, by omega⟩
      have hd := length_dropWhile_le isWordChar rest
      simp only [tokensOf]
      rw [ih rest g1 g2 (by omega) (by omega) (by omega),
        ih (rest.dropWhile isWordChar) g1 g2 (by omega) (by omega) (by omega)]

theorem tokenize_eq_finish (text : Str) :
    tokenize text = tokenizeFinish (text.foldl tokenizeStep ([], [])) := rfl

theorem tokenizeStep_word (toks : List Str) (cur : Str) (c : Char) (h : isWordChar c = true) :
    tokenizeStep (toks, cur) c = (toks, cur ++ [CType.tolower c]) := by
  unfold isWordChar at h
  unfold tokenizeStep
  have : (CType.isspace c || CType.ispunct c) = false := by
    revert h; cases (CType.isspace c || CType.ispunct c) <;> simp
  simp [this]

theorem tokenizeStep_sep (toks : List Str) (cur : Str) (c : Char)
    (h : isWordChar c = false) :
    tokenizeStep (toks, cur) c =
      ((if cur ≠ [] then toks ++ [cur] else toks) ++
        (if CType.ispunct c && c ≠ Char.ofNat 39 && c ≠ '-' then [[c]] else []), []) := by
  unfold isWordChar at h
  unfold tokenizeStep
  have : (CType.isspace c || CType.ispunct c) = true := by
    revert h; cases (CType.isspace c || CType.ispunct c) <;> simp
  rw [if_pos this]
  by_cases hc : cur = [] <;> simp only [hc, ne_eq, not_true_eq_false, not_false_eq_true,
    if_true, if_false] <;> split_ifs <;> simp

/-- The character loop of `tokenize` from a state with the tokens `toks` and the pending
word `cur`, on the rest `text` of the input. -/
theorem foldl_tokenizeStep : ∀ (text : Str) (toks : List Str) (cur : Str) (fuel : Nat),
    text.length ≤ fuel →
    tokenizeFinish (text.foldl tokenizeStep (toks, cur)) =
      toks ++ (if cur = [] then tokensOf fuel text
        else (cur ++ (text.takeWhile isWordChar).map CType.tolower) ::
          tokensOf fuel (text.dropWhile isWordChar)) := by
  intro text
  induction text with
  | nil =>
    intro toks cur fuel _
    by_cases hc : cur = []
    · simp [tokenizeFinish, hc, tokensOf_nil]
    · simp [tokenizeFinish, hc, tokensOf_nil]
  | cons c rest ih =>
    intro toks cur fuel hfuel
    simp only [List.length_cons] at hfuel
    obtain ⟨g, rfl⟩ : ∃ g, fuel = g + 1 := ⟨fuel - 1, by omega⟩
    have hg : rest.length ≤ g := by omega
    rw [List.foldl_cons]
    by_cases hw : isWordChar c = true
    · rw [tokenizeStep_word toks cur c hw, ih toks _ g hg]
      have hne : cur ++ [CType.tolower c] ≠ [] := by simp
      rw [if_neg hne]
      have hd := length_dropWhile_le isWordChar rest
      by_cases hc : cur = []
      · subst hc
        simp [tokensOf, hw, List.takeWhile_cons]
      · rw [if_neg hc]
        simp only [List.takeWhile_cons, List.dropWhile_cons, hw, if_true, List.map_cons,
          List.append_assoc, List.singleton_append]
        rw [tokensOf_fuel rest.length (rest.dropWhile isWordChar) g (g + 1) hd (by omega)
          (by omega)]
    · have hw2 : isWordChar c = false := by simpa using hw
      rw [tokenizeStep_sep toks cur c hw2, ih _ [] g hg]
      by_cases hc : cur = []
      · subst hc
        simp only [tokensOf, hw2, ne_eq, not_true_eq_false, if_false, if_true,
          Bool.false_eq_true]
        split_ifs <;> simp
      · simp only [tokensOf, hw2, hc, ne_eq, not_false_eq_true, if_false, if_true,
          Bool.false_eq_true, List.takeWhile_cons, List.dropWhile_cons, List.map_nil,
          List.append_nil]
        split_ifs <;> simp

theorem tokenize_eq_tokensOf (text : Str) : tokenize text = tokensOf text.length text := by
  rw [tokenize_eq_finish, foldl_tokenizeStep text [] [] text.length (Nat.le_refl _)]
  simp

/-- Every token of the reference description is one punctuation character other than the
apostrophe and the hyphen, or a non-empty run of word characters in lower case. -/
theorem tokensOf_shape : ∀ (fuel : Nat) (text : Str) (t : Str), t ∈ tokensOf fuel text →
    (∃ c, t = [c] ∧ CType.ispunct c = true ∧ c ≠ Char.ofNat 39 ∧ c ≠ '-') ∨
    (∃ w, w ≠ [] ∧ t = w.map CType.tolower ∧ ∀ c ∈ w, isWordChar c = true) := by
  intro fuel
  induction fuel with
  | zero => intro text t h; simp [tokensOf] at h
  | succ f ih =>
    intro text t h
    cases text with
    | nil => simp [tokensOf] at h
    | cons c rest =>
      simp only [tokensOf] at h
      split_ifs at h with h1 h2
      · rcases List.mem_cons.mp h with h | h
        · right
          refine ⟨(c :: rest).takeWhile isWordChar, ?_, h, ?_⟩
          · simp [List.takeWhile_cons, h1]
          · intro d hd
            exact List.mem_takeWhile_imp hd
        · exact ih _ t h
      · rcases List.mem_cons.mp h with h | h
        · left
          simp only [Bool.and_eq_true, bne_iff_ne, ne_eq, decide_eq_true_eq, decide_not,
            Bool.not_eq_true', decide_eq_false_iff_not] at h2
          exact ⟨c, h, h2.1.1, h2.1.2, h2.2⟩
        · exact ih _ t h
      · exact ih _ t h

theorem isspace_tolower (c : Char) (h : isWordChar c = true) :
    CType.isspace (CType.tolower c) = false ∧ CType.ispunct (CType.tolower c) = false := by
  unfold isWordChar at h
  unfold CType.tolower
  split_ifs with hu
  · simp only [Bool.and_eq_true, decide_eq_true_eq] at hu
    have hn : (Char.ofNat (c.toNat + 32)).toNat = c.toNat + 32 :=
      CType.toNat_ofNat_of_lt _ (by omega)
    unfold CType.isspace CType.ispunct
    rw [hn]
    constructor
    · simp only [Bool.or_eq_false_iff, Bool.and_eq_false_iff, decide_eq_false_iff_not]
      omega
    · simp only [Bool.or_eq_false_iff, Bool.and_eq_false_iff, decide_eq_false_iff_not]
      omega
  · simpa using h

end TextGenerator

/-- C30. For every input string, `tokenize` returns the tokens of the reference description
`tokensOf`, which reads the text from left to right: a maximal run of characters that are
neither whitespace nor punctuation gives one token, the run in lower case; a punctuation
character other than the apostrophe and the hyphen gives the token of that one character;
whitespace, the apostrophe and the hyphen end a run and give no token. So every token is
non-empty and holds no whitespace, and is either one such punctuation character or a
lower-cased non-empty run of word characters; and the text of the seven characters of
woman, apostrophe, s gives the two tokens woman and s. -/
theorem tokenize_refines_tokensOf (text : Str) :
    TextGenerator.tokenize text = TextGenerator.tokensOf text.length text ∧
    (∀ t ∈ TextGenerator.tokenize text,
      t ≠ [] ∧ (∀ c ∈ t, CType.isspace c = false) ∧
      ((∃ c, t = [c] ∧ CType.ispunct c = true ∧ c ≠ Char.ofNat 39 ∧ c ≠ '-') ∨
       (∃ w, w ≠ [] ∧ t = w.map CType.tolower ∧
         ∀ c ∈ w, CType.isspace c = false ∧ CType.ispunct c = false))) ∧
    TextGenerator.tokenize ['w', 'o', 'm', 'a', 'n', Char.ofNat 39, 's'] =
      [['w', 'o', 'm', 'a', 'n'], ['s']] := by
  refine ⟨TextGenerator.tokenize_eq_tokensOf text, ?_, by decide⟩
  intro t ht
  rw [TextGenerator.tokenize_eq_tokensOf] at ht
  rcases TextGenerator.tokensOf_shape _ _ t ht with ⟨c, rfl, hp, h1, h2⟩ | ⟨w, hw, rfl, hall⟩
  · refine ⟨by simp, ?_, Or.inl ⟨c, rfl, hp, h1, h2⟩⟩
    intro d hd
    rw [List.mem_singleton.mp hd]
    unfold CType.ispunct at hp
    unfold CType.isspace
    simp only [Bool.or_eq_true, Bool.and_eq_true, decide_eq_true_eq] at hp
    simp only [Bool.or_eq_false_iff, Bool.and_eq_false_iff, decide_eq_false_iff_not]
    omega
  · refine ⟨by simpa using hw, ?_, Or.inr ⟨w, hw, rfl, ?_⟩⟩
    · intro d hd
      obtain ⟨c, hc, rfl⟩ := List.mem_map.mp hd
      exact (TextGenerator.isspace_tolower c (hall c hc)).1
    · intro c hc
      have := hall c hc
      unfold TextGenerator.isWordChar at this
      simpa using this

/-! ## The words of a sentence of the built-in model -/

namespace TextGenerator

set_option maxRecDepth 100000 in
/-- Every tokenized corpus sentence ends with the token `"."`. -/
theorem corpusTokens_last : corpusTokens.all lastIsPeriod = true := by
  decide!

theorem followers_mem (key x : Str) : ∀ toks : List Str, x ∈ followers key toks → x ∈ toks := by
  intro toks
  induction toks with
  | nil => intro h; simp [followers] at h
  | cons a rest ih =>
    cases rest with
    | nil => intro h; simp [followers] at h
    | cons b rest =>
      intro h
      unfold followers at h
      split at h
      · rcases List.mem_cons.mp h with h | h
        · rw [h]; simp
        · exact List.mem_cons_of_mem _ (ih h)
      · exact List.mem_cons_of_mem _ (ih h)

/-- In a token list that ends with `"."`, every other token is followed by a token. -/
theorem followers_ne_nil (w : Str) (hw : w ≠ ['.']) :
    ∀ toks : List Str, toks.getLast? = some ['.'] → w ∈ toks → followers w toks ≠ [] := by
  intro toks
  induction toks with
  | nil => intro _ h; simp at h
  | cons a rest ih =>
    cases rest with
    | nil =>
      intro hl hm
      simp only [List.getLast?_singleton, Option.some.injEq] at hl
      simp only [List.mem_singleton] at hm
      exact absurd (hm.trans hl) hw
    | cons b rest =>
      intro hl hm
      unfold followers
      split
      · exact List.cons_ne_nil _ _
      · rename_i hne
        have hl2 : (b :: rest).getLast? = some ['.'] := by
          rw [List.getLast?_cons_cons] at hl
          exact hl
        rcases List.mem_cons.mp hm with h | h
        · exact absurd h.symm hne
        · exact ih hl2 h

/-- In the built-in model every successor that is a word is a key with a non-empty
successor vector. -/
theorem builtin_word_is_key {key : Str} {succs : List Str} {x : Str}
    (h : find initializeMarkovChain.markovChain key = some succs) (hx : x ∈ succs)
    (hlow : isLowerWord x = true) :
    ∃ s, find initializeMarkovChain.markovChain x = some s ∧ s ≠ [] := by
  have hkey : isSkippedKey key = false := by
    cases hk : isSkippedKey key with
    | false => rfl
    | true =>
      rw [find_initializeMarkovChain_skipped key hk] at h
      exact absurd h (by simp)
  rw [find_initializeMarkovChain key hkey] at h
  split at h
  · exact absurd h (by simp)
  · injection h with h
    subst h
    rw [List.mem_flatMap] at hx
    obtain ⟨toks, hmem, hx⟩ := hx
    have hlast : toks.getLast? = some ['.'] := by
      have := List.all_eq_true.mp corpusTokens_last toks hmem
      simpa [lastIsPeriod] using this
    have hxne : x ≠ ['.'] := by
      intro e
      rw [e] at hlow
      exact absurd hlow (by decide)
    have hne : corpusTokens.flatMap (followers x) ≠ [] := by
      intro hnil
      obtain ⟨y, hy⟩ := List.exists_mem_of_ne_nil _
        (followers_ne_nil x hxne toks hlast (followers_mem key x toks hx))
      have : y ∈ corpusTokens.flatMap (followers x) := by
        rw [List.mem_flatMap]
        exact ⟨toks, hmem, hy⟩
      rw [hnil] at this
      simp at this
    refine ⟨_, ?_, hne⟩
    rw [find_initializeMarkovChain x (isLowerWord_not_skipped hlow)]
    simp [hne]

/-- The word loop on a chain in which every successor is a lower-case word or `"."` and
every successor word is a key with successors: from a state whose sentence is `head`
followed by words, each after one space, the loop ends with such a sentence followed by
`"."`, or with such a sentence of `maxLength` words. -/
theorem sentenceLoop_words (R : RandomEngine) (chain : List (Str × List Str))
    (h1 : ∀ key succs, find chain key = some succs →
      succs ≠ [] ∧ ∀ x ∈ succs, isLowerWord x = true ∨ x = ['.'])
    (h2 : ∀ key succs x, find chain key = some succs → x ∈ succs → isLowerWord x = true →
      ∃ s, find chain x = some s)
    (head : Str) :
    ∀ (fuel : Nat) (st : SentenceState R) (ws : List Str),
      st.sentence = head ++ ws.flatMap (fun w => ' ' :: w) → st.wordCount = ws.length + 1 →
      (∀ w ∈ ws, isLowerWord w = true) → (∃ s, find chain st.lowerCurrent = some s) →
      st.wordCount ≤ maxLength → maxLength ≤ st.wordCount + fuel →
      ∃ ws1 : List Str, (∀ w ∈ ws1, isLowerWord w = true) ∧ ws1.length + 1 ≤ maxLength ∧
        ((sentenceLoop R chain fuel st).sentence =
            head ++ ws1.flatMap (fun w => ' ' :: w) ++ ['.'] ∨
         ((sentenceLoop R chain fuel st).sentence = head ++ ws1.flatMap (fun w => ' ' :: w) ∧
           ws1.length + 1 = maxLength)) := by
  intro fuel
  induction fuel with
  | zero =>
    intro st ws hs hwc hws _ hle hge
    refine ⟨ws, hws, by omega, Or.inr ⟨?_, by omega⟩⟩
    rw [sentenceLoop]
    exact hs
  | succ fuel ih =>
    intro st ws hs hwc hws hkey hle hge
    by_cases hlt : st.wordCount < maxLength
    · obtain ⟨s, hfind⟩ := hkey
      obtain ⟨hne, hall⟩ := h1 _ _ hfind
      have hmem := getD_mem_of_draw R s hne st.localGen
      generalize hres : sentenceLoop R chain (fuel + 1) st = res
      unfold sentenceLoop at hres
      simp only [hlt, if_true, hfind, hne, if_false] at hres
      rcases hall _ hmem with hlow | hdot
      · have ht := isLowerWord_not_terminal hlow
        have hc := isLowerWord_ne_comma hlow
        simp only [ht, Bool.false_eq_true, if_false, hc] at hres
        have hws1 : ∀ w ∈ ws ++ [s.getD (R.uniform_int_distribution 0 (s.length - 1)
            st.localGen).1 []], isLowerWord w = true := by
          intro w hw
          rcases List.mem_append.mp hw with h | h
          · exact hws w h
          · rw [List.mem_singleton.mp h]; exact hlow
        have hsent : st.sentence ++ ([' '] ++ s.getD (R.uniform_int_distribution 0
            (s.length - 1) st.localGen).1 []) =
            head ++ (ws ++ [s.getD (R.uniform_int_distribution 0 (s.length - 1)
              st.localGen).1 []]).flatMap (fun w => ' ' :: w) := by
          rw [hs]
          simp [List.flatMap_append]
        have hlen : (ws ++ [s.getD (R.uniform_int_distribution 0 (s.length - 1)
            st.localGen).1 []]).length = ws.length + 1 := by simp
        have hk := h2 _ _ _ hfind hmem hlow
        split at hres
        · split at hres
          · subst hres
            refine ⟨_, hws1, by rw [hlen]; omega, Or.inl ?_⟩
            simp only
            rw [hsent]
          · subst hres
            exact ih _ _ hsent (by simp only; rw [hlen, hwc]) hws1 hk
              (by simp only; omega) (by simp only; omega)
        · subst hres
          exact ih _ _ hsent (by simp only; rw [hlen, hwc]) hws1 hk
            (by simp only; omega) (by simp only; omega)
      · have ht : isTerminal (s.getD (R.uniform_int_distribution 0 (s.length - 1)
            st.localGen).1 []) = true := by rw [hdot]; rfl
        simp only [ht, if_true] at hres
        subst hres
        refine ⟨ws, hws, by omega, Or.inl ?_⟩
        simp only
        rw [hdot, hs]
    · refine ⟨ws, hws, by omega, Or.inr ⟨?_, by omega⟩⟩
      unfold sentenceLoop
      simp only [hlt, if_false]
      exact hs

theorem lacksTerminal_append_period (l : Str) : lacksTerminal (l ++ ['.']) = false := by
  simp [lacksTerminal]

theorem getLast?_words (head : Str) (ws : List Str) (hne : ws ≠ [])
    (hws : ∀ w ∈ ws, isLowerWord w = true) :
    ∃ c, (head ++ ws.flatMap (fun w => ' ' :: w)).getLast? = some c ∧ isLowerChar c = true := by
  obtain ⟨ws0, w, rfl⟩ : ∃ ws0 w, ws = ws0 ++ [w] := by
    rcases List.eq_nil_or_concat ws with h | ⟨l, a, h⟩
    · exact absurd h hne
    · exact ⟨l, a, by rw [h, List.concat_eq_append]⟩
  have hw := hws w (by simp)
  have hwne : w ≠ [] := by
    obtain ⟨c, cs, rfl, _⟩ := isLowerWord_cons hw
    exact List.cons_ne_nil _ _
  obtain ⟨w0, c, rfl⟩ : ∃ w0 c, w = w0 ++ [c] := by
    rcases List.eq_nil_or_concat w with h | ⟨l, a, h⟩
    · exact absurd h hwne
    · exact ⟨l, a, by rw [h, List.concat_eq_append]⟩
  refine ⟨c, ?_, isLowerWord_all hw c (by simp)⟩
  have : head ++ (ws0 ++ [w0 ++ [c]]).flatMap (fun w => ' ' :: w) =
      (head ++ ws0.flatMap (fun w => ' ' :: w) ++ ' ' :: w0) ++ [c] := by
    simp [List.flatMap_append]
  rw [this, getLast?_append_singleton]

theorem lacksTerminal_words (head : Str) (ws : List Str) (hne : ws ≠ [])
    (hws : ∀ w ∈ ws, isLowerWord w = true) :
    lacksTerminal (head ++ ws.flatMap (fun w => ' ' :: w)) = true := by
  obtain ⟨c, hc, hlow⟩ := getLast?_words head ws hne hws
  have h1 : c ≠ '.' := isLowerChar_ne hlow (by decide)
  have h2 : c ≠ '!' := isLowerChar_ne hlow (by decide)
  have h3 : c ≠ '?' := isLowerChar_ne hlow (by decide)
  simp [lacksTerminal, hc, h1, h2, h3]

/-- The sentence is the final loop sentence when that ends with a terminal mark, and the
final loop sentence followed by one terminal mark otherwise. -/
theorem generateSentenceMarkov_cases (R : RandomEngine) (m : Model) (seed : Nat)
    (h1 : m.markovChain ≠ []) (h2 : m.sentenceStarters ≠ []) :
    ∃ w ∈ m.sentenceStarters, ∃ (g : R.State) (loopSentence : Str),
      loopSentence = (sentenceLoop R m.markovChain maxLength
          { sentence := capitalize w, lowerCurrent := (capitalize w).map CType.tolower
            wordCount := 1, localGen := g }).sentence ∧
      ((lacksTerminal loopSentence = false ∧
          (generateSentenceMarkov R m seed).1 = loopSentence) ∨
       (lacksTerminal loopSentence = true ∧
          ∃ t, (t = '.' ∨ t = '!' ∨ t = '?') ∧
            (generateSentenceMarkov R m seed).1 = loopSentence ++ [t])) := by
  refine ⟨_, getD_mem_of_draw R m.sentenceStarters h2 (R.mt19937 seed),
    (R.uniform_int_distribution 0 (m.sentenceStarters.length - 1) (R.mt19937 seed)).2, _, rfl,
    ?_⟩
  unfold generateSentenceMarkov
  have he : (m.markovChain.isEmpty || m.sentenceStarters.isEmpty) = false := by
    cases hm : m.markovChain with
    | nil => exact absurd hm h1
    | cons a as =>
      cases hs : m.sentenceStarters with
      | nil => exact absurd hs h2
      | cons b bs => rfl
  simp only [he, Bool.false_eq_true, if_false]
  split
  · rename_i hl
    right
    refine ⟨hl, ?_⟩
    split
    · exact ⟨'.', Or.inl rfl, rfl⟩
    · split
      · exact ⟨'!', Or.inr (Or.inl rfl), rfl⟩
      · exact ⟨'?', Or.inr (Or.inr rfl), rfl⟩
  · rename_i hl
    left
    exact ⟨by simpa using hl, rfl⟩

/-- The words of a sentence generated on the built-in model: a capitalized starter, then
at most 24 lower-case words, each after one space, then one terminal mark, which is `.`
unless the sentence has 25 words. -/
theorem builtin_sentence_words (R : RandomEngine) (seed : Nat) :
    ∃ w0 ∈ initializeMarkovChain.sentenceStarters, ∃ (ws : List Str) (t : Char),
      (generateSentenceMarkov R initializeMarkovChain seed).1 =
        capitalize w0 ++ ws.flatMap (fun w => ' ' :: w) ++ [t] ∧
      isLowerWord w0 = true ∧ 2 ≤ w0.length ∧ (∀ w ∈ ws, isLowerWord w = true) ∧
      ws.length + 1 ≤ 25 ∧ (t = '.' ∨ t = '!' ∨ t = '?') ∧ (t ≠ '.' → ws.length + 1 = 25) := by
  obtain ⟨w0, hw0, g, L, hL, hcases⟩ := generateSentenceMarkov_cases R initializeMarkovChain
    seed markovChain_ne_nil sentenceStarters_ne_nil
  obtain ⟨_, _, _, hlow, hlen, _⟩ := starters_spec hw0
  obtain ⟨succs, hfind, _, _⟩ := starter_successors hw0
  have hlc : (capitalize w0).map CType.tolower = w0 := map_tolower_capitalize hlow
  obtain ⟨ws, hws, hwl, hshape⟩ := sentenceLoop_words R initializeMarkovChain.markovChain
    (fun key succs h => ⟨(successors_spec h).1, fun x hx =>
      ((successors_spec h).2 x hx).imp id (fun h => h.1)⟩)
    (fun key succs x h hx hl => (builtin_word_is_key h hx hl).imp (fun s hs => hs.1))
    (capitalize w0) maxLength
    { sentence := capitalize w0, lowerCurrent := (capitalize w0).map CType.tolower
      wordCount := 1, localGen := g } [] (by simp) rfl (fun w hw => absurd hw (List.not_mem_nil w))
    ⟨succs, by rw [hlc]; exact hfind⟩ (by show 1 ≤ maxLength; decide)
    (by show maxLength ≤ 1 + maxLength; omega)
  rw [← hL] at hshape
  have hm : maxLength = 25 := rfl
  refine ⟨w0, hw0, ws, ?_⟩
  rcases hshape with hdot | ⟨hfull, hcount⟩
  · refine ⟨'.', ?_, hlow, hlen, hws, by omega, Or.inl rfl, fun h => absurd rfl h⟩
    rcases hcases with ⟨_, hs⟩ | ⟨hl, _⟩
    · rw [hs, hdot]
    · rw [hdot, lacksTerminal_append_period] at hl
      exact absurd hl (by simp)
  · have hne : ws ≠ [] := by
      intro e
      rw [e] at hcount
      simp [hm] at hcount
    have hlt := lacksTerminal_words (capitalize w0) ws hne hws
    rw [← hfull] at hlt
    rcases hcases with ⟨hl, _⟩ | ⟨_, t, ht, hs⟩
    · rw [hlt] at hl
      exact absurd hl (by simp)
    · exact ⟨t, by rw [hs, hfull], hlow, hlen, hws, by omega, ht, fun _ => by omega⟩

end TextGenerator

namespace TextGenerator

theorem count_space_words : ∀ ws : List Str, (∀ w ∈ ws, isLowerWord w = true) →
    (ws.flatMap (fun w => ' ' :: w)).count ' ' = ws.length := by
  intro ws
  induction ws with
  | nil => intro _; rfl
  | cons w ws ih =>
    intro h
    have hw : List.count ' ' w = 0 :=
      List.count_eq_zero_of_not_mem (isLowerWord_no_space (h w (List.mem_cons_self _ _)))
    rw [List.flatMap_cons, List.count_append, ih (fun x hx => h x (List.mem_cons_of_mem _ hx)),
      List.count_cons_self, hw, List.length_cons]
    omega

theorem ispunct_of_lower {c : Char} (h : isLowerChar c = true) : CType.ispunct c = false := by
  rw [isLowerChar_iff] at h
  unfold CType.ispunct
  simp only [Bool.or_eq_false_iff, Bool.and_eq_false_iff, decide_eq_false_iff_not]
  omega

theorem ispunct_of_upper {c : Char} (h : isUpperChar c = true) : CType.ispunct c = false := by
  rw [isUpperChar_iff] at h
  unfold CType.ispunct
  simp only [Bool.or_eq_false_iff, Bool.and_eq_false_iff, decide_eq_false_iff_not]
  omega

/-- The characters of a capitalized word followed by words, each after one space, are
letters and spaces: none is a punctuation character. -/
theorem ispunct_words (w0 : Str) (ws : List Str) (h0 : isLowerWord w0 = true)
    (hws : ∀ w ∈ ws, isLowerWord w = true) :
    ∀ c ∈ capitalize w0 ++ ws.flatMap (fun w => ' ' :: w), CType.ispunct c = false := by
  intro c hc
  rcases List.mem_append.mp hc with h | h
  · obtain ⟨c0, cs, rfl, hc0⟩ := isLowerWord_cons h0
    rw [capitalize, List.mem_cons] at h
    rcases h with h | h
    · rw [h]; exact ispunct_of_upper (isUpperChar_toupper hc0)
    · exact ispunct_of_lower (isLowerWord_all h0 c (List.mem_cons_of_mem _ h))
  · rw [List.mem_flatMap] at h
    obtain ⟨w, hw, hcw⟩ := h
    rcases List.mem_cons.mp hcw with h | h
    · rw [h]; decide
    · exact ispunct_of_lower (isLowerWord_all (hws w hw) c h)

end TextGenerator

/-- C23. In the built-in model the starter list is not empty, every starter is a key of
`markovChain` with a non-empty successor vector, and every successor other than `"."` is a
lower-case word that is itself a key with a non-empty successor vector; so the word loop
never stops at a missing transition. For every engine and every seed the generated
sentence ends in `.`, or it ends in `!` or `?` and has exactly 25 words: a capitalized
starter followed by 24 lower-case words, each after one space, with 24 spaces, so 25
space-separated items. -/
theorem builtin_loop_has_no_dead_end (R : RandomEngine) (seed : Nat) :
    TextGenerator.initializeMarkovChain.sentenceStarters ≠ [] ∧
    (∀ w ∈ TextGenerator.initializeMarkovChain.sentenceStarters,
      ∃ s, TextGenerator.find TextGenerator.initializeMarkovChain.markovChain w = some s ∧
        s ≠ []) ∧
    (∀ key succs x,
      TextGenerator.find TextGenerator.initializeMarkovChain.markovChain key = some succs →
      x ∈ succs → x ≠ ['.'] →
      TextGenerator.isLowerWord x = true ∧
      ∃ s, TextGenerator.find TextGenerator.initializeMarkovChain.markovChain x = some s ∧
        s ≠ []) ∧
    ((TextGenerator.generateSentenceMarkov R TextGenerator.initializeMarkovChain
        seed).1.getLast? = some '.' ∨
     (((TextGenerator.generateSentenceMarkov R TextGenerator.initializeMarkovChain
          seed).1.getLast? = some '!' ∨
        (TextGenerator.generateSentenceMarkov R TextGenerator.initializeMarkovChain
          seed).1.getLast? = some '?') ∧
      ((TextGenerator.generateSentenceMarkov R TextGenerator.initializeMarkovChain
          seed).1.splitOn ' ').length = 25 ∧
      ∃ w0 ∈ TextGenerator.initializeMarkovChain.sentenceStarters, ∃ (ws : List Str) (t : Char),
        (TextGenerator.generateSentenceMarkov R TextGenerator.initializeMarkovChain seed).1 =
          TextGenerator.capitalize w0 ++ ws.flatMap (fun w => ' ' :: w) ++ [t] ∧
        (∀ w ∈ ws, TextGenerator.isLowerWord w = true) ∧ ws.length = 24)) := by
  refine ⟨TextGenerator.sentenceStarters_ne_nil, ?_, ?_, ?_⟩
  · intro w hw
    obtain ⟨s, hfind, hne, _⟩ := TextGenerator.starter_successors hw
    exact ⟨s, hfind, hne⟩
  · intro key succs x hfind hx hne
    rcases (TextGenerator.successors_spec hfind).2 x hx with hlow | ⟨hdot, _⟩
    · exact ⟨hlow, TextGenerator.builtin_word_is_key hfind hx hlow⟩
    · exact absurd hdot hne
  · obtain ⟨w0, hw0, ws, t, hs, hlow, _, hws, _, ht, hfull⟩ :=
      TextGenerator.builtin_sentence_words R seed
    have hlast : (TextGenerator.generateSentenceMarkov R TextGenerator.initializeMarkovChain
        seed).1.getLast? = some t := by
      rw [hs, TextGenerator.getLast?_append_singleton]
    by_cases hdot : t = '.'
    · left
      rw [hlast, hdot]
    · right
      have hlen : ws.length = 24 := by
        have := hfull hdot
        omega
      refine ⟨?_, ?_, w0, hw0, ws, t, hs, hws, hlen⟩
      · rw [hlast]
        rcases ht with h | h | h
        · exact absurd h hdot
        · left; rw [h]
        · right; rw [h]
      · rw [TextGenerator.length_splitOn_space, hs, List.count_append, List.count_append,
          TextGenerator.count_space_words ws hws,
          List.count_eq_zero_of_not_mem (TextGenerator.capitalize_no_space hlow), hlen]
        have : List.count ' ' [t] = 0 := by
          rcases ht with h | h | h <;> rw [h] <;> decide
        rw [this]

/-- C24. In the built-in model every successor is a lower-case word or `"."`, so no
successor vector holds `","` and the comma branch of `generateSentenceMarkov` is never
taken. For every engine and every seed the generated sentence is a starter with its first
letter in upper case and its other letters in lower case, then zero or more words of
lower-case letters, each after exactly one space, then exactly one terminal mark `.`, `!`
or `?` as its last character; before that mark there is no punctuation character, and the
sentence holds no comma. -/
theorem builtin_sentence_has_no_comma (R : RandomEngine) (seed : Nat) :
    (∀ key succs,
      TextGenerator.find TextGenerator.initializeMarkovChain.markovChain key = some succs →
      (∀ x ∈ succs, TextGenerator.isLowerWord x = true ∨ x = ['.']) ∧ [','] ∉ succs) ∧
    (∃ w0 ∈ TextGenerator.initializeMarkovChain.sentenceStarters,
      ∃ (c0 : Char) (cs : Str) (ws : List Str) (t : Char),
        (TextGenerator.generateSentenceMarkov R TextGenerator.initializeMarkovChain seed).1 =
          TextGenerator.capitalize w0 ++ ws.flatMap (fun w => ' ' :: w) ++ [t] ∧
        TextGenerator.capitalize w0 = c0 :: cs ∧ TextGenerator.isUpperChar c0 = true ∧
        (∀ d ∈ cs, TextGenerator.isLowerChar d = true) ∧
        (∀ w ∈ ws, TextGenerator.isLowerWord w = true) ∧
        (t = '.' ∨ t = '!' ∨ t = '?') ∧
        (∀ c ∈ TextGenerator.capitalize w0 ++ ws.flatMap (fun w => ' ' :: w),
          CType.ispunct c = false)) ∧
    ',' ∉ (TextGenerator.generateSentenceMarkov R TextGenerator.initializeMarkovChain seed).1 := by
  obtain ⟨w0, hw0, ws, t, hs, hlow, _, hws, _, ht, _⟩ :=
    TextGenerator.builtin_sentence_words R seed
  have hp := TextGenerator.ispunct_words w0 ws hlow hws
  refine ⟨?_, ?_, ?_⟩
  · intro key succs hfind
    have hall : ∀ x ∈ succs, TextGenerator.isLowerWord x = true ∨ x = ['.'] := fun x hx =>
      ((TextGenerator.successors_spec hfind).2 x hx).imp id (fun h => h.1)
    refine ⟨hall, ?_⟩
    intro hmem
    rcases hall _ hmem with h | h
    · exact absurd h (by decide)
    · exact absurd h (by decide)
  · obtain ⟨c, cs, hw, hc⟩ := TextGenerator.isLowerWord_cons hlow
    refine ⟨w0, hw0, CType.toupper c, cs, ws, t, hs, by rw [hw]; rfl,
      TextGenerator.isUpperChar_toupper hc, ?_, hws, ht, hp⟩
    intro d hd
    exact TextGenerator.isLowerWord_all hlow d (by rw [hw]; exact List.mem_cons_of_mem _ hd)
  · rw [hs]
    intro hmem
    rcases List.mem_append.mp hmem with h | h
    · exact absurd (hp ',' h) (by decide)
    · rw [List.mem_singleton] at h
      rcases ht with e | e | e <;> rw [e] at h <;> exact absurd h (by decide)

/-! ## Worker threads and the console mutex -/

namespace GenerateText

/-- The console writes of a worker of the multi-file branch whose file opens: the success
message, under the mutex of the object of the worker. -/
theorem worker_writes (R : RandomEngine) (next : R.State → Nat × R.State) (fs : FileSystem)
    (fuel : Nat) (outputPath : String) (T fileSeed i : Nat)
    (hopen : fs.canOpen outputPath = true)
    (hfuel : T + TextGenerator.PARAGRAPH_SIZE + 2 ≤ fuel) :
    ((TextGenerator.Object.new R fileSeed).generateTextFile next fs fuel outputPath T).1.map
        (fun run => lockedWrites i run.messages) =
      some [{ message := Message.success T, mutexOf := i }] := by
  unfold TextGenerator.Object.generateTextFile
  have ho : (ofstream fs outputPath : OFStream Char).is_open = true := hopen
  rw [if_pos ho]
  obtain ⟨run, h, hmsg, _⟩ := TextGenerator.generateTextFile_run R
    (TextGenerator.Object.new R fileSeed).model fs fuel outputPath T
    ((next (TextGenerator.Object.new R fileSeed).generator).1 % 2 ^ 32) hopen hfuel
  simp only
  rw [h, Option.map_some', hmsg]
  rfl

end GenerateText

/-- C22 fails in the code. In the multi-file branch of `main` of `generate_text`, run for
two files of 1073 bytes with seed 12345 on a file system without failures, both worker
threads return and each writes its success message to the console; thread 0 writes under
the mutex of the object 0 and thread 1 under the mutex of the object 1, each thread having
constructed its own `TextGenerator`. No mutex is held at the console writes of both
workers. -/
theorem main_workers_share_no_mutex :
    GenerateText.workers lcgEngine lcgNext ⟨fun _ => true, fun _ _ => true⟩ 3000 "text_files"
        1073 12345 2 =
      [some [{ message := Message.success 1073, mutexOf := 0 }],
       some [{ message := Message.success 1073, mutexOf := 1 }]] ∧
    ¬ ∃ mtx, ∀ writes ∈ GenerateText.workers lcgEngine lcgNext
        ⟨fun _ => true, fun _ _ => true⟩ 3000 "text_files" 1073 12345 2,
      ∀ ws, writes = some ws → ∀ w ∈ ws, w.mutexOf = mtx := by
  have hw : GenerateText.workers lcgEngine lcgNext ⟨fun _ => true, fun _ _ => true⟩ 3000
      "text_files" 1073 12345 2 =
      [some [{ message := Message.success 1073, mutexOf := 0 }],
       some [{ message := Message.success 1073, mutexOf := 1 }]] := by
    unfold GenerateText.workers
    have hr : List.range 2 = [0, 1] := rfl
    rw [hr, List.map_cons, List.map_cons, List.map_nil]
    simp only
    rw [GenerateText.worker_writes lcgEngine lcgNext ⟨fun _ => true, fun _ _ => true⟩ 3000 _
        1073 _ 0 rfl (by show 1073 + TextGenerator.PARAGRAPH_SIZE + 2 ≤ 3000; decide),
      GenerateText.worker_writes lcgEngine lcgNext ⟨fun _ => true, fun _ _ => true⟩ 3000 _
        1073 _ 1 rfl (by show 1073 + TextGenerator.PARAGRAPH_SIZE + 2 ≤ 3000; decide)]
  refine ⟨hw, ?_⟩
  rw [hw]
  rintro ⟨mtx, h⟩
  have h0 := h _ (List.mem_cons_self _ _) _ rfl _ (List.mem_singleton_self _)
  have h1 := h _ (List.mem_cons_of_mem _ (List.mem_singleton_self _)) _ rfl _
    (List.mem_singleton_self _)
  simp only at h0 h1
  omega
